import Mathlib

/-!
Supersonic playback manager: a shallow embedding.

Embedding of `backend/playbackmanager.go` (type `PlaybackManager`) and of the
modal bookkeeping of `ui/controller/controller.go` (type `Controller`).

* Go `float64` values are modelled as the rationals they denote; every float64
  operation is the exact rational operation followed by `f64Round`, IEEE-754
  binary64 round-to-nearest, ties-to-even (53-bit significand).  The exponent
  range is not clamped and NaN/Inf are not represented: every value computed in
  `checkScrobble` from an `int64` duration and an integer track length lies far
  inside the normal range.
* Go pointers `*subsonic.Child` are addresses into an explicit object store
  (`heap`), so that the aliasing between the queue and `lastScrobbled` is kept.
  The `*ScrobbleConfig` the manager keeps is the caller's struct: the field
  `scrobbleCfg` is that shared struct, and a write of the caller to it is
  `callerSetsScrobbleConfig`.
* `int64` arithmetic on the play count wraps around (`wrapInt64`).
* The media engine, the remote service and the clock are external: their
  answers are given by an environment `Env W` over an abstract world `W`;
  every command sent to them and every observer invocation is appended to
  `log` in program order.
* A Go run-time panic (index out of range, negative slice capacity) is the result
  `none`.
* Goroutines are not run: a fire-and-forget submission is logged where it is
  spawned, and a polling loop is only counted as started or cancelled; `log.Printf`
  output is not modelled.
-/

namespace Supersonic

/-! ## float64 arithmetic -/

/-- Nearest integer to the nonnegative rational `n / d`, ties to even. -/
def roundHalfEven (n d : Nat) : Nat :=
  let k := n / d
  let r := n % d
  if 2 * r < d then k
  else if d < 2 * r then k + 1
  else if k % 2 = 0 then k else k + 1

/-- Number of binary digits, with explicit fuel. -/
def bitLenAux : Nat → Nat → Nat
  | 0, _ => 0
  | fuel + 1, n => if n = 0 then 0 else bitLenAux fuel (n / 2) + 1

/-- Number of binary digits of `n` (`0` for `0`). -/
def bitLen (n : Nat) : Nat := bitLenAux n n

/-- Binary exponent `e` of the positive rational `n / d`: `2^e ≤ n/d < 2^(e+1)`. -/
def binExp (n d : Nat) : Int :=
  let e0 : Int := (bitLen n : Int) - (bitLen d : Int)
  if (if 0 ≤ e0 then d * 2 ^ e0.toNat ≤ n else d ≤ n * 2 ^ (-e0).toNat) then e0 else e0 - 1

/-- Rounding of a rational to the nearest binary64 value (round-to-nearest-even,
53 significant bits, unbounded exponent). -/
def f64Round (q : ℚ) : ℚ :=
  if q = 0 then 0 else
    let n := q.num.natAbs
    let d := q.den
    let sh : Int := 52 - binExp n d
    let k : Nat :=
      if 0 ≤ sh then roundHalfEven (n * 2 ^ sh.toNat) d
      else roundHalfEven n (d * 2 ^ (-sh).toNat)
    (if q < 0 then -1 else 1) * ((k : ℚ) * (2 : ℚ) ^ (-sh))

/-- Go `x + y` on float64. -/
def f64Add (a b : ℚ) : ℚ := f64Round (a + b)

/-- Go `x / y` on float64 (for a nonzero divisor). -/
def f64Div (a b : ℚ) : ℚ := f64Round (a / b)

/-- Go `x * y` on float64. -/
def f64Mul (a b : ℚ) : ℚ := f64Round (a * b)

/-- Go conversion `float64(i)` of an integer. -/
def f64OfInt (i : Int) : ℚ := f64Round (i : ℚ)

/-- Go standard library `time.Duration.Seconds`, the duration being a count of
nanoseconds: `sec := d / Second; nsec := d % Second;
return float64(sec) + float64(nsec)/1e9` (truncating integer division). -/
def Seconds (d : Int) : ℚ :=
  let sec := Int.tdiv d 1000000000
  let nsec := Int.tmod d 1000000000
  f64Add (f64OfInt sec) (f64Div (f64OfInt nsec) (f64Round 1000000000))

/-! ## Data model -/

/-- Go `int64` arithmetic: the value an integer result has once stored in an
`int64` (two's complement wrap-around). -/
def wrapInt64 (x : Int) : Int :=
  (x + 9223372036854775808) % 18446744073709551616 - 9223372036854775808

/-- Address of a `subsonic.Child` object. -/
abbrev Ptr := Nat

/-- Modelled from the spec: the `subsonic.Child` record of the go-subsonic
library, whose declaration is not part of the sources (spec section 3, Queue
Entry: identifier, title, duration, favorite flag, user rating, play count).
`Starred` is `none` for the zero `time.Time`; `PlayCount` is an `int64`. -/
structure Child where
  ID : String
  Title : String
  Duration : Int
  PlayCount : Int
  UserRating : Int
  Starred : Option Int
deriving DecidableEq, Repr

/-- Modelled from the spec: `ScrobbleConfig`, declared outside the sources
(spec section 3: enabled flag, percentage threshold, time threshold in seconds,
negative meaning disabled). -/
structure ScrobbleConfig where
  Enabled : Bool
  ThresholdTimeSeconds : Int
  ThresholdPercent : Int
deriving DecidableEq, Repr

/-- Transport state reported by the engine (`player.State`). -/
inductive State where
  | Stopped
  | Playing
  | Paused
deriving DecidableEq, Repr

/-- Modelled from the spec: `player.Status`, the answer of `GetStatus` (transport
state, position, duration, playlist position). -/
structure Status where
  State : State
  TimePos : ℚ
  Duration : ℚ
  PlaylistPos : Int
deriving DecidableEq, Repr

/-- Modelled from the spec: `util.Stopwatch`, the elapsed-time accumulator of
spec section 4.1 (accumulated duration, running flag, last-start timestamp),
in nanoseconds. -/
structure Stopwatch where
  accumulated : Int
  running : Bool
  lastStart : Int
deriving DecidableEq, Repr

/-- Modelled from the spec: `start()` records the current instant if not already
running. -/
def Stopwatch.Start (s : Stopwatch) (now : Int) : Stopwatch :=
  if s.running then s else { s with running := true, lastStart := now }

/-- Modelled from the spec: `stop()` adds the interval since the last start to the
accumulated total and clears the running flag; a no-op when not running. -/
def Stopwatch.Stop (s : Stopwatch) (now : Int) : Stopwatch :=
  if s.running then
    { s with accumulated := s.accumulated + (now - s.lastStart), running := false }
  else s

/-- Modelled from the spec: `reset()` zeroes the accumulated total and the running
flag. -/
def Stopwatch.Reset (s : Stopwatch) : Stopwatch :=
  { s with accumulated := 0, running := false }

/-- Modelled from the spec: `elapsed()` is the accumulated total plus, if running,
the time since the last start. -/
def Stopwatch.Elapsed (s : Stopwatch) (now : Int) : Int :=
  if s.running then s.accumulated + (now - s.lastStart) else s.accumulated

/-- Externally visible effects, recorded in program order. -/
inductive Event where
  | playerStop
  | playerClearPlayQueue
  | playerAppendFile (url : String)
  | playerRemoveTrackAt (idx : Int) (ok : Bool)
  | scrobble (id : String) (submission : Bool)
  | songChange (observer : Nat) (nowPlaying : Option Ptr) (justScrobbled : Option Ptr)
  | playTimeUpdate (observer : Nat) (timePos : ℚ) (duration : ℚ)
  | paused (observer : Nat)
  | playing (observer : Nat)
deriving DecidableEq, Repr

/-- True for the invocation of a registered observer of any of the four
categories. -/
def Event.isObserverCall : Event → Bool
  | .songChange _ _ _ => true
  | .playTimeUpdate _ _ _ => true
  | .paused _ => true
  | .playing _ => true
  | _ => false

/-- The external collaborators over an abstract world `W`: the engine
(`player.Player`), the remote service (`sm.Server`), the clock and
`util.ShuffleSlice`. Commands transform the world, queries read it. -/
structure Env (W : Type) where
  playerStop : W → W
  playerClearPlayQueue : W → W
  playerAppendFile : W → String → W
  playerRemoveTrackAt : W → Int → W × Option String
  playerGetStatus : W → Status
  serverGetStreamURL : W → String → Except String String
  timeNow : W → Int
  shuffleSlice : List Nat → List Nat

/-- The `PlaybackManager` struct. `heap`/`nextPtr` are the object store behind
the `*subsonic.Child` pointers; `log` is the trace of effects; `pollsStarted`
and `activePolls` count the polling goroutines started by `startPollTimePos`
whose cancellation has not been issued; `cancelPollPos` holds the loop whose
cancel function is stored. The four observer lists hold observer handles. -/
structure PlaybackManager (W : Type) where
  world : W
  log : List Event
  heap : Ptr → Child
  nextPtr : Nat
  pollsStarted : Nat
  activePolls : List Nat
  cancelPollPos : Option Nat
  playTimeStopwatch : Stopwatch
  curTrackTime : ℚ
  callbacksDisabled : Bool
  playQueue : List Ptr
  nowPlayingIdx : Int
  lastScrobbled : Option Ptr
  scrobbleCfg : ScrobbleConfig
  onSongChange : List Nat
  onPlayTimeUpdate : List Nat
  onPaused : List Nat
  onPlaying : List Nat

/-- Go slice indexing `s[i]` with a signed index: `none` is the run-time panic. -/
def index {α : Type} (s : List α) (i : Int) : Option α :=
  if i < 0 then none else s[i.toNat]?

variable {W : Type}

/-- `DisableCallbacks`. -/
def DisableCallbacks (pm : PlaybackManager W) : PlaybackManager W :=
  { pm with callbacksDisabled := true }

/-- `NowPlaying`: the inner option is the returned pointer (`nil` is `none`). -/
def NowPlaying (E : Env W) (pm : PlaybackManager W) : Option (Option Ptr) :=
  if pm.playQueue.length = 0 ∨ (E.playerGetStatus pm.world).State = State.Stopped then
    some none
  else
    (index pm.playQueue pm.nowPlayingIdx).map some

/-- `OnSongChange`: registers an observer. -/
def OnSongChange (pm : PlaybackManager W) (cb : Nat) : PlaybackManager W :=
  { pm with onSongChange := pm.onSongChange ++ [cb] }

/-- `OnPausedOrStopped`: registers an observer. -/
def OnPausedOrStopped (pm : PlaybackManager W) (cb : Nat) : PlaybackManager W :=
  { pm with onPaused := pm.onPaused ++ [cb] }

/-- `OnPlaying`: registers an observer. -/
def OnPlaying (pm : PlaybackManager W) (cb : Nat) : PlaybackManager W :=
  { pm with onPlaying := pm.onPlaying ++ [cb] }

/-- `OnPlayTimeUpdate`: registers an observer. -/
def OnPlayTimeUpdate (pm : PlaybackManager W) (cb : Nat) : PlaybackManager W :=
  { pm with onPlayTimeUpdate := pm.onPlayTimeUpdate ++ [cb] }

/-- The float64 constant `0.1`. -/
def f64Tenth : ℚ := f64Round (1 / 10)

/-- `checkScrobble`. The `time` parameter of the submission is not modelled. -/
def checkScrobble (pm : PlaybackManager W) (playDur : Int) : Option (PlaybackManager W) :=
  if pm.scrobbleCfg.Enabled = false ∨ pm.playQueue.length = 0 ∨ pm.nowPlayingIdx < 0 then
    some pm
  else if Seconds playDur < f64Tenth ∨ pm.curTrackTime < f64Tenth then
    some pm
  else
    let pcnt := f64Mul (f64Div (Seconds playDur) pm.curTrackTime) 100
    let timeThresholdMet := 0 ≤ pm.scrobbleCfg.ThresholdTimeSeconds ∧
      f64OfInt pm.scrobbleCfg.ThresholdTimeSeconds ≤ Seconds playDur
    if timeThresholdMet ∨ f64OfInt pm.scrobbleCfg.ThresholdPercent ≤ pcnt then
      match index pm.playQueue pm.nowPlayingIdx with
      | none => none
      | some song =>
        some { pm with
          heap := Function.update pm.heap song
            { pm.heap song with PlayCount := wrapInt64 ((pm.heap song).PlayCount + 1) }
          lastScrobbled := some song
          log := pm.log ++ [Event.scrobble (pm.heap song).ID true] }
    else some pm

/-- `sendNowPlayingScrobble`. -/
def sendNowPlayingScrobble (pm : PlaybackManager W) : Option (PlaybackManager W) :=
  if pm.scrobbleCfg.Enabled = false ∨ pm.playQueue.length = 0 ∨ pm.nowPlayingIdx < 0 then
    some pm
  else
    match index pm.playQueue pm.nowPlayingIdx with
    | none => none
    | some song => some { pm with log := pm.log ++ [Event.scrobble (pm.heap song).ID false] }

/-- The loop `for _, cb := range p.onSongChange { cb(p.NowPlaying(), p.lastScrobbled) }`. -/
def callSongChange (E : Env W) : List Nat → PlaybackManager W → Option (PlaybackManager W)
  | [], pm => some pm
  | cb :: cbs, pm =>
    match NowPlaying E pm with
    | none => none
    | some np =>
      callSongChange E cbs { pm with log := pm.log ++ [Event.songChange cb np pm.lastScrobbled] }

/-- `invokeOnSongChangeCallbacks`. -/
def invokeOnSongChangeCallbacks (E : Env W) (pm : PlaybackManager W) :
    Option (PlaybackManager W) :=
  if pm.callbacksDisabled then some pm
  else (callSongChange E pm.onSongChange pm).map fun pm1 => { pm1 with lastScrobbled := none }

/-- `doUpdateTimePos`. -/
def doUpdateTimePos (E : Env W) (pm : PlaybackManager W) : PlaybackManager W :=
  if pm.callbacksDisabled then pm
  else
    let s := E.playerGetStatus pm.world
    { pm with log := pm.log ++
        pm.onPlayTimeUpdate.map fun cb => Event.playTimeUpdate cb s.TimePos s.Duration }

/-- `startPollTimePos`: starts a new polling goroutine and stores its cancel
function, overwriting the stored one. -/
def startPollTimePos (pm : PlaybackManager W) : PlaybackManager W :=
  { pm with
    cancelPollPos := some pm.pollsStarted
    activePolls := pm.activePolls ++ [pm.pollsStarted]
    pollsStarted := pm.pollsStarted + 1 }

/-- `stopPollTimePos`: cancels the loop whose cancel function is stored, if any. -/
def stopPollTimePos (pm : PlaybackManager W) : PlaybackManager W :=
  match pm.cancelPollPos with
  | some k => { pm with activePolls := pm.activePolls.filter (fun j => j ≠ k), cancelPollPos := none }
  | none => pm

/-- The loop `for _, cb := range pm.onPaused { cb() }`. -/
def callPaused (pm : PlaybackManager W) : PlaybackManager W :=
  { pm with log := pm.log ++ pm.onPaused.map Event.paused }

/-- The loop `for _, cb := range pm.onPlaying { cb() }`. -/
def callPlaying (pm : PlaybackManager W) : PlaybackManager W :=
  { pm with log := pm.log ++ pm.onPlaying.map Event.playing }

/-! ## Transport-event handlers registered by `NewPlaybackManager` -/

/-- The `OnTrackChange` handler. -/
def onTrackChange (E : Env W) (pm : PlaybackManager W) (tracknum : Int) :
    Option (PlaybackManager W) :=
  if (pm.playQueue.length : Int) ≤ tracknum then some pm
  else
    (checkScrobble pm (pm.playTimeStopwatch.Elapsed (E.timeNow pm.world))).bind fun pm1 =>
    let pm2 := { pm1 with playTimeStopwatch := pm1.playTimeStopwatch.Reset }
    let pm3 :=
      if (E.playerGetStatus pm2.world).State = State.Playing then
        { pm2 with playTimeStopwatch := pm2.playTimeStopwatch.Start (E.timeNow pm2.world) }
      else pm2
    let pm4 := { pm3 with nowPlayingIdx := tracknum }
    (index pm4.playQueue pm4.nowPlayingIdx).bind fun song =>
    let pm5 := { pm4 with curTrackTime := f64OfInt (pm4.heap song).Duration }
    (invokeOnSongChangeCallbacks E pm5).bind fun pm6 =>
    sendNowPlayingScrobble (doUpdateTimePos E pm6)

/-- The `OnSeek` handler. -/
def onSeek (E : Env W) (pm : PlaybackManager W) : PlaybackManager W :=
  doUpdateTimePos E pm

/-- The `OnStopped` handler. -/
def onStopped (E : Env W) (pm : PlaybackManager W) : Option (PlaybackManager W) :=
  let pm1 := { pm with playTimeStopwatch := pm.playTimeStopwatch.Stop (E.timeNow pm.world) }
  (checkScrobble pm1 (pm1.playTimeStopwatch.Elapsed (E.timeNow pm1.world))).bind fun pm2 =>
  let pm3 := { pm2 with playTimeStopwatch := pm2.playTimeStopwatch.Reset }
  let pm4 := doUpdateTimePos E (stopPollTimePos pm3)
  if pm4.callbacksDisabled then some pm4
  else invokeOnSongChangeCallbacks E (callPaused pm4)

/-- The `OnPaused` handler. -/
def onPaused (E : Env W) (pm : PlaybackManager W) : PlaybackManager W :=
  let pm1 := { pm with playTimeStopwatch := pm.playTimeStopwatch.Stop (E.timeNow pm.world) }
  callPaused (stopPollTimePos pm1)

/-- The `OnPlaying` handler. -/
def onPlaying (E : Env W) (pm : PlaybackManager W) : PlaybackManager W :=
  let pm1 := { pm with playTimeStopwatch := pm.playTimeStopwatch.Start (E.timeNow pm.world) }
  callPlaying (startPollTimePos pm1)

/-! ## Queue operations -/

/-- Result of `LoadTracks`: the manager afterwards and the returned `error`
(`none` is `nil`). -/
structure LoadResult (W : Type) where
  pm : PlaybackManager W
  err : Option String

/-- The loop `for _, i := range nums` of `LoadTracks`; `tracks` are the records the
caller's pointers refer to. -/
def loadLoop (E : Env W) (tracks : List Child) :
    List Nat → PlaybackManager W → Option (LoadResult W)
  | [], pm => some ⟨pm, none⟩
  | i :: nums, pm =>
    match tracks[i]? with
    | none => none
    | some t =>
      match E.serverGetStreamURL pm.world t.ID with
      | Except.error e => some ⟨pm, some e⟩
      | Except.ok url =>
        loadLoop E tracks nums
          { pm with
            world := E.playerAppendFile pm.world url
            log := pm.log ++ [Event.playerAppendFile url]
            heap := Function.update pm.heap pm.nextPtr t
            nextPtr := pm.nextPtr + 1
            playQueue := pm.playQueue ++ [pm.nextPtr] }

/-- `LoadTracks`. -/
def LoadTracks (E : Env W) (pm : PlaybackManager W) (tracks : List Child)
    (appendToQueue shuffle : Bool) : Option (LoadResult W) :=
  let pm1 :=
    if appendToQueue then pm
    else
      { pm with
        world := E.playerStop pm.world
        log := pm.log ++ [Event.playerStop]
        nowPlayingIdx := 0
        playQueue := [] }
  let nums := List.range tracks.length
  let nums1 := if shuffle then E.shuffleSlice nums else nums
  loadLoop E tracks nums1 pm1

/-- Loop state of `RemoveTracksFromQueue`. -/
structure RemoveState (W : Type) where
  world : W
  log : List Event
  newQueue : List Ptr
  rmCount : Nat
  rmIdx : Nat

/-- One iteration of `for i, tr := range p.playQueue` in `RemoveTracksFromQueue`. -/
def removeStep (E : Env W) (trackIdxs : List Int) (st : RemoveState W) (i : Nat) (tr : Ptr) :
    RemoveState W :=
  if st.rmIdx < trackIdxs.length ∧ trackIdxs[st.rmIdx]? = some (i : Int) then
    let r := E.playerRemoveTrackAt st.world ((i : Int) - (st.rmCount : Int))
    match r.2 with
    | none =>
      { st with
        world := r.1
        log := st.log ++ [Event.playerRemoveTrackAt ((i : Int) - (st.rmCount : Int)) true]
        rmIdx := st.rmIdx + 1
        rmCount := st.rmCount + 1 }
    | some _ =>
      { st with
        world := r.1
        log := st.log ++ [Event.playerRemoveTrackAt ((i : Int) - (st.rmCount : Int)) false]
        rmIdx := st.rmIdx + 1
        newQueue := st.newQueue ++ [tr] }
  else
    { st with newQueue := st.newQueue ++ [tr] }

/-- The loop of `RemoveTracksFromQueue` over the entries from position `i` on. -/
def removeLoop (E : Env W) (trackIdxs : List Int) :
    List Ptr → Nat → RemoveState W → RemoveState W
  | [], _, st => st
  | tr :: rest, i, st => removeLoop E trackIdxs rest (i + 1) (removeStep E trackIdxs st i tr)

/-- `RemoveTracksFromQueue`. `make` with a negative capacity panics. -/
def RemoveTracksFromQueue (E : Env W) (pm : PlaybackManager W) (trackIdxs : List Int) :
    Option (PlaybackManager W) :=
  if pm.playQueue.length < trackIdxs.length then none
  else
    let st := removeLoop E trackIdxs pm.playQueue 0 ⟨pm.world, pm.log, [], 0, 0⟩
    let pm1 := { pm with world := st.world, log := st.log, playQueue := st.newQueue }
    let pm2 := { pm1 with nowPlayingIdx := (E.playerGetStatus pm1.world).PlaylistPos }
    invokeOnSongChangeCallbacks E pm2

/-- `StopAndClearPlayQueue`. -/
def StopAndClearPlayQueue (E : Env W) (pm : PlaybackManager W) : PlaybackManager W :=
  let pm1 := { pm with world := E.playerStop pm.world, log := pm.log ++ [Event.playerStop] }
  let pm2 := { pm1 with
    world := E.playerClearPlayQueue pm1.world
    log := pm1.log ++ [Event.playerClearPlayQueue] }
  let pm3 := doUpdateTimePos E pm2
  { pm3 with playQueue := [] }

/-! ## The scrobble guard of the program, predicates on states and sample data -/

/-- The float64 percentage `playDur.Seconds() / curTrackTime * 100` computed by
`checkScrobble`. -/
def playedPercent (pm : PlaybackManager W) (playDur : Int) : ℚ :=
  f64Mul (f64Div (Seconds playDur) pm.curTrackTime) 100

/-- The guard of `checkScrobble` (lines 350-359) as the program evaluates it: the
played seconds are `playDur.Seconds()`, the percentage is the float64 value
`playedPercent`, the thresholds are converted with `float64(…)` and every
comparison is the float64 comparison. The reading of the specification in
exact arithmetic is `scrobbleDueExact`. -/
def scrobbleDue (pm : PlaybackManager W) (playDur : Int) : Prop :=
  pm.scrobbleCfg.Enabled = true ∧ pm.playQueue ≠ [] ∧ 0 ≤ pm.nowPlayingIdx ∧
  f64Tenth ≤ Seconds playDur ∧ f64Tenth ≤ pm.curTrackTime ∧
  ((0 ≤ pm.scrobbleCfg.ThresholdTimeSeconds ∧
      f64OfInt pm.scrobbleCfg.ThresholdTimeSeconds ≤ Seconds playDur) ∨
    f64OfInt pm.scrobbleCfg.ThresholdPercent ≤ playedPercent pm playDur)

/-- What recording a scrobble of `song` means: one submission for its identifier is
sent, it becomes the pending marker, its play count goes up by one in `int64`
arithmetic, and nothing else changes. -/
def RecordsScrobble (pm pm1 : PlaybackManager W) (song : Ptr) : Prop :=
  pm1.log = pm.log ++ [Event.scrobble (pm.heap song).ID true] ∧
  pm1.lastScrobbled = some song ∧
  (pm1.heap song).PlayCount = wrapInt64 ((pm.heap song).PlayCount + 1) ∧
  (pm1.heap song).ID = (pm.heap song).ID ∧
  (pm1.heap song).Title = (pm.heap song).Title ∧
  (pm1.heap song).Duration = (pm.heap song).Duration ∧
  (pm1.heap song).UserRating = (pm.heap song).UserRating ∧
  (pm1.heap song).Starred = (pm.heap song).Starred ∧
  (∀ p, p ≠ song → pm1.heap p = pm.heap p) ∧
  pm1.playQueue = pm.playQueue ∧ pm1.nowPlayingIdx = pm.nowPlayingIdx ∧
  pm1.curTrackTime = pm.curTrackTime ∧ pm1.world = pm.world ∧
  pm1.playTimeStopwatch = pm.playTimeStopwatch ∧ pm1.scrobbleCfg = pm.scrobbleCfg ∧
  pm1.callbacksDisabled = pm.callbacksDisabled ∧ pm1.nextPtr = pm.nextPtr ∧
  pm1.activePolls = pm.activePolls ∧ pm1.cancelPollPos = pm.cancelPollPos ∧
  pm1.pollsStarted = pm.pollsStarted ∧
  pm1.onSongChange = pm.onSongChange ∧ pm1.onPlayTimeUpdate = pm.onPlayTimeUpdate ∧
  pm1.onPaused = pm.onPaused ∧ pm1.onPlaying = pm.onPlaying

/-- An engine that accepts every command and reports a fixed status. -/
def quietEnv : Env Unit where
  playerStop := fun w => w
  playerClearPlayQueue := fun w => w
  playerAppendFile := fun w _ => w
  playerRemoveTrackAt := fun w _ => (w, none)
  playerGetStatus := fun _ => ⟨State.Playing, 0, 0, 0⟩
  serverGetStreamURL := fun _ id => Except.ok ("http://server/stream?id=" ++ id)
  timeNow := fun _ => 0
  shuffleSlice := List.reverse

/-- A sample track of the given identifier and length in seconds. -/
def sampleTrack (id : String) (duration : Int) : Child :=
  ⟨id, "title-" ++ id, duration, 0, 0, none⟩

/-- A manager holding one queue entry of `duration` seconds, which is playing,
with the given scrobble configuration. -/
def sampleManager (cfg : ScrobbleConfig) (duration : Int) : PlaybackManager Unit where
  world := ()
  log := []
  heap := fun _ => sampleTrack "a" duration
  nextPtr := 1
  pollsStarted := 0
  activePolls := []
  cancelPollPos := none
  playTimeStopwatch := ⟨0, false, 0⟩
  curTrackTime := f64OfInt duration
  callbacksDisabled := false
  playQueue := [0]
  nowPlayingIdx := 0
  lastScrobbled := none
  scrobbleCfg := cfg
  onSongChange := []
  onPlayTimeUpdate := []
  onPaused := []
  onPlaying := []

instance (pm : PlaybackManager W) (playDur : Int) : Decidable (scrobbleDue pm playDur) := by
  unfold scrobbleDue
  infer_instance

/-- The played duration (nanoseconds) is exactly `ThresholdPercent` percent of the
tracked track duration (seconds), in exact arithmetic. -/
def atPercentThreshold (pm : PlaybackManager W) (playDur : Int) : Prop :=
  (playDur : ℚ) / 1000000000 = (pm.scrobbleCfg.ThresholdPercent : ℚ) / 100 * pm.curTrackTime

instance (pm : PlaybackManager W) (playDur : Int) : Decidable (atPercentThreshold pm playDur) := by
  unfold atPercentThreshold
  infer_instance

/-- The state `checkScrobble` leaves when it scrobbles the entry `song`. -/
def scrobbled (pm : PlaybackManager W) (song : Ptr) : PlaybackManager W :=
  { pm with
    heap := Function.update pm.heap song
      { pm.heap song with PlayCount := wrapInt64 ((pm.heap song).PlayCount + 1) }
    lastScrobbled := some song
    log := pm.log ++ [Event.scrobble (pm.heap song).ID true] }

/-- What a caller can observe of a scrobble decision on the one-entry sample
manager: the effect log, the entry's play count and the pending marker. -/
def scrobbleView (r : Option (PlaybackManager W)) : Option (List Event × Int × Option Ptr) :=
  r.map fun p => (p.log, (p.heap 0).PlayCount, p.lastScrobbled)

/-- Modelled from the spec: `clamp`, declared outside the sources (spec section 3:
the percentage threshold is clamped into 0–99 at construction). -/
def clamp (x lo hi : Int) : Int :=
  if x < lo then lo else if hi < x then hi else x

/-- `NewPlaybackManager`: the struct with zero-valued fields and the clamped
configuration; the five engine handlers it registers are `onTrackChange`,
`onSeek`, `onStopped`, `onPaused` and `onPlaying`, the logout handler is
`StopAndClearPlayQueue`. The argument is the caller's `*ScrobbleConfig`: the
clamp is written into that struct and the manager keeps the pointer, so the
field `scrobbleCfg` is the one struct the caller and the manager share; a
later write of the caller to it is `callerSetsScrobbleConfig`. -/
def NewPlaybackManager (w : W) (scrobbleCfg : ScrobbleConfig) : PlaybackManager W where
  world := w
  log := []
  heap := fun _ => ⟨"", "", 0, 0, 0, none⟩
  nextPtr := 0
  pollsStarted := 0
  activePolls := []
  cancelPollPos := none
  playTimeStopwatch := ⟨0, false, 0⟩
  curTrackTime := 0
  callbacksDisabled := false
  playQueue := []
  nowPlayingIdx := 0
  lastScrobbled := none
  scrobbleCfg := { scrobbleCfg with ThresholdPercent := clamp scrobbleCfg.ThresholdPercent 0 99 }
  onSongChange := []
  onPlayTimeUpdate := []
  onPaused := []
  onPlaying := []

/-- A write of the caller to the `ScrobbleConfig` struct it passed to
`NewPlaybackManager`. The manager holds the caller's pointer
(`scrobbleCfg *ScrobbleConfig`), so the write is a write to the manager's
configuration; nothing clamps it. -/
def callerSetsScrobbleConfig (pm : PlaybackManager W) (cfg : ScrobbleConfig) :
    PlaybackManager W :=
  { pm with scrobbleCfg := cfg }

/-- The calls the manager receives: queue operations, engine transport events, and
a change of the outside world between two calls. -/
inductive Op (W : Type) where
  | loadTracks (tracks : List Child) (appendToQueue shuffle : Bool)
  | removeTracks (trackIdxs : List Int)
  | stopAndClear
  | trackChanged (tracknum : Int)
  | seek
  | playing
  | paused
  | stopped
  | world (w : W)

/-- One call. -/
def step (E : Env W) (pm : PlaybackManager W) : Op W → Option (PlaybackManager W)
  | .loadTracks tracks a s => (LoadTracks E pm tracks a s).map fun r => r.pm
  | .removeTracks idxs => RemoveTracksFromQueue E pm idxs
  | .stopAndClear => some (StopAndClearPlayQueue E pm)
  | .trackChanged n => onTrackChange E pm n
  | .seek => some (onSeek E pm)
  | .playing => some (onPlaying E pm)
  | .paused => some (onPaused E pm)
  | .stopped => onStopped E pm
  | .world w => some { pm with world := w }

/-- A sequence of calls, in order. -/
def run (E : Env W) (pm : PlaybackManager W) : List (Op W) → Option (PlaybackManager W)
  | [] => some pm
  | op :: ops => (step E pm op).bind fun pm1 => run E pm1 ops

/-- The observer invocations of a log. -/
def observerCalls (log : List Event) : List Event :=
  log.filter Event.isObserverCall

/-- A manager with one observer registered in each of the four categories:
song-changed 1, time-updated 2, paused/stopped 3, playing 4. -/
def observedManager (cfg : ScrobbleConfig) : PlaybackManager Unit :=
  OnPlaying (OnPausedOrStopped (OnPlayTimeUpdate (OnSongChange
    (NewPlaybackManager () cfg) 1) 2) 3) 4

/-- The engine protocol under which `startPollTimePos` is never reached while a
polling loop is active: a Playing event arrives only when no loop is active,
that is, two Playing events are separated by a Paused or Stopped event. The
flag tells whether a loop is active before the sequence. -/
def pollProtocol : Bool → List (Op W) → Bool
  | _, [] => true
  | active, .playing :: ops => !active && pollProtocol true ops
  | _, .paused :: ops => pollProtocol false ops
  | _, .stopped :: ops => pollProtocol false ops
  | active, _ :: ops => pollProtocol active ops

/-- Whether a loop is active after the sequence, under the protocol. -/
def loopActiveAfter : Bool → List (Op W) → Bool
  | active, [] => active
  | _, .playing :: ops => loopActiveAfter true ops
  | _, .paused :: ops => loopActiveAfter false ops
  | _, .stopped :: ops => loopActiveAfter false ops
  | active, _ :: ops => loopActiveAfter active ops

/-- The polling bookkeeping of a manager: the active loops and the stored cancel
function. -/
def polls (pm : PlaybackManager W) : List Nat × Option Nat :=
  (pm.activePolls, pm.cancelPollPos)

/-- Effect of `stopPollTimePos` on the polling bookkeeping. -/
def stopPolls : List Nat × Option Nat → List Nat × Option Nat
  | (a, some k) => (a.filter (fun j => j ≠ k), none)
  | (a, none) => (a, none)

/-- A sequence of transport events obeying the engine protocol. -/
def alternatingOps : List (Op Unit) :=
  [Op.playing, Op.paused, Op.playing, Op.stopped, Op.playing]

/-- The answers of the engine to the removals recorded in a log (`true` for an
accepted removal), in order. -/
def removalAnswers (log : List Event) : List Bool :=
  log.filterMap fun ev =>
    match ev with
    | Event.playerRemoveTrackAt _ ok => some ok
    | _ => none

/-- The entries of `q`, positions counted from `i`, that stay in the queue: those
whose position is not a listed index with an accepted removal, in the
original order. -/
def keptEntriesFrom (i : Nat) (q : List Ptr) (idxs : List Int) (oks : List Bool) : List Ptr :=
  ((q.enumFrom i).filter fun p => decide (((p.1 : Int), true) ∉ idxs.zip oks)).map Prod.snd

/-- The entries that stay in the queue `q` when the removals at the positions `idxs`
are answered by `oks`. -/
def keptEntries (q : List Ptr) (idxs : List Int) (oks : List Bool) : List Ptr :=
  keptEntriesFrom 0 q idxs oks

/-- The entries of `q` at the positions that are not listed in `idxs`. -/
def unlistedEntries (q : List Ptr) (idxs : List Int) : List Ptr :=
  (q.enum.filter fun p => decide ((p.1 : Int) ∉ idxs)).map Prod.snd

/-- The removals issued to the engine for the listed positions: each at its queue
position minus the number of removals already committed, starting from `c`
committed removals. -/
def removalEvents : List Int → List Bool → Nat → List Event
  | j :: js, ok :: oks, c =>
    Event.playerRemoveTrackAt (j - (c : Int)) ok :: removalEvents js oks (if ok then c + 1 else c)
  | _, _, _ => []

/-- The engine keeps an internal queue `view w` on which remove-at-index `j` deletes
position `j` when `j` is in range and fails, changing nothing, otherwise. -/
def ListEngine {β : Type} (E : Env W) (view : W → List β) : Prop :=
  ∀ (w : W) (j : Int),
    (0 ≤ j ∧ j < (view w).length →
      (E.playerRemoveTrackAt w j).2 = none ∧
      view (E.playerRemoveTrackAt w j).1 = (view w).eraseIdx j.toNat) ∧
    (¬ (0 ≤ j ∧ j < (view w).length) →
      (E.playerRemoveTrackAt w j).2 ≠ none ∧ view (E.playerRemoveTrackAt w j).1 = view w)

/-- An engine whose world is its internal queue of stream locators. -/
def listEnv : Env (List String) where
  playerStop := fun _ => []
  playerClearPlayQueue := fun _ => []
  playerAppendFile := fun w url => w ++ [url]
  playerRemoveTrackAt := fun w j =>
    if 0 ≤ j ∧ j < (w.length : Int) then (w.eraseIdx j.toNat, none)
    else (w, some "index out of range")
  playerGetStatus := fun _ => ⟨State.Playing, 0, 0, 0⟩
  serverGetStreamURL := fun _ id => Except.ok ("http://server/stream?id=" ++ id)
  timeNow := fun _ => 0
  shuffleSlice := List.reverse

/-- An engine that rejects every removal at its position 1 and accepts the others. -/
def rejectingEnv : Env Unit :=
  { quietEnv with
    playerRemoveTrackAt := fun w j => if j = 1 then (w, some "rejected") else (w, none) }

/-- A manager over the world `w` holding five queue entries `10 … 14` (tracks
`"t10" … "t14"`), with one song-change observer. -/
def fiveManager {W : Type} (w : W) : PlaybackManager W :=
  { NewPlaybackManager w ⟨true, -1, 50⟩ with
    heap := fun p => sampleTrack ("t" ++ toString p) 100
    nextPtr := 15
    playQueue := [10, 11, 12, 13, 14]
    onSongChange := [1] }

/-- The state after one successful iteration of the loop of `LoadTracks`: the
locator is appended to the engine and a fresh copy of the track to the queue. -/
def appendTrack (E : Env W) (pm : PlaybackManager W) (t : Child) (url : String) :
    PlaybackManager W :=
  { pm with
    world := E.playerAppendFile pm.world url
    log := pm.log ++ [Event.playerAppendFile url]
    heap := Function.update pm.heap pm.nextPtr t
    nextPtr := pm.nextPtr + 1
    playQueue := pm.playQueue ++ [pm.nextPtr] }

/-- The state after appending the given tracks with their locators, in order. -/
def loadedState (E : Env W) (pm : PlaybackManager W) (ts : List (Child × String)) :
    PlaybackManager W :=
  ts.foldl (fun p tu => appendTrack E p tu.1 tu.2) pm

/-- The tracks at the positions `nums` of `tracks`, each paired with its resolved
stream locator; a position out of range or whose resolution fails is left out. -/
def resolvedTracks (tracks : List Child) (resolve : String → Except String String)
    (nums : List Nat) : List (Child × String) :=
  nums.filterMap fun i =>
    match tracks[i]? with
    | none => none
    | some t =>
      match resolve t.ID with
      | Except.ok url => some (t, url)
      | Except.error _ => none

/-- The state in which `LoadTracks` enters its loop. -/
def loadStart (E : Env W) (pm : PlaybackManager W) (appendToQueue : Bool) : PlaybackManager W :=
  if appendToQueue then pm
  else
    { pm with
      world := E.playerStop pm.world
      log := pm.log ++ [Event.playerStop]
      nowPlayingIdx := 0
      playQueue := [] }

/-- The order in which `LoadTracks` processes the positions of `tracks`. -/
def loadOrder (E : Env W) (tracks : List Child) (shuffle : Bool) : List Nat :=
  if shuffle then E.shuffleSlice (List.range tracks.length) else List.range tracks.length

/-- A server on which the resolution for the track `"bad"` fails. -/
def failingEnv : Env Unit :=
  { quietEnv with
    serverGetStreamURL := fun _ id =>
      if id = "bad" then Except.error "stream unavailable"
      else Except.ok ("http://server/stream?id=" ++ id) }

/-- Four sample tracks, the third of which does not resolve on `failingEnv`. -/
def fourTracks : List Child :=
  [sampleTrack "a" 200, sampleTrack "b" 100, sampleTrack "bad" 50, sampleTrack "c" 30]

/-- Resolution function of `failingEnv`. -/
def failingResolve (id : String) : Except String String :=
  if id = "bad" then Except.error "stream unavailable"
  else Except.ok ("http://server/stream?id=" ++ id)

/-- Resolution function of `quietEnv`. -/
def quietResolve (id : String) : String := "http://server/stream?id=" ++ id

instance : DecidableEq (Except String String) := fun a b =>
  match a, b with
  | Except.ok x, Except.ok y => if h : x = y then isTrue (by rw [h]) else isFalse (by intro c; cases c; exact h rfl)
  | Except.error x, Except.error y => if h : x = y then isTrue (by rw [h]) else isFalse (by intro c; cases c; exact h rfl)
  | Except.ok _, Except.error _ => isFalse (by intro c; cases c)
  | Except.error _, Except.ok _ => isFalse (by intro c; cases c)

/-- Nearest natural number to the nonnegative rational `x`, ties to even: the value
`roundHalfEven` computes on a fraction. -/
def nearestEven (x : ℚ) : ℕ :=
  if 2 * (x - (⌊x⌋₊ : ℚ)) < 1 then ⌊x⌋₊
  else if 1 < 2 * (x - (⌊x⌋₊ : ℚ)) then ⌊x⌋₊ + 1
  else if ⌊x⌋₊ % 2 = 0 then ⌊x⌋₊ else ⌊x⌋₊ + 1

/-- `GetPlayQueue`: every entry is copied into a fresh object; the result is the
manager (whose store holds the copies) and the slice of pointers to them. -/
def GetPlayQueue (pm : PlaybackManager W) : PlaybackManager W × List Ptr :=
  pm.playQueue.foldl
    (fun acc tr =>
      ({ acc.1 with
          heap := Function.update acc.1.heap acc.1.nextPtr (acc.1.heap tr)
          nextPtr := acc.1.nextPtr + 1 },
        acc.2 ++ [acc.1.nextPtr]))
    (pm, [])

/-- A five-entry manager in which the entry at index 0 (200 s long) has been playing
for 150 s of accumulated time. -/
def playedManager : PlaybackManager Unit :=
  { fiveManager () with
    heap := fun p => sampleTrack ("t" ++ toString p) 200
    curTrackTime := 200
    playTimeStopwatch := ⟨150000000000, false, 0⟩ }

/-- The state the track-changed handler leaves, given the state `pmS` after the
scrobble evaluation and the entry `new` at the new index. -/
def afterTrackChange (E : Env W) (pmS : PlaybackManager W) (tracknum : Int) (new : Ptr) :
    PlaybackManager W :=
  let p5 : PlaybackManager W :=
    { pmS with
      playTimeStopwatch :=
        if (E.playerGetStatus pmS.world).State = State.Playing then
          pmS.playTimeStopwatch.Reset.Start (E.timeNow pmS.world)
        else pmS.playTimeStopwatch.Reset
      nowPlayingIdx := tracknum
      curTrackTime := f64OfInt (pmS.heap new).Duration }
  let np : Option Ptr :=
    if (E.playerGetStatus pmS.world).State = State.Stopped then none else some new
  let p6 : PlaybackManager W :=
    if pmS.callbacksDisabled then p5
    else
      { p5 with
        log := p5.log ++ pmS.onSongChange.map fun cb => Event.songChange cb np pmS.lastScrobbled
        lastScrobbled := none }
  let p7 := doUpdateTimePos E p6
  if pmS.scrobbleCfg.Enabled then
    { p7 with log := p7.log ++ [Event.scrobble (pmS.heap new).ID false] }
  else p7

/-- The broadcasts that end the track-changed handler, in order: the song-change
observers (receiving the now-playing entry and the pending marker), the
time-position observers, and the now-playing submission for the entry `new`. -/
def trackChangeBroadcast (E : Env W) (pm : PlaybackManager W) (new : Ptr)
    (marker : Option Ptr) : List Event :=
  (if pm.callbacksDisabled then []
    else pm.onSongChange.map fun cb =>
      Event.songChange cb
        (if (E.playerGetStatus pm.world).State = State.Stopped then none else some new) marker) ++
  (if pm.callbacksDisabled then []
    else pm.onPlayTimeUpdate.map fun cb =>
      Event.playTimeUpdate cb (E.playerGetStatus pm.world).TimePos
        (E.playerGetStatus pm.world).Duration) ++
  (if pm.scrobbleCfg.Enabled then [Event.scrobble (pm.heap new).ID false] else [])

/-- Step "stop accumulator" of the ordering stated in the specification. -/
def stopAccumulator (E : Env W) (pm : PlaybackManager W) : PlaybackManager W :=
  { pm with playTimeStopwatch := pm.playTimeStopwatch.Stop (E.timeNow pm.world) }

/-- Step "evaluate (and possibly submit) scrobble", on the accumulator's elapsed
time. -/
def evaluateScrobble (E : Env W) (pm : PlaybackManager W) : Option (PlaybackManager W) :=
  checkScrobble pm (pm.playTimeStopwatch.Elapsed (E.timeNow pm.world))

/-- Step "reset accumulator". -/
def resetAccumulator (pm : PlaybackManager W) : PlaybackManager W :=
  { pm with playTimeStopwatch := pm.playTimeStopwatch.Reset }

/-- Step "restart accumulator only if the engine reports playing". -/
def restartIfPlaying (E : Env W) (pm : PlaybackManager W) : PlaybackManager W :=
  if (E.playerGetStatus pm.world).State = State.Playing then
    { pm with playTimeStopwatch := pm.playTimeStopwatch.Start (E.timeNow pm.world) }
  else pm

/-- Step "update now-playing index and tracked duration". -/
def advanceIndex (pm : PlaybackManager W) (tracknum : Int) : Option (PlaybackManager W) :=
  (index pm.playQueue tracknum).map fun song =>
    { pm with nowPlayingIdx := tracknum, curTrackTime := f64OfInt (pm.heap song).Duration }

/-- The ordering stated in the specification for a track boundary: stop accumulator,
evaluate scrobble, reset accumulator, conditionally restart it, update index
and duration, broadcast song-change, broadcast time-position, submit
now-playing. -/
def trackChangeSequence (E : Env W) (pm : PlaybackManager W) (tracknum : Int) :
    Option (PlaybackManager W) :=
  (evaluateScrobble E (stopAccumulator E pm)).bind fun p1 =>
  (advanceIndex (restartIfPlaying E (resetAccumulator p1)) tracknum).bind fun p2 =>
  (invokeOnSongChangeCallbacks E p2).bind fun p3 =>
  sendNowPlayingScrobble (doUpdateTimePos E p3)

/-- An engine that reports the Stopped state with no playlist position. -/
def stoppedEnv : Env Unit :=
  { quietEnv with playerGetStatus := fun _ => ⟨State.Stopped, 0, 0, -1⟩ }

/-- The manager `playedManager` with observers in all four categories: song-changed
1, time-updated 2, paused/stopped 3 and 5, playing 4. -/
def observedPlayed : PlaybackManager Unit :=
  { playedManager with onPlayTimeUpdate := [2], onPaused := [3, 5], onPlaying := [4] }

/-- The state of `RemoveTracksFromQueue` after its loop and the resynchronisation of
the now-playing index, before the song-change broadcast. -/
def afterRemoval (E : Env W) (pm : PlaybackManager W) (trackIdxs : List Int) :
    PlaybackManager W :=
  { pm with
    world := (removeLoop E trackIdxs pm.playQueue 0 ⟨pm.world, pm.log, [], 0, 0⟩).world
    log := (removeLoop E trackIdxs pm.playQueue 0 ⟨pm.world, pm.log, [], 0, 0⟩).log
    playQueue := (removeLoop E trackIdxs pm.playQueue 0 ⟨pm.world, pm.log, [], 0, 0⟩).newQueue
    nowPlayingIdx := (E.playerGetStatus
      (removeLoop E trackIdxs pm.playQueue 0 ⟨pm.world, pm.log, [], 0, 0⟩).world).PlaylistPos }

/-- The pending just-scrobbled marker together with the suppression switch. -/
def marker (pm : PlaybackManager W) : Option Ptr × Bool :=
  (pm.lastScrobbled, pm.callbacksDisabled)

/-- The calls that neither evaluate a scrobble nor broadcast a song change. -/
def Op.isQuiet : Op W → Bool
  | .removeTracks _ => false
  | .trackChanged _ => false
  | .stopped => false
  | _ => true

/-- The manager `fiveManager ()` with a second song-change observer, the entry at
index 0 (100 s long) having played 80 s. -/
def twoObservers : PlaybackManager Unit :=
  { fiveManager () with
    onSongChange := [1, 2]
    curTrackTime := 100
    playTimeStopwatch := ⟨80000000000, false, 0⟩ }

/-- The commands of a log: the effects on the engine and the remote service, that
is, everything but the observer invocations. -/
def commands (log : List Event) : List Event :=
  log.filter fun ev => !ev.isObserverCall

/-- The internal state of the manager: everything but the observer lists, the
suppression switch, the pending marker and the observer invocations. -/
structure Core (W : Type) where
  world : W
  heap : Ptr → Child
  nextPtr : Nat
  pollsStarted : Nat
  activePolls : List Nat
  cancelPollPos : Option Nat
  playTimeStopwatch : Stopwatch
  curTrackTime : ℚ
  playQueue : List Ptr
  nowPlayingIdx : Int
  scrobbleCfg : ScrobbleConfig
  commands : List Event

/-- The internal state of a manager. -/
def internalState (pm : PlaybackManager W) : Core W where
  world := pm.world
  heap := pm.heap
  nextPtr := pm.nextPtr
  pollsStarted := pm.pollsStarted
  activePolls := pm.activePolls
  cancelPollPos := pm.cancelPollPos
  playTimeStopwatch := pm.playTimeStopwatch
  curTrackTime := pm.curTrackTime
  playQueue := pm.playQueue
  nowPlayingIdx := pm.nowPlayingIdx
  scrobbleCfg := pm.scrobbleCfg
  commands := commands pm.log

/-- The internal part of the loop state of `RemoveTracksFromQueue`. -/
def removeCore (st : RemoveState W) : W × List Event × List Ptr × Nat × Nat :=
  (st.world, commands st.log, st.newQueue, st.rmCount, st.rmIdx)

/-- A sequence of calls: a track change to index 2, a pause, the removal of the entry
at index 0, and a stop. -/
def sampleCalls : List (Op Unit) :=
  [Op.trackChanged 2, Op.paused, Op.removeTracks [0], Op.stopped]

/-- Modelled from the spec: `sharedutil.FindTrackByID`, declared outside the sources
(spec section 4.2: "locate the matching queue entry by identifier (linear
scan)"): the first entry of the slice whose identifier is `id`, `none` being
`nil`. -/
def FindTrackByID (heap : Ptr → Child) (id : String) (tracks : List Ptr) : Option Ptr :=
  tracks.find? fun p => decide ((heap p).ID = id)

/-- `OnTrackFavoriteStatusChanged`: `time.Now()` is the clock reading, a non-zero
time; `time.Time{}` is the zero time. -/
def OnTrackFavoriteStatusChanged (E : Env W) (pm : PlaybackManager W) (id : String)
    (fav : Bool) : PlaybackManager W :=
  match FindTrackByID pm.heap id pm.playQueue with
  | some tr =>
    if fav then
      { pm with
        heap := Function.update pm.heap tr
          { pm.heap tr with Starred := some (E.timeNow pm.world) } }
    else
      { pm with heap := Function.update pm.heap tr { pm.heap tr with Starred := none } }
  | none => pm

/-- `OnTrackRatingChanged`. -/
def OnTrackRatingChanged (pm : PlaybackManager W) (id : String) (rating : Int) :
    PlaybackManager W :=
  match FindTrackByID pm.heap id pm.playQueue with
  | some tr =>
    { pm with heap := Function.update pm.heap tr { pm.heap tr with UserRating := rating } }
  | none => pm

/-- Every queue entry is an allocated object: its address lies below the next free
address of the store. -/
def Allocated (pm : PlaybackManager W) : Prop :=
  ∀ p ∈ pm.playQueue, p < pm.nextPtr

/-- The records of the queue entries, in queue order. -/
def queueRecords (pm : PlaybackManager W) : List Child :=
  pm.playQueue.map pm.heap

/-- A caller overwrites the record behind a pointer it holds. -/
def callerWrites (pm : PlaybackManager W) (p : Ptr) (c : Child) : PlaybackManager W :=
  { pm with heap := Function.update pm.heap p c }

/-- The five-entry sample queue in which the entries at indices 1 and 3 are two
copies of the track `"dup"`. -/
def dupManager : PlaybackManager Unit :=
  { fiveManager () with
    heap := fun p => if p = 11 ∨ p = 13 then sampleTrack "dup" 100
      else sampleTrack ("t" ++ toString p) 100 }

/-- The engine `quietEnv` with the clock reading 7 s. -/
def tickEnv : Env Unit :=
  { quietEnv with timeNow := fun _ => 7000000000 }

/-- The manager `observedPlayed` whose accumulator holds 150 s and has been running
since the clock read 2 s. -/
def runningPlayed : PlaybackManager Unit :=
  { observedPlayed with playTimeStopwatch := ⟨150000000000, true, 2000000000⟩ }

/-- The manager `observedPlayed` with scrobbling disabled. -/
def silentPlayed : PlaybackManager Unit :=
  { observedPlayed with scrobbleCfg := ⟨false, -1, 50⟩ }

/-! ## Modal bookkeeping of `ui/controller.Controller` -/

/-- The fields of `Controller` that track modal dialogs. Pop-ups and the functions
passed to `QueueShowModalFunc` are handles; `ran` records the functions that
have been run, in order. -/
structure Controller where
  escapablePopUp : Option Nat
  haveModal : Bool
  runOnModalClosed : Option Nat
  ran : List Nat
deriving DecidableEq, Repr

/-- The call `f()` of a function handle: the call is recorded and the body of the
function, given by `body`, acts on the controller. -/
def Controller.call (body : Nat → Controller → Controller) (c : Controller) (f : Nat) :
    Controller :=
  body f { c with ran := c.ran ++ [f] }

/-- `ClosePopUpOnEscape`. -/
def Controller.ClosePopUpOnEscape (c : Controller) (pop : Nat) : Controller :=
  { c with escapablePopUp := some pop }

/-- `QueueShowModalFunc`. -/
def Controller.QueueShowModalFunc (body : Nat → Controller → Controller) (c : Controller)
    (f : Nat) : Controller :=
  if c.haveModal then { c with runOnModalClosed := some f } else c.call body f

/-- `doModalClosed`. -/
def Controller.doModalClosed (body : Nat → Controller → Controller) (c : Controller) :
    Controller :=
  let c1 := { c with haveModal := false }
  match c1.runOnModalClosed with
  | some f => { c1.call body f with runOnModalClosed := none }
  | none => c1

/-- `CloseEscapablePopUp`. -/
def Controller.CloseEscapablePopUp (body : Nat → Controller → Controller) (c : Controller) :
    Controller :=
  match c.escapablePopUp with
  | some _ => Controller.doModalClosed body { c with escapablePopUp := none }
  | none => c

/-- `ShowAboutDialog`, showing the modal pop-up `pop`; its `OnDismiss` handler hides
the pop-up and calls `doModalClosed`. -/
def Controller.ShowAboutDialog (c : Controller) (pop : Nat) : Controller :=
  { c.ClosePopUpOnEscape pop with haveModal := true }

/-- A freshly created controller. -/
def newController : Controller := ⟨none, false, none, []⟩

/-- Function bodies that each show a modal dialog, as `QueueShowModalFunc` expects of
its argument: the function `f` shows the pop-up `f`. -/
def showsDialog : Nat → Controller → Controller :=
  fun f c => c.ShowAboutDialog f

/-- The queue is empty or the now-playing index is within the queue bounds. -/
def IndexValid (pm : PlaybackManager W) : Prop :=
  pm.playQueue = [] ∨ (0 ≤ pm.nowPlayingIdx ∧ pm.nowPlayingIdx < pm.playQueue.length)

instance (pm : PlaybackManager W) : Decidable (IndexValid pm) := by
  unfold IndexValid
  infer_instance

/-- Four tracks are loaded and the fourth starts playing. -/
def loadAndPlayFourth : List (Op Unit) :=
  [Op.loadTracks fourTracks false false, Op.trackChanged 3]

/-- The calls of `loadAndPlayFourth`, then the queue is stopped and cleared (as on
logout) and one track is added to the queue. -/
def clearThenAppend : List (Op Unit) :=
  loadAndPlayFourth ++ [Op.stopAndClear, Op.loadTracks [sampleTrack "e" 30] true false]

/-- The tracked duration is the `Duration` of the queue entry at the now-playing
index, whenever the queue is non-empty. -/
def TrackedDuration (pm : PlaybackManager W) : Prop :=
  pm.playQueue = [] ∨
    (index pm.playQueue pm.nowPlayingIdx).map (fun s => f64OfInt (pm.heap s).Duration) =
      some pm.curTrackTime

instance (pm : PlaybackManager W) : Decidable (TrackedDuration pm) := by
  unfold TrackedDuration
  infer_instance

/-- The calls that do not move the now-playing entry without refreshing the tracked
duration: every transport event, `StopAndClearPlayQueue`, and `LoadTracks`
appending to a non-empty queue. -/
def keepsTrackedDuration (pm : PlaybackManager W) : Op W → Bool
  | .loadTracks _ appendToQueue _ => appendToQueue && !pm.playQueue.isEmpty
  | .removeTracks _ => false
  | _ => true

/-- The states reached from an in-bounds track-changed event (arriving in a state
whose queue entries are allocated objects) by calls that keep the tracked
duration. -/
inductive Tracked (E : Env W) : PlaybackManager W → Prop
  | change (pm pm1 : PlaybackManager W) (n : Int) :
      Allocated pm → 0 ≤ n → n < pm.playQueue.length →
      onTrackChange E pm n = some pm1 → Tracked E pm1
  | next (pm pm1 : PlaybackManager W) (op : Op W) :
      Tracked E pm → keepsTrackedDuration pm op = true →
      step E pm op = some pm1 → Tracked E pm1

/-- Four tracks are loaded, the first starts playing and is then removed from the
queue. -/
def playThenRemove : List (Op Unit) :=
  [Op.loadTracks fourTracks false false, Op.trackChanged 0, Op.removeTracks [0]]

/-- Four tracks are loaded, the first starts playing and the queue is then replaced
by one other track. -/
def playThenReplace : List (Op Unit) :=
  [Op.loadTracks fourTracks false false, Op.trackChanged 0,
    Op.loadTracks [sampleTrack "e" 30] false false]

/-- Four tracks are loaded, the first starts playing, the queue is stopped and
cleared, and one other track is appended to the empty queue. -/
def playThenClearAppend : List (Op Unit) :=
  [Op.loadTracks fourTracks false false, Op.trackChanged 0, Op.stopAndClear,
    Op.loadTracks [sampleTrack "e" 30] true false]

/-- A manager built with the percentage threshold 150 (stored as 99), holding the
five-entry sample queue of 200 s tracks, the entry at index 0 being tracked. -/
def eagerManager : PlaybackManager Unit :=
  { NewPlaybackManager () ⟨true, -1, 150⟩ with
    heap := fun p => sampleTrack ("t" ++ toString p) 200
    nextPtr := 15
    playQueue := [10, 11, 12, 13, 14]
    curTrackTime := 200 }

/-- An engine whose world is the clock reading (nanoseconds) and the transport state
it reports: `Stop` makes it report Stopped, every other command is accepted
and leaves the world as it is. -/
def clockedEnv : Env (Int × State) where
  playerStop := fun w => (w.1, State.Stopped)
  playerClearPlayQueue := fun w => w
  playerAppendFile := fun w _ => w
  playerRemoveTrackAt := fun w _ => (w, none)
  playerGetStatus := fun w => ⟨w.2, 0, 0, 0⟩
  serverGetStreamURL := fun _ id => Except.ok ("http://server/stream?id=" ++ id)
  timeNow := fun w => w.1
  shuffleSlice := List.reverse

/-- A manager built by `NewPlaybackManager` (threshold 50 %) over `clockedEnv`, with
one observer registered in each category: song-changed 1, time-updated 2,
paused/stopped 3, playing 4. -/
def clockedManager : PlaybackManager (Int × State) :=
  OnPlaying (OnPausedOrStopped (OnPlayTimeUpdate (OnSongChange
    (NewPlaybackManager (0, State.Stopped) ⟨true, -1, 50⟩) 1) 2) 3) 4

/-- Four tracks are loaded and the fourth starts playing at clock reading 0; the
queue is stopped and cleared (as on logout) and one 30 s track is added to the
queue. The accumulator, started by the track change, is still running. -/
def staleIndexCalls : List (Op (Int × State)) :=
  [Op.loadTracks fourTracks false false, Op.world (0, State.Playing), Op.trackChanged 3,
    Op.stopAndClear, Op.loadTracks [sampleTrack "e" 30] true false]

/-- An engine that accepts every command and keeps reporting the playing state at
playlist position 4. -/
def lastPosEnv : Env Unit :=
  { quietEnv with playerGetStatus := fun _ => ⟨State.Playing, 0, 0, 4⟩ }

/-- Four tracks are loaded and the first one, 200 s long, starts playing. -/
def loadAndPlayFirst : List (Op Unit) :=
  [Op.loadTracks fourTracks false false, Op.trackChanged 0]

/-- The statements that make up the bodies of the track-changed and Stopped
handlers. -/
inductive HandlerStmt where
  | stopAccumulator
  | evaluateScrobble
  | resetAccumulator
  | restartIfPlaying
  | setIndex (tracknum : Int)
  | setTrackedDuration
  | broadcastSongChange
  | broadcastTimePos
  | submitNowPlaying
deriving DecidableEq, Repr

/-- Execution of one statement: `pm.playTimeStopwatch.Stop()`,
`pm.checkScrobble(pm.playTimeStopwatch.Elapsed())`, `pm.playTimeStopwatch.Reset()`,
`if pm.player.GetStatus().State == player.Playing { pm.playTimeStopwatch.Start() }`,
`pm.nowPlayingIdx = tracknum`,
`pm.curTrackTime = float64(pm.playQueue[pm.nowPlayingIdx].Duration)`,
`pm.invokeOnSongChangeCallbacks()`, `pm.doUpdateTimePos()`,
`pm.sendNowPlayingScrobble()`. -/
def execStmt (E : Env W) (pm : PlaybackManager W) : HandlerStmt → Option (PlaybackManager W)
  | .stopAccumulator => some (stopAccumulator E pm)
  | .evaluateScrobble => evaluateScrobble E pm
  | .resetAccumulator => some (resetAccumulator pm)
  | .restartIfPlaying => some (restartIfPlaying E pm)
  | .setIndex tracknum => some { pm with nowPlayingIdx := tracknum }
  | .setTrackedDuration =>
    (index pm.playQueue pm.nowPlayingIdx).bind fun song =>
      some { pm with curTrackTime := f64OfInt (pm.heap song).Duration }
  | .broadcastSongChange => invokeOnSongChangeCallbacks E pm
  | .broadcastTimePos => some (doUpdateTimePos E pm)
  | .submitNowPlaying => sendNowPlayingScrobble pm

/-- Execution of a list of statements in order; a panic ends it. -/
def execStmts (E : Env W) : List HandlerStmt → PlaybackManager W → Option (PlaybackManager W)
  | [], pm => some pm
  | s :: ss, pm => (execStmt E pm s).bind fun pm1 => execStmts E ss pm1

/-- The statements the `OnTrackChange` handler executes, in program order (lines
63-77): nothing when the guard `tracknum >= int64(len(pm.playQueue))` returns,
else the eight statements of lines 67-76. -/
def onTrackChangeStmts (pm : PlaybackManager W) (tracknum : Int) : List HandlerStmt :=
  if (pm.playQueue.length : Int) ≤ tracknum then []
  else
    [HandlerStmt.evaluateScrobble, HandlerStmt.resetAccumulator, HandlerStmt.restartIfPlaying,
      HandlerStmt.setIndex tracknum, HandlerStmt.setTrackedDuration,
      HandlerStmt.broadcastSongChange, HandlerStmt.broadcastTimePos,
      HandlerStmt.submitNowPlaying]

/-- The order of effects the specification states for a track boundary: stop
accumulator, evaluate scrobble, reset accumulator, conditionally restart it,
update index and duration, broadcast song-change, broadcast time-position,
submit now-playing. -/
def specifiedTrackChangeStmts (tracknum : Int) : List HandlerStmt :=
  [HandlerStmt.stopAccumulator, HandlerStmt.evaluateScrobble, HandlerStmt.resetAccumulator,
    HandlerStmt.restartIfPlaying, HandlerStmt.setIndex tracknum,
    HandlerStmt.setTrackedDuration, HandlerStmt.broadcastSongChange,
    HandlerStmt.broadcastTimePos, HandlerStmt.submitNowPlaying]

/-- The accumulator as each executed statement finds it, in execution order (up to
a panic). -/
def accumulatorTrace (E : Env W) :
    List HandlerStmt → PlaybackManager W → List (HandlerStmt × Stopwatch)
  | [], _ => []
  | s :: ss, pm =>
    (s, pm.playTimeStopwatch) ::
      match execStmt E pm s with
      | none => []
      | some pm1 => accumulatorTrace E ss pm1

/-! ## The scrobble condition in exact arithmetic -/

/-- The played duration in seconds, exactly; a duration is a count of nanoseconds. -/
def playedSecondsExact (playDur : Int) : ℚ := (playDur : ℚ) / 1000000000

/-- The percentage `playedSeconds / trackDuration * 100` of the specification, in
exact arithmetic. -/
def exactPercent (pm : PlaybackManager W) (playDur : Int) : ℚ :=
  playedSecondsExact playDur / pm.curTrackTime * 100

/-- The scrobble condition as the specification words it, every quantity and every
comparison read in exact arithmetic: scrobbling enabled, queue non-empty,
index not negative, played seconds and tracked duration at least 0.1, and the
time threshold or the percentage threshold reached. -/
def scrobbleDueExact (pm : PlaybackManager W) (playDur : Int) : Prop :=
  pm.scrobbleCfg.Enabled = true ∧ pm.playQueue ≠ [] ∧ 0 ≤ pm.nowPlayingIdx ∧
  1 / 10 ≤ playedSecondsExact playDur ∧ 1 / 10 ≤ pm.curTrackTime ∧
  ((0 ≤ pm.scrobbleCfg.ThresholdTimeSeconds ∧
      (pm.scrobbleCfg.ThresholdTimeSeconds : ℚ) ≤ playedSecondsExact playDur) ∨
    (pm.scrobbleCfg.ThresholdPercent : ℚ) ≤ exactPercent pm playDur)

instance (pm : PlaybackManager W) (playDur : Int) : Decidable (scrobbleDueExact pm playDur) := by
  unfold scrobbleDueExact
  infer_instance

/-- The relative margin `10^-15`: more than the float64 computation of the seconds
and of the percentage can be off. -/
def roundingMargin : ℚ := 1 / 1000000000000000

/-- The condition of the specification, reached clear of the rounding margin: as
`scrobbleDueExact`, with the percentage at least the threshold times
`1 + 10^-15`. -/
def scrobbleDueBeyondMargin (pm : PlaybackManager W) (playDur : Int) : Prop :=
  pm.scrobbleCfg.Enabled = true ∧ pm.playQueue ≠ [] ∧ 0 ≤ pm.nowPlayingIdx ∧
  1 / 10 ≤ playedSecondsExact playDur ∧ 1 / 10 ≤ pm.curTrackTime ∧
  ((0 ≤ pm.scrobbleCfg.ThresholdTimeSeconds ∧
      (pm.scrobbleCfg.ThresholdTimeSeconds : ℚ) ≤ playedSecondsExact playDur) ∨
    (pm.scrobbleCfg.ThresholdPercent : ℚ) * (1 + roundingMargin) ≤ exactPercent pm playDur)

instance (pm : PlaybackManager W) (playDur : Int) :
    Decidable (scrobbleDueBeyondMargin pm playDur) := by
  unfold scrobbleDueBeyondMargin
  infer_instance

/-- The condition of the specification, missed clear of the rounding margin:
scrobbling disabled, or the queue empty, or the index negative, or the played
seconds or the tracked duration below 0.1, or the time threshold disabled or
missed by the factor `1 - 10^-15` and the percentage below the threshold times
`1 - 10^-15`. -/
def scrobbleMissedBeyondMargin (pm : PlaybackManager W) (playDur : Int) : Prop :=
  pm.scrobbleCfg.Enabled = false ∨ pm.playQueue = [] ∨ pm.nowPlayingIdx < 0 ∨
  playedSecondsExact playDur < 1 / 10 ∨ pm.curTrackTime < 1 / 10 ∨
  ((pm.scrobbleCfg.ThresholdTimeSeconds < 0 ∨
      playedSecondsExact playDur <
        (pm.scrobbleCfg.ThresholdTimeSeconds : ℚ) * (1 - roundingMargin)) ∧
    exactPercent pm playDur < (pm.scrobbleCfg.ThresholdPercent : ℚ) * (1 - roundingMargin))

instance (pm : PlaybackManager W) (playDur : Int) :
    Decidable (scrobbleMissedBeyondMargin pm playDur) := by
  unfold scrobbleMissedBeyondMargin
  infer_instance

/-- A manager holding one queue entry, 2^31 s long and playing, with the time
threshold 2^30 s and the percentage threshold 99. -/
def longTrackManager : PlaybackManager Unit :=
  sampleManager ⟨true, 1073741824, 99⟩ 2147483648

/-- The one-entry sample manager (200 s track, threshold 50 %) whose entry has the
largest `int64` play count. -/
def maxCountManager : PlaybackManager Unit :=
  { sampleManager ⟨true, -1, 50⟩ 200 with
    heap := fun _ => { sampleTrack "a" 200 with PlayCount := 9223372036854775807 } }

/-! ## Theorems -/

/-! ### float64 rounding: the rounding is the nearest value and is monotone -/

theorem roundHalfEven_eq_nearestEven (n d : Nat) (hd : 0 < d) :
    roundHalfEven n d = nearestEven ((n : ℚ) / d) := by
  have hdq : (0 : ℚ) < d := by exact_mod_cast hd
  have hfloor : ⌊(n : ℚ) / d⌋₊ = n / d := Nat.floor_div_eq_div n d
  have hsplit : (n : ℚ) = (d : ℚ) * ((n / d : ℕ) : ℚ) + ((n % d : ℕ) : ℚ) := by
    exact_mod_cast (Nat.div_add_mod n d).symm
  have hfrac : (n : ℚ) / d - ((n / d : ℕ) : ℚ) = ((n % d : ℕ) : ℚ) / d := by
    field_simp
    linarith
  have h1 : (2 * ((n : ℚ) / d - ((n / d : ℕ) : ℚ)) < 1) ↔ 2 * (n % d) < d := by
    rw [hfrac, ← mul_div_assoc, div_lt_one hdq]
    exact_mod_cast Iff.rfl
  have h2 : (1 < 2 * ((n : ℚ) / d - ((n / d : ℕ) : ℚ))) ↔ d < 2 * (n % d) := by
    rw [hfrac, ← mul_div_assoc, one_lt_div hdq]
    exact_mod_cast Iff.rfl
  unfold roundHalfEven nearestEven
  simp only [hfloor, h1, h2]

theorem nearestEven_bounds (x : ℚ) (hx : 0 ≤ x) :
    (nearestEven x : ℚ) - 1 / 2 ≤ x ∧ x ≤ (nearestEven x : ℚ) + 1 / 2 := by
  have h1 : (⌊x⌋₊ : ℚ) ≤ x := Nat.floor_le hx
  have h2 : x < (⌊x⌋₊ : ℚ) + 1 := Nat.lt_floor_add_one x
  unfold nearestEven
  split_ifs with a b c
  · constructor <;> linarith
  · push_cast
    constructor <;> linarith
  · constructor <;> linarith
  · push_cast
    constructor <;> linarith

theorem nearestEven_mono (x y : ℚ) (hx : 0 ≤ x) (hxy : x ≤ y) :
    nearestEven x ≤ nearestEven y := by
  rcases eq_or_lt_of_le hxy with h | h
  · rw [h]
  · by_contra hc
    have hc1 : nearestEven y + 1 ≤ nearestEven x := by omega
    have hc2 : (nearestEven y : ℚ) + 1 ≤ nearestEven x := by exact_mod_cast hc1
    have bx := nearestEven_bounds x hx
    have b2 := nearestEven_bounds y (le_trans hx hxy)
    linarith [bx.1, b2.2]

theorem nearestEven_natCast (m : ℕ) : nearestEven (m : ℚ) = m := by
  unfold nearestEven
  simp

theorem bitLenAux_spec (fuel : Nat) :
    ∀ n : Nat, n ≤ fuel → 0 < n →
      2 ^ (bitLenAux fuel n - 1) ≤ n ∧ n < 2 ^ bitLenAux fuel n ∧ 0 < bitLenAux fuel n := by
  induction fuel with
  | zero =>
    intro n h1 h2
    omega
  | succ fuel ih =>
    intro n h1 h2
    have hn : n ≠ 0 := by omega
    simp only [bitLenAux, hn, if_false]
    by_cases h : n / 2 = 0
    · have hn1 : n = 1 := by omega
      subst hn1
      cases fuel <;> simp [bitLenAux]
    · obtain ⟨a, b, c⟩ := ih (n / 2) (by omega) (by omega)
      refine ⟨?_, ?_, by omega⟩
      · have : bitLenAux fuel (n / 2) + 1 - 1 = (bitLenAux fuel (n / 2) - 1) + 1 := by omega
        rw [this, pow_succ]
        omega
      · rw [pow_succ]
        omega

theorem bitLen_spec (n : Nat) (hn : 0 < n) :
    2 ^ (bitLen n - 1) ≤ n ∧ n < 2 ^ bitLen n ∧ 0 < bitLen n :=
  bitLenAux_spec n n (le_refl n) hn

theorem binExp_cond_iff (n d : Nat) (hd : 0 < d) (e0 : Int) :
    (if 0 ≤ e0 then d * 2 ^ e0.toNat ≤ n else d ≤ n * 2 ^ (-e0).toNat) ↔
      (2 : ℚ) ^ e0 ≤ (n : ℚ) / d := by
  have hdq : (0 : ℚ) < d := by exact_mod_cast hd
  by_cases h : 0 ≤ e0
  · rw [if_pos h]
    have he : e0 = ((e0.toNat : ℕ) : ℤ) := (Int.toNat_of_nonneg h).symm
    rw [he, zpow_natCast, le_div_iff₀ hdq, Int.toNat_ofNat]
    rw [mul_comm]
    exact_mod_cast Iff.rfl
  · rw [if_neg h]
    have he : e0 = -(((-e0).toNat : ℕ) : ℤ) := by
      rw [Int.toNat_of_nonneg (by omega)]
      omega
    have hpos : (0 : ℚ) < (2 : ℚ) ^ (-e0).toNat := by positivity
    rw [he, zpow_neg, zpow_natCast, le_div_iff₀ hdq, inv_mul_le_iff₀ hpos]
    simp only [neg_neg, Int.toNat_ofNat]
    rw [mul_comm ((2 : ℚ) ^ (-e0).toNat)]
    exact_mod_cast Iff.rfl

/-- The binary exponent brackets the fraction: `2^e ≤ n/d < 2^(e+1)`. -/
theorem binExp_spec (n d : Nat) (hn : 0 < n) (hd : 0 < d) :
    (2 : ℚ) ^ binExp n d ≤ (n : ℚ) / d ∧ (n : ℚ) / d < (2 : ℚ) ^ (binExp n d + 1) := by
  obtain ⟨ha1, ha2, ha3⟩ := bitLen_spec n hn
  obtain ⟨hb1, hb2, hb3⟩ := bitLen_spec d hd
  have hdq : (0 : ℚ) < d := by exact_mod_cast hd
  have hnq : (0 : ℚ) < n := by exact_mod_cast hn
  have hA1 : (2 : ℚ) ^ ((bitLen n : ℤ) - 1) ≤ n := by
    have : ((bitLen n : ℤ) - 1) = ((bitLen n - 1 : ℕ) : ℤ) := by omega
    rw [this, zpow_natCast]
    exact_mod_cast ha1
  have hA2 : (n : ℚ) < (2 : ℚ) ^ (bitLen n : ℤ) := by
    rw [zpow_natCast]
    exact_mod_cast ha2
  have hB1 : (2 : ℚ) ^ ((bitLen d : ℤ) - 1) ≤ d := by
    have : ((bitLen d : ℤ) - 1) = ((bitLen d - 1 : ℕ) : ℤ) := by omega
    rw [this, zpow_natCast]
    exact_mod_cast hb1
  have hB2 : (d : ℚ) < (2 : ℚ) ^ (bitLen d : ℤ) := by
    rw [zpow_natCast]
    exact_mod_cast hb2
  have hlow : (2 : ℚ) ^ ((bitLen n : ℤ) - (bitLen d : ℤ) - 1) ≤ (n : ℚ) / d := by
    have : ((bitLen n : ℤ) - (bitLen d : ℤ) - 1) = ((bitLen n : ℤ) - 1) - (bitLen d : ℤ) := by
      ring
    rw [this, zpow_sub₀ (by norm_num : (2 : ℚ) ≠ 0)]
    exact div_le_div₀ (le_of_lt hnq) hA1 hdq (le_of_lt hB2)
  have hupp : (n : ℚ) / d < (2 : ℚ) ^ ((bitLen n : ℤ) - (bitLen d : ℤ) + 1) := by
    have : ((bitLen n : ℤ) - (bitLen d : ℤ) + 1) = (bitLen n : ℤ) - ((bitLen d : ℤ) - 1) := by
      ring
    rw [this, zpow_sub₀ (by norm_num : (2 : ℚ) ≠ 0)]
    exact div_lt_div₀ hA2 hB1 (by positivity) (by positivity)
  unfold binExp
  simp only []
  by_cases hc : (if 0 ≤ (bitLen n : ℤ) - (bitLen d : ℤ)
      then d * 2 ^ ((bitLen n : ℤ) - (bitLen d : ℤ)).toNat ≤ n
      else d ≤ n * 2 ^ (-((bitLen n : ℤ) - (bitLen d : ℤ))).toNat)
  · rw [if_pos hc]
    exact ⟨(binExp_cond_iff n d hd _).mp hc, hupp⟩
  · rw [if_neg hc]
    refine ⟨hlow, ?_⟩
    have := (binExp_cond_iff n d hd _).not.mp hc
    rw [sub_add_cancel]
    exact lt_of_not_le this

theorem scaled_round (n d : Nat) (hd : 0 < d) (sh : ℤ) :
    (if 0 ≤ sh then roundHalfEven (n * 2 ^ sh.toNat) d
      else roundHalfEven n (d * 2 ^ (-sh).toNat)) =
      nearestEven ((n : ℚ) / d * (2 : ℚ) ^ sh) := by
  have hdq : (0 : ℚ) < d := by exact_mod_cast hd
  by_cases hs : 0 ≤ sh
  · rw [if_pos hs, roundHalfEven_eq_nearestEven _ _ hd]
    congr 1
    have he : sh = ((sh.toNat : ℕ) : ℤ) := (Int.toNat_of_nonneg hs).symm
    rw [he, zpow_natCast, Int.toNat_ofNat]
    push_cast
    field_simp
  · rw [if_neg hs, roundHalfEven_eq_nearestEven _ _ (by positivity)]
    congr 1
    have he : sh = -(((-sh).toNat : ℕ) : ℤ) := by
      rw [Int.toNat_of_nonneg (by omega)]
      omega
    rw [he, zpow_neg, zpow_natCast]
    simp only [neg_neg, Int.toNat_ofNat]
    push_cast
    field_simp

/-- On a positive rational `f64Round` scales into `[2^52, 2^53)`, rounds to the
nearest integer (ties to even) and scales back. -/
theorem f64Round_pos (q : ℚ) (hq : 0 < q) :
    ∃ e : ℤ, (2 : ℚ) ^ e ≤ q ∧ q < (2 : ℚ) ^ (e + 1) ∧
      f64Round q = (nearestEven (q * (2 : ℚ) ^ (52 - e)) : ℚ) * (2 : ℚ) ^ (e - 52) := by
  have hnum : 0 < q.num := Rat.num_pos.mpr hq
  have hn : 0 < q.num.natAbs := Int.natAbs_pos.mpr (ne_of_gt hnum)
  have hd : 0 < q.den := q.den_pos
  have hqnd : (q.num.natAbs : ℚ) / q.den = q := by
    have h2 : (q.num.natAbs : ℚ) = (q.num : ℚ) := by
      rw [← Int.cast_natCast, Int.natAbs_of_nonneg (le_of_lt hnum)]
    rw [h2]
    exact Rat.num_div_den q
  obtain ⟨hlo, hhi⟩ := binExp_spec q.num.natAbs q.den hn hd
  rw [hqnd] at hlo hhi
  refine ⟨binExp q.num.natAbs q.den, hlo, hhi, ?_⟩
  have hk := scaled_round q.num.natAbs q.den hd (52 - binExp q.num.natAbs q.den)
  rw [hqnd] at hk
  unfold f64Round
  rw [if_neg (ne_of_gt hq)]
  simp only []
  rw [hk, if_neg (not_lt.mpr (le_of_lt hq)), one_mul]
  congr 2
  ring

theorem two_zpow_pos (e : ℤ) : (0 : ℚ) < (2 : ℚ) ^ e := by positivity

theorem nearestEven_two_pow (k : ℕ) : nearestEven ((2 : ℚ) ^ k) = 2 ^ k := by
  have : ((2 : ℚ) ^ k) = ((2 ^ k : ℕ) : ℚ) := by push_cast; rfl
  rw [this, nearestEven_natCast]

/-- A positive rational and its binary64 rounding lie in the same binade. -/
theorem f64Round_bracket (q : ℚ) (hq : 0 < q) :
    ∃ e : ℤ, (2 : ℚ) ^ e ≤ q ∧ q < (2 : ℚ) ^ (e + 1) ∧
      f64Round q = (nearestEven (q * (2 : ℚ) ^ (52 - e)) : ℚ) * (2 : ℚ) ^ (e - 52) ∧
      (2 : ℚ) ^ e ≤ f64Round q ∧ f64Round q ≤ (2 : ℚ) ^ (e + 1) := by
  obtain ⟨e, hlo, hhi, heq⟩ := f64Round_pos q hq
  refine ⟨e, hlo, hhi, heq, ?_, ?_⟩
  · have h1 : (2 : ℚ) ^ (52 : ℕ) ≤ q * (2 : ℚ) ^ (52 - e) := by
      have : (2 : ℚ) ^ (52 : ℕ) = (2 : ℚ) ^ e * (2 : ℚ) ^ (52 - e) := by
        rw [← zpow_add₀ (by norm_num : (2 : ℚ) ≠ 0), ← zpow_natCast]
        congr 1
        ring
      rw [this]
      exact mul_le_mul_of_nonneg_right hlo (le_of_lt (two_zpow_pos _))
    have h2 := nearestEven_mono _ _ (by positivity) h1
    rw [nearestEven_two_pow] at h2
    have h3 : ((2 ^ 52 : ℕ) : ℚ) ≤ (nearestEven (q * (2 : ℚ) ^ (52 - e)) : ℚ) := by
      exact_mod_cast h2
    have h4 : (2 : ℚ) ^ e = ((2 ^ 52 : ℕ) : ℚ) * (2 : ℚ) ^ (e - 52) := by
      have h5 : ((2 ^ 52 : ℕ) : ℚ) = (2 : ℚ) ^ (52 : ℤ) := by norm_num
      rw [h5, ← zpow_add₀ (by norm_num : (2 : ℚ) ≠ 0)]
      congr 1
      ring
    rw [heq, h4]
    exact mul_le_mul_of_nonneg_right h3 (le_of_lt (two_zpow_pos _))
  · have h1 : q * (2 : ℚ) ^ (52 - e) ≤ (2 : ℚ) ^ (53 : ℕ) := by
      have : (2 : ℚ) ^ (53 : ℕ) = (2 : ℚ) ^ (e + 1) * (2 : ℚ) ^ (52 - e) := by
        rw [← zpow_add₀ (by norm_num : (2 : ℚ) ≠ 0), ← zpow_natCast]
        congr 1
        ring
      rw [this]
      exact mul_le_mul_of_nonneg_right (le_of_lt hhi) (le_of_lt (two_zpow_pos _))
    have h2 := nearestEven_mono _ _
      (mul_nonneg (le_of_lt hq) (le_of_lt (two_zpow_pos _))) h1
    rw [nearestEven_two_pow] at h2
    have h3 : (nearestEven (q * (2 : ℚ) ^ (52 - e)) : ℚ) ≤ ((2 ^ 53 : ℕ) : ℚ) := by
      exact_mod_cast h2
    have h4 : (2 : ℚ) ^ (e + 1) = ((2 ^ 53 : ℕ) : ℚ) * (2 : ℚ) ^ (e - 52) := by
      have h5 : ((2 ^ 53 : ℕ) : ℚ) = (2 : ℚ) ^ (53 : ℤ) := by norm_num
      rw [h5, ← zpow_add₀ (by norm_num : (2 : ℚ) ≠ 0)]
      congr 1
      ring
    rw [heq, h4]
    exact mul_le_mul_of_nonneg_right h3 (le_of_lt (two_zpow_pos _))

theorem f64Round_pos_mono (q r : ℚ) (hq : 0 < q) (h : q ≤ r) : f64Round q ≤ f64Round r := by
  obtain ⟨e, hlo, hhi, heq, -, hub⟩ := f64Round_bracket q hq
  obtain ⟨e1, hlo1, hhi1, heq1, hlb1, -⟩ := f64Round_bracket r (lt_of_lt_of_le hq h)
  have hee : e < e1 + 1 := by
    have : (2 : ℚ) ^ e < (2 : ℚ) ^ (e1 + 1) := lt_of_le_of_lt (le_trans hlo h) hhi1
    exact (zpow_lt_zpow_iff_right₀ (by norm_num : (1 : ℚ) < 2)).mp this
  rcases eq_or_lt_of_le (Int.lt_add_one_iff.mp hee) with h1 | h1
  · subst h1
    rw [heq, heq1]
    apply mul_le_mul_of_nonneg_right _ (le_of_lt (two_zpow_pos _))
    have := nearestEven_mono (q * (2 : ℚ) ^ (52 - e)) (r * (2 : ℚ) ^ (52 - e))
      (mul_nonneg (le_of_lt hq) (le_of_lt (two_zpow_pos _)))
      (mul_le_mul_of_nonneg_right h (le_of_lt (two_zpow_pos _)))
    exact_mod_cast this
  · have h2 : (2 : ℚ) ^ (e + 1) ≤ (2 : ℚ) ^ e1 :=
      zpow_le_zpow_right₀ (by norm_num) (by omega)
    exact le_trans hub (le_trans h2 hlb1)

theorem f64Round_zero : f64Round 0 = 0 := by
  simp [f64Round]

theorem f64Round_neg (q : ℚ) : f64Round (-q) = -f64Round q := by
  by_cases h0 : q = 0
  · subst h0
    simp [f64Round_zero]
  · unfold f64Round
    rw [if_neg h0, if_neg (neg_ne_zero.mpr h0)]
    simp only [Rat.num_neg_eq_neg_num, Int.natAbs_neg, Rat.neg_den, Left.neg_neg_iff]
    rcases lt_or_gt_of_ne h0 with h | h
    · rw [if_neg (not_lt.mpr (le_of_lt h)), if_pos h]
      ring
    · rw [if_pos h, if_neg (not_lt.mpr (le_of_lt h))]
      ring

theorem f64Round_pos_of_pos (q : ℚ) (hq : 0 < q) : 0 < f64Round q := by
  obtain ⟨e, -, -, -, hlb, -⟩ := f64Round_bracket q hq
  exact lt_of_lt_of_le (two_zpow_pos e) hlb

/-- Rounding to binary64 is monotone. -/
theorem f64Round_mono (q r : ℚ) (h : q ≤ r) : f64Round q ≤ f64Round r := by
  rcases lt_trichotomy q 0 with hq | hq | hq
  · rcases lt_trichotomy r 0 with hr | hr | hr
    · have := f64Round_pos_mono (-r) (-q) (by linarith) (by linarith)
      rw [f64Round_neg, f64Round_neg] at this
      linarith
    · subst hr
      have := f64Round_pos_of_pos (-q) (by linarith)
      rw [f64Round_neg] at this
      rw [f64Round_zero]
      linarith
    · have h1 := f64Round_pos_of_pos (-q) (by linarith)
      rw [f64Round_neg] at h1
      have h2 := f64Round_pos_of_pos r hr
      linarith
  · subst hq
    rcases eq_or_lt_of_le h with hr | hr
    · rw [← hr]
    · rw [f64Round_zero]
      exact le_of_lt (f64Round_pos_of_pos r hr)
  · exact f64Round_pos_mono q r hq h

theorem f64Round_nonpos (q : ℚ) (h : q ≤ 0) : f64Round q ≤ 0 := by
  have := f64Round_mono q 0 h
  rwa [f64Round_zero] at this

theorem f64Round_billion : f64Round 1000000000 = 1000000000 := by decide!

/-- A played duration below 100 ms converts to a float64 number of seconds below the
float64 constant `0.1`. -/
theorem Seconds_lt_tenth (d : Int) (h : d < 100000000) : Seconds d < f64Tenth := by
  unfold Seconds f64Add f64Div f64OfInt
  simp only []
  rw [f64Round_billion]
  by_cases h0 : 0 ≤ d
  · rw [Int.tdiv_eq_zero_of_lt h0 (by omega), Int.tmod_eq_of_lt h0 (by omega)]
    have h1 : f64Round (d : ℚ) ≤ f64Round 99999999 :=
      f64Round_mono _ _ (by exact_mod_cast (show d ≤ 99999999 by omega))
    have h2 : f64Round (f64Round (d : ℚ) / 1000000000) ≤
        f64Round (f64Round 99999999 / 1000000000) :=
      f64Round_mono _ _ (div_le_div_of_nonneg_right h1 (by norm_num))
    have h3 : f64Round (((0 : ℤ) : ℚ)) = 0 := by
      rw [Int.cast_zero, f64Round_zero]
    rw [h3]
    have h4 := f64Round_mono _ _ (add_le_add_left h2 0)
    have h5 : f64Round (0 + f64Round (f64Round 99999999 / 1000000000)) < f64Tenth := by
      decide!
    exact lt_of_le_of_lt h4 h5
  · have hs : Int.tdiv d 1000000000 = -((-d) / 1000000000) := by
      have := Int.neg_tdiv (-d) 1000000000
      rw [neg_neg] at this
      rw [this, Int.tdiv_eq_ediv (by omega) (by norm_num)]
    have hm : Int.tmod d 1000000000 = d + 1000000000 * ((-d) / 1000000000) := by
      rw [Int.tmod_def, hs]
      ring
    have hs0 : Int.tdiv d 1000000000 ≤ 0 := by
      rw [hs]
      omega
    have hm0 : Int.tmod d 1000000000 ≤ 0 := by
      rw [hm]
      omega
    have h1 : f64Round ((Int.tdiv d 1000000000 : ℤ) : ℚ) ≤ 0 :=
      f64Round_nonpos _ (by exact_mod_cast hs0)
    have h2 : f64Round ((Int.tmod d 1000000000 : ℤ) : ℚ) ≤ 0 :=
      f64Round_nonpos _ (by exact_mod_cast hm0)
    have h3 : f64Round (f64Round ((Int.tmod d 1000000000 : ℤ) : ℚ) / 1000000000) ≤ 0 :=
      f64Round_nonpos _ (div_nonpos_of_nonpos_of_nonneg h2 (by norm_num))
    have h4 := f64Round_nonpos _ (add_nonpos h1 h3)
    have h5 : (0 : ℚ) < f64Tenth := by decide!
    exact lt_of_le_of_lt h4 h5

theorem tenth_lt_f64Tenth : (1 / 10 : ℚ) < f64Tenth := by decide!

theorem index_eq_getElem {α : Type} (s : List α) (i : Int) (h0 : 0 ≤ i)
    (h1 : i < s.length) : ∃ x, index s i = some x := by
  have h2 : i.toNat < s.length := by omega
  exact ⟨s[i.toNat], by simp [index, h0, h2]⟩

theorem log_ne_append_singleton (l : List Event) (e : Event) : l ≠ l ++ [e] := by
  intro h
  have := congrArg List.length h
  simp at this

theorem checkScrobble_of_due (pm : PlaybackManager W) (playDur : Int) (song : Ptr)
    (hdue : scrobbleDue pm playDur)
    (hsong : index pm.playQueue pm.nowPlayingIdx = some song) :
    checkScrobble pm playDur = some (scrobbled pm song) := by
  obtain ⟨hen, hne, h0, hs, hd, hthr⟩ := hdue
  have hlen : ¬ pm.playQueue.length = 0 := by
    simpa [List.length_eq_zero] using hne
  unfold checkScrobble
  rw [if_neg (by simp [hen, hlen, not_lt.mpr h0])]
  rw [if_neg (by simp [not_lt.mpr hs, not_lt.mpr hd])]
  simp only []
  rw [if_pos (by simpa [playedPercent] using hthr)]
  simp [hsong, scrobbled]

theorem checkScrobble_of_not_due (pm : PlaybackManager W) (playDur : Int)
    (hdue : ¬ scrobbleDue pm playDur) : checkScrobble pm playDur = some pm := by
  unfold checkScrobble
  by_cases h1 : pm.scrobbleCfg.Enabled = false ∨ pm.playQueue.length = 0 ∨
      pm.nowPlayingIdx < 0
  · rw [if_pos h1]
  · rw [if_neg h1]
    by_cases h2 : Seconds playDur < f64Tenth ∨ pm.curTrackTime < f64Tenth
    · rw [if_pos h2]
    · rw [if_neg h2]
      simp only []
      rw [if_neg]
      intro h3
      apply hdue
      simp only [not_or, not_lt] at h1 h2
      refine ⟨by simpa using h1.1, ?_, h1.2.2, h2.1, h2.2, ?_⟩
      · intro h
        exact h1.2.1 (by simp [h])
      · simpa [playedPercent] using h3

theorem recordsScrobble_scrobbled (pm : PlaybackManager W) (song : Ptr) :
    RecordsScrobble pm (scrobbled pm song) song := by
  simp only [RecordsScrobble, scrobbled, Function.update_same, and_true, true_and]
  intro p hp
  exact Function.update_noteq hp _ _

theorem wrapInt64_of_range (x : Int) (h1 : -9223372036854775808 ≤ x)
    (h2 : x ≤ 9223372036854775807) : wrapInt64 x = x := by
  unfold wrapInt64
  omega

/-- For a now-playing index within the queue bounds, `checkScrobble` records a
scrobble of the now-playing entry exactly when the guard `scrobbleDue` holds,
that is, when the program's own float64 comparisons succeed; otherwise it
returns the state unchanged. -/
theorem checkScrobble_decides (pm : PlaybackManager W) (playDur : Int)
    (hidx : 0 ≤ pm.nowPlayingIdx ∧ pm.nowPlayingIdx < pm.playQueue.length) :
    (scrobbleDue pm playDur ↔
      ∃ song pm1, index pm.playQueue pm.nowPlayingIdx = some song ∧
        checkScrobble pm playDur = some pm1 ∧ RecordsScrobble pm pm1 song) ∧
    (¬ scrobbleDue pm playDur → checkScrobble pm playDur = some pm) := by
  obtain ⟨song, hsong⟩ := index_eq_getElem pm.playQueue pm.nowPlayingIdx hidx.1 hidx.2
  refine ⟨⟨fun hdue => ⟨song, _, hsong, checkScrobble_of_due pm playDur song hdue hsong,
    recordsScrobble_scrobbled pm song⟩, ?_⟩, checkScrobble_of_not_due pm playDur⟩
  rintro ⟨song1, pm1, -, h1, h2⟩
  by_contra hdue
  rw [checkScrobble_of_not_due pm playDur hdue] at h1
  cases h1
  exact absurd h2.1 (log_ne_append_singleton _ _)

/-- C3: whatever the configuration (enabled flag, percent and time thresholds,
including the thresholds 0) and the state, if the played duration is below
0.1 s (100 000 000 ns) or the tracked track duration is below 0.1 s then
`checkScrobble` returns the state as it was: nothing is submitted, no play
count and no pending marker changes. -/
theorem checkScrobble_below_tenth (pm : PlaybackManager W) (playDur : Int)
    (h : playDur < 100000000 ∨ pm.curTrackTime < 1 / 10) :
    checkScrobble pm playDur = some pm := by
  apply checkScrobble_of_not_due
  rintro ⟨-, -, -, hs, hd, -⟩
  rcases h with h | h
  · exact absurd (Seconds_lt_tenth playDur h) (not_lt.mpr hs)
  · exact absurd (lt_trans h tenth_lt_f64Tenth) (not_lt.mpr hd)

/-- Witness for C3: thresholds 0 and 0 with scrobbling enabled, 99 999 999 ns played
of a 200 s track. -/
theorem checkScrobble_below_tenth_witness :
    ((99999999 : Int) < 100000000 ∨ (sampleManager ⟨true, 0, 0⟩ 200).curTrackTime < 1 / 10) ∧
    checkScrobble (sampleManager ⟨true, 0, 0⟩ 200) 99999999 =
      some (sampleManager ⟨true, 0, 0⟩ 200) :=
  ⟨Or.inl (by decide),
    checkScrobble_below_tenth (sampleManager ⟨true, 0, 0⟩ 200) 99999999 (Or.inl (by decide))⟩

/-- C4 (evaluation at the failing input): with callbacks disabled before a load,
play, pause, stop sequence, the playing observer and the paused/stopped
observer are still invoked, once each (by the Playing and the Paused event),
while the manager state does record the suppression. -/
theorem disabled_callbacks_still_invoked :
    (run quietEnv (DisableCallbacks (observedManager ⟨true, -1, 50⟩))
        [Op.loadTracks [sampleTrack "a" 200, sampleTrack "b" 100] false false,
          Op.playing, Op.paused, Op.stopped]).map
      (fun pm => (pm.callbacksDisabled, observerCalls pm.log)) =
      some (true, [Event.playing 4, Event.paused 3]) ∧
    observerCalls (onPlaying quietEnv (DisableCallbacks (observedManager ⟨true, -1, 50⟩))).log =
      [Event.playing 4] ∧
    observerCalls (onPaused quietEnv (DisableCallbacks (observedManager ⟨true, -1, 50⟩))).log =
      [Event.paused 3] ∧
    (onStopped quietEnv (DisableCallbacks (observedManager ⟨true, -1, 50⟩))).map
      (fun pm => observerCalls pm.log) = some [] := by
  decide!


theorem checkScrobble_polls (pm pm1 : PlaybackManager W) (playDur : Int)
    (h : checkScrobble pm playDur = some pm1) : polls pm1 = polls pm := by
  by_cases hdue : scrobbleDue pm playDur
  · cases hsong : index pm.playQueue pm.nowPlayingIdx with
    | none =>
      unfold checkScrobble at h
      obtain ⟨hen, hne, h0, hs, hd, hthr⟩ := hdue
      have hlen : ¬ pm.playQueue.length = 0 := by
        simpa [List.length_eq_zero] using hne
      rw [if_neg (by simp [hen, hlen, not_lt.mpr h0])] at h
      rw [if_neg (by simp [not_lt.mpr hs, not_lt.mpr hd])] at h
      simp only [] at h
      rw [if_pos (by simpa [playedPercent] using hthr)] at h
      simp [hsong] at h
    | some song =>
      rw [checkScrobble_of_due pm playDur song hdue hsong] at h
      cases h
      rfl
  · rw [checkScrobble_of_not_due pm playDur hdue] at h
    cases h
    rfl

theorem sendNowPlayingScrobble_polls (pm pm1 : PlaybackManager W)
    (h : sendNowPlayingScrobble pm = some pm1) : polls pm1 = polls pm := by
  unfold sendNowPlayingScrobble at h
  split at h
  · cases h
    rfl
  · split at h
    · cases h
    · cases h
      rfl

theorem callSongChange_polls (E : Env W) (cbs : List Nat) (pm pm1 : PlaybackManager W)
    (h : callSongChange E cbs pm = some pm1) : polls pm1 = polls pm := by
  induction cbs generalizing pm with
  | nil =>
    simp only [callSongChange] at h
    cases h
    rfl
  | cons cb cbs ih =>
    simp only [callSongChange] at h
    split at h
    · cases h
    · exact (ih _ h).trans rfl

theorem invokeOnSongChangeCallbacks_polls (E : Env W) (pm pm1 : PlaybackManager W)
    (h : invokeOnSongChangeCallbacks E pm = some pm1) : polls pm1 = polls pm := by
  unfold invokeOnSongChangeCallbacks at h
  split at h
  · cases h
    rfl
  · simp only [Option.map_eq_some'] at h
    obtain ⟨pm2, h2, rfl⟩ := h
    exact (callSongChange_polls E _ pm pm2 h2 ▸ rfl)

theorem doUpdateTimePos_polls (E : Env W) (pm : PlaybackManager W) :
    polls (doUpdateTimePos E pm) = polls pm := by
  unfold doUpdateTimePos
  split <;> rfl

theorem loadLoop_polls (E : Env W) (tracks : List Child) (nums : List Nat)
    (pm : PlaybackManager W) (r : LoadResult W)
    (h : loadLoop E tracks nums pm = some r) : polls r.pm = polls pm := by
  induction nums generalizing pm with
  | nil =>
    simp only [loadLoop] at h
    cases h
    rfl
  | cons i nums ih =>
    simp only [loadLoop] at h
    split at h
    · cases h
    · split at h
      · cases h
        rfl
      · exact (ih _ h).trans rfl

theorem LoadTracks_polls (E : Env W) (pm : PlaybackManager W) (tracks : List Child)
    (a s : Bool) (r : LoadResult W)
    (h : LoadTracks E pm tracks a s = some r) : polls r.pm = polls pm := by
  unfold LoadTracks at h
  have := loadLoop_polls E tracks _ _ r h
  rw [this]
  split <;> rfl

theorem RemoveTracksFromQueue_polls (E : Env W) (pm pm1 : PlaybackManager W)
    (idxs : List Int) (h : RemoveTracksFromQueue E pm idxs = some pm1) :
    polls pm1 = polls pm := by
  unfold RemoveTracksFromQueue at h
  split at h
  · cases h
  · exact (invokeOnSongChangeCallbacks_polls E _ pm1 h).trans rfl

theorem StopAndClearPlayQueue_polls (E : Env W) (pm : PlaybackManager W) :
    polls (StopAndClearPlayQueue E pm) = polls pm := by
  unfold StopAndClearPlayQueue
  exact (doUpdateTimePos_polls E _).trans rfl

theorem onTrackChange_polls (E : Env W) (pm pm1 : PlaybackManager W) (n : Int)
    (h : onTrackChange E pm n = some pm1) : polls pm1 = polls pm := by
  unfold onTrackChange at h
  split at h
  · cases h
    rfl
  · simp only [Option.bind_eq_some] at h
    obtain ⟨p1, h1, song, -, p6, h6, h7⟩ := h
    have e1 := checkScrobble_polls _ _ _ h1
    have e6 := invokeOnSongChangeCallbacks_polls E _ _ h6
    have e7 := sendNowPlayingScrobble_polls _ _ h7
    rw [e7, doUpdateTimePos_polls, e6, ← e1]
    split <;> rfl

theorem stopPollTimePos_polls (pm : PlaybackManager W) :
    polls (stopPollTimePos pm) = stopPolls (polls pm) := by
  unfold stopPollTimePos polls
  cases h : pm.cancelPollPos <;> simp [stopPolls, h]

theorem onStopped_polls (E : Env W) (pm pm1 : PlaybackManager W)
    (h : onStopped E pm = some pm1) :
    polls pm1 = stopPolls (polls pm) := by
  unfold onStopped at h
  simp only [Option.bind_eq_some] at h
  obtain ⟨p2, h2, h3⟩ := h
  have e2 : polls p2 = polls pm := (checkScrobble_polls _ _ _ h2).trans rfl
  have e4 : polls (doUpdateTimePos E (stopPollTimePos
      { p2 with playTimeStopwatch := p2.playTimeStopwatch.Reset })) =
      stopPolls (polls pm) := by
    rw [doUpdateTimePos_polls, stopPollTimePos_polls, ← e2]
    rfl
  split at h3
  · cases h3
    exact e4
  · rw [invokeOnSongChangeCallbacks_polls E _ _ h3]
    exact e4

theorem onPaused_polls (E : Env W) (pm : PlaybackManager W) :
    polls (onPaused E pm) = stopPolls (polls pm) := by
  unfold onPaused callPaused
  exact (stopPollTimePos_polls _).trans rfl

/-- Under the engine protocol, the polling bookkeeping stays in step with the
protocol's flag: one active loop, the stored one, or none. -/
theorem run_polls (E : Env W) (ops : List (Op W)) (active : Bool)
    (pm pm1 : PlaybackManager W)
    (hinv : if active then ∃ k, polls pm = ([k], some k) else polls pm = ([], none))
    (hproto : pollProtocol active ops = true) (hrun : run E pm ops = some pm1) :
    if loopActiveAfter active ops then ∃ k, polls pm1 = ([k], some k)
    else polls pm1 = ([], none) := by
  induction ops generalizing active pm with
  | nil =>
    simp only [run] at hrun
    cases hrun
    simpa [loopActiveAfter] using hinv
  | cons op ops ih =>
    simp only [run, Option.bind_eq_some] at hrun
    obtain ⟨p1, hstep, hrest⟩ := hrun
    cases op with
    | playing =>
      simp only [pollProtocol, Bool.and_eq_true, Bool.not_eq_true'] at hproto
      simp only [loopActiveAfter]
      refine ih true p1 ?_ hproto.2 hrest
      simp only [step] at hstep
      cases hstep
      rw [hproto.1] at hinv
      simp only [Bool.false_eq_true, if_false, polls, Prod.mk.injEq] at hinv
      exact ⟨pm.pollsStarted, by
        simp [polls, onPlaying, callPlaying, startPollTimePos, hinv.1]⟩
    | paused =>
      simp only [pollProtocol] at hproto
      simp only [loopActiveAfter]
      refine ih false p1 ?_ hproto hrest
      simp only [step] at hstep
      cases hstep
      rw [onPaused_polls]
      cases active with
      | true =>
        obtain ⟨k, hk⟩ := hinv
        simp [hk, stopPolls]
      | false =>
        simp only [Bool.false_eq_true, if_false] at hinv
        simp [hinv, stopPolls]
    | stopped =>
      simp only [pollProtocol] at hproto
      simp only [loopActiveAfter]
      refine ih false p1 ?_ hproto hrest
      simp only [step] at hstep
      rw [onStopped_polls E pm p1 hstep]
      cases active with
      | true =>
        obtain ⟨k, hk⟩ := hinv
        simp [hk, stopPolls]
      | false =>
        simp only [Bool.false_eq_true, if_false] at hinv
        simp [hinv, stopPolls]
    | loadTracks tracks a s =>
      simp only [pollProtocol] at hproto
      simp only [loopActiveAfter]
      refine ih active p1 ?_ hproto hrest
      simp only [step, Option.map_eq_some'] at hstep
      obtain ⟨r, hr, rfl⟩ := hstep
      rw [LoadTracks_polls E pm tracks a s r hr]
      exact hinv
    | removeTracks idxs =>
      simp only [pollProtocol] at hproto
      simp only [loopActiveAfter]
      refine ih active p1 ?_ hproto hrest
      simp only [step] at hstep
      rw [RemoveTracksFromQueue_polls E pm p1 idxs hstep]
      exact hinv
    | stopAndClear =>
      simp only [pollProtocol] at hproto
      simp only [loopActiveAfter]
      refine ih active p1 ?_ hproto hrest
      simp only [step] at hstep
      cases hstep
      rw [StopAndClearPlayQueue_polls]
      exact hinv
    | trackChanged n =>
      simp only [pollProtocol] at hproto
      simp only [loopActiveAfter]
      refine ih active p1 ?_ hproto hrest
      simp only [step] at hstep
      rw [onTrackChange_polls E pm p1 n hstep]
      exact hinv
    | seek =>
      simp only [pollProtocol] at hproto
      simp only [loopActiveAfter]
      refine ih active p1 ?_ hproto hrest
      simp only [step] at hstep
      cases hstep
      simp only [onSeek]
      rw [doUpdateTimePos_polls]
      exact hinv
    | world w =>
      simp only [pollProtocol] at hproto
      simp only [loopActiveAfter]
      refine ih active p1 ?_ hproto hrest
      simp only [step] at hstep
      cases hstep
      exact hinv

theorem loopActiveAfter_append_playing (pre : List (Op W)) (a : Bool) :
    loopActiveAfter a (pre ++ [Op.playing]) = true := by
  induction pre generalizing a with
  | nil => rfl
  | cons op pre ih => cases op <;> simp [loopActiveAfter, ih]

theorem loopActiveAfter_append_paused (pre : List (Op W)) (a : Bool) :
    loopActiveAfter a (pre ++ [Op.paused]) = false := by
  induction pre generalizing a with
  | nil => rfl
  | cons op pre ih => cases op <;> simp [loopActiveAfter, ih]

theorem loopActiveAfter_append_stopped (pre : List (Op W)) (a : Bool) :
    loopActiveAfter a (pre ++ [Op.stopped]) = false := by
  induction pre generalizing a with
  | nil => rfl
  | cons op pre ih => cases op <;> simp [loopActiveAfter, ih]

/-- C5 (counterexample): two Playing events in succession leave two active polling
loops, and a following Paused event cancels only the second one, so that one
loop is still active after it. -/
theorem double_playing_two_loops :
    (run quietEnv (NewPlaybackManager () ⟨true, -1, 50⟩) [Op.playing, Op.playing]).map
      (fun pm => pm.activePolls) = some [0, 1] ∧
    (run quietEnv (NewPlaybackManager () ⟨true, -1, 50⟩)
      [Op.playing, Op.playing, Op.paused]).map (fun pm => pm.activePolls) = some [0] := by
  decide

/-- C5 (amended): starting with no active polling loop, for every sequence of calls
in which a Playing event arrives only when no loop is active (two Playing
events are separated by a Paused or Stopped event), the number of active
polling loops never exceeds one; after a Playing event exactly one loop is
active and after a Paused or Stopped event none is. -/
theorem polling_loops_at_most_one (E : Env W) (pm pm1 : PlaybackManager W)
    (ops : List (Op W)) (h0 : pm.activePolls = [] ∧ pm.cancelPollPos = none)
    (hproto : pollProtocol false ops = true) (hrun : run E pm ops = some pm1) :
    pm1.activePolls.length ≤ 1 ∧
    (∀ pre, ops = pre ++ [Op.playing] → pm1.activePolls.length = 1) ∧
    (∀ pre, ops = pre ++ [Op.paused] → pm1.activePolls.length = 0) ∧
    (∀ pre, ops = pre ++ [Op.stopped] → pm1.activePolls.length = 0) := by
  have hinv : if false = true then ∃ k, polls pm = ([k], some k)
      else polls pm = ([], none) := by
    simp [polls, h0.1, h0.2]
  have key := run_polls E ops false pm pm1 hinv hproto hrun
  refine ⟨?_, ?_, ?_, ?_⟩
  · split at key
    · obtain ⟨k, hk⟩ := key
      have : pm1.activePolls = [k] := congrArg Prod.fst hk
      simp [this]
    · have : pm1.activePolls = [] := congrArg Prod.fst key
      simp [this]
  · rintro pre rfl
    rw [loopActiveAfter_append_playing] at key
    obtain ⟨k, hk⟩ := key
    have : pm1.activePolls = [k] := congrArg Prod.fst hk
    simp [this]
  · rintro pre rfl
    rw [loopActiveAfter_append_paused] at key
    have : pm1.activePolls = [] := congrArg Prod.fst key
    simp [this]
  · rintro pre rfl
    rw [loopActiveAfter_append_stopped] at key
    have : pm1.activePolls = [] := congrArg Prod.fst key
    simp [this]

/-- Witness for C5 (amended): Playing, Paused, Playing, Stopped, Playing on a fresh
manager. -/
theorem polling_loops_at_most_one_witness :
    ∃ pm1, run quietEnv (NewPlaybackManager () ⟨true, -1, 50⟩) alternatingOps = some pm1 ∧
      pm1.activePolls = [2] ∧
      (pm1.activePolls.length ≤ 1 ∧
      (∀ pre, alternatingOps = pre ++ [Op.playing] → pm1.activePolls.length = 1) ∧
      (∀ pre, alternatingOps = pre ++ [Op.paused] → pm1.activePolls.length = 0) ∧
      (∀ pre, alternatingOps = pre ++ [Op.stopped] → pm1.activePolls.length = 0)) :=
  ⟨_, rfl, by decide,
    polling_loops_at_most_one quietEnv (NewPlaybackManager () ⟨true, -1, 50⟩) _
      alternatingOps (by decide) (by decide) rfl⟩


theorem keptEntriesFrom_nil (i : Nat) (idxs : List Int) (oks : List Bool) :
    keptEntriesFrom i [] idxs oks = [] := rfl

theorem keptEntriesFrom_cons_keep (i : Nat) (tr : Ptr) (q : List Ptr) (idxs : List Int)
    (oks : List Bool) (h : ((i : Int), true) ∉ idxs.zip oks) :
    keptEntriesFrom i (tr :: q) idxs oks = tr :: keptEntriesFrom (i + 1) q idxs oks := by
  simp [keptEntriesFrom, List.enumFrom_cons, List.filter_cons, h]

theorem keptEntriesFrom_cons_drop (i : Nat) (tr : Ptr) (q : List Ptr) (idxs : List Int)
    (oks : List Bool) (h : ((i : Int), true) ∈ idxs.zip oks) :
    keptEntriesFrom i (tr :: q) idxs oks = keptEntriesFrom (i + 1) q idxs oks := by
  simp [keptEntriesFrom, List.enumFrom_cons, List.filter_cons, h]

theorem keptEntriesFrom_skip_head (i : Nat) (q : List Ptr) (j : Int) (ok : Bool)
    (idxs : List Int) (oks : List Bool) (hj : j < (i : Int)) :
    keptEntriesFrom i q (j :: idxs) (ok :: oks) = keptEntriesFrom i q idxs oks := by
  unfold keptEntriesFrom
  congr 1
  apply List.filter_congr
  intro p hp
  have hle := List.le_fst_of_mem_enumFrom hp
  have hne : ¬ (p.1 : Int) = j := by omega
  simp [List.zip_cons_cons, hne]

theorem not_mem_zip_of_lt (i : Int) (b : Bool) (idxs : List Int) (oks : List Bool)
    (h : ∀ j ∈ idxs, i < j) : (i, b) ∉ idxs.zip oks := by
  intro hmem
  have := (List.of_mem_zip hmem).1
  exact absurd (h i this) (lt_irrefl _)

theorem removeStep_miss (E : Env W) (idxs : List Int) (st : RemoveState W) (i : Nat)
    (tr : Ptr) (h : idxs[st.rmIdx]? ≠ some (i : Int)) :
    removeStep E idxs st i tr = { st with newQueue := st.newQueue ++ [tr] } := by
  unfold removeStep
  rw [if_neg]
  exact fun hc => h hc.2

theorem removeStep_accept (E : Env W) (idxs : List Int) (st : RemoveState W) (i : Nat)
    (tr : Ptr) (h : idxs[st.rmIdx]? = some (i : Int))
    (hok : (E.playerRemoveTrackAt st.world ((i : Int) - (st.rmCount : Int))).2 = none) :
    removeStep E idxs st i tr =
      { st with
        world := (E.playerRemoveTrackAt st.world ((i : Int) - (st.rmCount : Int))).1
        log := st.log ++ [Event.playerRemoveTrackAt ((i : Int) - (st.rmCount : Int)) true]
        rmIdx := st.rmIdx + 1
        rmCount := st.rmCount + 1 } := by
  have hlt : st.rmIdx < idxs.length := by
    by_contra hc
    rw [List.getElem?_eq_none (by omega)] at h
    cases h
  unfold removeStep
  rw [if_pos ⟨hlt, h⟩]
  simp only [hok]

theorem removeStep_reject (E : Env W) (idxs : List Int) (st : RemoveState W) (i : Nat)
    (tr : Ptr) (h : idxs[st.rmIdx]? = some (i : Int)) (e : String)
    (hok : (E.playerRemoveTrackAt st.world ((i : Int) - (st.rmCount : Int))).2 = some e) :
    removeStep E idxs st i tr =
      { st with
        world := (E.playerRemoveTrackAt st.world ((i : Int) - (st.rmCount : Int))).1
        log := st.log ++ [Event.playerRemoveTrackAt ((i : Int) - (st.rmCount : Int)) false]
        rmIdx := st.rmIdx + 1
        newQueue := st.newQueue ++ [tr] } := by
  have hlt : st.rmIdx < idxs.length := by
    by_contra hc
    rw [List.getElem?_eq_none (by omega)] at h
    cases h
  unfold removeStep
  rw [if_pos ⟨hlt, h⟩]
  simp only [hok]

theorem drop_cons_getElem? {α : Type} (l : List α) (n : Nat) (a : α) (t : List α)
    (h : l.drop n = a :: t) : l[n]? = some a ∧ l.drop (n + 1) = t := by
  have hlt : n < l.length := by
    by_contra hc
    rw [List.drop_eq_nil_iff.mpr (by omega)] at h
    cases h
  rw [List.drop_eq_getElem_cons hlt] at h
  injection h with h1 h2
  exact ⟨by simp [List.getElem?_eq_getElem hlt, h1], h2⟩

/-- The loop of `RemoveTracksFromQueue`, for strictly ascending in-range indices:
one removal is issued per listed position, at the position minus the
committed removals, and the new queue keeps what was not removed. -/
theorem removeLoop_spec (E : Env W) (idxs : List Int) (rest : List Ptr) :
    ∀ (i : Nat) (st : RemoveState W) (rem : List Int),
      idxs.drop st.rmIdx = rem → rem.Pairwise (· < ·) →
      (∀ j ∈ rem, (i : Int) ≤ j) → (∀ j ∈ rem, j < (i : Int) + rest.length) →
      ∃ oks : List Bool, oks.length = rem.length ∧
        (removeLoop E idxs rest i st).log = st.log ++ removalEvents rem oks st.rmCount ∧
        (removeLoop E idxs rest i st).newQueue =
          st.newQueue ++ keptEntriesFrom i rest rem oks ∧
        (keptEntriesFrom i rest rem oks).length + oks.count true = rest.length := by
  induction rest with
  | nil =>
    intro i st rem _ _ hlo hhi
    have hrem : rem = [] := by
      cases rem with
      | nil => rfl
      | cons j rem1 =>
        have h1 := hlo j (List.mem_cons_self _ _)
        have h2 := hhi j (List.mem_cons_self _ _)
        simp at h2
        omega
    subst hrem
    exact ⟨[], rfl, by simp [removeLoop, removalEvents], by simp [removeLoop, keptEntriesFrom],
      by simp [keptEntriesFrom]⟩
  | cons tr rest ih =>
    intro i st rem hdrop hsorted hlo hhi
    simp only [removeLoop]
    cases rem with
    | nil =>
      have hnone : idxs[st.rmIdx]? = none :=
        List.getElem?_eq_none (List.drop_eq_nil_iff.mp hdrop)
      rw [removeStep_miss E idxs st i tr (by simp [hnone])]
      obtain ⟨oks, hlen, hlog, hq, hcount⟩ :=
        ih (i + 1) { st with newQueue := st.newQueue ++ [tr] } []
          hdrop List.Pairwise.nil (by simp) (by simp)
      have hk := keptEntriesFrom_cons_keep i tr rest [] oks (by simp)
      refine ⟨oks, hlen, hlog, ?_, ?_⟩
      · rw [hq, hk]
        simp
      · rw [hk, List.length_cons, List.length_cons]
        omega
    | cons j rem1 =>
      obtain ⟨hget, hdrop1⟩ := drop_cons_getElem? idxs st.rmIdx j rem1 hdrop
      have hgt : ∀ j1 ∈ rem1, j < j1 := (List.pairwise_cons.mp hsorted).1
      have hsorted1 : rem1.Pairwise (· < ·) := (List.pairwise_cons.mp hsorted).2
      have hj_lo := hlo j (List.mem_cons_self _ _)
      have hhi1 : ∀ j1 ∈ rem1, j1 < ((i + 1 : Nat) : Int) + rest.length := by
        intro j1 hj1
        have := hhi j1 (List.mem_cons_of_mem _ hj1)
        simp at this
        push_cast
        omega
      by_cases hji : j = (i : Int)
      · subst hji
        have hlo1 : ∀ j1 ∈ rem1, ((i + 1 : Nat) : Int) ≤ j1 := by
          intro j1 hj1
          have := hgt j1 hj1
          push_cast
          omega
        cases hok : (E.playerRemoveTrackAt st.world ((i : Int) - (st.rmCount : Int))).2 with
        | none =>
          rw [removeStep_accept E idxs st i tr hget hok]
          obtain ⟨oks, hlen, hlog, hq, hcount⟩ := ih (i + 1)
            { st with
              world := (E.playerRemoveTrackAt st.world ((i : Int) - (st.rmCount : Int))).1
              log := st.log ++ [Event.playerRemoveTrackAt ((i : Int) - (st.rmCount : Int)) true]
              rmIdx := st.rmIdx + 1
              rmCount := st.rmCount + 1 } rem1 hdrop1 hsorted1 hlo1 hhi1
          have hk : keptEntriesFrom i (tr :: rest) ((i : Int) :: rem1) (true :: oks) =
              keptEntriesFrom (i + 1) rest rem1 oks := by
            rw [keptEntriesFrom_cons_drop i tr rest _ _ (by simp),
              keptEntriesFrom_skip_head (i + 1) rest (i : Int) true rem1 oks
                (by push_cast; omega)]
          refine ⟨true :: oks, by simp [hlen], ?_, ?_, ?_⟩
          · rw [hlog]
            simp [removalEvents]
          · rw [hq, hk]
          · rw [hk, List.count_cons_self, List.length_cons]
            omega
        | some e =>
          rw [removeStep_reject E idxs st i tr hget e hok]
          obtain ⟨oks, hlen, hlog, hq, hcount⟩ := ih (i + 1)
            { st with
              world := (E.playerRemoveTrackAt st.world ((i : Int) - (st.rmCount : Int))).1
              log := st.log ++ [Event.playerRemoveTrackAt ((i : Int) - (st.rmCount : Int)) false]
              rmIdx := st.rmIdx + 1
              newQueue := st.newQueue ++ [tr] } rem1 hdrop1 hsorted1 hlo1 hhi1
          have hnot : ((i : Int), true) ∉ ((i : Int) :: rem1).zip (false :: oks) := by
            simp only [List.zip_cons_cons, List.mem_cons, Prod.mk.injEq, not_or]
            exact ⟨by simp, not_mem_zip_of_lt _ _ _ _ hgt⟩
          have hk : keptEntriesFrom i (tr :: rest) ((i : Int) :: rem1) (false :: oks) =
              tr :: keptEntriesFrom (i + 1) rest rem1 oks := by
            rw [keptEntriesFrom_cons_keep i tr rest _ _ hnot,
              keptEntriesFrom_skip_head (i + 1) rest (i : Int) false rem1 oks
                (by push_cast; omega)]
          refine ⟨false :: oks, by simp [hlen], ?_, ?_, ?_⟩
          · rw [hlog]
            simp [removalEvents]
          · rw [hq, hk]
            simp
          · rw [hk, List.count_cons_of_ne (by simp), List.length_cons, List.length_cons]
            omega
      · have hlt : (i : Int) < j := lt_of_le_of_ne hj_lo (Ne.symm hji)
        rw [removeStep_miss E idxs st i tr (by rw [hget]; simpa using hji)]
        have hlo1 : ∀ j1 ∈ j :: rem1, ((i + 1 : Nat) : Int) ≤ j1 := by
          intro j1 hj1
          rcases List.mem_cons.mp hj1 with h | h
          · subst h
            push_cast
            omega
          · have := hgt j1 h
            push_cast
            omega
        have hhi2 : ∀ j1 ∈ j :: rem1, j1 < ((i + 1 : Nat) : Int) + rest.length := by
          intro j1 hj1
          have := hhi j1 hj1
          simp at this
          push_cast
          omega
        obtain ⟨oks, hlen, hlog, hq, hcount⟩ :=
          ih (i + 1) { st with newQueue := st.newQueue ++ [tr] }
            (j :: rem1) hdrop hsorted hlo1 hhi2
        have hnot : ((i : Int), true) ∉ (j :: rem1).zip oks := by
          apply not_mem_zip_of_lt
          intro j1 hj1
          rcases List.mem_cons.mp hj1 with h | h
          · rw [h]
            exact hlt
          · exact lt_trans hlt (hgt j1 h)
        have hk := keptEntriesFrom_cons_keep i tr rest _ _ hnot
        refine ⟨oks, hlen, hlog, ?_, ?_⟩
        · rw [hq, hk]
          simp
        · rw [hk, List.length_cons, List.length_cons]
          omega

theorem ascending_length_le (idxs : List Int) :
    ∀ (lo hi : Int), idxs.Pairwise (· < ·) → (∀ j ∈ idxs, lo ≤ j ∧ j < hi) → lo ≤ hi →
      (idxs.length : Int) ≤ hi - lo := by
  induction idxs with
  | nil =>
    intro lo hi _ _ h
    simp
    omega
  | cons j idxs ih =>
    intro lo hi hs hr _
    have hj := hr j (List.mem_cons_self _ _)
    have hgt : ∀ j1 ∈ idxs, j < j1 := (List.pairwise_cons.mp hs).1
    have := ih (j + 1) hi (List.pairwise_cons.mp hs).2
      (fun j1 h1 => ⟨by have := hgt j1 h1; omega, (hr j1 (List.mem_cons_of_mem _ h1)).2⟩)
      (by omega)
    simp only [List.length_cons]
    push_cast
    omega

theorem removalAnswers_append (l1 l2 : List Event) :
    removalAnswers (l1 ++ l2) = removalAnswers l1 ++ removalAnswers l2 := by
  simp [removalAnswers, List.filterMap_append]

theorem removalAnswers_removalEvents (rem : List Int) :
    ∀ (oks : List Bool) (c : Nat), oks.length = rem.length →
      removalAnswers (removalEvents rem oks c) = oks := by
  induction rem with
  | nil =>
    intro oks c h
    have : oks = [] := List.length_eq_zero.mp (by simpa using h)
    subst this
    rfl
  | cons j rem ih =>
    intro oks c h
    cases oks with
    | nil => simp at h
    | cons ok oks =>
      have h1 : oks.length = rem.length := by simpa using h
      have := ih oks (if ok then c + 1 else c) h1
      simp only [removalEvents]
      simp only [removalAnswers, List.filterMap_cons] at this ⊢
      rw [this]

theorem removalAnswers_songChange (cbs : List Nat) (np ls : Option Ptr) :
    removalAnswers (cbs.map fun cb => Event.songChange cb np ls) = [] := by
  induction cbs with
  | nil => rfl
  | cons cb cbs ih =>
    simp only [removalAnswers, List.map_cons, List.filterMap_cons] at ih ⊢
    exact ih

theorem callSongChange_eq (E : Env W) (cbs : List Nat) (pm : PlaybackManager W)
    (np : Option Ptr) (h : NowPlaying E pm = some np) :
    callSongChange E cbs pm =
      some { pm with log := pm.log ++ cbs.map fun cb => Event.songChange cb np pm.lastScrobbled } := by
  induction cbs generalizing pm with
  | nil => simp [callSongChange]
  | cons cb cbs ih =>
    simp only [callSongChange, h]
    rw [ih _ (by simpa [NowPlaying] using h)]
    simp

theorem callSongChange_cons_none (E : Env W) (cb : Nat) (cbs : List Nat)
    (pm : PlaybackManager W) (h : NowPlaying E pm = none) :
    callSongChange E (cb :: cbs) pm = none := by
  simp [callSongChange, h]

/-- What `invokeOnSongChangeCallbacks` leaves behind when it returns: the same
manager with the song-change invocations appended to the log and, unless
callbacks are disabled, the pending marker cleared. -/
theorem invokeOnSongChangeCallbacks_eq (E : Env W) (pm pm1 : PlaybackManager W)
    (h : invokeOnSongChangeCallbacks E pm = some pm1) :
    ∃ evs, removalAnswers evs = [] ∧ observerCalls evs = evs ∧
      pm1 = { pm with
        log := pm.log ++ evs
        lastScrobbled := if pm.callbacksDisabled then pm.lastScrobbled else none } ∧
      (pm.callbacksDisabled = true → evs = []) := by
  unfold invokeOnSongChangeCallbacks at h
  by_cases hd : pm.callbacksDisabled = true
  · rw [if_pos hd] at h
    cases h
    refine ⟨[], rfl, rfl, ?_, fun _ => rfl⟩
    rw [if_pos hd, List.append_nil]
  · rw [if_neg hd] at h
    simp only [Option.map_eq_some'] at h
    obtain ⟨pm2, h2, rfl⟩ := h
    cases hnp : NowPlaying E pm with
    | none =>
      cases hcb : pm.onSongChange with
      | nil =>
        rw [hcb] at h2
        simp only [callSongChange] at h2
        cases h2
        refine ⟨[], rfl, rfl, ?_, fun _ => rfl⟩
        rw [if_neg hd, List.append_nil, hcb]
      | cons cb cbs =>
        rw [hcb, callSongChange_cons_none E cb cbs pm hnp] at h2
        cases h2
    | some np =>
      rw [callSongChange_eq E _ pm np hnp] at h2
      cases h2
      refine ⟨pm.onSongChange.map fun cb => Event.songChange cb np pm.lastScrobbled,
        removalAnswers_songChange _ _ _, ?_, ?_, fun h => absurd h hd⟩
      · simp [observerCalls, List.filter_eq_self, Event.isObserverCall]
      · rw [if_neg hd]

theorem invokeOnSongChangeCallbacks_isSome (E : Env W) (pm : PlaybackManager W)
    (h : pm.callbacksDisabled = true ∨ pm.onSongChange = [] ∨ NowPlaying E pm ≠ none) :
    ∃ pm1, invokeOnSongChangeCallbacks E pm = some pm1 := by
  unfold invokeOnSongChangeCallbacks
  by_cases hd : pm.callbacksDisabled = true
  · exact ⟨pm, by rw [if_pos hd]⟩
  · rw [if_neg hd]
    rcases h with h | h | h
    · exact absurd h hd
    · rw [h]
      exact ⟨_, rfl⟩
    · cases hnp : NowPlaying E pm with
      | none => exact absurd hnp h
      | some np =>
        rw [callSongChange_eq E _ pm np hnp]
        exact ⟨_, rfl⟩

theorem RemoveTracksFromQueue_core (E : Env W) (pm : PlaybackManager W) (idxs : List Int)
    (hsorted : idxs.Pairwise (· < ·))
    (hrange : ∀ j ∈ idxs, 0 ≤ j ∧ j < pm.playQueue.length) :
    ∃ oks : List Bool, oks.length = idxs.length ∧
      (removeLoop E idxs pm.playQueue 0 ⟨pm.world, pm.log, [], 0, 0⟩).log =
        pm.log ++ removalEvents idxs oks 0 ∧
      RemoveTracksFromQueue E pm idxs =
        invokeOnSongChangeCallbacks E { pm with
          world := (removeLoop E idxs pm.playQueue 0 ⟨pm.world, pm.log, [], 0, 0⟩).world
          log := pm.log ++ removalEvents idxs oks 0
          playQueue := keptEntries pm.playQueue idxs oks
          nowPlayingIdx := (E.playerGetStatus
            (removeLoop E idxs pm.playQueue 0 ⟨pm.world, pm.log, [], 0, 0⟩).world).PlaylistPos } ∧
      (keptEntries pm.playQueue idxs oks).length + oks.count true = pm.playQueue.length := by
  have hlen := ascending_length_le idxs 0 pm.playQueue.length hsorted hrange (by omega)
  obtain ⟨oks, h1, h2, h3, h4⟩ := removeLoop_spec E idxs pm.playQueue 0
    ⟨pm.world, pm.log, [], 0, 0⟩ idxs rfl hsorted
    (fun j hj => by simpa using (hrange j hj).1)
    (fun j hj => by simpa using (hrange j hj).2)
  refine ⟨oks, h1, h2, ?_, h4⟩
  unfold RemoveTracksFromQueue
  rw [if_neg (by omega)]
  simp only [h2, h3, List.nil_append, keptEntries]

theorem zip_all_true (idxs : List Int) :
    ∀ oks : List Bool, oks.length = idxs.length → (∀ ok ∈ oks, ok = true) →
      idxs.zip oks = idxs.map fun j => (j, true) := by
  induction idxs with
  | nil => intro oks _ _; simp
  | cons j idxs ih =>
    intro oks hlen hall
    cases oks with
    | nil => simp at hlen
    | cons ok oks =>
      have hok : ok = true := hall ok (List.mem_cons_self _ _)
      subst hok
      rw [List.zip_cons_cons, List.map_cons,
        ih oks (by simpa using hlen) (fun o ho => hall o (List.mem_cons_of_mem _ ho))]

theorem keptEntries_all_true (q : List Ptr) (idxs : List Int) (oks : List Bool)
    (hlen : oks.length = idxs.length) (hall : ∀ ok ∈ oks, ok = true) :
    keptEntries q idxs oks = unlistedEntries q idxs := by
  unfold keptEntries keptEntriesFrom unlistedEntries List.enum
  rw [zip_all_true idxs oks hlen hall]
  congr 1
  apply List.filter_congr
  intro p _
  simp

theorem count_all_true (oks : List Bool) (hall : ∀ ok ∈ oks, ok = true) :
    oks.count true = oks.length := by
  rw [List.count_eq_length]
  intro b hb
  exact (hall b hb).symm

/-- C6: for strictly ascending in-range indices and any engine, the queue left by
`RemoveTracksFromQueue` consists, in the original order, of the entries whose
position is not listed plus the listed entries whose removal the engine
rejected; with no rejection it is the original queue with exactly the listed
positions skipped, of the old length minus the number of indices. The call
returns whenever callbacks are disabled or no song-change observer is
registered. -/
theorem RemoveTracksFromQueue_keeps (E : Env W) (pm : PlaybackManager W) (idxs : List Int)
    (hsorted : idxs.Pairwise (· < ·))
    (hrange : ∀ j ∈ idxs, 0 ≤ j ∧ j < pm.playQueue.length) :
    (∀ pm1, RemoveTracksFromQueue E pm idxs = some pm1 →
      ∃ evs, pm1.log = pm.log ++ evs ∧
        (removalAnswers evs).length = idxs.length ∧
        pm1.playQueue = keptEntries pm.playQueue idxs (removalAnswers evs) ∧
        ((∀ ok ∈ removalAnswers evs, ok = true) →
          pm1.playQueue = unlistedEntries pm.playQueue idxs ∧
          pm1.playQueue.length = pm.playQueue.length - idxs.length)) ∧
    (pm.callbacksDisabled = true ∨ pm.onSongChange = [] →
      ∃ pm1, RemoveTracksFromQueue E pm idxs = some pm1) := by
  obtain ⟨oks, hlen, -, heq, hcount⟩ := RemoveTracksFromQueue_core E pm idxs hsorted hrange
  constructor
  · intro pm1 h
    rw [heq] at h
    obtain ⟨evs, hra, -, rfl, -⟩ := invokeOnSongChangeCallbacks_eq E _ pm1 h
    have hans : removalAnswers (removalEvents idxs oks 0 ++ evs) = oks := by
      rw [removalAnswers_append, hra, List.append_nil,
        removalAnswers_removalEvents idxs oks 0 hlen]
    refine ⟨removalEvents idxs oks 0 ++ evs, by simp, by rw [hans, hlen], by rw [hans], ?_⟩
    rw [hans]
    intro hall
    have hk := keptEntries_all_true pm.playQueue idxs oks hlen hall
    refine ⟨hk, ?_⟩
    have hc := count_all_true oks hall
    show (keptEntries pm.playQueue idxs oks).length = _
    omega
  · intro h
    rw [heq]
    apply invokeOnSongChangeCallbacks_isSome
    rcases h with h | h
    · exact Or.inl h
    · exact Or.inr (Or.inl h)


theorem removalEvents_all_true (rem : List Int) :
    ∀ c : Nat, removalEvents rem (List.replicate rem.length true) c =
      (rem.enumFrom c).map fun p => Event.playerRemoveTrackAt (p.2 - (p.1 : Int)) true := by
  induction rem with
  | nil => intro c; rfl
  | cons j rem ih =>
    intro c
    simp only [List.length_cons, List.replicate_succ, removalEvents, List.enumFrom_cons,
      List.map_cons, if_true]
    rw [ih (c + 1)]

/-- With an engine that mirrors the queue, every removal of the loop of
`RemoveTracksFromQueue` is in range, hence accepted, and the engine queue
stays the mirror of kept entries followed by the unprocessed ones. -/
theorem removeLoop_mirror {β : Type} (E : Env W) (view : W → List β) (tag : Ptr → β)
    (hE : ListEngine E view) (idxs : List Int) (rest : List Ptr) :
    ∀ (i : Nat) (st : RemoveState W) (rem : List Int),
      idxs.drop st.rmIdx = rem → rem.Pairwise (· < ·) →
      (∀ j ∈ rem, (i : Int) ≤ j) → (∀ j ∈ rem, j < (i : Int) + rest.length) →
      view st.world = (st.newQueue ++ rest).map tag →
      st.newQueue.length + st.rmCount = i →
      (removeLoop E idxs rest i st).log =
        st.log ++ removalEvents rem (List.replicate rem.length true) st.rmCount ∧
      view (removeLoop E idxs rest i st).world =
        (removeLoop E idxs rest i st).newQueue.map tag := by
  induction rest with
  | nil =>
    intro i st rem _ _ hlo hhi hview _
    have hrem : rem = [] := by
      cases rem with
      | nil => rfl
      | cons j rem1 =>
        have h1 := hlo j (List.mem_cons_self _ _)
        have h2 := hhi j (List.mem_cons_self _ _)
        simp at h2
        omega
    subst hrem
    exact ⟨by simp [removeLoop, removalEvents], by simpa [removeLoop] using hview⟩
  | cons tr rest ih =>
    intro i st rem hdrop hsorted hlo hhi hview hcnt
    simp only [removeLoop]
    cases rem with
    | nil =>
      have hnone : idxs[st.rmIdx]? = none :=
        List.getElem?_eq_none (List.drop_eq_nil_iff.mp hdrop)
      rw [removeStep_miss E idxs st i tr (by simp [hnone])]
      exact ih (i + 1) { st with newQueue := st.newQueue ++ [tr] } []
        hdrop List.Pairwise.nil (by simp) (by simp) (by simpa using hview)
        (by simp only [List.length_append, List.length_singleton]; omega)
    | cons j rem1 =>
      obtain ⟨hget, hdrop1⟩ := drop_cons_getElem? idxs st.rmIdx j rem1 hdrop
      have hgt : ∀ j1 ∈ rem1, j < j1 := (List.pairwise_cons.mp hsorted).1
      have hsorted1 : rem1.Pairwise (· < ·) := (List.pairwise_cons.mp hsorted).2
      have hj_lo := hlo j (List.mem_cons_self _ _)
      have hhi1 : ∀ j1 ∈ rem1, j1 < ((i + 1 : Nat) : Int) + rest.length := by
        intro j1 hj1
        have := hhi j1 (List.mem_cons_of_mem _ hj1)
        simp at this
        push_cast
        omega
      by_cases hji : j = (i : Int)
      · subst hji
        have hlo1 : ∀ j1 ∈ rem1, ((i + 1 : Nat) : Int) ≤ j1 := by
          intro j1 hj1
          have := hgt j1 hj1
          push_cast
          omega
        have hpos : (i : Int) - (st.rmCount : Int) = (st.newQueue.length : Int) := by
          omega
        have hin : 0 ≤ (i : Int) - (st.rmCount : Int) ∧
            (i : Int) - (st.rmCount : Int) < (view st.world).length := by
          rw [hpos, hview]
          simp
        obtain ⟨hok, hv⟩ := (hE st.world ((i : Int) - (st.rmCount : Int))).1 hin
        rw [removeStep_accept E idxs st i tr hget hok]
        have hv1 : view (E.playerRemoveTrackAt st.world ((i : Int) - (st.rmCount : Int))).1 =
            (st.newQueue ++ rest).map tag := by
          rw [hv, hview, hpos, Int.toNat_ofNat, List.map_append, List.map_append,
            List.eraseIdx_append_of_length_le (by simp)]
          simp
        have := ih (i + 1)
          { st with
            world := (E.playerRemoveTrackAt st.world ((i : Int) - (st.rmCount : Int))).1
            log := st.log ++ [Event.playerRemoveTrackAt ((i : Int) - (st.rmCount : Int)) true]
            rmIdx := st.rmIdx + 1
            rmCount := st.rmCount + 1 } rem1 hdrop1 hsorted1 hlo1 hhi1 hv1
          (by show st.newQueue.length + (st.rmCount + 1) = i + 1; omega)
        refine ⟨?_, this.2⟩
        rw [this.1]
        simp [removalEvents, List.replicate_succ]
      · have hlt : (i : Int) < j := lt_of_le_of_ne hj_lo (Ne.symm hji)
        rw [removeStep_miss E idxs st i tr (by rw [hget]; simpa using hji)]
        have hlo1 : ∀ j1 ∈ j :: rem1, ((i + 1 : Nat) : Int) ≤ j1 := by
          intro j1 hj1
          rcases List.mem_cons.mp hj1 with h | h
          · subst h
            push_cast
            omega
          · have := hgt j1 h
            push_cast
            omega
        have hhi2 : ∀ j1 ∈ j :: rem1, j1 < ((i + 1 : Nat) : Int) + rest.length := by
          intro j1 hj1
          have := hhi j1 hj1
          simp at this
          push_cast
          omega
        exact ih (i + 1) { st with newQueue := st.newQueue ++ [tr] } (j :: rem1) hdrop hsorted
          hlo1 hhi2 (by simpa using hview)
          (by simp only [List.length_append, List.length_singleton]; omega)

/-- C7: when the engine's internal queue is a list on which remove-at-index deletes
an in-range position and fails otherwise, and it matches the play queue
index-for-index before `RemoveTracksFromQueue`, then for strictly ascending
in-range indices the `k`-th removal is issued at the `k`-th listed position
minus `k`, every removal succeeds, and the engine queue again matches the
play queue index-for-index afterwards. -/
theorem RemoveTracksFromQueue_mirrors {β : Type} (E : Env W) (view : W → List β)
    (tag : Ptr → β) (hE : ListEngine E view) (pm : PlaybackManager W) (idxs : List Int)
    (hsorted : idxs.Pairwise (· < ·))
    (hrange : ∀ j ∈ idxs, 0 ≤ j ∧ j < pm.playQueue.length)
    (hmirror : view pm.world = pm.playQueue.map tag) :
    (∀ pm1, RemoveTracksFromQueue E pm idxs = some pm1 →
      ∃ evs, removalAnswers evs = [] ∧
        pm1.log = pm.log ++
          (idxs.enum.map fun p => Event.playerRemoveTrackAt (p.2 - (p.1 : Int)) true) ++ evs ∧
        pm1.playQueue = unlistedEntries pm.playQueue idxs ∧
        view pm1.world = pm1.playQueue.map tag) ∧
    (pm.callbacksDisabled = true ∨ pm.onSongChange = [] →
      ∃ pm1, RemoveTracksFromQueue E pm idxs = some pm1) := by
  obtain ⟨oks, hlen, hlog, heq, -⟩ := RemoveTracksFromQueue_core E pm idxs hsorted hrange
  obtain ⟨mlog, mview⟩ := removeLoop_mirror E view tag hE idxs pm.playQueue 0
    ⟨pm.world, pm.log, [], 0, 0⟩ idxs rfl hsorted
    (fun j hj => by simpa using (hrange j hj).1)
    (fun j hj => by simpa using (hrange j hj).2)
    (by simpa using hmirror) rfl
  have hoks : oks = List.replicate idxs.length true := by
    have h := hlog.symm.trans mlog
    have h2 := congrArg removalAnswers (List.append_cancel_left h)
    rwa [removalAnswers_removalEvents idxs oks 0 hlen,
      removalAnswers_removalEvents idxs _ 0 (by simp)] at h2
  have hall : ∀ ok ∈ oks, ok = true := by
    intro ok hok
    rw [hoks] at hok
    exact (List.mem_replicate.mp hok).2
  have hnew : (removeLoop E idxs pm.playQueue 0 ⟨pm.world, pm.log, [], 0, 0⟩).newQueue =
      keptEntries pm.playQueue idxs oks := by
    obtain ⟨oks2, h1, h2, h3, -⟩ := removeLoop_spec E idxs pm.playQueue 0
      ⟨pm.world, pm.log, [], 0, 0⟩ idxs rfl hsorted
      (fun j hj => by simpa using (hrange j hj).1)
      (fun j hj => by simpa using (hrange j hj).2)
    have h := hlog.symm.trans h2
    have h4 := congrArg removalAnswers (List.append_cancel_left h)
    rw [removalAnswers_removalEvents idxs oks 0 hlen,
      removalAnswers_removalEvents idxs oks2 0 h1] at h4
    rw [h3, h4]
    simp [keptEntries]
  constructor
  · intro pm1 h
    rw [heq] at h
    obtain ⟨evs, hra, -, rfl, -⟩ := invokeOnSongChangeCallbacks_eq E _ pm1 h
    refine ⟨evs, hra, ?_, keptEntries_all_true pm.playQueue idxs oks hlen hall, ?_⟩
    · show pm.log ++ removalEvents idxs oks 0 ++ evs = _
      rw [hoks, removalEvents_all_true idxs 0]
      rfl
    · show view _ = (keptEntries pm.playQueue idxs oks).map tag
      rw [mview, hnew]
  · intro h
    rw [heq]
    apply invokeOnSongChangeCallbacks_isSome
    rcases h with h | h
    · exact Or.inl h
    · exact Or.inr (Or.inl h)


/-- Witness for C6: positions 1 and 3 of five entries, the engine rejecting the
first removal and accepting the second. -/
theorem RemoveTracksFromQueue_keeps_witness :
    ([1, 3] : List Int).Pairwise (· < ·) ∧
    (∀ j ∈ ([1, 3] : List Int), 0 ≤ j ∧ j < (fiveManager ()).playQueue.length) ∧
    (RemoveTracksFromQueue rejectingEnv (fiveManager ()) [1, 3]).map
      (fun pm => (pm.playQueue, removalAnswers pm.log)) =
      some ([10, 11, 12, 14], [false, true]) ∧
    ((∀ pm1, RemoveTracksFromQueue rejectingEnv (fiveManager ()) [1, 3] = some pm1 →
      ∃ evs, pm1.log = (fiveManager ()).log ++ evs ∧
        (removalAnswers evs).length = ([1, 3] : List Int).length ∧
        pm1.playQueue = keptEntries (fiveManager ()).playQueue [1, 3] (removalAnswers evs) ∧
        ((∀ ok ∈ removalAnswers evs, ok = true) →
          pm1.playQueue = unlistedEntries (fiveManager ()).playQueue [1, 3] ∧
          pm1.playQueue.length =
            (fiveManager ()).playQueue.length - ([1, 3] : List Int).length)) ∧
    ((fiveManager ()).callbacksDisabled = true ∨ (fiveManager ()).onSongChange = [] →
      ∃ pm1, RemoveTracksFromQueue rejectingEnv (fiveManager ()) [1, 3] = some pm1)) :=
  ⟨by decide, by decide, by decide,
    RemoveTracksFromQueue_keeps rejectingEnv (fiveManager ()) [1, 3] (by decide) (by decide)⟩

theorem listEnv_listEngine : ListEngine listEnv (fun w => w) := by
  intro w j
  constructor
  · intro h
    simp [listEnv, h]
  · intro h
    simp [listEnv, h]

/-- Witness for C7: positions 1 and 3 of five entries on the list engine holding the
five stream locators. -/
theorem RemoveTracksFromQueue_mirrors_witness :
    ([1, 3] : List Int).Pairwise (· < ·) ∧
    (∀ j ∈ ([1, 3] : List Int), 0 ≤ j ∧ j < (fiveManager ["u10", "u11", "u12", "u13", "u14"]).playQueue.length) ∧
    (fiveManager ["u10", "u11", "u12", "u13", "u14"]).world =
      (fiveManager ["u10", "u11", "u12", "u13", "u14"]).playQueue.map
        (fun p => "u" ++ toString p) ∧
    (RemoveTracksFromQueue listEnv (fiveManager ["u10", "u11", "u12", "u13", "u14"]) [1, 3]).map
      (fun pm => (pm.playQueue, pm.world, removalAnswers pm.log)) =
      some ([10, 12, 14], ["u10", "u12", "u14"], [true, true]) ∧
    ((∀ pm1, RemoveTracksFromQueue listEnv
        (fiveManager ["u10", "u11", "u12", "u13", "u14"]) [1, 3] = some pm1 →
      ∃ evs, removalAnswers evs = [] ∧
        pm1.log = (fiveManager ["u10", "u11", "u12", "u13", "u14"]).log ++
          (([1, 3] : List Int).enum.map fun p =>
            Event.playerRemoveTrackAt (p.2 - (p.1 : Int)) true) ++ evs ∧
        pm1.playQueue =
          unlistedEntries (fiveManager ["u10", "u11", "u12", "u13", "u14"]).playQueue [1, 3] ∧
        pm1.world = pm1.playQueue.map (fun p => "u" ++ toString p)) ∧
    ((fiveManager ["u10", "u11", "u12", "u13", "u14"]).callbacksDisabled = true ∨
      (fiveManager ["u10", "u11", "u12", "u13", "u14"]).onSongChange = [] →
      ∃ pm1, RemoveTracksFromQueue listEnv
        (fiveManager ["u10", "u11", "u12", "u13", "u14"]) [1, 3] = some pm1)) :=
  ⟨by decide, by decide, by decide, by decide,
    RemoveTracksFromQueue_mirrors listEnv (fun w => w) (fun p => "u" ++ toString p)
      listEnv_listEngine (fiveManager ["u10", "u11", "u12", "u13", "u14"]) [1, 3]
      (by decide) (by decide) (by decide)⟩

/-- C8 (counterexample): removing the positions 1 and 3 from a five-entry queue, the
engine accepting both removals, leaves three entries, not four. -/
theorem remove_two_of_five_counterexample :
    (RemoveTracksFromQueue quietEnv (fiveManager ()) [1, 3]).map
      (fun pm => (pm.playQueue, pm.playQueue.length)) = some ([10, 12, 14], 3) ∧
    ¬ ∃ pm1, RemoveTracksFromQueue quietEnv (fiveManager ()) [1, 3] = some pm1 ∧
      pm1.playQueue.length = 4 := by
  have h : (RemoveTracksFromQueue quietEnv (fiveManager ()) [1, 3]).map
      (fun pm => (pm.playQueue, pm.playQueue.length)) = some ([10, 12, 14], 3) := by decide
  refine ⟨h, ?_⟩
  rintro ⟨pm1, h1, h2⟩
  rw [h1] at h
  simp only [Option.map_some', Option.some.injEq, Prod.mk.injEq] at h
  omega

/-- C8 (amended): removing the sorted indices 1 and 3 from a five-entry queue, the
engine accepting both removals, yields a three-entry queue holding the
original entries at positions 0, 2 and 4, in that order. -/
theorem remove_two_of_five (E : Env W) (pm : PlaybackManager W) (a b c d e : Ptr)
    (hq : pm.playQueue = [a, b, c, d, e])
    (hacc : ∀ w j, (E.playerRemoveTrackAt w j).2 = none) :
    (∀ pm1, RemoveTracksFromQueue E pm [1, 3] = some pm1 →
      pm1.playQueue = [a, c, e] ∧ pm1.playQueue.length = 3) ∧
    (pm.callbacksDisabled = true ∨ pm.onSongChange = [] →
      ∃ pm1, RemoveTracksFromQueue E pm [1, 3] = some pm1) := by
  have heq : ∃ w l, RemoveTracksFromQueue E pm [1, 3] =
      invokeOnSongChangeCallbacks E { pm with
        world := w, log := l, playQueue := [a, c, e],
        nowPlayingIdx := (E.playerGetStatus w).PlaylistPos } := by
    refine ⟨(E.playerRemoveTrackAt (E.playerRemoveTrackAt pm.world 1).1 2).1,
      pm.log ++ [Event.playerRemoveTrackAt 1 true, Event.playerRemoveTrackAt 2 true], ?_⟩
    unfold RemoveTracksFromQueue
    rw [hq]
    simp [removeLoop, removeStep, hacc]
  obtain ⟨w, l, heq⟩ := heq
  constructor
  · intro pm1 h
    rw [heq] at h
    obtain ⟨evs, -, -, rfl, -⟩ := invokeOnSongChangeCallbacks_eq E _ pm1 h
    exact ⟨rfl, rfl⟩
  · intro h
    rw [heq]
    apply invokeOnSongChangeCallbacks_isSome
    rcases h with h | h
    · exact Or.inl h
    · exact Or.inr (Or.inl h)

/-- Witness for C8 (amended): the five-entry sample queue on the accepting engine. -/
theorem remove_two_of_five_witness :
    (fiveManager ()).playQueue = [10, 11, 12, 13, 14] ∧
    (∀ (w : Unit) (j : Int), (quietEnv.playerRemoveTrackAt w j).2 = none) ∧
    (∃ pm1, RemoveTracksFromQueue quietEnv (fiveManager ()) [1, 3] = some pm1) ∧
    ((∀ pm1, RemoveTracksFromQueue quietEnv (fiveManager ()) [1, 3] = some pm1 →
      pm1.playQueue = [10, 12, 14] ∧ pm1.playQueue.length = 3) ∧
    ((fiveManager ()).callbacksDisabled = true ∨ (fiveManager ()).onSongChange = [] →
      ∃ pm1, RemoveTracksFromQueue quietEnv (fiveManager ()) [1, 3] = some pm1)) :=
  ⟨rfl, fun _ _ => rfl, ⟨_, rfl⟩,
    remove_two_of_five quietEnv (fiveManager ()) 10 11 12 13 14 rfl (fun _ _ => rfl)⟩


theorem loadedState_cons (E : Env W) (pm : PlaybackManager W) (tu : Child × String)
    (ts : List (Child × String)) :
    loadedState E pm (tu :: ts) = loadedState E (appendTrack E pm tu.1 tu.2) ts := rfl

theorem loadedState_nextPtr (E : Env W) (ts : List (Child × String)) :
    ∀ pm : PlaybackManager W, (loadedState E pm ts).nextPtr = pm.nextPtr + ts.length := by
  induction ts with
  | nil => intro pm; rfl
  | cons tu ts ih =>
    intro pm
    rw [loadedState_cons, ih]
    simp only [appendTrack, List.length_cons]
    omega

theorem loadedState_playQueue (E : Env W) (ts : List (Child × String)) :
    ∀ pm : PlaybackManager W,
      (loadedState E pm ts).playQueue = pm.playQueue ++ List.range' pm.nextPtr ts.length := by
  induction ts with
  | nil => intro pm; simp [loadedState]
  | cons tu ts ih =>
    intro pm
    rw [loadedState_cons, ih]
    simp [appendTrack, List.range'_succ]

theorem loadedState_log (E : Env W) (ts : List (Child × String)) :
    ∀ pm : PlaybackManager W,
      (loadedState E pm ts).log =
        pm.log ++ ts.map fun tu => Event.playerAppendFile tu.2 := by
  induction ts with
  | nil => intro pm; simp [loadedState]
  | cons tu ts ih =>
    intro pm
    rw [loadedState_cons, ih]
    simp [appendTrack]

theorem loadedState_heap_old (E : Env W) (ts : List (Child × String)) :
    ∀ (pm : PlaybackManager W) (p : Nat), p < pm.nextPtr →
      (loadedState E pm ts).heap p = pm.heap p := by
  induction ts with
  | nil => intro pm p _; rfl
  | cons tu ts ih =>
    intro pm p hp
    rw [loadedState_cons, ih _ p (by simp only [appendTrack]; omega)]
    simp only [appendTrack]
    exact Function.update_noteq (Nat.ne_of_lt hp) _ _

theorem loadedState_heap_new (E : Env W) (ts : List (Child × String)) :
    ∀ pm : PlaybackManager W,
      (List.range' pm.nextPtr ts.length).map (loadedState E pm ts).heap =
        ts.map Prod.fst := by
  induction ts with
  | nil => intro pm; rfl
  | cons tu ts ih =>
    intro pm
    rw [loadedState_cons, List.length_cons, List.range'_succ, List.map_cons, List.map_cons]
    have h1 := ih (appendTrack E pm tu.1 tu.2)
    have h2 := loadedState_heap_old E ts (appendTrack E pm tu.1 tu.2) pm.nextPtr
      (by simp [appendTrack])
    rw [h2]
    simp only [appendTrack, Function.update_same] at h1 ⊢
    rw [h1]

theorem loadedState_frame (E : Env W) (ts : List (Child × String)) :
    ∀ pm : PlaybackManager W,
      (loadedState E pm ts).nowPlayingIdx = pm.nowPlayingIdx ∧
      (loadedState E pm ts).curTrackTime = pm.curTrackTime ∧
      (loadedState E pm ts).lastScrobbled = pm.lastScrobbled ∧
      (loadedState E pm ts).scrobbleCfg = pm.scrobbleCfg ∧
      (loadedState E pm ts).callbacksDisabled = pm.callbacksDisabled ∧
      (loadedState E pm ts).playTimeStopwatch = pm.playTimeStopwatch := by
  induction ts with
  | nil => intro pm; exact ⟨rfl, rfl, rfl, rfl, rfl, rfl⟩
  | cons tu ts ih =>
    intro pm
    rw [loadedState_cons]
    exact ih _

/-- The loop of `LoadTracks` over a run of positions whose resolutions succeed. -/
theorem loadLoop_append (E : Env W) (resolve : String → Except String String)
    (hres : ∀ w id, E.serverGetStreamURL w id = resolve id) (tracks : List Child)
    (pre rest : List Nat) :
    ∀ pm : PlaybackManager W,
      (∀ j ∈ pre, ∃ t url, tracks[j]? = some t ∧ resolve t.ID = Except.ok url) →
      loadLoop E tracks (pre ++ rest) pm =
        loadLoop E tracks rest (loadedState E pm (resolvedTracks tracks resolve pre)) := by
  induction pre with
  | nil => intro pm _; rfl
  | cons j pre ih =>
    intro pm hpre
    obtain ⟨t, url, ht, hurl⟩ := hpre j (List.mem_cons_self _ _)
    have hrt : resolvedTracks tracks resolve (j :: pre) =
        (t, url) :: resolvedTracks tracks resolve pre := by
      simp [resolvedTracks, List.filterMap_cons, ht, hurl]
    rw [hrt, loadedState_cons, List.cons_append]
    simp only [loadLoop, ht, hres, hurl]
    exact ih _ (fun j1 h1 => hpre j1 (List.mem_cons_of_mem _ h1))

theorem resolvedTracks_length (tracks : List Child) (resolve : String → Except String String)
    (pre : List Nat)
    (hpre : ∀ j ∈ pre, ∃ t url, tracks[j]? = some t ∧ resolve t.ID = Except.ok url) :
    (resolvedTracks tracks resolve pre).length = pre.length := by
  induction pre with
  | nil => rfl
  | cons j pre ih =>
    obtain ⟨t, url, ht, hurl⟩ := hpre j (List.mem_cons_self _ _)
    have hrt : resolvedTracks tracks resolve (j :: pre) =
        (t, url) :: resolvedTracks tracks resolve pre := by
      simp [resolvedTracks, List.filterMap_cons, ht, hurl]
    rw [hrt, List.length_cons, List.length_cons,
      ih (fun j1 h1 => hpre j1 (List.mem_cons_of_mem _ h1))]

theorem LoadTracks_eq (E : Env W) (pm : PlaybackManager W) (tracks : List Child)
    (a s : Bool) :
    LoadTracks E pm tracks a s =
      loadLoop E tracks (loadOrder E tracks s) (loadStart E pm a) := by
  unfold LoadTracks loadOrder loadStart
  rfl

theorem resolvedTracks_resolves (tracks : List Child) (resolve : String → Except String String)
    (nums : List Nat) :
    ∀ tu ∈ resolvedTracks tracks resolve nums, resolve tu.1.ID = Except.ok tu.2 := by
  intro tu htu
  simp only [resolvedTracks, List.mem_filterMap] at htu
  obtain ⟨j, -, hj⟩ := htu
  split at hj
  · cases hj
  · split at hj
    · cases hj
      assumption
    · cases hj

theorem resolvedTracks_fst (tracks : List Child) (resolve : String → Except String String)
    (pre : List Nat)
    (hpre : ∀ j ∈ pre, ∃ t url, tracks[j]? = some t ∧ resolve t.ID = Except.ok url) :
    (resolvedTracks tracks resolve pre).map Prod.fst = pre.filterMap fun j => tracks[j]? := by
  induction pre with
  | nil => rfl
  | cons j pre ih =>
    obtain ⟨t, url, ht, hurl⟩ := hpre j (List.mem_cons_self _ _)
    have hrt : resolvedTracks tracks resolve (j :: pre) =
        (t, url) :: resolvedTracks tracks resolve pre := by
      simp [resolvedTracks, List.filterMap_cons, ht, hurl]
    rw [hrt, List.map_cons, ih (fun j1 h1 => hpre j1 (List.mem_cons_of_mem _ h1)),
      List.filterMap_cons, ht]

theorem loadStart_log (E : Env W) (pm : PlaybackManager W) (a : Bool) :
    (loadStart E pm a).log = pm.log ++ (if a then [] else [Event.playerStop]) := by
  cases a <;> simp [loadStart]

theorem loadStart_playQueue (E : Env W) (pm : PlaybackManager W) (a : Bool) :
    (loadStart E pm a).playQueue = if a then pm.playQueue else [] := by
  cases a <;> simp [loadStart]

theorem loadStart_nextPtr (E : Env W) (pm : PlaybackManager W) (a : Bool) :
    (loadStart E pm a).nextPtr = pm.nextPtr := by
  cases a <;> simp [loadStart]

theorem loadStart_heap (E : Env W) (pm : PlaybackManager W) (a : Bool) :
    (loadStart E pm a).heap = pm.heap := by
  cases a <;> simp [loadStart]

/-- C10: if the stream-URL resolution first fails at the track processed after the
positions `pre` (the `k`-th track for `k - 1 = pre.length`), `LoadTracks`
returns that error and leaves the starting queue (the prior queue when
appending, empty otherwise) followed by exactly the tracks at `pre`, in
order; the engine has received exactly the appends of their locators and
nothing for any later track. -/
theorem LoadTracks_error (E : Env W) (resolve : String → Except String String)
    (hres : ∀ w id, E.serverGetStreamURL w id = resolve id)
    (pm : PlaybackManager W) (tracks : List Child) (a s : Bool)
    (pre post : List Nat) (i : Nat) (t : Child) (e : String)
    (horder : loadOrder E tracks s = pre ++ i :: post)
    (hpre : ∀ j ∈ pre, ∃ tj url, tracks[j]? = some tj ∧ resolve tj.ID = Except.ok url)
    (hi : tracks[i]? = some t) (he : resolve t.ID = Except.error e) :
    ∃ pm1, LoadTracks E pm tracks a s = some ⟨pm1, some e⟩ ∧
      pm1.playQueue = (if a then pm.playQueue else []) ++ List.range' pm.nextPtr pre.length ∧
      (List.range' pm.nextPtr pre.length).map pm1.heap = pre.filterMap (fun j => tracks[j]?) ∧
      (∀ p, p < pm.nextPtr → pm1.heap p = pm.heap p) ∧
      pm1.log = pm.log ++ (if a then [] else [Event.playerStop]) ++
        (resolvedTracks tracks resolve pre).map (fun tu => Event.playerAppendFile tu.2) ∧
      (resolvedTracks tracks resolve pre).map Prod.fst = pre.filterMap (fun j => tracks[j]?) ∧
      (resolvedTracks tracks resolve pre).length = pre.length ∧
      (∀ tu ∈ resolvedTracks tracks resolve pre, resolve tu.1.ID = Except.ok tu.2) := by
  have hlen := resolvedTracks_length tracks resolve pre hpre
  have hfst := resolvedTracks_fst tracks resolve pre hpre
  refine ⟨loadedState E (loadStart E pm a) (resolvedTracks tracks resolve pre), ?_, ?_, ?_, ?_,
    ?_, hfst, hlen, resolvedTracks_resolves tracks resolve pre⟩
  · rw [LoadTracks_eq, horder, loadLoop_append E resolve hres tracks pre (i :: post) _ hpre]
    simp only [loadLoop, hi, hres, he]
  · rw [loadedState_playQueue, loadStart_playQueue, loadStart_nextPtr, hlen]
  · have := loadedState_heap_new E (resolvedTracks tracks resolve pre) (loadStart E pm a)
    rw [loadStart_nextPtr, hlen] at this
    rw [this, hfst]
  · intro p hp
    rw [loadedState_heap_old E _ _ p (by rw [loadStart_nextPtr]; exact hp), loadStart_heap]
  · rw [loadedState_log, loadStart_log]

theorem filterMap_getElem?_range' (l pre : List Child) :
    (List.range' pre.length l.length).filterMap (fun j => (pre ++ l)[j]?) = l := by
  induction l generalizing pre with
  | nil => rfl
  | cons x l ih =>
    rw [List.length_cons, List.range'_succ, List.filterMap_cons]
    have h1 : (pre ++ x :: l)[pre.length]? = some x := by
      rw [List.getElem?_append_right (le_refl _)]
      simp
    rw [h1]
    have h2 := ih (pre ++ [x])
    simp only [List.length_append, List.length_singleton, List.append_assoc,
      List.singleton_append] at h2
    rw [h2]

theorem filterMap_getElem?_range (l : List Child) :
    (List.range l.length).filterMap (fun j => l[j]?) = l := by
  have := filterMap_getElem?_range' l []
  simpa [List.range_eq_range'] using this

/-- Witness for C10: the third of four tracks fails to resolve, without appending
and without shuffling. -/
theorem LoadTracks_error_witness :
    loadOrder failingEnv fourTracks false = [0, 1] ++ 2 :: [3] ∧
    (LoadTracks failingEnv (observedManager ⟨true, -1, 50⟩) fourTracks false false).map
      (fun r => (r.err, r.pm.playQueue, r.pm.playQueue.map (fun p => (r.pm.heap p).ID),
        r.pm.log)) =
      some (some "stream unavailable", [0, 1], ["a", "b"],
        [Event.playerStop, Event.playerAppendFile "http://server/stream?id=a",
          Event.playerAppendFile "http://server/stream?id=b"]) ∧
    ∃ pm1, LoadTracks failingEnv (observedManager ⟨true, -1, 50⟩) fourTracks false false =
        some ⟨pm1, some "stream unavailable"⟩ ∧
      pm1.playQueue = (if false then (observedManager ⟨true, -1, 50⟩).playQueue else []) ++
        List.range' (observedManager ⟨true, -1, 50⟩).nextPtr ([0, 1] : List Nat).length ∧
      (List.range' (observedManager ⟨true, -1, 50⟩).nextPtr ([0, 1] : List Nat).length).map
        pm1.heap = ([0, 1] : List Nat).filterMap (fun j => fourTracks[j]?) ∧
      (∀ p, p < (observedManager ⟨true, -1, 50⟩).nextPtr →
        pm1.heap p = (observedManager ⟨true, -1, 50⟩).heap p) ∧
      pm1.log = (observedManager ⟨true, -1, 50⟩).log ++
        (if false then [] else [Event.playerStop]) ++
        (resolvedTracks fourTracks failingResolve [0, 1]).map
          (fun tu => Event.playerAppendFile tu.2) ∧
      (resolvedTracks fourTracks failingResolve [0, 1]).map Prod.fst =
        ([0, 1] : List Nat).filterMap (fun j => fourTracks[j]?) ∧
      (resolvedTracks fourTracks failingResolve [0, 1]).length = ([0, 1] : List Nat).length ∧
      (∀ tu ∈ resolvedTracks fourTracks failingResolve [0, 1],
        failingResolve tu.1.ID = Except.ok tu.2) :=
  ⟨by decide, by decide,
    LoadTracks_error failingEnv failingResolve (fun _ _ => rfl)
      (observedManager ⟨true, -1, 50⟩) fourTracks false false [0, 1] [3] 2
      (sampleTrack "bad" 50) "stream unavailable" (by decide)
      (by
        intro j hj
        simp only [List.mem_cons, List.mem_singleton, List.not_mem_nil, or_false] at hj
        rcases hj with rfl | rfl
        · exact ⟨sampleTrack "a" 200, "http://server/stream?id=a", rfl, by decide⟩
        · exact ⟨sampleTrack "b" 100, "http://server/stream?id=b", rfl, by decide⟩)
      (by decide) (by decide)⟩

/-- C9: when every stream-URL resolution succeeds and the shuffle yields a
permutation of the positions, `LoadTracks` with shuffle enabled and append
disabled returns no error and leaves a queue of exactly as many entries as
tracks, whose records (hence identifiers) are a permutation of the input, and
the locators appended to the engine are, index for index, those resolved for
the identifiers of the queue entries. -/
theorem LoadTracks_shuffle (E : Env W) (resolve : String → String)
    (hres : ∀ w id, E.serverGetStreamURL w id = Except.ok (resolve id))
    (pm : PlaybackManager W) (tracks : List Child)
    (hperm : (E.shuffleSlice (List.range tracks.length)).Perm (List.range tracks.length)) :
    ∃ pm1, LoadTracks E pm tracks false true = some ⟨pm1, none⟩ ∧
      pm1.playQueue.length = tracks.length ∧
      (pm1.playQueue.map pm1.heap).Perm tracks ∧
      (pm1.playQueue.map fun p => (pm1.heap p).ID).Perm (tracks.map fun t => t.ID) ∧
      pm1.log = pm.log ++ [Event.playerStop] ++
        pm1.playQueue.map (fun p => Event.playerAppendFile (resolve (pm1.heap p).ID)) := by
  have hall : ∀ j ∈ E.shuffleSlice (List.range tracks.length),
      ∃ t url, tracks[j]? = some t ∧ (fun id => Except.ok (resolve id) : String →
        Except String String) t.ID = Except.ok url := by
    intro j hj
    have hlt : j < tracks.length := List.mem_range.mp (hperm.mem_iff.mp hj)
    exact ⟨tracks[j], resolve tracks[j].ID, List.getElem?_eq_getElem hlt, rfl⟩
  have hlen := resolvedTracks_length tracks (fun id => Except.ok (resolve id)) _ hall
  have hfst := resolvedTracks_fst tracks (fun id => Except.ok (resolve id)) _ hall
  have hq := loadedState_playQueue E
    (resolvedTracks tracks (fun id => Except.ok (resolve id))
      (E.shuffleSlice (List.range tracks.length))) (loadStart E pm false)
  have hheap := loadedState_heap_new E
    (resolvedTracks tracks (fun id => Except.ok (resolve id))
      (E.shuffleSlice (List.range tracks.length))) (loadStart E pm false)
  rw [loadStart_playQueue] at hq
  simp only [Bool.false_eq_true, if_false, List.nil_append] at hq
  have hrecords : (List.range' (loadStart E pm false).nextPtr
        (resolvedTracks tracks (fun id => Except.ok (resolve id))
          (E.shuffleSlice (List.range tracks.length))).length).map
        (loadedState E (loadStart E pm false) (resolvedTracks tracks
          (fun id => Except.ok (resolve id)) (E.shuffleSlice (List.range tracks.length)))).heap =
      (E.shuffleSlice (List.range tracks.length)).filterMap (fun j => tracks[j]?) := by
    rw [hheap, hfst]
  have hp : ((E.shuffleSlice (List.range tracks.length)).filterMap
      (fun j => tracks[j]?)).Perm tracks := by
    have := hperm.filterMap (fun j => tracks[j]?)
    rwa [filterMap_getElem?_range] at this
  refine ⟨loadedState E (loadStart E pm false) (resolvedTracks tracks
    (fun id => Except.ok (resolve id)) (E.shuffleSlice (List.range tracks.length))),
    ?_, ?_, ?_, ?_, ?_⟩
  · rw [LoadTracks_eq]
    have := loadLoop_append E (fun id => Except.ok (resolve id)) hres tracks
      (E.shuffleSlice (List.range tracks.length)) [] (loadStart E pm false) hall
    rw [List.append_nil] at this
    simp only [loadOrder, if_true]
    rw [this]
    rfl
  · rw [hq, List.length_range', hlen, hperm.length_eq, List.length_range]
  · rw [hq, hrecords]
    exact hp
  · have h1 : (fun p => ((loadedState E (loadStart E pm false) (resolvedTracks tracks
        (fun id => Except.ok (resolve id))
        (E.shuffleSlice (List.range tracks.length)))).heap p).ID) =
        (fun t : Child => t.ID) ∘ (loadedState E (loadStart E pm false) (resolvedTracks tracks
        (fun id => Except.ok (resolve id)) (E.shuffleSlice (List.range tracks.length)))).heap :=
      rfl
    rw [h1, ← List.map_map, hq, hrecords]
    exact hp.map _
  · rw [loadedState_log, loadStart_log]
    simp only [Bool.false_eq_true, if_false]
    congr 1
    have h1 : (fun p => Event.playerAppendFile (resolve ((loadedState E (loadStart E pm false)
        (resolvedTracks tracks (fun id => Except.ok (resolve id))
        (E.shuffleSlice (List.range tracks.length)))).heap p).ID)) =
        (fun t : Child => Event.playerAppendFile (resolve t.ID)) ∘
        (loadedState E (loadStart E pm false) (resolvedTracks tracks
        (fun id => Except.ok (resolve id)) (E.shuffleSlice (List.range tracks.length)))).heap :=
      rfl
    rw [h1, ← List.map_map, hq, hrecords, ← hfst, List.map_map]
    apply List.map_congr_left
    intro tu htu
    have := resolvedTracks_resolves tracks _ _ tu htu
    simp only [Except.ok.injEq] at this
    simp [this]

/-- Witness for C9: four tracks on the engine whose shuffle reverses the order. -/
theorem LoadTracks_shuffle_witness :
    (∀ (w : Unit) (id : String),
      quietEnv.serverGetStreamURL w id = Except.ok (quietResolve id)) ∧
    (quietEnv.shuffleSlice (List.range fourTracks.length)).Perm
      (List.range fourTracks.length) ∧
    (LoadTracks quietEnv (observedManager ⟨true, -1, 50⟩) fourTracks false true).map
      (fun r => (r.err, r.pm.playQueue.map (fun p => (r.pm.heap p).ID))) =
      some (none, ["c", "bad", "b", "a"]) ∧
    ∃ pm1, LoadTracks quietEnv (observedManager ⟨true, -1, 50⟩) fourTracks false true =
        some ⟨pm1, none⟩ ∧
      pm1.playQueue.length = fourTracks.length ∧
      (pm1.playQueue.map pm1.heap).Perm fourTracks ∧
      (pm1.playQueue.map fun p => (pm1.heap p).ID).Perm (fourTracks.map fun t => t.ID) ∧
      pm1.log = (observedManager ⟨true, -1, 50⟩).log ++ [Event.playerStop] ++
        pm1.playQueue.map (fun p => Event.playerAppendFile (quietResolve (pm1.heap p).ID)) :=
  ⟨fun _ _ => rfl, by decide, by decide,
    LoadTracks_shuffle quietEnv quietResolve (fun _ _ => rfl)
      (observedManager ⟨true, -1, 50⟩) fourTracks (by decide)⟩


/-- C17: for a now-playing index within the queue bounds, `NowPlaying` returns none
exactly when the queue is empty or the engine reports the Stopped state, and
otherwise the queue entry at the now-playing index; it only reads the manager
(its result is a pointer, no state). -/
theorem NowPlaying_spec (E : Env W) (pm : PlaybackManager W)
    (hidx : 0 ≤ pm.nowPlayingIdx ∧ pm.nowPlayingIdx < pm.playQueue.length) :
    ∃ song, index pm.playQueue pm.nowPlayingIdx = some song ∧
      (NowPlaying E pm = some none ↔
        pm.playQueue = [] ∨ (E.playerGetStatus pm.world).State = State.Stopped) ∧
      (¬ (pm.playQueue = [] ∨ (E.playerGetStatus pm.world).State = State.Stopped) →
        NowPlaying E pm = some (some song)) := by
  obtain ⟨song, hsong⟩ := index_eq_getElem pm.playQueue pm.nowPlayingIdx hidx.1 hidx.2
  have hiff : (pm.playQueue.length = 0 ∨ (E.playerGetStatus pm.world).State = State.Stopped) ↔
      (pm.playQueue = [] ∨ (E.playerGetStatus pm.world).State = State.Stopped) := by
    rw [List.length_eq_zero]
  refine ⟨song, hsong, ?_, ?_⟩
  · unfold NowPlaying
    by_cases h : pm.playQueue.length = 0 ∨ (E.playerGetStatus pm.world).State = State.Stopped
    · rw [if_pos h]
      exact ⟨fun _ => hiff.mp h, fun _ => rfl⟩
    · rw [if_neg h, hsong]
      constructor
      · intro hc
        simp at hc
      · intro hc
        exact absurd (hiff.mpr hc) h
  · intro h
    unfold NowPlaying
    rw [if_neg (fun hc => h (hiff.mp hc)), hsong]
    rfl

/-- Witness for C17: the five-entry manager on a playing engine. -/
theorem NowPlaying_spec_witness :
    (0 ≤ (fiveManager ()).nowPlayingIdx ∧
      (fiveManager ()).nowPlayingIdx < (fiveManager ()).playQueue.length) ∧
    NowPlaying quietEnv (fiveManager ()) = some (some 10) ∧
    ∃ song, index (fiveManager ()).playQueue (fiveManager ()).nowPlayingIdx = some song ∧
      (NowPlaying quietEnv (fiveManager ()) = some none ↔
        (fiveManager ()).playQueue = [] ∨
          (quietEnv.playerGetStatus (fiveManager ()).world).State = State.Stopped) ∧
      (¬ ((fiveManager ()).playQueue = [] ∨
          (quietEnv.playerGetStatus (fiveManager ()).world).State = State.Stopped) →
        NowPlaying quietEnv (fiveManager ()) = some (some song)) :=
  ⟨by decide, by decide, NowPlaying_spec quietEnv (fiveManager ()) (by decide)⟩

theorem NowPlaying_nil (E : Env W) (pm : PlaybackManager W) (h : pm.playQueue = []) :
    NowPlaying E pm = some none := by
  unfold NowPlaying
  simp [h]

/-- C20: from every state `StopAndClearPlayQueue` issues a stop and then a
clear-queue to the engine, leaves the local queue empty (`GetPlayQueue` returns
the empty list and `NowPlaying` none) and, with callbacks enabled, invokes
every time-position observer once with the position and duration the engine
reports after the two commands; with callbacks disabled it invokes none. -/
theorem StopAndClearPlayQueue_spec (E : Env W) (pm : PlaybackManager W) :
    (StopAndClearPlayQueue E pm).playQueue = [] ∧
    (GetPlayQueue (StopAndClearPlayQueue E pm)).2 = [] ∧
    NowPlaying E (StopAndClearPlayQueue E pm) = some none ∧
    (StopAndClearPlayQueue E pm).world = E.playerClearPlayQueue (E.playerStop pm.world) ∧
    (StopAndClearPlayQueue E pm).log =
      pm.log ++ [Event.playerStop, Event.playerClearPlayQueue] ++
        (if pm.callbacksDisabled then []
         else pm.onPlayTimeUpdate.map fun cb =>
          Event.playTimeUpdate cb
            (E.playerGetStatus (E.playerClearPlayQueue (E.playerStop pm.world))).TimePos
            (E.playerGetStatus (E.playerClearPlayQueue (E.playerStop pm.world))).Duration) := by
  have hq : (StopAndClearPlayQueue E pm).playQueue = [] := rfl
  refine ⟨hq, ?_, NowPlaying_nil E _ hq, ?_, ?_⟩
  · unfold GetPlayQueue
    rw [hq]
    rfl
  · unfold StopAndClearPlayQueue doUpdateTimePos
    by_cases h : pm.callbacksDisabled = true
    · simp [h]
    · simp [h]
  · unfold StopAndClearPlayQueue doUpdateTimePos
    by_cases h : pm.callbacksDisabled = true
    · simp [h]
    · simp [h]

/-- C12 (evaluation at the failing input): a track-changed event with the index -1
is not ignored. The bounds guard lets it through, the scrobble of the entry
that was playing is evaluated (here submitted), and the handler then panics
on `playQueue[-1]`; an index at or beyond the queue length is ignored. -/
theorem negative_track_change_panics :
    ¬ ((playedManager.playQueue.length : Int) ≤ -1) ∧
    ((checkScrobble playedManager
      (playedManager.playTimeStopwatch.Elapsed (quietEnv.timeNow playedManager.world))).map
        fun p => (p.log, (p.heap 10).PlayCount, p.lastScrobbled)) =
      some ([Event.scrobble "t10" true], 1, some 10) ∧
    (onTrackChange quietEnv playedManager (-1)).isNone = true ∧
    (onTrackChange quietEnv playedManager 5).map (fun p => p.log) = some [] := by
  decide!


/-! ### Field projections of the helpers -/

@[simp]
theorem doUpdateTimePos_world (E : Env W) (pm : PlaybackManager W) :
    (doUpdateTimePos E pm).world = pm.world := by
  unfold doUpdateTimePos
  split <;> rfl

@[simp]
theorem doUpdateTimePos_heap (E : Env W) (pm : PlaybackManager W) :
    (doUpdateTimePos E pm).heap = pm.heap := by
  unfold doUpdateTimePos
  split <;> rfl

@[simp]
theorem doUpdateTimePos_nextPtr (E : Env W) (pm : PlaybackManager W) :
    (doUpdateTimePos E pm).nextPtr = pm.nextPtr := by
  unfold doUpdateTimePos
  split <;> rfl

@[simp]
theorem doUpdateTimePos_pollsStarted (E : Env W) (pm : PlaybackManager W) :
    (doUpdateTimePos E pm).pollsStarted = pm.pollsStarted := by
  unfold doUpdateTimePos
  split <;> rfl

@[simp]
theorem doUpdateTimePos_activePolls (E : Env W) (pm : PlaybackManager W) :
    (doUpdateTimePos E pm).activePolls = pm.activePolls := by
  unfold doUpdateTimePos
  split <;> rfl

@[simp]
theorem doUpdateTimePos_cancelPollPos (E : Env W) (pm : PlaybackManager W) :
    (doUpdateTimePos E pm).cancelPollPos = pm.cancelPollPos := by
  unfold doUpdateTimePos
  split <;> rfl

@[simp]
theorem doUpdateTimePos_playTimeStopwatch (E : Env W) (pm : PlaybackManager W) :
    (doUpdateTimePos E pm).playTimeStopwatch = pm.playTimeStopwatch := by
  unfold doUpdateTimePos
  split <;> rfl

@[simp]
theorem doUpdateTimePos_curTrackTime (E : Env W) (pm : PlaybackManager W) :
    (doUpdateTimePos E pm).curTrackTime = pm.curTrackTime := by
  unfold doUpdateTimePos
  split <;> rfl

@[simp]
theorem doUpdateTimePos_callbacksDisabled (E : Env W) (pm : PlaybackManager W) :
    (doUpdateTimePos E pm).callbacksDisabled = pm.callbacksDisabled := by
  unfold doUpdateTimePos
  split <;> rfl

@[simp]
theorem doUpdateTimePos_playQueue (E : Env W) (pm : PlaybackManager W) :
    (doUpdateTimePos E pm).playQueue = pm.playQueue := by
  unfold doUpdateTimePos
  split <;> rfl

@[simp]
theorem doUpdateTimePos_nowPlayingIdx (E : Env W) (pm : PlaybackManager W) :
    (doUpdateTimePos E pm).nowPlayingIdx = pm.nowPlayingIdx := by
  unfold doUpdateTimePos
  split <;> rfl

@[simp]
theorem doUpdateTimePos_lastScrobbled (E : Env W) (pm : PlaybackManager W) :
    (doUpdateTimePos E pm).lastScrobbled = pm.lastScrobbled := by
  unfold doUpdateTimePos
  split <;> rfl

@[simp]
theorem doUpdateTimePos_scrobbleCfg (E : Env W) (pm : PlaybackManager W) :
    (doUpdateTimePos E pm).scrobbleCfg = pm.scrobbleCfg := by
  unfold doUpdateTimePos
  split <;> rfl

@[simp]
theorem doUpdateTimePos_onSongChange (E : Env W) (pm : PlaybackManager W) :
    (doUpdateTimePos E pm).onSongChange = pm.onSongChange := by
  unfold doUpdateTimePos
  split <;> rfl

@[simp]
theorem doUpdateTimePos_onPlayTimeUpdate (E : Env W) (pm : PlaybackManager W) :
    (doUpdateTimePos E pm).onPlayTimeUpdate = pm.onPlayTimeUpdate := by
  unfold doUpdateTimePos
  split <;> rfl

@[simp]
theorem doUpdateTimePos_onPaused (E : Env W) (pm : PlaybackManager W) :
    (doUpdateTimePos E pm).onPaused = pm.onPaused := by
  unfold doUpdateTimePos
  split <;> rfl

@[simp]
theorem doUpdateTimePos_onPlaying (E : Env W) (pm : PlaybackManager W) :
    (doUpdateTimePos E pm).onPlaying = pm.onPlaying := by
  unfold doUpdateTimePos
  split <;> rfl

@[simp]
theorem doUpdateTimePos_log (E : Env W) (pm : PlaybackManager W) :
    (doUpdateTimePos E pm).log = pm.log ++
      (if pm.callbacksDisabled then []
       else pm.onPlayTimeUpdate.map fun cb =>
        Event.playTimeUpdate cb (E.playerGetStatus pm.world).TimePos
          (E.playerGetStatus pm.world).Duration) := by
  unfold doUpdateTimePos
  split <;> simp

@[simp]
theorem stopPollTimePos_world (pm : PlaybackManager W) :
    (stopPollTimePos pm).world = pm.world := by
  unfold stopPollTimePos
  split <;> rfl

@[simp]
theorem stopPollTimePos_heap (pm : PlaybackManager W) :
    (stopPollTimePos pm).heap = pm.heap := by
  unfold stopPollTimePos
  split <;> rfl

@[simp]
theorem stopPollTimePos_nextPtr (pm : PlaybackManager W) :
    (stopPollTimePos pm).nextPtr = pm.nextPtr := by
  unfold stopPollTimePos
  split <;> rfl

@[simp]
theorem stopPollTimePos_pollsStarted (pm : PlaybackManager W) :
    (stopPollTimePos pm).pollsStarted = pm.pollsStarted := by
  unfold stopPollTimePos
  split <;> rfl

@[simp]
theorem stopPollTimePos_playTimeStopwatch (pm : PlaybackManager W) :
    (stopPollTimePos pm).playTimeStopwatch = pm.playTimeStopwatch := by
  unfold stopPollTimePos
  split <;> rfl

@[simp]
theorem stopPollTimePos_curTrackTime (pm : PlaybackManager W) :
    (stopPollTimePos pm).curTrackTime = pm.curTrackTime := by
  unfold stopPollTimePos
  split <;> rfl

@[simp]
theorem stopPollTimePos_callbacksDisabled (pm : PlaybackManager W) :
    (stopPollTimePos pm).callbacksDisabled = pm.callbacksDisabled := by
  unfold stopPollTimePos
  split <;> rfl

@[simp]
theorem stopPollTimePos_playQueue (pm : PlaybackManager W) :
    (stopPollTimePos pm).playQueue = pm.playQueue := by
  unfold stopPollTimePos
  split <;> rfl

@[simp]
theorem stopPollTimePos_nowPlayingIdx (pm : PlaybackManager W) :
    (stopPollTimePos pm).nowPlayingIdx = pm.nowPlayingIdx := by
  unfold stopPollTimePos
  split <;> rfl

@[simp]
theorem stopPollTimePos_lastScrobbled (pm : PlaybackManager W) :
    (stopPollTimePos pm).lastScrobbled = pm.lastScrobbled := by
  unfold stopPollTimePos
  split <;> rfl

@[simp]
theorem stopPollTimePos_scrobbleCfg (pm : PlaybackManager W) :
    (stopPollTimePos pm).scrobbleCfg = pm.scrobbleCfg := by
  unfold stopPollTimePos
  split <;> rfl

@[simp]
theorem stopPollTimePos_onSongChange (pm : PlaybackManager W) :
    (stopPollTimePos pm).onSongChange = pm.onSongChange := by
  unfold stopPollTimePos
  split <;> rfl

@[simp]
theorem stopPollTimePos_onPlayTimeUpdate (pm : PlaybackManager W) :
    (stopPollTimePos pm).onPlayTimeUpdate = pm.onPlayTimeUpdate := by
  unfold stopPollTimePos
  split <;> rfl

@[simp]
theorem stopPollTimePos_onPaused (pm : PlaybackManager W) :
    (stopPollTimePos pm).onPaused = pm.onPaused := by
  unfold stopPollTimePos
  split <;> rfl

@[simp]
theorem stopPollTimePos_onPlaying (pm : PlaybackManager W) :
    (stopPollTimePos pm).onPlaying = pm.onPlaying := by
  unfold stopPollTimePos
  split <;> rfl

@[simp]
theorem stopPollTimePos_log (pm : PlaybackManager W) :
    (stopPollTimePos pm).log = pm.log := by
  unfold stopPollTimePos
  split <;> rfl

theorem onTrackChange_neg (E : Env W) (pm : PlaybackManager W) (n : Int) (hn : n < 0) :
    onTrackChange E pm n = none := by
  unfold onTrackChange
  rw [if_neg (by omega)]
  cases checkScrobble pm (pm.playTimeStopwatch.Elapsed (E.timeNow pm.world)) with
  | none => rfl
  | some pm1 =>
    simp only [Option.some_bind]
    have : index pm1.playQueue n = none := by simp [index, hn]
    split <;> simp [this]

/-- The loop of `LoadTracks` when every resolution succeeds, whatever the state of
the outside world: every position is processed and appended. -/
theorem loadLoop_ok (E : Env W) (tracks : List Child)
    (hok : ∀ w id, ∃ url, E.serverGetStreamURL w id = Except.ok url) (nums : List Nat) :
    ∀ pm : PlaybackManager W, (∀ i ∈ nums, i < tracks.length) →
      ∃ ts : List (Child × String),
        ts.map Prod.fst = nums.filterMap (fun i => tracks[i]?) ∧ ts.length = nums.length ∧
        loadLoop E tracks nums pm = some ⟨loadedState E pm ts, none⟩ := by
  induction nums with
  | nil =>
    intro pm _
    exact ⟨[], rfl, rfl, rfl⟩
  | cons i nums ih =>
    intro pm hlt
    have hi : i < tracks.length := hlt i (List.mem_cons_self _ _)
    have hget : tracks[i]? = some tracks[i] := List.getElem?_eq_getElem hi
    obtain ⟨url, hurl⟩ := hok pm.world tracks[i].ID
    obtain ⟨ts, h1, h2, h3⟩ := ih (appendTrack E pm tracks[i] url)
      (fun j hj => hlt j (List.mem_cons_of_mem _ hj))
    refine ⟨(tracks[i], url) :: ts, ?_, ?_, ?_⟩
    · rw [List.map_cons, List.filterMap_cons, hget, h1]
    · rw [List.length_cons, List.length_cons, h2]
    · rw [loadedState_cons]
      simp only [loadLoop, hget, hurl]
      exact h3

theorem loadStart_nowPlayingIdx (E : Env W) (pm : PlaybackManager W) (a : Bool) :
    (loadStart E pm a).nowPlayingIdx = if a then pm.nowPlayingIdx else 0 := by
  cases a <;> simp [loadStart]

/-- C11: without shuffle and when every stream-URL resolution succeeds, `LoadTracks`
returns no error and leaves the prior queue (when appending) or the empty
queue (otherwise) followed by fresh field-for-field copies of the input
tracks in input order. Without appending the engine is stopped before the
first append and the now-playing index is 0; when appending the index is
unchanged. No object that existed before the call (prior entries, the
caller's tracks) is modified. -/
theorem LoadTracks_in_order (E : Env W) (pm : PlaybackManager W) (tracks : List Child)
    (a : Bool) (hok : ∀ w id, ∃ url, E.serverGetStreamURL w id = Except.ok url) :
    ∃ pm1, LoadTracks E pm tracks a false = some ⟨pm1, none⟩ ∧
      pm1.playQueue = (if a then pm.playQueue else []) ++
        List.range' pm.nextPtr tracks.length ∧
      (List.range' pm.nextPtr tracks.length).map pm1.heap = tracks ∧
      (∀ p, p < pm.nextPtr → pm1.heap p = pm.heap p) ∧
      pm1.nowPlayingIdx = (if a then pm.nowPlayingIdx else 0) ∧
      ∃ urls : List String, urls.length = tracks.length ∧
        pm1.log = pm.log ++ (if a then [] else [Event.playerStop]) ++
          urls.map Event.playerAppendFile := by
  obtain ⟨ts, h1, h2, h3⟩ := loadLoop_ok E tracks hok (List.range tracks.length)
    (loadStart E pm a) (fun i hi => List.mem_range.mp hi)
  rw [filterMap_getElem?_range] at h1
  rw [List.length_range] at h2
  refine ⟨loadedState E (loadStart E pm a) ts, ?_, ?_, ?_, ?_, ?_, ts.map Prod.snd, ?_, ?_⟩
  · rw [LoadTracks_eq]
    simp only [loadOrder, Bool.false_eq_true, if_false]
    exact h3
  · rw [loadedState_playQueue, loadStart_playQueue, loadStart_nextPtr, h2]
  · have := loadedState_heap_new E ts (loadStart E pm a)
    rw [loadStart_nextPtr, h2] at this
    rw [this, h1]
  · intro p hp
    rw [loadedState_heap_old E _ _ p (by rw [loadStart_nextPtr]; exact hp), loadStart_heap]
  · rw [(loadedState_frame E ts _).1, loadStart_nowPlayingIdx]
  · rw [List.length_map, h2]
  · rw [loadedState_log, loadStart_log, List.map_map]
    rfl

/-- Witness for C11: two tracks appended to the five-entry queue. -/
theorem LoadTracks_in_order_witness :
    (∀ (w : Unit) (id : String), ∃ url, quietEnv.serverGetStreamURL w id = Except.ok url) ∧
    (LoadTracks quietEnv (fiveManager ()) [sampleTrack "a" 200, sampleTrack "b" 100]
        true false).map
      (fun r => (r.err, r.pm.playQueue, r.pm.playQueue.map (fun p => (r.pm.heap p).ID))) =
      some (none, [10, 11, 12, 13, 14, 15, 16], ["t10", "t11", "t12", "t13", "t14", "a", "b"]) ∧
    ∃ pm1, LoadTracks quietEnv (fiveManager ()) [sampleTrack "a" 200, sampleTrack "b" 100]
        true false = some ⟨pm1, none⟩ ∧
      pm1.playQueue = (if true then (fiveManager ()).playQueue else []) ++
        List.range' (fiveManager ()).nextPtr [sampleTrack "a" 200, sampleTrack "b" 100].length ∧
      (List.range' (fiveManager ()).nextPtr
        [sampleTrack "a" 200, sampleTrack "b" 100].length).map pm1.heap =
        [sampleTrack "a" 200, sampleTrack "b" 100] ∧
      (∀ p, p < (fiveManager ()).nextPtr → pm1.heap p = (fiveManager ()).heap p) ∧
      pm1.nowPlayingIdx = (if true then (fiveManager ()).nowPlayingIdx else 0) ∧
      ∃ urls : List String, urls.length = [sampleTrack "a" 200, sampleTrack "b" 100].length ∧
        pm1.log = (fiveManager ()).log ++ (if true then [] else [Event.playerStop]) ++
          urls.map Event.playerAppendFile :=
  ⟨fun _ _ => ⟨_, rfl⟩, by decide,
    LoadTracks_in_order quietEnv (fiveManager ()) [sampleTrack "a" 200, sampleTrack "b" 100]
      true (fun _ _ => ⟨_, rfl⟩)⟩


theorem checkScrobble_eq (pm : PlaybackManager W) (playDur : Int) (old : Ptr)
    (hold : index pm.playQueue pm.nowPlayingIdx = some old) :
    checkScrobble pm playDur = some (if scrobbleDue pm playDur then scrobbled pm old else pm) := by
  by_cases h : scrobbleDue pm playDur
  · rw [if_pos h]
    exact checkScrobble_of_due pm playDur old h hold
  · rw [if_neg h]
    exact checkScrobble_of_not_due pm playDur h

theorem NowPlaying_eq (E : Env W) (pm : PlaybackManager W) (song : Ptr)
    (h : index pm.playQueue pm.nowPlayingIdx = some song) :
    NowPlaying E pm =
      some (if pm.playQueue.length = 0 ∨ (E.playerGetStatus pm.world).State = State.Stopped
        then none else some song) := by
  unfold NowPlaying
  split <;> simp [h]

theorem invokeOnSongChangeCallbacks_of (E : Env W) (pm : PlaybackManager W) (np : Option Ptr)
    (h : NowPlaying E pm = some np) :
    invokeOnSongChangeCallbacks E pm =
      some (if pm.callbacksDisabled then pm
        else
          { pm with
            log := pm.log ++ pm.onSongChange.map fun cb => Event.songChange cb np pm.lastScrobbled
            lastScrobbled := none }) := by
  unfold invokeOnSongChangeCallbacks
  by_cases hd : pm.callbacksDisabled = true
  · rw [if_pos hd, if_pos hd]
  · rw [if_neg hd, if_neg hd, callSongChange_eq E _ pm np h]
    rfl

theorem sendNowPlayingScrobble_of (pm : PlaybackManager W) (song : Ptr)
    (h : index pm.playQueue pm.nowPlayingIdx = some song) :
    sendNowPlayingScrobble pm =
      some (if pm.scrobbleCfg.Enabled = false ∨ pm.playQueue.length = 0 ∨ pm.nowPlayingIdx < 0
        then pm
        else { pm with log := pm.log ++ [Event.scrobble (pm.heap song).ID false] }) := by
  unfold sendNowPlayingScrobble
  split
  · rfl
  · simp [h]

theorem index_some_bounds {α : Type} (s : List α) (i : Int) (x : α)
    (h : index s i = some x) : 0 ≤ i ∧ i < s.length := by
  unfold index at h
  split at h
  · cases h
  · have := (List.getElem?_eq_some.mp h).1
    omega

theorem doUpdateTimePos_fields (E : Env W) (pm : PlaybackManager W) :
    (doUpdateTimePos E pm).playQueue = pm.playQueue ∧
    (doUpdateTimePos E pm).nowPlayingIdx = pm.nowPlayingIdx ∧
    (doUpdateTimePos E pm).heap = pm.heap ∧
    (doUpdateTimePos E pm).scrobbleCfg = pm.scrobbleCfg ∧
    (doUpdateTimePos E pm).curTrackTime = pm.curTrackTime ∧
    (doUpdateTimePos E pm).lastScrobbled = pm.lastScrobbled ∧
    (doUpdateTimePos E pm).playTimeStopwatch = pm.playTimeStopwatch ∧
    (doUpdateTimePos E pm).world = pm.world ∧
    (doUpdateTimePos E pm).callbacksDisabled = pm.callbacksDisabled := by
  unfold doUpdateTimePos
  split <;> exact ⟨rfl, rfl, rfl, rfl, rfl, rfl, rfl, rfl, rfl⟩

/-- The track-changed handler below the queue length, with the conditional restart
of the accumulator written as one update. -/
theorem onTrackChange_unfold (E : Env W) (pm : PlaybackManager W) (n : Int)
    (hn : n < pm.playQueue.length) :
    onTrackChange E pm n =
      (checkScrobble pm (pm.playTimeStopwatch.Elapsed (E.timeNow pm.world))).bind fun pm1 =>
      (index pm1.playQueue n).bind fun song =>
      (invokeOnSongChangeCallbacks E
        { pm1 with
          playTimeStopwatch :=
            if (E.playerGetStatus pm1.world).State = State.Playing then
              pm1.playTimeStopwatch.Reset.Start (E.timeNow pm1.world)
            else pm1.playTimeStopwatch.Reset
          nowPlayingIdx := n
          curTrackTime := f64OfInt (pm1.heap song).Duration }).bind fun pm6 =>
      sendNowPlayingScrobble (doUpdateTimePos E pm6) := by
  unfold onTrackChange
  rw [if_neg (not_le.mpr hn)]
  congr 1
  funext pm1
  by_cases hp : (E.playerGetStatus pm1.world).State = State.Playing
  · simp only [hp, if_true]
  · simp only [hp, if_false]

/-- The track-changed handler for an in-bounds index, once the scrobble evaluation
has returned `pmS`. -/
theorem onTrackChange_eq (E : Env W) (pm pmS : PlaybackManager W) (n : Int) (new : Ptr)
    (hnew : index pm.playQueue n = some new)
    (hS : checkScrobble pm (pm.playTimeStopwatch.Elapsed (E.timeNow pm.world)) = some pmS)
    (hq : pmS.playQueue = pm.playQueue) :
    onTrackChange E pm n = some (afterTrackChange E pmS n new) := by
  obtain ⟨hn0, hn1⟩ := index_some_bounds _ _ _ hnew
  have hlen : ¬ pmS.playQueue.length = 0 := by
    intro h
    rw [hq] at h
    rw [h] at hn1
    simp at hn1
    omega
  have hnewS : index pmS.playQueue n = some new := by rw [hq]; exact hnew
  rw [onTrackChange_unfold E pm n hn1, hS]
  simp only [Option.some_bind, hnewS]
  obtain ⟨p5, hp5⟩ : ∃ p5 : PlaybackManager W, p5 =
      { pmS with
        playTimeStopwatch :=
          if (E.playerGetStatus pmS.world).State = State.Playing then
            pmS.playTimeStopwatch.Reset.Start (E.timeNow pmS.world)
          else pmS.playTimeStopwatch.Reset
        nowPlayingIdx := n
        curTrackTime := f64OfInt (pmS.heap new).Duration } := ⟨_, rfl⟩
  rw [← hp5]
  have hidx5 : index p5.playQueue p5.nowPlayingIdx = some new := by rw [hp5]; exact hnewS
  rw [invokeOnSongChangeCallbacks_of E p5 _ (NowPlaying_eq E p5 new hidx5)]
  simp only [Option.some_bind]
  rw [sendNowPlayingScrobble_of _ new (by
    rw [(doUpdateTimePos_fields E _).1, (doUpdateTimePos_fields E _).2.1]
    split <;> exact hidx5)]
  subst hp5
  by_cases hd : pmS.callbacksDisabled = true <;> by_cases he : pmS.scrobbleCfg.Enabled = true <;>
    simp [afterTrackChange, doUpdateTimePos, hd, he, not_lt.mpr hn0, hlen]

theorem index_inj_of_nodup {α : Type} (s : List α) (h : s.Nodup) (i j : Int) (x : α)
    (hi : index s i = some x) (hj : index s j = some x) : i = j := by
  obtain ⟨hi0, -⟩ := index_some_bounds s i x hi
  obtain ⟨hj0, -⟩ := index_some_bounds s j x hj
  unfold index at hi hj
  rw [if_neg (not_lt.mpr hi0)] at hi
  rw [if_neg (not_lt.mpr hj0)] at hj
  have := List.getElem?_inj (List.getElem?_eq_some.mp hi).1 h (hi.trans hj.symm)
  omega

theorem afterTrackChange_log (E : Env W) (pmS : PlaybackManager W) (n : Int) (new : Ptr) :
    (afterTrackChange E pmS n new).log = pmS.log ++ trackChangeBroadcast E pmS new pmS.lastScrobbled := by
  by_cases hd : pmS.callbacksDisabled = true <;> by_cases he : pmS.scrobbleCfg.Enabled = true <;>
    simp [afterTrackChange, trackChangeBroadcast, doUpdateTimePos, hd, he]

theorem afterTrackChange_fields (E : Env W) (pmS : PlaybackManager W) (n : Int) (new : Ptr) :
    (afterTrackChange E pmS n new).nowPlayingIdx = n ∧
    (afterTrackChange E pmS n new).curTrackTime = f64OfInt (pmS.heap new).Duration ∧
    (afterTrackChange E pmS n new).heap = pmS.heap ∧
    (afterTrackChange E pmS n new).playQueue = pmS.playQueue ∧
    (afterTrackChange E pmS n new).lastScrobbled =
      (if pmS.callbacksDisabled then pmS.lastScrobbled else none) ∧
    (afterTrackChange E pmS n new).playTimeStopwatch =
      (if (E.playerGetStatus pmS.world).State = State.Playing then
        pmS.playTimeStopwatch.Reset.Start (E.timeNow pmS.world)
      else pmS.playTimeStopwatch.Reset) ∧
    (afterTrackChange E pmS n new).world = pmS.world := by
  by_cases hd : pmS.callbacksDisabled = true <;> by_cases he : pmS.scrobbleCfg.Enabled = true <;>
    simp [afterTrackChange, doUpdateTimePos, hd, he]

/-- C13: with a valid now-playing index and an in-bounds new index, the track-changed
handler takes the scrobble decision on the pre-advance entry `old` (old index,
old tracked duration, the accumulator's elapsed time): the play-count
increment (by one, in `int64` arithmetic), the submission and the pending
marker passed on are those of `old` and no other object changes, so that the entry at the new index is
untouched when the queue entries are distinct and the index differs.
Afterwards the now-playing index is the new index and the tracked duration is
the duration of the entry there. -/
theorem onTrackChange_scrobbles_previous (E : Env W) (pm : PlaybackManager W) (n : Int)
    (hidx : 0 ≤ pm.nowPlayingIdx ∧ pm.nowPlayingIdx < pm.playQueue.length)
    (hn : 0 ≤ n ∧ n < pm.playQueue.length) :
    ∃ old new pm1, index pm.playQueue pm.nowPlayingIdx = some old ∧
      index pm.playQueue n = some new ∧
      onTrackChange E pm n = some pm1 ∧
      pm1.nowPlayingIdx = n ∧
      pm1.curTrackTime = f64OfInt (pm1.heap new).Duration ∧
      (pm1.heap new).Duration = (pm.heap new).Duration ∧
      pm1.playQueue = pm.playQueue ∧
      (pm.playQueue.Nodup → n ≠ pm.nowPlayingIdx → pm1.heap new = pm.heap new) ∧
      (scrobbleDue pm (pm.playTimeStopwatch.Elapsed (E.timeNow pm.world)) →
        (pm1.heap old).PlayCount = wrapInt64 ((pm.heap old).PlayCount + 1) ∧
        (∀ p, p ≠ old → pm1.heap p = pm.heap p) ∧
        pm1.lastScrobbled = (if pm.callbacksDisabled then some old else none) ∧
        pm1.log = pm.log ++ [Event.scrobble (pm.heap old).ID true] ++
          trackChangeBroadcast E pm new (some old)) ∧
      (¬ scrobbleDue pm (pm.playTimeStopwatch.Elapsed (E.timeNow pm.world)) →
        pm1.heap = pm.heap ∧
        pm1.lastScrobbled = (if pm.callbacksDisabled then pm.lastScrobbled else none) ∧
        pm1.log = pm.log ++ trackChangeBroadcast E pm new pm.lastScrobbled) := by
  obtain ⟨old, hold⟩ := index_eq_getElem pm.playQueue pm.nowPlayingIdx hidx.1 hidx.2
  obtain ⟨new, hnew⟩ := index_eq_getElem pm.playQueue n hn.1 hn.2
  have hS := checkScrobble_eq pm (pm.playTimeStopwatch.Elapsed (E.timeNow pm.world)) old hold
  by_cases hdue : scrobbleDue pm (pm.playTimeStopwatch.Elapsed (E.timeNow pm.world))
  · rw [if_pos hdue] at hS
    have heq := onTrackChange_eq E pm (scrobbled pm old) n new hnew hS rfl
    obtain ⟨f1, f2, f3, f4, f5, -, -⟩ := afterTrackChange_fields E (scrobbled pm old) n new
    have hrec := recordsScrobble_scrobbled pm old
    have hdur : ((scrobbled pm old).heap new).Duration = (pm.heap new).Duration := by
      by_cases hno : new = old
      · rw [hno]
        exact hrec.2.2.2.2.2.1
      · rw [hrec.2.2.2.2.2.2.2.2.1 new hno]
    have hid : ((scrobbled pm old).heap new).ID = (pm.heap new).ID := by
      by_cases hno : new = old
      · rw [hno]
        exact hrec.2.2.2.1
      · rw [hrec.2.2.2.2.2.2.2.2.1 new hno]
    refine ⟨old, new, _, hold, hnew, heq, f1, ?_, ?_, f4, ?_, ?_, ?_⟩
    · rw [f2, f3]
    · rw [f3]
      exact hdur
    · intro hnd hne
      rw [f3]
      exact hrec.2.2.2.2.2.2.2.2.1 new
        (fun hc => hne (index_inj_of_nodup _ hnd _ _ old (hc ▸ hnew) hold))
    · intro _
      refine ⟨?_, ?_, ?_, ?_⟩
      · rw [f3]
        exact hrec.2.2.1
      · intro p hp
        rw [f3]
        exact hrec.2.2.2.2.2.2.2.2.1 p hp
      · rw [f5]
        rfl
      · rw [afterTrackChange_log]
        simp only [trackChangeBroadcast, hid]
        rfl
    · intro h
      exact absurd hdue h
  · rw [if_neg hdue] at hS
    have heq := onTrackChange_eq E pm pm n new hnew hS rfl
    obtain ⟨f1, f2, f3, f4, f5, -, -⟩ := afterTrackChange_fields E pm n new
    refine ⟨old, new, _, hold, hnew, heq, f1, ?_, ?_, f4, ?_, ?_, ?_⟩
    · rw [f2, f3]
    · rw [f3]
    · intro _ _
      rw [f3]
    · intro h
      exact absurd h hdue
    · intro _
      exact ⟨f3, f5, afterTrackChange_log E pm n new⟩


/-- Witness for C13: the entry at index 0 has played 150 s of 200 s when the track
changes to index 2. -/
theorem onTrackChange_scrobbles_previous_witness :
    (0 ≤ playedManager.nowPlayingIdx ∧
      playedManager.nowPlayingIdx < playedManager.playQueue.length) ∧
    ((0 : Int) ≤ 2 ∧ (2 : Int) < playedManager.playQueue.length) ∧
    (onTrackChange quietEnv playedManager 2).map
      (fun p => (p.log, p.nowPlayingIdx, (p.heap 10).PlayCount, (p.heap 12).PlayCount)) =
      some ([Event.scrobble "t10" true, Event.songChange 1 (some 12) (some 10),
        Event.scrobble "t12" false], 2, 1, 0) ∧
    ∃ old new pm1, index playedManager.playQueue playedManager.nowPlayingIdx = some old ∧
      index playedManager.playQueue 2 = some new ∧
      onTrackChange quietEnv playedManager 2 = some pm1 ∧
      pm1.nowPlayingIdx = 2 ∧
      pm1.curTrackTime = f64OfInt (pm1.heap new).Duration ∧
      (pm1.heap new).Duration = (playedManager.heap new).Duration ∧
      pm1.playQueue = playedManager.playQueue ∧
      (playedManager.playQueue.Nodup → (2 : Int) ≠ playedManager.nowPlayingIdx →
        pm1.heap new = playedManager.heap new) ∧
      (scrobbleDue playedManager
          (playedManager.playTimeStopwatch.Elapsed (quietEnv.timeNow playedManager.world)) →
        (pm1.heap old).PlayCount = wrapInt64 ((playedManager.heap old).PlayCount + 1) ∧
        (∀ p, p ≠ old → pm1.heap p = playedManager.heap p) ∧
        pm1.lastScrobbled = (if playedManager.callbacksDisabled then some old else none) ∧
        pm1.log = playedManager.log ++ [Event.scrobble (playedManager.heap old).ID true] ++
          trackChangeBroadcast quietEnv playedManager new (some old)) ∧
      (¬ scrobbleDue playedManager
          (playedManager.playTimeStopwatch.Elapsed (quietEnv.timeNow playedManager.world)) →
        pm1.heap = playedManager.heap ∧
        pm1.lastScrobbled =
          (if playedManager.callbacksDisabled then playedManager.lastScrobbled else none) ∧
        pm1.log = playedManager.log ++
          trackChangeBroadcast quietEnv playedManager new playedManager.lastScrobbled) :=
  ⟨by decide, by decide, by decide!,
    onTrackChange_scrobbles_previous quietEnv playedManager 2 (by decide) (by decide)⟩

theorem checkScrobble_cases (pm pm1 : PlaybackManager W) (playDur : Int)
    (h : checkScrobble pm playDur = some pm1) :
    pm1 = pm ∨ ∃ old, index pm.playQueue pm.nowPlayingIdx = some old ∧
      scrobbleDue pm playDur ∧ pm1 = scrobbled pm old := by
  by_cases hdue : scrobbleDue pm playDur
  · cases hsong : index pm.playQueue pm.nowPlayingIdx with
    | none =>
      unfold checkScrobble at h
      obtain ⟨hen, hne, h0, hs, hd, hthr⟩ := hdue
      have hlen : ¬ pm.playQueue.length = 0 := by
        simpa [List.length_eq_zero] using hne
      rw [if_neg (by simp [hen, hlen, not_lt.mpr h0])] at h
      rw [if_neg (by simp [not_lt.mpr hs, not_lt.mpr hd])] at h
      simp only [] at h
      rw [if_pos (by simpa [playedPercent] using hthr)] at h
      simp [hsong] at h
    | some song =>
      rw [checkScrobble_of_due pm playDur song hdue hsong] at h
      cases h
      exact Or.inr ⟨song, rfl, hdue, rfl⟩
  · rw [checkScrobble_of_not_due pm playDur hdue] at h
    cases h
    exact Or.inl rfl

theorem checkScrobble_frame (pm pm1 : PlaybackManager W) (playDur : Int)
    (h : checkScrobble pm playDur = some pm1) :
    pm1.playTimeStopwatch = pm.playTimeStopwatch ∧ pm1.world = pm.world ∧
    pm1.playQueue = pm.playQueue ∧ pm1.nowPlayingIdx = pm.nowPlayingIdx ∧
    pm1.curTrackTime = pm.curTrackTime ∧ pm1.scrobbleCfg = pm.scrobbleCfg ∧
    pm1.callbacksDisabled = pm.callbacksDisabled ∧ pm1.onSongChange = pm.onSongChange ∧
    pm1.onPlayTimeUpdate = pm.onPlayTimeUpdate ∧ pm1.onPaused = pm.onPaused ∧
    pm1.onPlaying = pm.onPlaying ∧ pm1.nextPtr = pm.nextPtr := by
  rcases checkScrobble_cases pm pm1 playDur h with rfl | ⟨old, -, -, rfl⟩
  · exact ⟨rfl, rfl, rfl, rfl, rfl, rfl, rfl, rfl, rfl, rfl, rfl, rfl⟩
  · exact ⟨rfl, rfl, rfl, rfl, rfl, rfl, rfl, rfl, rfl, rfl, rfl, rfl⟩

theorem checkScrobble_stopwatch (pm : PlaybackManager W) (playDur : Int) (sw : Stopwatch) :
    checkScrobble { pm with playTimeStopwatch := sw } playDur =
      (checkScrobble pm playDur).map fun p => { p with playTimeStopwatch := sw } := by
  unfold checkScrobble
  simp only []
  split
  · rfl
  · split
    · rfl
    · split
      · cases index pm.playQueue pm.nowPlayingIdx <;> rfl
      · rfl

theorem Stopwatch.elapsed_stop (s : Stopwatch) (now t : Int) :
    (s.Stop now).Elapsed t = s.Elapsed now := by
  cases h : s.running <;> simp [Stopwatch.Stop, Stopwatch.Elapsed, h]

theorem Stopwatch.reset_stop (s : Stopwatch) (now : Int) : (s.Stop now).Reset = s.Reset := by
  cases h : s.running <;> simp [Stopwatch.Stop, Stopwatch.Reset, h]

/-- Below the queue length the handler has the same result and the same effect log as
the sequence of the specification that stops the accumulator first: with the
accumulator of spec section 4.1, reading the elapsed time of the running
accumulator gives the value a stop would have accumulated, and the reset that
follows erases the difference. -/
theorem onTrackChange_eq_sequence (E : Env W) (pm : PlaybackManager W) (n : Int)
    (hn : n < pm.playQueue.length) :
    onTrackChange E pm n = trackChangeSequence E pm n := by
  rw [onTrackChange_unfold E pm n hn]
  unfold trackChangeSequence evaluateScrobble stopAccumulator
  simp only [Stopwatch.elapsed_stop]
  rw [checkScrobble_stopwatch pm _ (pm.playTimeStopwatch.Stop (E.timeNow pm.world))]
  cases hS : checkScrobble pm (pm.playTimeStopwatch.Elapsed (E.timeNow pm.world)) with
  | none => rfl
  | some p1 =>
    have hsw := (checkScrobble_frame pm p1 _ hS).1
    simp only [Option.map_some', Option.some_bind]
    unfold advanceIndex restartIfPlaying resetAccumulator
    simp only [Stopwatch.reset_stop, hsw]
    by_cases hp : (E.playerGetStatus p1.world).State = State.Playing
    · simp only [hp, if_true]
      cases index p1.playQueue n <;> rfl
    · simp only [hp, if_false]
      cases index p1.playQueue n <;> rfl

/-- C14 (counterexample): a change to track 2 of five, in bounds, while the
accumulator is running (150 s accumulated, running since clock reading 2 s,
the clock now reading 7 s). The statements the handler executes differ from
the specified order: the first one is the scrobble evaluation, and no
statement stops the accumulator. The scrobble is evaluated and the reset is
entered with the accumulator still running and its total still 150 s, whereas
in the specified order the evaluation would find it stopped with 155 s. In
the state with a one-entry queue and the now-playing index 3 (four tracks
loaded, the fourth playing, queue stopped and cleared, one track appended) an
in-bounds event (index 0) executes the scrobble evaluation only: it panics,
and none of the later steps takes place. -/
theorem onTrackChange_order_counterexample :
    ((0 : Int) ≤ 2 ∧ (2 : Int) < runningPlayed.playQueue.length) ∧
    onTrackChangeStmts runningPlayed 2 ≠ specifiedTrackChangeStmts 2 ∧
    (onTrackChangeStmts runningPlayed 2).head? = some HandlerStmt.evaluateScrobble ∧
    HandlerStmt.stopAccumulator ∉ onTrackChangeStmts runningPlayed 2 ∧
    (accumulatorTrace tickEnv (onTrackChangeStmts runningPlayed 2) runningPlayed).take 2 =
      [(HandlerStmt.evaluateScrobble, ⟨150000000000, true, 2000000000⟩),
        (HandlerStmt.resetAccumulator, ⟨150000000000, true, 2000000000⟩)] ∧
    (accumulatorTrace tickEnv (specifiedTrackChangeStmts 2) runningPlayed).take 2 =
      [(HandlerStmt.stopAccumulator, ⟨150000000000, true, 2000000000⟩),
        (HandlerStmt.evaluateScrobble, ⟨155000000000, false, 2000000000⟩)] ∧
    (run clockedEnv clockedManager
      (staleIndexCalls ++ [Op.world (20000000000, State.Playing)])).map
      (fun p => (p.playQueue, p.nowPlayingIdx,
        accumulatorTrace clockedEnv (onTrackChangeStmts p 0) p)) =
      some ([4], 3, [(HandlerStmt.evaluateScrobble, ⟨0, true, 0⟩)]) := by
  refine ⟨?_, ?_, ?_, ?_, ?_, ?_, ?_⟩ <;> decide!

/-- The handler is the execution, in order, of the statements `onTrackChangeStmts`
lists. -/
theorem onTrackChange_stmts (E : Env W) (pm : PlaybackManager W) (n : Int) :
    onTrackChange E pm n = execStmts E (onTrackChangeStmts pm n) pm := by
  unfold onTrackChange onTrackChangeStmts
  by_cases hg : (pm.playQueue.length : Int) ≤ n
  · rw [if_pos hg, if_pos hg]
    rfl
  · rw [if_neg hg, if_neg hg]
    simp only [execStmts, execStmt, evaluateScrobble]
    congr 1
    funext pm1
    simp only [Option.some_bind, resetAccumulator, restartIfPlaying]
    by_cases hp : (E.playerGetStatus pm1.world).State = State.Playing
    · simp only [hp, if_true]
      cases index pm1.playQueue n with
      | none => rfl
      | some v => simp only [Option.some_bind, Option.bind_some]
    · simp only [hp, if_false]
      cases index pm1.playQueue n with
      | none => rfl
      | some v => simp only [Option.some_bind, Option.bind_some]

/-- C14 (amended): for every in-bounds track-changed event the handler executes, in
exactly this order: evaluate (and possibly submit) the scrobble on the elapsed
time read from the accumulator as it is, reset the accumulator, restart it
only if the engine reports playing, update the now-playing index and the
tracked duration, broadcast song-change, broadcast time-position, submit
now-playing; it has no statement that stops the accumulator. In a state with
a valid now-playing index all of them are carried out: the effect log grows
by the scrobble submission of the old entry (if due), then one song-change
call per observer (with the new entry and the marker), then one time-position
call per observer, then the now-playing submission of the new entry; the
accumulator ends with total zero, running since now exactly when the engine
reports playing; index and tracked duration are those of the new entry. -/
theorem onTrackChange_order (E : Env W) (pm : PlaybackManager W) (n : Int)
    (hn : 0 ≤ n ∧ n < pm.playQueue.length) :
    onTrackChangeStmts pm n =
      [HandlerStmt.evaluateScrobble, HandlerStmt.resetAccumulator,
        HandlerStmt.restartIfPlaying, HandlerStmt.setIndex n, HandlerStmt.setTrackedDuration,
        HandlerStmt.broadcastSongChange, HandlerStmt.broadcastTimePos,
        HandlerStmt.submitNowPlaying] ∧
    onTrackChange E pm n = execStmts E (onTrackChangeStmts pm n) pm ∧
    (0 ≤ pm.nowPlayingIdx ∧ pm.nowPlayingIdx < pm.playQueue.length →
      ∃ old new pm1, index pm.playQueue pm.nowPlayingIdx = some old ∧
        index pm.playQueue n = some new ∧
        onTrackChange E pm n = some pm1 ∧
        pm1.log = pm.log ++
          (if scrobbleDue pm (pm.playTimeStopwatch.Elapsed (E.timeNow pm.world)) then
            [Event.scrobble (pm.heap old).ID true] else []) ++
          (if pm.callbacksDisabled then []
            else pm.onSongChange.map fun cb =>
              Event.songChange cb
                (if (E.playerGetStatus pm.world).State = State.Stopped then none
                  else some new)
                (if scrobbleDue pm (pm.playTimeStopwatch.Elapsed (E.timeNow pm.world)) then
                  some old else pm.lastScrobbled)) ++
          (if pm.callbacksDisabled then []
            else pm.onPlayTimeUpdate.map fun cb =>
              Event.playTimeUpdate cb (E.playerGetStatus pm.world).TimePos
                (E.playerGetStatus pm.world).Duration) ++
          (if pm.scrobbleCfg.Enabled then [Event.scrobble (pm.heap new).ID false] else []) ∧
        pm1.playTimeStopwatch =
          (if (E.playerGetStatus pm.world).State = State.Playing then
            ⟨0, true, E.timeNow pm.world⟩
          else ⟨0, false, pm.playTimeStopwatch.lastStart⟩) ∧
        pm1.nowPlayingIdx = n ∧
        pm1.curTrackTime = f64OfInt (pm.heap new).Duration) := by
  refine ⟨?_, onTrackChange_stmts E pm n, ?_⟩
  · unfold onTrackChangeStmts
    rw [if_neg (not_le.mpr hn.2)]
  · intro hidx
    obtain ⟨old, hold⟩ := index_eq_getElem pm.playQueue pm.nowPlayingIdx hidx.1 hidx.2
    obtain ⟨new, hnew⟩ := index_eq_getElem pm.playQueue n hn.1 hn.2
    have hS := checkScrobble_eq pm (pm.playTimeStopwatch.Elapsed (E.timeNow pm.world)) old hold
    by_cases hdue : scrobbleDue pm (pm.playTimeStopwatch.Elapsed (E.timeNow pm.world))
    · rw [if_pos hdue] at hS
      have heq := onTrackChange_eq E pm (scrobbled pm old) n new hnew hS rfl
      obtain ⟨f1, f2, -, -, -, f6, -⟩ := afterTrackChange_fields E (scrobbled pm old) n new
      have hrec := recordsScrobble_scrobbled pm old
      have hdur : ((scrobbled pm old).heap new).Duration = (pm.heap new).Duration := by
        by_cases hno : new = old
        · rw [hno]
          exact hrec.2.2.2.2.2.1
        · rw [hrec.2.2.2.2.2.2.2.2.1 new hno]
      have hid : ((scrobbled pm old).heap new).ID = (pm.heap new).ID := by
        by_cases hno : new = old
        · rw [hno]
          exact hrec.2.2.2.1
        · rw [hrec.2.2.2.2.2.2.2.2.1 new hno]
      refine ⟨old, new, _, hold, hnew, heq, ?_, ?_, f1, ?_⟩
      · rw [afterTrackChange_log]
        simp only [trackChangeBroadcast, hid, if_pos hdue]
        simp [scrobbled]
      · rw [f6]
        by_cases hp : (E.playerGetStatus pm.world).State = State.Playing
        · simp [scrobbled, hp, Stopwatch.Reset, Stopwatch.Start]
        · simp [scrobbled, hp, Stopwatch.Reset]
      · rw [f2, hdur]
    · rw [if_neg hdue] at hS
      have heq := onTrackChange_eq E pm pm n new hnew hS rfl
      obtain ⟨f1, f2, -, -, -, f6, -⟩ := afterTrackChange_fields E pm n new
      refine ⟨old, new, _, hold, hnew, heq, ?_, ?_, f1, f2⟩
      · rw [afterTrackChange_log]
        simp only [trackChangeBroadcast, if_neg hdue]
        simp
      · rw [f6]
        by_cases hp : (E.playerGetStatus pm.world).State = State.Playing
        · simp [hp, Stopwatch.Reset, Stopwatch.Start]
        · simp [hp, Stopwatch.Reset]

/-- Witness for C14 (amended): the track changes to index 2 of five while the
accumulator is running; every observer category is registered. The log shows,
in order, the scrobble of the old entry, the song-change call, the
time-position call and the now-playing submission. -/
theorem onTrackChange_order_witness :
    ((0 : Int) ≤ 2 ∧ (2 : Int) < runningPlayed.playQueue.length) ∧
    (0 ≤ runningPlayed.nowPlayingIdx ∧
      runningPlayed.nowPlayingIdx < runningPlayed.playQueue.length) ∧
    (onTrackChange tickEnv runningPlayed 2).map
      (fun p => (p.log, p.playTimeStopwatch, p.nowPlayingIdx)) =
      some ([Event.scrobble "t10" true, Event.songChange 1 (some 12) (some 10),
        Event.playTimeUpdate 2 0 0, Event.scrobble "t12" false],
        ⟨0, true, 7000000000⟩, 2) ∧
    (onTrackChangeStmts runningPlayed 2 =
      [HandlerStmt.evaluateScrobble, HandlerStmt.resetAccumulator,
        HandlerStmt.restartIfPlaying, HandlerStmt.setIndex 2, HandlerStmt.setTrackedDuration,
        HandlerStmt.broadcastSongChange, HandlerStmt.broadcastTimePos,
        HandlerStmt.submitNowPlaying] ∧
    onTrackChange tickEnv runningPlayed 2 =
      execStmts tickEnv (onTrackChangeStmts runningPlayed 2) runningPlayed ∧
    (0 ≤ runningPlayed.nowPlayingIdx ∧
        runningPlayed.nowPlayingIdx < runningPlayed.playQueue.length →
      ∃ old new pm1, index runningPlayed.playQueue runningPlayed.nowPlayingIdx = some old ∧
        index runningPlayed.playQueue 2 = some new ∧
        onTrackChange tickEnv runningPlayed 2 = some pm1 ∧
        pm1.log = runningPlayed.log ++
          (if scrobbleDue runningPlayed
              (runningPlayed.playTimeStopwatch.Elapsed (tickEnv.timeNow runningPlayed.world)) then
            [Event.scrobble (runningPlayed.heap old).ID true] else []) ++
          (if runningPlayed.callbacksDisabled then []
            else runningPlayed.onSongChange.map fun cb =>
              Event.songChange cb
                (if (tickEnv.playerGetStatus runningPlayed.world).State = State.Stopped then none
                  else some new)
                (if scrobbleDue runningPlayed
                    (runningPlayed.playTimeStopwatch.Elapsed
                      (tickEnv.timeNow runningPlayed.world)) then
                  some old else runningPlayed.lastScrobbled)) ++
          (if runningPlayed.callbacksDisabled then []
            else runningPlayed.onPlayTimeUpdate.map fun cb =>
              Event.playTimeUpdate cb (tickEnv.playerGetStatus runningPlayed.world).TimePos
                (tickEnv.playerGetStatus runningPlayed.world).Duration) ++
          (if runningPlayed.scrobbleCfg.Enabled then
            [Event.scrobble (runningPlayed.heap new).ID false] else []) ∧
        pm1.playTimeStopwatch =
          (if (tickEnv.playerGetStatus runningPlayed.world).State = State.Playing then
            ⟨0, true, tickEnv.timeNow runningPlayed.world⟩
          else ⟨0, false, runningPlayed.playTimeStopwatch.lastStart⟩) ∧
        pm1.nowPlayingIdx = 2 ∧
        pm1.curTrackTime = f64OfInt (runningPlayed.heap new).Duration)) :=
  ⟨by decide, by decide, by decide!, onTrackChange_order tickEnv runningPlayed 2 (by decide)⟩

theorem NowPlaying_stopped (E : Env W) (pm : PlaybackManager W)
    (h : (E.playerGetStatus pm.world).State = State.Stopped) : NowPlaying E pm = some none := by
  unfold NowPlaying
  rw [if_pos (Or.inr h)]

/-- The Stopped handler with callbacks enabled on an engine that reports Stopped,
once the scrobble evaluation has returned `pmS`. -/
theorem onStopped_eq (E : Env W) (pm pmS : PlaybackManager W)
    (hcb : pm.callbacksDisabled = false)
    (hst : (E.playerGetStatus pm.world).State = State.Stopped)
    (hS : checkScrobble (stopAccumulator E pm)
      ((stopAccumulator E pm).playTimeStopwatch.Elapsed (E.timeNow pm.world)) = some pmS) :
    ∃ pm1, onStopped E pm = some pm1 ∧
      pm1.log = pmS.log ++
        (pm.onPlayTimeUpdate.map fun cb =>
          Event.playTimeUpdate cb (E.playerGetStatus pm.world).TimePos
            (E.playerGetStatus pm.world).Duration) ++
        pm.onPaused.map Event.paused ++
        pm.onSongChange.map (fun cb => Event.songChange cb none pmS.lastScrobbled) ∧
      pm1.lastScrobbled = none ∧
      pm1.playTimeStopwatch = pm.playTimeStopwatch.Reset ∧
      pm1.playQueue = pm.playQueue ∧ pm1.nowPlayingIdx = pm.nowPlayingIdx ∧
      pm1.world = pm.world ∧ pm1.heap = pmS.heap := by
  obtain ⟨f1, f2, f3, f4, f5, f6, f7, f8, f9, f10, f11, f12⟩ := checkScrobble_frame _ _ _ hS
  have f1' : pmS.playTimeStopwatch = pm.playTimeStopwatch.Stop (E.timeNow pm.world) := f1
  have f2' : pmS.world = pm.world := f2
  have f3' : pmS.playQueue = pm.playQueue := f3
  have f4' : pmS.nowPlayingIdx = pm.nowPlayingIdx := f4
  have f7' : pmS.callbacksDisabled = false := f7.trans hcb
  have f8' : pmS.onSongChange = pm.onSongChange := f8
  have f9' : pmS.onPlayTimeUpdate = pm.onPlayTimeUpdate := f9
  have f10' : pmS.onPaused = pm.onPaused := f10
  obtain ⟨p4, hp4⟩ : ∃ p4 : PlaybackManager W, p4 = callPaused (doUpdateTimePos E
      (stopPollTimePos { pmS with playTimeStopwatch := pmS.playTimeStopwatch.Reset })) :=
    ⟨_, rfl⟩
  have hw4 : p4.world = pm.world := by
    rw [hp4]
    simp [callPaused, f2']
  have hd4 : p4.callbacksDisabled = false := by
    rw [hp4]
    simp [callPaused, f7']
  have hnp : NowPlaying E p4 = some none := NowPlaying_stopped E p4 (by rw [hw4]; exact hst)
  have hon : onStopped E pm = invokeOnSongChangeCallbacks E p4 := by
    unfold onStopped
    simp only []
    have hS' : checkScrobble
        { pm with playTimeStopwatch := pm.playTimeStopwatch.Stop (E.timeNow pm.world) }
        ((pm.playTimeStopwatch.Stop (E.timeNow pm.world)).Elapsed (E.timeNow pm.world)) =
        some pmS := hS
    rw [hS']
    simp only [Option.some_bind]
    rw [if_neg (by simp [f7']), hp4]
  rw [hon, invokeOnSongChangeCallbacks_of E p4 none hnp, hd4]
  refine ⟨_, rfl, ?_, rfl, ?_, ?_, ?_, hw4, ?_⟩
  · subst hp4
    simp [callPaused, f7', f2', f8', f9', f10']
  · subst hp4
    simp [callPaused, f1', Stopwatch.reset_stop]
  · subst hp4
    simp [callPaused, f3']
  · subst hp4
    simp [callPaused, f4']
  · subst hp4
    simp [callPaused]

theorem checkScrobble_isSome (pm : PlaybackManager W) (playDur : Int)
    (h : pm.playQueue = [] ∨
      (0 ≤ pm.nowPlayingIdx ∧ pm.nowPlayingIdx < pm.playQueue.length)) :
    ∃ pmS, checkScrobble pm playDur = some pmS := by
  rcases h with h | h
  · exact ⟨pm, checkScrobble_of_not_due pm playDur (fun hd => hd.2.1 h)⟩
  · obtain ⟨old, hold⟩ := index_eq_getElem pm.playQueue pm.nowPlayingIdx h.1 h.2
    exact ⟨_, checkScrobble_eq pm playDur old hold⟩

/-- The Stopped handler with callbacks enabled and the engine reporting Stopped,
whenever it returns: after the scrobble evaluation and the time-position
update it has invoked every paused/stopped observer once and only then every
song-change observer once, with now-playing reported as none; afterwards
`NowPlaying` returns none and the accumulator is reset. It returns whenever
the queue is empty or the now-playing index is valid; in the state with a
stale index it panics. -/
theorem onStopped_broadcasts (E : Env W) (pm : PlaybackManager W)
    (hcb : pm.callbacksDisabled = false)
    (hst : (E.playerGetStatus pm.world).State = State.Stopped) :
    (∀ pm1, onStopped E pm = some pm1 →
      ∃ pmS, evaluateScrobble E (stopAccumulator E pm) = some pmS ∧
        pm1.log = pmS.log ++
          (pm.onPlayTimeUpdate.map fun cb =>
            Event.playTimeUpdate cb (E.playerGetStatus pm.world).TimePos
              (E.playerGetStatus pm.world).Duration) ++
          pm.onPaused.map Event.paused ++
          pm.onSongChange.map (fun cb => Event.songChange cb none pmS.lastScrobbled) ∧
        NowPlaying E pm1 = some none ∧
        pm1.playTimeStopwatch.accumulated = 0 ∧ pm1.playTimeStopwatch.running = false) ∧
    (pm.playQueue = [] ∨ (0 ≤ pm.nowPlayingIdx ∧ pm.nowPlayingIdx < pm.playQueue.length) →
      ∃ pm1, onStopped E pm = some pm1) := by
  constructor
  · intro pm1 h
    have h' := h
    unfold onStopped at h'
    simp only [Option.bind_eq_some] at h'
    obtain ⟨pmS, hS, -⟩ := h'
    obtain ⟨pm2, h2, hlog, -, hsw, -, -, hw, -⟩ := onStopped_eq E pm pmS hcb hst hS
    rw [h] at h2
    cases h2
    refine ⟨pmS, hS, hlog, NowPlaying_stopped E pm1 (by rw [hw]; exact hst), ?_, ?_⟩
    · rw [hsw]
      rfl
    · rw [hsw]
      rfl
  · intro hv
    obtain ⟨pmS, hS⟩ := checkScrobble_isSome (stopAccumulator E pm)
      ((stopAccumulator E pm).playTimeStopwatch.Elapsed (E.timeNow pm.world)) hv
    obtain ⟨pm1, h1, -⟩ := onStopped_eq E pm pmS hcb hst hS
    exact ⟨pm1, h1⟩

/-- Example for `onStopped_broadcasts`: the played five-entry manager, observers
registered, the engine reporting Stopped. -/
theorem onStopped_broadcasts_witness :
    observedPlayed.callbacksDisabled = false ∧
    (stoppedEnv.playerGetStatus observedPlayed.world).State = State.Stopped ∧
    (onStopped stoppedEnv observedPlayed).map (fun p => p.log) =
      some [Event.scrobble "t10" true, Event.playTimeUpdate 2 0 0, Event.paused 3,
        Event.paused 5, Event.songChange 1 none (some 10)] ∧
    ((∀ pm1, onStopped stoppedEnv observedPlayed = some pm1 →
      ∃ pmS, evaluateScrobble stoppedEnv (stopAccumulator stoppedEnv observedPlayed) =
          some pmS ∧
        pm1.log = pmS.log ++
          (observedPlayed.onPlayTimeUpdate.map fun cb =>
            Event.playTimeUpdate cb (stoppedEnv.playerGetStatus observedPlayed.world).TimePos
              (stoppedEnv.playerGetStatus observedPlayed.world).Duration) ++
          observedPlayed.onPaused.map Event.paused ++
          observedPlayed.onSongChange.map
            (fun cb => Event.songChange cb none pmS.lastScrobbled) ∧
        NowPlaying stoppedEnv pm1 = some none ∧
        pm1.playTimeStopwatch.accumulated = 0 ∧ pm1.playTimeStopwatch.running = false) ∧
    (observedPlayed.playQueue = [] ∨
        (0 ≤ observedPlayed.nowPlayingIdx ∧
          observedPlayed.nowPlayingIdx < observedPlayed.playQueue.length) →
      ∃ pm1, onStopped stoppedEnv observedPlayed = some pm1)) :=
  ⟨rfl, rfl, by decide!, onStopped_broadcasts stoppedEnv observedPlayed rfl rfl⟩


theorem observerCalls_append (l1 l2 : List Event) :
    observerCalls (l1 ++ l2) = observerCalls l1 ++ observerCalls l2 := by
  simp [observerCalls]

theorem removeStep_log (E : Env W) (idxs : List Int) (st : RemoveState W) (i : Nat) (tr : Ptr) :
    ∃ evs, (removeStep E idxs st i tr).log = st.log ++ evs ∧ observerCalls evs = [] := by
  unfold removeStep
  split
  · dsimp only
    split
    · exact ⟨[_], rfl, rfl⟩
    · exact ⟨[_], rfl, rfl⟩
  · exact ⟨[], by simp, rfl⟩

/-- The loop of `RemoveTracksFromQueue` only appends engine removals to the log,
whatever the index list. -/
theorem removeLoop_log (E : Env W) (idxs : List Int) (rest : List Ptr) :
    ∀ (i : Nat) (st : RemoveState W),
      ∃ evs, (removeLoop E idxs rest i st).log = st.log ++ evs ∧ observerCalls evs = [] := by
  induction rest with
  | nil =>
    intro i st
    exact ⟨[], by simp [removeLoop], rfl⟩
  | cons tr rest ih =>
    intro i st
    simp only [removeLoop]
    obtain ⟨e1, h1, o1⟩ := removeStep_log E idxs st i tr
    obtain ⟨e2, h2, o2⟩ := ih (i + 1) (removeStep E idxs st i tr)
    refine ⟨e1 ++ e2, ?_, ?_⟩
    · rw [h2, h1, List.append_assoc]
    · rw [observerCalls_append, o1, o2]
      rfl

theorem RemoveTracksFromQueue_eq (E : Env W) (pm : PlaybackManager W) (idxs : List Int)
    (h : idxs.length ≤ pm.playQueue.length) :
    RemoveTracksFromQueue E pm idxs =
      invokeOnSongChangeCallbacks E (afterRemoval E pm idxs) := by
  unfold RemoveTracksFromQueue afterRemoval
  rw [if_neg (by omega)]

theorem RemoveTracksFromQueue_length (E : Env W) (pm pm1 : PlaybackManager W)
    (idxs : List Int) (h : RemoveTracksFromQueue E pm idxs = some pm1) :
    idxs.length ≤ pm.playQueue.length := by
  unfold RemoveTracksFromQueue at h
  by_contra hc
  rw [if_pos (by omega)] at h
  cases h

theorem observerCalls_songChange (cbs : List Nat) (np ls : Option Ptr) :
    observerCalls (cbs.map fun cb => Event.songChange cb np ls) =
      cbs.map fun cb => Event.songChange cb np ls := by
  simp [observerCalls, List.filter_eq_self, Event.isObserverCall]

/-- When `RemoveTracksFromQueue` returns, the now-playing index is the playlist
position the engine reports after the removals and, with callbacks enabled,
the observer invocations added to the log are one song-change call per
registered observer. The call returns when the list has no more indices than
the queue has entries and the broadcast can read the now-playing entry. -/
theorem RemoveTracksFromQueue_returned (E : Env W) (pm : PlaybackManager W) (idxs : List Int) :
    (∀ pm1, RemoveTracksFromQueue E pm idxs = some pm1 →
      pm1.nowPlayingIdx = (E.playerGetStatus pm1.world).PlaylistPos ∧
      (pm.callbacksDisabled = false →
        ∃ np, observerCalls (pm1.log.drop pm.log.length) =
          pm.onSongChange.map fun cb => Event.songChange cb np pm.lastScrobbled)) ∧
    (idxs.length ≤ pm.playQueue.length →
      (pm.callbacksDisabled = true ∨ pm.onSongChange = [] ∨
        NowPlaying E (afterRemoval E pm idxs) ≠ none) →
      ∃ pm1, RemoveTracksFromQueue E pm idxs = some pm1) := by
  constructor
  · intro pm1 h
    have hlen := RemoveTracksFromQueue_length E pm pm1 idxs h
    rw [RemoveTracksFromQueue_eq E pm idxs hlen] at h
    obtain ⟨evs, hlog, hobs⟩ := removeLoop_log E idxs pm.playQueue 0 ⟨pm.world, pm.log, [], 0, 0⟩
    by_cases hd : pm.callbacksDisabled = true
    · have hd' : (afterRemoval E pm idxs).callbacksDisabled = true := hd
      unfold invokeOnSongChangeCallbacks at h
      rw [if_pos hd'] at h
      cases h
      refine ⟨rfl, ?_⟩
      intro hc
      rw [hd] at hc
      cases hc
    · have hd' : ¬ (afterRemoval E pm idxs).callbacksDisabled = true := hd
      cases hnp : NowPlaying E (afterRemoval E pm idxs) with
      | none =>
        cases hcb : pm.onSongChange with
        | nil =>
          have hcb' : (afterRemoval E pm idxs).onSongChange = [] := hcb
          unfold invokeOnSongChangeCallbacks at h
          rw [if_neg hd', hcb'] at h
          simp only [callSongChange, Option.map_some', Option.some.injEq] at h
          subst h
          refine ⟨rfl, fun _ => ⟨none, ?_⟩⟩
          show observerCalls (List.drop pm.log.length (afterRemoval E pm idxs).log) = _
          have : (afterRemoval E pm idxs).log = pm.log ++ evs := hlog
          rw [this, List.drop_left, hobs]
          rfl
        | cons cb cbs =>
          have hcb' : (afterRemoval E pm idxs).onSongChange = cb :: cbs := hcb
          unfold invokeOnSongChangeCallbacks at h
          rw [if_neg hd', hcb', callSongChange_cons_none E cb cbs _ hnp] at h
          cases h
      | some np =>
        rw [invokeOnSongChangeCallbacks_of E _ np hnp, if_neg hd'] at h
        cases h
        refine ⟨rfl, fun _ => ⟨np, ?_⟩⟩
        show observerCalls (List.drop pm.log.length ((afterRemoval E pm idxs).log ++ _)) = _
        have : (afterRemoval E pm idxs).log = pm.log ++ evs := hlog
        rw [this, List.append_assoc, List.drop_left, observerCalls_append, hobs,
          List.nil_append]
        exact observerCalls_songChange _ _ _
  · intro hlen hsafe
    rw [RemoveTracksFromQueue_eq E pm idxs hlen]
    exact invokeOnSongChangeCallbacks_isSome E _ hsafe

/-- C19 (counterexample): on the five-entry sample queue with callbacks enabled and
one song-change observer, `RemoveTracksFromQueue` with six indices panics
(`make` with capacity -1); and the removal of the last entry on an engine that
still reports the playing state at playlist position 4 leaves four entries
and the index 4, so that the broadcast panics reading the now-playing entry.
In neither case is the observer invoked. -/
theorem RemoveTracksFromQueue_resync_counterexample :
    (fiveManager ()).callbacksDisabled = false ∧ (fiveManager ()).onSongChange = [1] ∧
    (fiveManager ()).playQueue = [10, 11, 12, 13, 14] ∧
    (RemoveTracksFromQueue quietEnv (fiveManager ()) [0, 1, 2, 3, 4, 5]).map
      (fun p => p.log) = none ∧
    (afterRemoval lastPosEnv (fiveManager ()) [4]).playQueue = [10, 11, 12, 13] ∧
    (afterRemoval lastPosEnv (fiveManager ()) [4]).nowPlayingIdx = 4 ∧
    (RemoveTracksFromQueue lastPosEnv (fiveManager ()) [4]).map (fun p => p.log) = none := by
  decide

/-- C19 (amended): for every queue and every index list with no more indices than
the queue has entries, if the playlist position the engine reports after the
removals lies within the remaining queue (or the remaining queue is empty, or
the engine reports Stopped), then `RemoveTracksFromQueue` returns, the
now-playing index is that reported position and, with callbacks enabled, the
observer invocations it made are exactly one song-change call per registered
observer; this holds whether or not the playing entry was removed and also
for the empty index list. -/
theorem RemoveTracksFromQueue_resync (E : Env W) (pm : PlaybackManager W) (idxs : List Int)
    (hlen : idxs.length ≤ pm.playQueue.length)
    (hpos : (afterRemoval E pm idxs).playQueue = [] ∨
      (E.playerGetStatus (afterRemoval E pm idxs).world).State = State.Stopped ∨
      (0 ≤ (E.playerGetStatus (afterRemoval E pm idxs).world).PlaylistPos ∧
        (E.playerGetStatus (afterRemoval E pm idxs).world).PlaylistPos <
          (afterRemoval E pm idxs).playQueue.length)) :
    ∃ pm1, RemoveTracksFromQueue E pm idxs = some pm1 ∧
      pm1.nowPlayingIdx = (E.playerGetStatus pm1.world).PlaylistPos ∧
      (pm.callbacksDisabled = false →
        ∃ np, observerCalls (pm1.log.drop pm.log.length) =
          pm.onSongChange.map fun cb => Event.songChange cb np pm.lastScrobbled) := by
  have hnp : NowPlaying E (afterRemoval E pm idxs) ≠ none := by
    rcases hpos with h | h | h
    · unfold NowPlaying
      rw [if_pos (Or.inl (by rw [h]; rfl))]
      simp
    · rw [NowPlaying_stopped E _ h]
      simp
    · obtain ⟨song, hsong⟩ := index_eq_getElem (afterRemoval E pm idxs).playQueue
        (afterRemoval E pm idxs).nowPlayingIdx h.1 h.2
      rw [NowPlaying_eq E _ song hsong]
      simp
  obtain ⟨h1, h2⟩ := RemoveTracksFromQueue_returned E pm idxs
  obtain ⟨pm1, hpm1⟩ := h2 hlen (Or.inr (Or.inr hnp))
  exact ⟨pm1, hpm1, h1 pm1 hpm1⟩

/-- Witness for C19 (amended): on the five-entry sample queue, the engine reporting
position 0: the playing entry (index 0) is removed and the one observer is
invoked once, with the entry now at that position; with the empty index list
the observer is invoked once as well. -/
theorem RemoveTracksFromQueue_resync_witness :
    (RemoveTracksFromQueue quietEnv (fiveManager ()) [0]).map
      (fun p => (p.playQueue, p.nowPlayingIdx, p.log)) =
      some ([11, 12, 13, 14], 0,
        [Event.playerRemoveTrackAt 0 true, Event.songChange 1 (some 11) none]) ∧
    (RemoveTracksFromQueue quietEnv (fiveManager ()) []).map
      (fun p => (p.playQueue, p.nowPlayingIdx, p.log)) =
      some ([10, 11, 12, 13, 14], 0, [Event.songChange 1 (some 10) none]) ∧
    ([0] : List Int).length ≤ (fiveManager ()).playQueue.length ∧
    (0 ≤ (quietEnv.playerGetStatus
        (afterRemoval quietEnv (fiveManager ()) [0]).world).PlaylistPos ∧
      (quietEnv.playerGetStatus
        (afterRemoval quietEnv (fiveManager ()) [0]).world).PlaylistPos <
        (afterRemoval quietEnv (fiveManager ()) [0]).playQueue.length) ∧
    ∃ pm1, RemoveTracksFromQueue quietEnv (fiveManager ()) [0] = some pm1 ∧
      pm1.nowPlayingIdx = (quietEnv.playerGetStatus pm1.world).PlaylistPos ∧
      ((fiveManager ()).callbacksDisabled = false →
        ∃ np, observerCalls (pm1.log.drop (fiveManager ()).log.length) =
          (fiveManager ()).onSongChange.map
            fun cb => Event.songChange cb np (fiveManager ()).lastScrobbled) :=
  ⟨by decide, by decide, by decide, by decide,
    RemoveTracksFromQueue_resync quietEnv (fiveManager ()) [0] (by decide)
      (Or.inr (Or.inr (by decide)))⟩

theorem invokeOnSongChangeCallbacks_enabled (E : Env W) (pm pm1 : PlaybackManager W)
    (hcb : pm.callbacksDisabled = false)
    (h : invokeOnSongChangeCallbacks E pm = some pm1) :
    ∃ np, pm1.log = pm.log ++ pm.onSongChange.map
        (fun cb => Event.songChange cb np pm.lastScrobbled) ∧
      pm1.lastScrobbled = none ∧ pm1.callbacksDisabled = false ∧
      pm1.onSongChange = pm.onSongChange := by
  cases hnp : NowPlaying E pm with
  | none =>
    cases hcbs : pm.onSongChange with
    | nil =>
      unfold invokeOnSongChangeCallbacks at h
      rw [if_neg (by simp [hcb]), hcbs] at h
      simp only [callSongChange, Option.map_some', Option.some.injEq] at h
      subst h
      exact ⟨none, by simp, rfl, hcb, hcbs⟩
    | cons cb cbs =>
      unfold invokeOnSongChangeCallbacks at h
      rw [if_neg (by simp [hcb]), hcbs, callSongChange_cons_none E cb cbs _ hnp] at h
      cases h
  | some np =>
    rw [invokeOnSongChangeCallbacks_of E pm np hnp, if_neg (by simp [hcb])] at h
    cases h
    exact ⟨np, rfl, rfl, hcb, rfl⟩

theorem loadLoop_marker (E : Env W) (tracks : List Child) (nums : List Nat)
    (pm : PlaybackManager W) (r : LoadResult W)
    (h : loadLoop E tracks nums pm = some r) : marker r.pm = marker pm := by
  induction nums generalizing pm with
  | nil =>
    simp only [loadLoop] at h
    cases h
    rfl
  | cons i nums ih =>
    simp only [loadLoop] at h
    split at h
    · cases h
    · split at h
      · cases h
        rfl
      · exact (ih _ h).trans rfl

theorem doUpdateTimePos_marker (E : Env W) (pm : PlaybackManager W) :
    marker (doUpdateTimePos E pm) = marker pm := by
  unfold doUpdateTimePos
  split <;> rfl

theorem stopPollTimePos_marker (pm : PlaybackManager W) :
    marker (stopPollTimePos pm) = marker pm := by
  unfold stopPollTimePos
  split <;> rfl

/-- A call that neither evaluates a scrobble nor broadcasts a song change leaves the
pending marker and the suppression switch as they are. -/
theorem step_quiet_marker (E : Env W) (pm pm1 : PlaybackManager W) (op : Op W)
    (hq : op.isQuiet = true) (h : step E pm op = some pm1) : marker pm1 = marker pm := by
  cases op with
  | loadTracks tracks a s =>
    simp only [step, Option.map_eq_some'] at h
    obtain ⟨r, hr, rfl⟩ := h
    unfold LoadTracks at hr
    rw [loadLoop_marker E tracks _ _ r hr]
    split <;> rfl
  | removeTracks idxs => cases hq
  | stopAndClear =>
    simp only [step, Option.some.injEq] at h
    subst h
    unfold StopAndClearPlayQueue
    exact (doUpdateTimePos_marker E _).trans rfl
  | trackChanged n => cases hq
  | seek =>
    simp only [step, Option.some.injEq] at h
    subst h
    exact doUpdateTimePos_marker E pm
  | playing =>
    simp only [step, Option.some.injEq] at h
    subst h
    rfl
  | paused =>
    simp only [step, Option.some.injEq] at h
    subst h
    unfold onPaused callPaused
    exact (stopPollTimePos_marker _).trans rfl
  | stopped => cases hq
  | world w =>
    simp only [step, Option.some.injEq] at h
    subst h
    rfl

theorem run_quiet_marker (E : Env W) (ops : List (Op W)) (pm pm1 : PlaybackManager W)
    (hq : ∀ op ∈ ops, op.isQuiet = true) (h : run E pm ops = some pm1) :
    marker pm1 = marker pm := by
  induction ops generalizing pm with
  | nil =>
    simp only [run] at h
    cases h
    rfl
  | cons op ops ih =>
    simp only [run, Option.bind_eq_some] at h
    obtain ⟨p, hp, h⟩ := h
    rw [ih p (fun o ho => hq o (List.mem_cons_of_mem _ ho)) h]
    exact step_quiet_marker E pm p op (hq op (List.mem_cons_self _ _)) hp

theorem checkScrobble_due (pm pm1 : PlaybackManager W) (playDur : Int)
    (h : checkScrobble pm playDur = some pm1) (hdue : scrobbleDue pm playDur) :
    ∃ T, index pm.playQueue pm.nowPlayingIdx = some T ∧ pm1 = scrobbled pm T := by
  cases hsong : index pm.playQueue pm.nowPlayingIdx with
  | none =>
    unfold checkScrobble at h
    obtain ⟨hen, hne, h0, hs, hd, hthr⟩ := hdue
    have hlen : ¬ pm.playQueue.length = 0 := by
      simpa [List.length_eq_zero] using hne
    rw [if_neg (by simp [hen, hlen, not_lt.mpr h0])] at h
    rw [if_neg (by simp [not_lt.mpr hs, not_lt.mpr hd])] at h
    simp only [] at h
    rw [if_pos (by simpa [playedPercent] using hthr)] at h
    simp [hsong] at h
  | some song =>
    rw [checkScrobble_of_due pm playDur song hdue hsong] at h
    cases h
    exact ⟨song, rfl, rfl⟩

/-- C15: with callbacks enabled, once `checkScrobble` has recorded a scrobble of the
entry `T`, the next song-change broadcast (after any calls that neither
scrobble nor broadcast) passes `T` as the just-scrobbled argument to every
registered song-change observer and clears the marker; the broadcast after
that one, with no scrobble in between, passes none. -/
theorem scrobble_delivered_once (E : Env W) (pm pm1 : PlaybackManager W) (playDur : Int)
    (hcb : pm.callbacksDisabled = false)
    (hS : checkScrobble pm playDur = some pm1)
    (hdue : scrobbleDue pm playDur) :
    ∃ T, index pm.playQueue pm.nowPlayingIdx = some T ∧ RecordsScrobble pm pm1 T ∧
      ∀ (ops : List (Op W)) (p2 p3 : PlaybackManager W),
        (∀ op ∈ ops, op.isQuiet = true) → run E pm1 ops = some p2 →
        invokeOnSongChangeCallbacks E p2 = some p3 →
        (∃ np, p3.log = p2.log ++
          p2.onSongChange.map fun cb => Event.songChange cb np (some T)) ∧
        p3.lastScrobbled = none ∧
        ∀ (ops2 : List (Op W)) (p4 p5 : PlaybackManager W),
          (∀ op ∈ ops2, op.isQuiet = true) → run E p3 ops2 = some p4 →
          invokeOnSongChangeCallbacks E p4 = some p5 →
          (∃ np, p5.log = p4.log ++
            p4.onSongChange.map fun cb => Event.songChange cb np none) ∧
          p5.lastScrobbled = none := by
  obtain ⟨T, hT, h⟩ := checkScrobble_due pm pm1 playDur hS hdue
  subst h
  refine ⟨T, hT, recordsScrobble_scrobbled pm T, ?_⟩
  intro ops p2 p3 hq hrun hinv
  have hm2 : marker p2 = (some T, false) := by
    rw [run_quiet_marker E ops _ p2 hq hrun]
    simp [marker, scrobbled, hcb]
  have hl2 : p2.lastScrobbled = some T := congrArg Prod.fst hm2
  have hc2 : p2.callbacksDisabled = false := congrArg Prod.snd hm2
  obtain ⟨np, e1, e2, e3, -⟩ := invokeOnSongChangeCallbacks_enabled E p2 p3 hc2 hinv
  refine ⟨⟨np, by rw [e1, hl2]⟩, e2, ?_⟩
  intro ops2 p4 p5 hq2 hrun2 hinv2
  have hm4 : marker p4 = (none, false) := by
    rw [run_quiet_marker E ops2 _ p4 hq2 hrun2]
    simp [marker, e2, e3]
  have hl4 : p4.lastScrobbled = none := congrArg Prod.fst hm4
  have hc4 : p4.callbacksDisabled = false := congrArg Prod.snd hm4
  obtain ⟨np2, g1, g2, -, -⟩ := invokeOnSongChangeCallbacks_enabled E p4 p5 hc4 hinv2
  exact ⟨⟨np2, by rw [g1, hl4]⟩, g2⟩

/-- Witness for C15: the entry at index 0 of `twoObservers` has played 80 s of 100 s;
its scrobble is passed to both observers by the next broadcast and to none by
the one after. -/
theorem scrobble_delivered_once_witness :
    twoObservers.callbacksDisabled = false ∧
    checkScrobble twoObservers 80000000000 = some (scrobbled twoObservers 10) ∧
    scrobbleDue twoObservers 80000000000 ∧
    (((checkScrobble twoObservers 80000000000).bind fun p =>
        (invokeOnSongChangeCallbacks quietEnv p).bind fun p =>
          invokeOnSongChangeCallbacks quietEnv p).map fun p => (p.log, p.lastScrobbled)) =
      some ([Event.scrobble "t10" true,
        Event.songChange 1 (some 10) (some 10), Event.songChange 2 (some 10) (some 10),
        Event.songChange 1 (some 10) none, Event.songChange 2 (some 10) none], none) ∧
    ∃ T, index twoObservers.playQueue twoObservers.nowPlayingIdx = some T ∧
      RecordsScrobble twoObservers (scrobbled twoObservers 10) T ∧
      ∀ (ops : List (Op Unit)) (p2 p3 : PlaybackManager Unit),
        (∀ op ∈ ops, op.isQuiet = true) → run quietEnv (scrobbled twoObservers 10) ops = some p2 →
        invokeOnSongChangeCallbacks quietEnv p2 = some p3 →
        (∃ np, p3.log = p2.log ++
          p2.onSongChange.map fun cb => Event.songChange cb np (some T)) ∧
        p3.lastScrobbled = none ∧
        ∀ (ops2 : List (Op Unit)) (p4 p5 : PlaybackManager Unit),
          (∀ op ∈ ops2, op.isQuiet = true) → run quietEnv p3 ops2 = some p4 →
          invokeOnSongChangeCallbacks quietEnv p4 = some p5 →
          (∃ np, p5.log = p4.log ++
            p4.onSongChange.map fun cb => Event.songChange cb np none) ∧
          p5.lastScrobbled = none :=
  ⟨rfl, checkScrobble_of_due twoObservers 80000000000 10 (by decide!) (by decide),
    by decide!, by decide!,
    scrobble_delivered_once quietEnv twoObservers (scrobbled twoObservers 10) 80000000000 rfl
      (checkScrobble_of_due twoObservers 80000000000 10 (by decide!) (by decide))
      (by decide!)⟩


theorem commands_append (l1 l2 : List Event) :
    commands (l1 ++ l2) = commands l1 ++ commands l2 := by
  simp [commands]

theorem commands_observerCalls (evs : List Event) (h : observerCalls evs = evs) :
    commands evs = [] := by
  unfold commands
  rw [List.filter_eq_nil_iff]
  intro ev hev
  rw [← h] at hev
  simp only [observerCalls, List.mem_filter] at hev
  simp [hev.2]

theorem commands_map_observer {α : Type} (l : List α) (f : α → Event)
    (h : ∀ x, (f x).isObserverCall = true) : commands (l.map f) = [] := by
  unfold commands
  rw [List.filter_eq_nil_iff]
  intro ev hev
  obtain ⟨x, -, rfl⟩ := List.mem_map.mp hev
  simp [h x]

theorem commands_append_map {α : Type} (log : List Event) (l : List α) (f : α → Event)
    (h : ∀ x, (f x).isObserverCall = true) : commands (log ++ l.map f) = commands log := by
  rw [commands_append, commands_map_observer l f h, List.append_nil]

theorem internalState_ext (a b : PlaybackManager W)
    (h1 : a.world = b.world) (h2 : a.heap = b.heap) (h3 : a.nextPtr = b.nextPtr)
    (h4 : a.pollsStarted = b.pollsStarted) (h5 : a.activePolls = b.activePolls)
    (h6 : a.cancelPollPos = b.cancelPollPos)
    (h7 : a.playTimeStopwatch = b.playTimeStopwatch) (h8 : a.curTrackTime = b.curTrackTime)
    (h9 : a.playQueue = b.playQueue) (h10 : a.nowPlayingIdx = b.nowPlayingIdx)
    (h11 : a.scrobbleCfg = b.scrobbleCfg) (h12 : commands a.log = commands b.log) :
    internalState a = internalState b := by
  simp only [internalState, Core.mk.injEq]
  exact ⟨h1, h2, h3, h4, h5, h6, h7, h8, h9, h10, h11, h12⟩

theorem doUpdateTimePos_core (E : Env W) (pm : PlaybackManager W) :
    internalState (doUpdateTimePos E pm) = internalState pm := by
  unfold doUpdateTimePos
  split
  · rfl
  · apply internalState_ext <;> try rfl
    refine commands_append_map _ _ _ ?_
    intro _
    rfl

theorem callPaused_core (pm : PlaybackManager W) :
    internalState (callPaused pm) = internalState pm := by
  apply internalState_ext <;> try rfl
  refine commands_append_map _ _ _ ?_
  intro _
  rfl

theorem callPlaying_core (pm : PlaybackManager W) :
    internalState (callPlaying pm) = internalState pm := by
  apply internalState_ext <;> try rfl
  refine commands_append_map _ _ _ ?_
  intro _
  rfl

theorem invokeOnSongChangeCallbacks_core (E : Env W) (pm pm1 : PlaybackManager W)
    (h : invokeOnSongChangeCallbacks E pm = some pm1) :
    internalState pm1 = internalState pm ∧ pm1.callbacksDisabled = pm.callbacksDisabled := by
  obtain ⟨evs, -, hobs, rfl, -⟩ := invokeOnSongChangeCallbacks_eq E pm pm1 h
  refine ⟨?_, rfl⟩
  apply internalState_ext <;> try rfl
  show commands (pm.log ++ evs) = _
  rw [commands_append, commands_observerCalls evs hobs, List.append_nil]

theorem stopPollTimePos_core (a b : PlaybackManager W)
    (h : internalState a = internalState b) :
    internalState (stopPollTimePos a) = internalState (stopPollTimePos b) := by
  have h5 : a.activePolls = b.activePolls := congrArg Core.activePolls h
  have h6 : a.cancelPollPos = b.cancelPollPos := congrArg Core.cancelPollPos h
  unfold stopPollTimePos
  cases hc : b.cancelPollPos with
  | none =>
    rw [hc] at h6
    simp only [h6]
    exact h
  | some k =>
    rw [hc] at h6
    simp only [h6]
    apply internalState_ext
    · exact congrArg Core.world h
    · exact congrArg Core.heap h
    · exact congrArg Core.nextPtr h
    · exact congrArg Core.pollsStarted h
    · show a.activePolls.filter _ = b.activePolls.filter _
      rw [h5]
    · rfl
    · exact congrArg Core.playTimeStopwatch h
    · exact congrArg Core.curTrackTime h
    · exact congrArg Core.playQueue h
    · exact congrArg Core.nowPlayingIdx h
    · exact congrArg Core.scrobbleCfg h
    · exact congrArg Core.commands h

theorem startPollTimePos_core (a b : PlaybackManager W)
    (h : internalState a = internalState b) :
    internalState (startPollTimePos a) = internalState (startPollTimePos b) := by
  have h4 : a.pollsStarted = b.pollsStarted := congrArg Core.pollsStarted h
  have h5 : a.activePolls = b.activePolls := congrArg Core.activePolls h
  apply internalState_ext
  · exact congrArg Core.world h
  · exact congrArg Core.heap h
  · exact congrArg Core.nextPtr h
  · show a.pollsStarted + 1 = b.pollsStarted + 1
    rw [h4]
  · show a.activePolls ++ [a.pollsStarted] = b.activePolls ++ [b.pollsStarted]
    rw [h4, h5]
  · show some a.pollsStarted = some b.pollsStarted
    rw [h4]
  · exact congrArg Core.playTimeStopwatch h
  · exact congrArg Core.curTrackTime h
  · exact congrArg Core.playQueue h
  · exact congrArg Core.nowPlayingIdx h
  · exact congrArg Core.scrobbleCfg h
  · exact congrArg Core.commands h

theorem scrobbleDue_core (a b : PlaybackManager W) (h : internalState a = internalState b)
    (playDur : Int) : scrobbleDue a playDur ↔ scrobbleDue b playDur := by
  have h8 : a.curTrackTime = b.curTrackTime := congrArg Core.curTrackTime h
  have h9 : a.playQueue = b.playQueue := congrArg Core.playQueue h
  have h10 : a.nowPlayingIdx = b.nowPlayingIdx := congrArg Core.nowPlayingIdx h
  have h11 : a.scrobbleCfg = b.scrobbleCfg := congrArg Core.scrobbleCfg h
  unfold scrobbleDue playedPercent
  rw [h8, h9, h10, h11]

theorem scrobbled_core (a b : PlaybackManager W) (h : internalState a = internalState b)
    (T : Ptr) : internalState (scrobbled a T) = internalState (scrobbled b T) := by
  have h2 : a.heap = b.heap := congrArg Core.heap h
  have h12 : commands a.log = commands b.log := congrArg Core.commands h
  apply internalState_ext
  · exact congrArg Core.world h
  · show Function.update a.heap T _ = Function.update b.heap T _
    rw [h2]
  · exact congrArg Core.nextPtr h
  · exact congrArg Core.pollsStarted h
  · exact congrArg Core.activePolls h
  · exact congrArg Core.cancelPollPos h
  · exact congrArg Core.playTimeStopwatch h
  · exact congrArg Core.curTrackTime h
  · exact congrArg Core.playQueue h
  · exact congrArg Core.nowPlayingIdx h
  · exact congrArg Core.scrobbleCfg h
  · show commands (a.log ++ _) = commands (b.log ++ _)
    rw [commands_append, commands_append, h12, h2]

theorem checkScrobble_core (a b a1 : PlaybackManager W) (playDur : Int)
    (h : internalState a = internalState b) (h1 : checkScrobble a playDur = some a1) :
    ∃ b1, checkScrobble b playDur = some b1 ∧ internalState a1 = internalState b1 ∧
      b1.callbacksDisabled = b.callbacksDisabled := by
  have h9 : a.playQueue = b.playQueue := congrArg Core.playQueue h
  have h10 : a.nowPlayingIdx = b.nowPlayingIdx := congrArg Core.nowPlayingIdx h
  by_cases hdue : scrobbleDue a playDur
  · obtain ⟨T, hT, rfl⟩ := checkScrobble_due a a1 playDur h1 hdue
    have hTb : index b.playQueue b.nowPlayingIdx = some T := by
      rw [← h9, ← h10]
      exact hT
    exact ⟨scrobbled b T,
      checkScrobble_of_due b playDur T ((scrobbleDue_core a b h playDur).mp hdue) hTb,
      scrobbled_core a b h T, rfl⟩
  · rw [checkScrobble_of_not_due a playDur hdue] at h1
    cases h1
    exact ⟨b, checkScrobble_of_not_due b playDur
      (fun hb => hdue ((scrobbleDue_core a b h playDur).mpr hb)), h, rfl⟩

theorem sendNowPlayingScrobble_core (a b a1 : PlaybackManager W)
    (h : internalState a = internalState b) (h1 : sendNowPlayingScrobble a = some a1) :
    ∃ b1, sendNowPlayingScrobble b = some b1 ∧ internalState a1 = internalState b1 ∧
      b1.callbacksDisabled = b.callbacksDisabled := by
  have h2 : a.heap = b.heap := congrArg Core.heap h
  have h9 : a.playQueue = b.playQueue := congrArg Core.playQueue h
  have h10 : a.nowPlayingIdx = b.nowPlayingIdx := congrArg Core.nowPlayingIdx h
  have h11 : a.scrobbleCfg = b.scrobbleCfg := congrArg Core.scrobbleCfg h
  have h12 : commands a.log = commands b.log := congrArg Core.commands h
  unfold sendNowPlayingScrobble at h1 ⊢
  rw [← h9, ← h10, ← h11]
  split at h1
  · rename_i hg
    cases h1
    rw [if_pos hg]
    exact ⟨b, rfl, h, rfl⟩
  · rename_i hg
    rw [if_neg hg]
    cases hsong : index a.playQueue a.nowPlayingIdx with
    | none =>
      rw [hsong] at h1
      cases h1
    | some song =>
      rw [hsong] at h1
      cases h1
      refine ⟨_, rfl, ?_, rfl⟩
      apply internalState_ext
      · exact congrArg Core.world h
      · exact h2
      · exact congrArg Core.nextPtr h
      · exact congrArg Core.pollsStarted h
      · exact congrArg Core.activePolls h
      · exact congrArg Core.cancelPollPos h
      · exact congrArg Core.playTimeStopwatch h
      · exact congrArg Core.curTrackTime h
      · rfl
      · rfl
      · rfl
      · show commands (a.log ++ _) = commands (b.log ++ _)
        rw [commands_append, commands_append, h12, h2]

theorem appendTrack_core (E : Env W) (a b : PlaybackManager W)
    (h : internalState a = internalState b) (t : Child) (url : String) :
    internalState (appendTrack E a t url) = internalState (appendTrack E b t url) := by
  have h1 : a.world = b.world := congrArg Core.world h
  have h2 : a.heap = b.heap := congrArg Core.heap h
  have h3 : a.nextPtr = b.nextPtr := congrArg Core.nextPtr h
  have h9 : a.playQueue = b.playQueue := congrArg Core.playQueue h
  have h12 : commands a.log = commands b.log := congrArg Core.commands h
  apply internalState_ext
  · show E.playerAppendFile a.world url = E.playerAppendFile b.world url
    rw [h1]
  · show Function.update a.heap a.nextPtr t = Function.update b.heap b.nextPtr t
    rw [h2, h3]
  · show a.nextPtr + 1 = b.nextPtr + 1
    rw [h3]
  · exact congrArg Core.pollsStarted h
  · exact congrArg Core.activePolls h
  · exact congrArg Core.cancelPollPos h
  · exact congrArg Core.playTimeStopwatch h
  · exact congrArg Core.curTrackTime h
  · show a.playQueue ++ [a.nextPtr] = b.playQueue ++ [b.nextPtr]
    rw [h9, h3]
  · exact congrArg Core.nowPlayingIdx h
  · exact congrArg Core.scrobbleCfg h
  · show commands (a.log ++ _) = commands (b.log ++ _)
    rw [commands_append, commands_append, h12]

theorem loadLoop_core (E : Env W) (tracks : List Child) (nums : List Nat) :
    ∀ (a b : PlaybackManager W), internalState a = internalState b →
      ∀ ra, loadLoop E tracks nums a = some ra →
        ∃ rb, loadLoop E tracks nums b = some rb ∧
          internalState ra.pm = internalState rb.pm ∧ ra.err = rb.err ∧
          rb.pm.callbacksDisabled = b.callbacksDisabled := by
  induction nums with
  | nil =>
    intro a b h ra h1
    simp only [loadLoop, Option.some.injEq] at h1
    subst h1
    exact ⟨⟨b, none⟩, rfl, h, rfl, rfl⟩
  | cons i nums ih =>
    intro a b h ra h1
    have hw : b.world = a.world := (congrArg Core.world h).symm
    simp only [loadLoop] at h1 ⊢
    cases ht : tracks[i]? with
    | none =>
      rw [ht] at h1
      cases h1
    | some t =>
      rw [ht] at h1
      simp only [] at h1 ⊢
      cases hu : E.serverGetStreamURL a.world t.ID with
      | error e =>
        rw [hu] at h1
        simp only [Option.some.injEq] at h1
        subst h1
        have hub : E.serverGetStreamURL b.world t.ID = Except.error e := by rw [hw, hu]
        rw [hub]
        exact ⟨_, rfl, h, rfl, rfl⟩
      | ok url =>
        rw [hu] at h1
        have hub : E.serverGetStreamURL b.world t.ID = Except.ok url := by rw [hw, hu]
        rw [hub]
        exact ih (appendTrack E a t url) (appendTrack E b t url)
          (appendTrack_core E a b h t url) ra h1

theorem loadStart_core (E : Env W) (a b : PlaybackManager W)
    (h : internalState a = internalState b) (ap : Bool) :
    internalState (loadStart E a ap) = internalState (loadStart E b ap) := by
  have h1 : a.world = b.world := congrArg Core.world h
  have h12 : commands a.log = commands b.log := congrArg Core.commands h
  cases ap with
  | true => exact h
  | false =>
    apply internalState_ext
    · show E.playerStop a.world = E.playerStop b.world
      rw [h1]
    · exact congrArg Core.heap h
    · exact congrArg Core.nextPtr h
    · exact congrArg Core.pollsStarted h
    · exact congrArg Core.activePolls h
    · exact congrArg Core.cancelPollPos h
    · exact congrArg Core.playTimeStopwatch h
    · exact congrArg Core.curTrackTime h
    · rfl
    · rfl
    · exact congrArg Core.scrobbleCfg h
    · show commands (a.log ++ _) = commands (b.log ++ _)
      rw [commands_append, commands_append, h12]

theorem LoadTracks_core (E : Env W) (a b : PlaybackManager W)
    (h : internalState a = internalState b) (tracks : List Child) (ap s : Bool)
    (ra : LoadResult W) (h1 : LoadTracks E a tracks ap s = some ra) :
    ∃ rb, LoadTracks E b tracks ap s = some rb ∧
      internalState ra.pm = internalState rb.pm ∧ ra.err = rb.err ∧
      rb.pm.callbacksDisabled = b.callbacksDisabled := by
  rw [LoadTracks_eq] at h1 ⊢
  obtain ⟨rb, e1, e2, e3, e4⟩ := loadLoop_core E tracks _ _ _ (loadStart_core E a b h ap) ra h1
  refine ⟨rb, e1, e2, e3, ?_⟩
  rw [e4]
  cases ap <;> rfl

theorem removeStep_core (E : Env W) (idxs : List Int) (st st1 : RemoveState W) (i : Nat)
    (tr : Ptr) (h : removeCore st = removeCore st1) :
    removeCore (removeStep E idxs st i tr) = removeCore (removeStep E idxs st1 i tr) := by
  obtain ⟨w, l, q, c, r⟩ := st
  obtain ⟨w1, l1, q1, c1, r1⟩ := st1
  simp only [removeCore, Prod.mk.injEq] at h
  obtain ⟨rfl, hl, rfl, rfl, rfl⟩ := h
  unfold removeStep
  simp only []
  split
  · split <;> simp [removeCore, commands_append, hl]
  · simp [removeCore, hl]

theorem removeLoop_core (E : Env W) (idxs : List Int) (rest : List Ptr) :
    ∀ (i : Nat) (st st1 : RemoveState W), removeCore st = removeCore st1 →
      removeCore (removeLoop E idxs rest i st) = removeCore (removeLoop E idxs rest i st1) := by
  induction rest with
  | nil =>
    intro i st st1 h
    exact h
  | cons tr rest ih =>
    intro i st st1 h
    simp only [removeLoop]
    exact ih (i + 1) _ _ (removeStep_core E idxs st st1 i tr h)

theorem afterRemoval_core (E : Env W) (a b : PlaybackManager W)
    (h : internalState a = internalState b) (idxs : List Int) :
    internalState (afterRemoval E a idxs) = internalState (afterRemoval E b idxs) := by
  have h1 : a.world = b.world := congrArg Core.world h
  have h9 : a.playQueue = b.playQueue := congrArg Core.playQueue h
  have h12 : commands a.log = commands b.log := congrArg Core.commands h
  have hst : removeCore (removeLoop E idxs a.playQueue 0 ⟨a.world, a.log, [], 0, 0⟩) =
      removeCore (removeLoop E idxs b.playQueue 0 ⟨b.world, b.log, [], 0, 0⟩) := by
    rw [h9]
    apply removeLoop_core
    simp only [removeCore, h1, h12]
  simp only [removeCore, Prod.mk.injEq] at hst
  obtain ⟨e1, e2, e3, -, -⟩ := hst
  apply internalState_ext
  · exact e1
  · exact congrArg Core.heap h
  · exact congrArg Core.nextPtr h
  · exact congrArg Core.pollsStarted h
  · exact congrArg Core.activePolls h
  · exact congrArg Core.cancelPollPos h
  · exact congrArg Core.playTimeStopwatch h
  · exact congrArg Core.curTrackTime h
  · exact e3
  · show (E.playerGetStatus _).PlaylistPos = (E.playerGetStatus _).PlaylistPos
    rw [e1]
  · exact congrArg Core.scrobbleCfg h
  · exact e2

theorem withStopwatch_core (a b : PlaybackManager W) (h : internalState a = internalState b)
    (s s1 : Stopwatch) (hs : s = s1) :
    internalState { a with playTimeStopwatch := s } =
      internalState { b with playTimeStopwatch := s1 } := by
  subst hs
  exact congrArg (fun c : Core W => ({ c with playTimeStopwatch := s } : Core W)) h

theorem StopAndClearPlayQueue_core (E : Env W) (a b : PlaybackManager W)
    (h : internalState a = internalState b) :
    internalState (StopAndClearPlayQueue E a) = internalState (StopAndClearPlayQueue E b) := by
  have key : ∀ pm : PlaybackManager W, internalState (StopAndClearPlayQueue E pm) =
      { internalState pm with
        world := E.playerClearPlayQueue (E.playerStop pm.world)
        commands := (internalState pm).commands ++
          [Event.playerStop, Event.playerClearPlayQueue]
        playQueue := [] } := by
    intro pm
    have := doUpdateTimePos_core E { pm with
      world := E.playerClearPlayQueue (E.playerStop pm.world)
      log := pm.log ++ [Event.playerStop] ++ [Event.playerClearPlayQueue] }
    have h2 := congrArg (fun c : Core W => ({ c with playQueue := [] } : Core W)) this
    refine Eq.trans h2 ?_
    simp only [internalState, Core.mk.injEq, true_and, and_true]
    rw [commands_append, commands_append]
    simp [commands, Event.isObserverCall]
  rw [key a, key b, h]
  have h1 : a.world = b.world := congrArg Core.world h
  rw [h1]

theorem onTrackChange_core (E : Env W) (a b a1 : PlaybackManager W) (n : Int)
    (h : internalState a = internalState b) (hD : b.callbacksDisabled = true)
    (h1 : onTrackChange E a n = some a1) :
    ∃ b1, onTrackChange E b n = some b1 ∧ internalState a1 = internalState b1 ∧
      b1.callbacksDisabled = true := by
  have e1 : a.world = b.world := congrArg Core.world h
  have e7 : a.playTimeStopwatch = b.playTimeStopwatch := congrArg Core.playTimeStopwatch h
  have e9 : a.playQueue = b.playQueue := congrArg Core.playQueue h
  by_cases hn : (a.playQueue.length : Int) ≤ n
  · unfold onTrackChange at h1 ⊢
    rw [if_pos hn] at h1
    rw [if_pos (e9 ▸ hn)]
    cases h1
    exact ⟨b, rfl, h, hD⟩
  · have hn1 : n < a.playQueue.length := not_le.mp hn
    rw [onTrackChange_unfold E a n hn1] at h1
    rw [onTrackChange_unfold E b n (e9 ▸ hn1)]
    simp only [Option.bind_eq_some] at h1
    obtain ⟨aS, hS, song, hsong, a6, h6, h7⟩ := h1
    have hel : b.playTimeStopwatch.Elapsed (E.timeNow b.world) =
        a.playTimeStopwatch.Elapsed (E.timeNow a.world) := by rw [e7, e1]
    obtain ⟨bS, hbS, hcS, hdS⟩ := checkScrobble_core a b aS _ h hS
    have hqS : aS.playQueue = bS.playQueue := congrArg Core.playQueue hcS
    have hsongb : index bS.playQueue n = some song := by
      rw [← hqS]
      exact hsong
    rw [hel, hbS]
    simp only [Option.some_bind, hsongb]
    obtain ⟨b5, hb5⟩ : ∃ b5 : PlaybackManager W, b5 =
        { bS with
          playTimeStopwatch :=
            if (E.playerGetStatus bS.world).State = State.Playing then
              bS.playTimeStopwatch.Reset.Start (E.timeNow bS.world)
            else bS.playTimeStopwatch.Reset
          nowPlayingIdx := n
          curTrackTime := f64OfInt (bS.heap song).Duration } := ⟨_, rfl⟩
    rw [← hb5]
    have hd5 : b5.callbacksDisabled = true := by
      rw [hb5]
      exact hdS.trans hD
    have hinv : invokeOnSongChangeCallbacks E b5 = some b5 := by
      unfold invokeOnSongChangeCallbacks
      rw [if_pos hd5]
    rw [hinv]
    simp only [Option.some_bind]
    obtain ⟨c6, -⟩ := invokeOnSongChangeCallbacks_core E _ a6 h6
    have c5 : internalState
        { aS with
          playTimeStopwatch :=
            if (E.playerGetStatus aS.world).State = State.Playing then
              aS.playTimeStopwatch.Reset.Start (E.timeNow aS.world)
            else aS.playTimeStopwatch.Reset
          nowPlayingIdx := n
          curTrackTime := f64OfInt (aS.heap song).Duration } = internalState b5 := by
      rw [hb5]
      exact congrArg (fun c : Core W =>
        ({ c with
          playTimeStopwatch :=
            if (E.playerGetStatus c.world).State = State.Playing then
              c.playTimeStopwatch.Reset.Start (E.timeNow c.world)
            else c.playTimeStopwatch.Reset
          nowPlayingIdx := n
          curTrackTime := f64OfInt (c.heap song).Duration } : Core W)) hcS
    have c7 : internalState (doUpdateTimePos E a6) = internalState (doUpdateTimePos E b5) := by
      rw [doUpdateTimePos_core, doUpdateTimePos_core, c6, c5]
    obtain ⟨b1, g1, g2, g3⟩ := sendNowPlayingScrobble_core _ _ a1 c7 h7
    refine ⟨b1, g1, g2, ?_⟩
    rw [g3, doUpdateTimePos_callbacksDisabled]
    exact hd5

/-- The Stopped handler, with the test of the suppression switch made on the state
after the scrobble evaluation. -/
theorem onStopped_unfold (E : Env W) (pm : PlaybackManager W) :
    onStopped E pm =
      (checkScrobble (stopAccumulator E pm)
        ((pm.playTimeStopwatch.Stop (E.timeNow pm.world)).Elapsed (E.timeNow pm.world))).bind
        fun pm2 =>
          if pm2.callbacksDisabled then
            some (doUpdateTimePos E (stopPollTimePos (resetAccumulator pm2)))
          else
            invokeOnSongChangeCallbacks E
              (callPaused (doUpdateTimePos E (stopPollTimePos (resetAccumulator pm2)))) := by
  unfold onStopped stopAccumulator resetAccumulator
  simp only [doUpdateTimePos_callbacksDisabled, stopPollTimePos_callbacksDisabled]

theorem onStopped_core (E : Env W) (a b a1 : PlaybackManager W)
    (h : internalState a = internalState b) (hD : b.callbacksDisabled = true)
    (h1 : onStopped E a = some a1) :
    ∃ b1, onStopped E b = some b1 ∧ internalState a1 = internalState b1 ∧
      b1.callbacksDisabled = true := by
  have e1 : a.world = b.world := congrArg Core.world h
  have e7 : a.playTimeStopwatch = b.playTimeStopwatch := congrArg Core.playTimeStopwatch h
  rw [onStopped_unfold] at h1 ⊢
  simp only [Option.bind_eq_some] at h1
  obtain ⟨a2, hS, h3⟩ := h1
  have c1 : internalState (stopAccumulator E a) = internalState (stopAccumulator E b) :=
    withStopwatch_core a b h _ _ (by rw [e7, e1])
  obtain ⟨b2, hb2, c2, d2⟩ := checkScrobble_core _ _ a2 _ c1 hS
  have hd2 : b2.callbacksDisabled = true := d2.trans hD
  have hel : (b.playTimeStopwatch.Stop (E.timeNow b.world)).Elapsed (E.timeNow b.world) =
      (a.playTimeStopwatch.Stop (E.timeNow a.world)).Elapsed (E.timeNow a.world) := by
    rw [e7, e1]
  rw [hel, hb2]
  simp only [Option.some_bind]
  rw [if_pos hd2]
  have hs2 : a2.playTimeStopwatch = b2.playTimeStopwatch := congrArg Core.playTimeStopwatch c2
  have c3 : internalState (resetAccumulator a2) = internalState (resetAccumulator b2) :=
    withStopwatch_core a2 b2 c2 _ _ (by rw [hs2])
  have c4 : internalState (doUpdateTimePos E (stopPollTimePos (resetAccumulator a2))) =
      internalState (doUpdateTimePos E (stopPollTimePos (resetAccumulator b2))) := by
    rw [doUpdateTimePos_core, doUpdateTimePos_core]
    exact stopPollTimePos_core _ _ c3
  refine ⟨_, rfl, ?_, ?_⟩
  · split at h3
    · cases h3
      exact c4
    · obtain ⟨c5, -⟩ := invokeOnSongChangeCallbacks_core E _ a1 h3
      rw [c5, callPaused_core]
      exact c4
  · rw [doUpdateTimePos_callbacksDisabled, stopPollTimePos_callbacksDisabled]
    exact hd2

theorem onPaused_core (E : Env W) (a b : PlaybackManager W)
    (h : internalState a = internalState b) :
    internalState (onPaused E a) = internalState (onPaused E b) := by
  have e1 : a.world = b.world := congrArg Core.world h
  have e7 : a.playTimeStopwatch = b.playTimeStopwatch := congrArg Core.playTimeStopwatch h
  unfold onPaused
  simp only []
  rw [callPaused_core, callPaused_core]
  exact stopPollTimePos_core _ _ (withStopwatch_core a b h _ _ (by rw [e7, e1]))

theorem onPlaying_core (E : Env W) (a b : PlaybackManager W)
    (h : internalState a = internalState b) :
    internalState (onPlaying E a) = internalState (onPlaying E b) := by
  have e1 : a.world = b.world := congrArg Core.world h
  have e7 : a.playTimeStopwatch = b.playTimeStopwatch := congrArg Core.playTimeStopwatch h
  unfold onPlaying
  simp only []
  rw [callPlaying_core, callPlaying_core]
  exact startPollTimePos_core _ _ (withStopwatch_core a b h _ _ (by rw [e7, e1]))

theorem RemoveTracksFromQueue_sameCore (E : Env W) (a b a1 : PlaybackManager W) (idxs : List Int)
    (h : internalState a = internalState b) (hD : b.callbacksDisabled = true)
    (h1 : RemoveTracksFromQueue E a idxs = some a1) :
    ∃ b1, RemoveTracksFromQueue E b idxs = some b1 ∧ internalState a1 = internalState b1 ∧
      b1.callbacksDisabled = true := by
  have e9 : a.playQueue = b.playQueue := congrArg Core.playQueue h
  have hlen := RemoveTracksFromQueue_length E a a1 idxs h1
  rw [RemoveTracksFromQueue_eq E a idxs hlen] at h1
  rw [RemoveTracksFromQueue_eq E b idxs (e9 ▸ hlen)]
  have hd : (afterRemoval E b idxs).callbacksDisabled = true := hD
  obtain ⟨c1, -⟩ := invokeOnSongChangeCallbacks_core E _ a1 h1
  refine ⟨afterRemoval E b idxs, ?_, ?_, hd⟩
  · unfold invokeOnSongChangeCallbacks
    rw [if_pos hd]
  · rw [c1]
    exact afterRemoval_core E a b h idxs

/-- One call made on two managers with the same internal state, the second with
callbacks disabled: if the first returns, so does the second, with the same
internal state. -/
theorem step_core (E : Env W) (op : Op W) (a b a1 : PlaybackManager W)
    (h : internalState a = internalState b) (hD : b.callbacksDisabled = true)
    (h1 : step E a op = some a1) :
    ∃ b1, step E b op = some b1 ∧ internalState a1 = internalState b1 ∧
      b1.callbacksDisabled = true := by
  cases op with
  | loadTracks tracks ap s =>
    simp only [step, Option.map_eq_some'] at h1 ⊢
    obtain ⟨ra, hra, rfl⟩ := h1
    obtain ⟨rb, g1, g2, -, g4⟩ := LoadTracks_core E a b h tracks ap s ra hra
    exact ⟨rb.pm, ⟨rb, g1, rfl⟩, g2, g4.trans hD⟩
  | removeTracks idxs => exact RemoveTracksFromQueue_sameCore E a b a1 idxs h hD h1
  | stopAndClear =>
    simp only [step, Option.some.injEq] at h1 ⊢
    subst h1
    refine ⟨_, rfl, StopAndClearPlayQueue_core E a b h, ?_⟩
    unfold StopAndClearPlayQueue
    simp only [doUpdateTimePos_callbacksDisabled]
    exact hD
  | trackChanged n => exact onTrackChange_core E a b a1 n h hD h1
  | seek =>
    simp only [step, Option.some.injEq] at h1 ⊢
    subst h1
    refine ⟨_, rfl, ?_, ?_⟩
    · unfold onSeek
      rw [doUpdateTimePos_core, doUpdateTimePos_core]
      exact h
    · unfold onSeek
      rw [doUpdateTimePos_callbacksDisabled]
      exact hD
  | playing =>
    simp only [step, Option.some.injEq] at h1 ⊢
    subst h1
    exact ⟨_, rfl, onPlaying_core E a b h, hD⟩
  | paused =>
    simp only [step, Option.some.injEq] at h1 ⊢
    subst h1
    refine ⟨_, rfl, onPaused_core E a b h, ?_⟩
    unfold onPaused callPaused
    simp only [stopPollTimePos_callbacksDisabled]
    exact hD
  | stopped => exact onStopped_core E a b a1 h hD h1
  | world w =>
    simp only [step, Option.some.injEq] at h1 ⊢
    subst h1
    exact ⟨_, rfl, congrArg (fun c : Core W => ({ c with world := w } : Core W)) h, hD⟩

theorem run_core (E : Env W) (ops : List (Op W)) :
    ∀ (a b a1 : PlaybackManager W), internalState a = internalState b →
      b.callbacksDisabled = true → run E a ops = some a1 →
      ∃ b1, run E b ops = some b1 ∧ internalState a1 = internalState b1 ∧
        b1.callbacksDisabled = true := by
  induction ops with
  | nil =>
    intro a b a1 h hD h1
    simp only [run, Option.some.injEq] at h1
    subst h1
    exact ⟨b, rfl, h, hD⟩
  | cons op ops ih =>
    intro a b a1 h hD h1
    simp only [run, Option.bind_eq_some] at h1
    obtain ⟨a2, g1, g2⟩ := h1
    obtain ⟨b2, k1, k2, k3⟩ := step_core E op a b a2 h hD g1
    obtain ⟨b1, m1, m2, m3⟩ := ih a2 b2 a1 k2 k3 g2
    refine ⟨b1, ?_, m2, m3⟩
    simp only [run, k1, Option.some_bind]
    exact m1


/-- C18: a sequence of transport events and queue operations is run on a manager
`pmE` and on a manager `pmD` with callbacks disabled that has the same
internal state (for instance `pmE` itself after `DisableCallbacks`). If the
run on `pmE` returns, the run on `pmD` returns too, with the same queue,
now-playing index and accumulator, and more generally the same internal state
and the same commands sent to the engine and the remote service. -/
theorem suppression_preserves_state (E : Env W) (ops : List (Op W))
    (pmE pmD pmE1 : PlaybackManager W)
    (hD : pmD.callbacksDisabled = true)
    (h : internalState pmE = internalState pmD)
    (hE : run E pmE ops = some pmE1) :
    ∃ pmD1, run E pmD ops = some pmD1 ∧
      pmE1.playQueue = pmD1.playQueue ∧ pmE1.nowPlayingIdx = pmD1.nowPlayingIdx ∧
      pmE1.playTimeStopwatch = pmD1.playTimeStopwatch ∧
      internalState pmE1 = internalState pmD1 ∧
      commands pmE1.log = commands pmD1.log ∧ pmD1.callbacksDisabled = true := by
  obtain ⟨pmD1, h1, h2, h3⟩ := run_core E ops pmE pmD pmE1 h hD hE
  exact ⟨pmD1, h1, congrArg Core.playQueue h2, congrArg Core.nowPlayingIdx h2,
    congrArg Core.playTimeStopwatch h2, h2, congrArg Core.commands h2, h3⟩

/-- Witness for C18: the calls `sampleCalls` on `observedPlayed` and on the same
manager with callbacks disabled. Both runs end with the queue `[11, 12, 13, 14]`,
index 0 and a reset accumulator, and send the same commands; only the first
invokes the song-change and time-position observers. -/
theorem suppression_preserves_state_witness :
    (DisableCallbacks observedPlayed).callbacksDisabled = true ∧
    internalState observedPlayed = internalState (DisableCallbacks observedPlayed) ∧
    (run quietEnv observedPlayed sampleCalls).map
      (fun p => (p.log, p.playQueue, p.nowPlayingIdx, p.playTimeStopwatch.accumulated,
        p.playTimeStopwatch.running)) =
      some ([Event.scrobble "t10" true, Event.songChange 1 (some 12) (some 10),
        Event.playTimeUpdate 2 0 0, Event.scrobble "t12" false, Event.paused 3,
        Event.paused 5, Event.playerRemoveTrackAt 0 true,
        Event.songChange 1 (some 11) none, Event.playTimeUpdate 2 0 0, Event.paused 3,
        Event.paused 5, Event.songChange 1 (some 11) none], [11, 12, 13, 14], 0, 0, false) ∧
    (run quietEnv (DisableCallbacks observedPlayed) sampleCalls).map
      (fun p => (p.log, p.playQueue, p.nowPlayingIdx, p.playTimeStopwatch.accumulated,
        p.playTimeStopwatch.running)) =
      some ([Event.scrobble "t10" true, Event.scrobble "t12" false, Event.paused 3,
        Event.paused 5, Event.playerRemoveTrackAt 0 true], [11, 12, 13, 14], 0, 0, false) ∧
    ∃ pmE1, run quietEnv observedPlayed sampleCalls = some pmE1 ∧
      ∃ pmD1, run quietEnv (DisableCallbacks observedPlayed) sampleCalls = some pmD1 ∧
        pmE1.playQueue = pmD1.playQueue ∧ pmE1.nowPlayingIdx = pmD1.nowPlayingIdx ∧
        pmE1.playTimeStopwatch = pmD1.playTimeStopwatch ∧
        internalState pmE1 = internalState pmD1 ∧
        commands pmE1.log = commands pmD1.log ∧ pmD1.callbacksDisabled = true :=
  ⟨rfl, rfl, by decide!, by decide!,
    (Option.isSome_iff_exists.mp
      (by decide! : (run quietEnv observedPlayed sampleCalls).isSome = true)).elim
      fun pmE1 hE => ⟨pmE1, hE,
        suppression_preserves_state quietEnv sampleCalls observedPlayed
          (DisableCallbacks observedPlayed) pmE1 rfl rfl hE⟩⟩


/-- C23: for every scrobble configuration passed to `NewPlaybackManager` the
percentage threshold of the manager is the input clamped into 0..99 (below 0
it becomes 0, above 99 it becomes 99, otherwise it is unchanged), and the
enabled flag and the time threshold are unchanged. -/
theorem NewPlaybackManager_clamps (w : W) (cfg : ScrobbleConfig) :
    (NewPlaybackManager w cfg).scrobbleCfg.ThresholdPercent =
      (if cfg.ThresholdPercent < 0 then 0
        else if 99 < cfg.ThresholdPercent then 99 else cfg.ThresholdPercent) ∧
    0 ≤ (NewPlaybackManager w cfg).scrobbleCfg.ThresholdPercent ∧
    (NewPlaybackManager w cfg).scrobbleCfg.ThresholdPercent ≤ 99 ∧
    (NewPlaybackManager w cfg).scrobbleCfg.Enabled = cfg.Enabled ∧
    (NewPlaybackManager w cfg).scrobbleCfg.ThresholdTimeSeconds = cfg.ThresholdTimeSeconds := by
  have h : (NewPlaybackManager w cfg).scrobbleCfg.ThresholdPercent =
      clamp cfg.ThresholdPercent 0 99 := rfl
  refine ⟨h, ?_, ?_, rfl, rfl⟩
  · rw [h]
    unfold clamp
    split
    · exact le_refl 0
    · split <;> omega
  · rw [h]
    unfold clamp
    split
    · omega
    · split <;> omega


theorem FindTrackByID_none (heap : Ptr → Child) (id : String) (tracks : List Ptr)
    (h : ∀ p ∈ tracks, (heap p).ID ≠ id) : FindTrackByID heap id tracks = none := by
  unfold FindTrackByID
  rw [List.find?_eq_none]
  intro p hp
  simpa using h p hp

theorem FindTrackByID_some (heap : Ptr → Child) (id : String) (tracks : List Ptr)
    (h : ∃ p ∈ tracks, (heap p).ID = id) :
    ∃ tr pre post, FindTrackByID heap id tracks = some tr ∧ (heap tr).ID = id ∧
      tracks = pre ++ tr :: post ∧ ∀ p ∈ pre, (heap p).ID ≠ id := by
  unfold FindTrackByID
  obtain ⟨p, hp, hid⟩ := h
  cases hf : tracks.find? (fun p => decide ((heap p).ID = id)) with
  | none =>
    rw [List.find?_eq_none] at hf
    exact absurd (by simpa using hid) (hf p hp)
  | some tr =>
    obtain ⟨h1, pre, post, h2, h3⟩ := List.find?_eq_some.mp hf
    refine ⟨tr, pre, post, rfl, by simpa using h1, h2, ?_⟩
    intro q hq
    simpa using h3 q hq

/-- C22: if no queue entry has the identifier, `OnTrackRatingChanged` and
`OnTrackFavoriteStatusChanged` leave the manager as it is. Otherwise the entry
located is the first one with the identifier; `OnTrackRatingChanged` sets its
`UserRating` to the rating, `OnTrackFavoriteStatusChanged` sets its `Starred`
to a non-zero time exactly when `fav` is true, and every other field of that
entry, every other object, the queue (length and order), the now-playing
index and all other fields of the manager are unchanged. -/
theorem metadata_sync_spec (E : Env W) (pm : PlaybackManager W) (id : String)
    (rating : Int) (fav : Bool) :
    ((∀ p ∈ pm.playQueue, (pm.heap p).ID ≠ id) →
      OnTrackRatingChanged pm id rating = pm ∧
      OnTrackFavoriteStatusChanged E pm id fav = pm) ∧
    ((∃ p ∈ pm.playQueue, (pm.heap p).ID = id) →
      ∃ tr pre post, pm.playQueue = pre ++ tr :: post ∧ (pm.heap tr).ID = id ∧
        (∀ p ∈ pre, (pm.heap p).ID ≠ id) ∧
        (OnTrackRatingChanged pm id rating).heap tr =
          { pm.heap tr with UserRating := rating } ∧
        (∀ p, p ≠ tr → (OnTrackRatingChanged pm id rating).heap p = pm.heap p) ∧
        OnTrackRatingChanged pm id rating =
          { pm with heap := (OnTrackRatingChanged pm id rating).heap } ∧
        (OnTrackRatingChanged pm id rating).playQueue = pm.playQueue ∧
        (OnTrackRatingChanged pm id rating).nowPlayingIdx = pm.nowPlayingIdx ∧
        (∃ st, (OnTrackFavoriteStatusChanged E pm id fav).heap tr =
            { pm.heap tr with Starred := st } ∧ (st ≠ none ↔ fav = true)) ∧
        (∀ p, p ≠ tr → (OnTrackFavoriteStatusChanged E pm id fav).heap p = pm.heap p) ∧
        OnTrackFavoriteStatusChanged E pm id fav =
          { pm with heap := (OnTrackFavoriteStatusChanged E pm id fav).heap } ∧
        (OnTrackFavoriteStatusChanged E pm id fav).playQueue = pm.playQueue ∧
        (OnTrackFavoriteStatusChanged E pm id fav).nowPlayingIdx = pm.nowPlayingIdx) := by
  constructor
  · intro h
    have hf := FindTrackByID_none pm.heap id pm.playQueue h
    unfold OnTrackRatingChanged OnTrackFavoriteStatusChanged
    rw [hf]
    exact ⟨rfl, rfl⟩
  · intro h
    obtain ⟨tr, pre, post, hf, hid, hq, hpre⟩ := FindTrackByID_some pm.heap id pm.playQueue h
    have hr : OnTrackRatingChanged pm id rating =
        { pm with
          heap := Function.update pm.heap tr ({ pm.heap tr with UserRating := rating }) } := by
      unfold OnTrackRatingChanged
      rw [hf]
    have hs : OnTrackFavoriteStatusChanged E pm id fav =
        { pm with
          heap := Function.update pm.heap tr
            ({ pm.heap tr with
              Starred := if fav then some (E.timeNow pm.world) else none }) } := by
      unfold OnTrackFavoriteStatusChanged
      rw [hf]
      cases fav <;> rfl
    refine ⟨tr, pre, post, hq, hid, hpre, ?_, ?_, ?_, ?_, ?_, ?_, ?_, ?_, ?_, ?_⟩
    · rw [hr]
      exact Function.update_same _ _ _
    · intro p hp
      rw [hr]
      exact Function.update_noteq hp _ _
    · rw [hr]
    · rw [hr]
    · rw [hr]
    · refine ⟨if fav then some (E.timeNow pm.world) else none, ?_, ?_⟩
      · rw [hs]
        exact Function.update_same _ _ _
      · cases fav <;> simp
    · intro p hp
      rw [hs]
      exact Function.update_noteq hp _ _
    · rw [hs]
    · rw [hs]
    · rw [hs]

/-- Witness for C22: in `dupManager` the identifier `"dup"` is carried by the entries
at indices 1 and 3; the entry at index 1 is the one updated. No entry carries
`"absent"`. -/
theorem metadata_sync_spec_witness :
    (∃ p ∈ dupManager.playQueue, (dupManager.heap p).ID = "dup") ∧
    (∀ p ∈ dupManager.playQueue, (dupManager.heap p).ID ≠ "absent") ∧
    (OnTrackRatingChanged dupManager "dup" 5).playQueue.map
      (fun p => ((OnTrackRatingChanged dupManager "dup" 5).heap p).UserRating) =
      [0, 5, 0, 0, 0] ∧
    (OnTrackFavoriteStatusChanged quietEnv dupManager "dup" true).playQueue.map
      (fun p => ((OnTrackFavoriteStatusChanged quietEnv dupManager "dup" true).heap p).Starred) =
      [none, some 0, none, none, none] ∧
    (OnTrackRatingChanged dupManager "absent" 5 = dupManager ∧
      OnTrackFavoriteStatusChanged quietEnv dupManager "absent" true = dupManager) ∧
    ∃ tr pre post, dupManager.playQueue = pre ++ tr :: post ∧ (dupManager.heap tr).ID = "dup" ∧
      (∀ p ∈ pre, (dupManager.heap p).ID ≠ "dup") ∧
      (OnTrackRatingChanged dupManager "dup" 5).heap tr =
        { dupManager.heap tr with UserRating := 5 } ∧
      (∀ p, p ≠ tr → (OnTrackRatingChanged dupManager "dup" 5).heap p = dupManager.heap p) ∧
      OnTrackRatingChanged dupManager "dup" 5 =
        { dupManager with heap := (OnTrackRatingChanged dupManager "dup" 5).heap } ∧
      (OnTrackRatingChanged dupManager "dup" 5).playQueue = dupManager.playQueue ∧
      (OnTrackRatingChanged dupManager "dup" 5).nowPlayingIdx = dupManager.nowPlayingIdx ∧
      (∃ st, (OnTrackFavoriteStatusChanged quietEnv dupManager "dup" true).heap tr =
          { dupManager.heap tr with Starred := st } ∧ (st ≠ none ↔ true = true)) ∧
      (∀ p, p ≠ tr →
        (OnTrackFavoriteStatusChanged quietEnv dupManager "dup" true).heap p =
          dupManager.heap p) ∧
      OnTrackFavoriteStatusChanged quietEnv dupManager "dup" true =
        { dupManager with
          heap := (OnTrackFavoriteStatusChanged quietEnv dupManager "dup" true).heap } ∧
      (OnTrackFavoriteStatusChanged quietEnv dupManager "dup" true).playQueue =
        dupManager.playQueue ∧
      (OnTrackFavoriteStatusChanged quietEnv dupManager "dup" true).nowPlayingIdx =
        dupManager.nowPlayingIdx :=
  ⟨by decide!, by decide!, by decide!, by decide!,
    (metadata_sync_spec quietEnv dupManager "absent" 5 true).1 (by decide!),
    (metadata_sync_spec quietEnv dupManager "dup" 5 true).2 (by decide!)⟩


/-- The copying loop of `GetPlayQueue` over entries that are allocated objects:
the copies are the next free addresses in order, they hold the records of the
entries, and nothing else changes. -/
theorem copyLoop_spec (q : List Ptr) :
    ∀ (pm : PlaybackManager W) (acc : List Ptr), (∀ p ∈ q, p < pm.nextPtr) →
      let r := q.foldl
        (fun (a : PlaybackManager W × List Ptr) tr =>
          (({ a.1 with
              heap := Function.update a.1.heap a.1.nextPtr (a.1.heap tr)
              nextPtr := a.1.nextPtr + 1 } : PlaybackManager W),
            a.2 ++ [a.1.nextPtr]))
        (pm, acc)
      r.2 = acc ++ List.range' pm.nextPtr q.length ∧
      r.1.nextPtr = pm.nextPtr + q.length ∧
      (∀ p, p < pm.nextPtr → r.1.heap p = pm.heap p) ∧
      (List.range' pm.nextPtr q.length).map r.1.heap = q.map pm.heap ∧
      r.1 = { pm with heap := r.1.heap, nextPtr := r.1.nextPtr } := by
  induction q with
  | nil =>
    intro pm acc _
    simp
  | cons tr rest ih =>
    intro pm acc hq
    simp only [List.foldl_cons]
    have hrest : ∀ p ∈ rest, p <
        ({ pm with
          heap := Function.update pm.heap pm.nextPtr (pm.heap tr)
          nextPtr := pm.nextPtr + 1 } : PlaybackManager W).nextPtr := by
      intro p hp
      have := hq p (List.mem_cons_of_mem _ hp)
      exact Nat.lt_succ_of_lt this
    obtain ⟨h1, h2, h3, h4, h5⟩ := ih
      ({ pm with
        heap := Function.update pm.heap pm.nextPtr (pm.heap tr)
        nextPtr := pm.nextPtr + 1 } : PlaybackManager W) (acc ++ [pm.nextPtr]) hrest
    simp only [] at h1 h2 h3 h4 h5 ⊢
    refine ⟨?_, ?_, ?_, ?_, ?_⟩
    · rw [h1, List.length_cons, List.range'_succ, List.append_assoc]
      rfl
    · rw [h2, List.length_cons]
      omega
    · intro p hp
      rw [h3 p (Nat.lt_succ_of_lt hp)]
      exact Function.update_noteq (Nat.ne_of_lt hp) _ _
    · rw [List.length_cons, List.range'_succ, List.map_cons, List.map_cons, h4,
        h3 pm.nextPtr (Nat.lt_succ_self _), Function.update_same]
      congr 1
      apply List.map_congr_left
      intro p hp
      have hlt : p < pm.nextPtr := hq p (List.mem_cons_of_mem _ hp)
      exact Function.update_noteq (Nat.ne_of_lt hlt) _ _
    · rw [h5]

theorem GetPlayQueue_eq (pm : PlaybackManager W) (hA : Allocated pm) :
    (GetPlayQueue pm).2 = List.range' pm.nextPtr pm.playQueue.length ∧
    (GetPlayQueue pm).1.nextPtr = pm.nextPtr + pm.playQueue.length ∧
    (∀ p, p < pm.nextPtr → (GetPlayQueue pm).1.heap p = pm.heap p) ∧
    (GetPlayQueue pm).2.map (GetPlayQueue pm).1.heap = queueRecords pm ∧
    (GetPlayQueue pm).1 =
      { pm with heap := (GetPlayQueue pm).1.heap, nextPtr := (GetPlayQueue pm).1.nextPtr } := by
  obtain ⟨h1, h2, h3, h4, h5⟩ := copyLoop_spec pm.playQueue pm [] hA
  simp only [List.nil_append] at h1
  refine ⟨h1, h2, h3, ?_, h5⟩
  have : (GetPlayQueue pm).2 = List.range' pm.nextPtr pm.playQueue.length := h1
  rw [this]
  exact h4

theorem queueRecords_congr (a b : PlaybackManager W) (hq : a.playQueue = b.playQueue)
    (hh : ∀ p ∈ b.playQueue, a.heap p = b.heap p) : queueRecords a = queueRecords b := by
  unfold queueRecords
  rw [hq]
  exact List.map_congr_left hh

theorem NowPlaying_congr (E : Env W) (a b : PlaybackManager W)
    (hq : a.playQueue = b.playQueue) (hi : a.nowPlayingIdx = b.nowPlayingIdx)
    (hw : a.world = b.world) : NowPlaying E a = NowPlaying E b := by
  unfold NowPlaying
  rw [hq, hi, hw]

/-- C21: for a manager whose queue entries are allocated objects, `GetPlayQueue`
returns as many entries as the queue holds, the i-th being a field-for-field
copy of the i-th queue entry. The manager is unchanged (only fresh objects are
added to the store), and the copies are objects of their own: they are
distinct from each other and from every queue entry, so that after a caller
overwrites one of them, the queue records, the result of `NowPlaying` (pointer
and record) and the records a later `GetPlayQueue` returns are as before. -/
theorem GetPlayQueue_snapshot (E : Env W) (pm : PlaybackManager W) (hA : Allocated pm) :
    (GetPlayQueue pm).2.length = pm.playQueue.length ∧
    (GetPlayQueue pm).2.map (GetPlayQueue pm).1.heap = queueRecords pm ∧
    (GetPlayQueue pm).1 =
      { pm with heap := (GetPlayQueue pm).1.heap, nextPtr := (GetPlayQueue pm).1.nextPtr } ∧
    (∀ p, p < pm.nextPtr → (GetPlayQueue pm).1.heap p = pm.heap p) ∧
    queueRecords (GetPlayQueue pm).1 = queueRecords pm ∧
    NowPlaying E (GetPlayQueue pm).1 = NowPlaying E pm ∧
    (GetPlayQueue pm).2.Nodup ∧
    (∀ r ∈ (GetPlayQueue pm).2, r ∉ pm.playQueue) ∧
    ∀ r ∈ (GetPlayQueue pm).2, ∀ c : Child,
      queueRecords (callerWrites (GetPlayQueue pm).1 r c) = queueRecords pm ∧
      NowPlaying E (callerWrites (GetPlayQueue pm).1 r c) = NowPlaying E pm ∧
      (NowPlaying E (callerWrites (GetPlayQueue pm).1 r c)).map
          (Option.map (callerWrites (GetPlayQueue pm).1 r c).heap) =
        (NowPlaying E pm).map (Option.map pm.heap) ∧
      (GetPlayQueue (callerWrites (GetPlayQueue pm).1 r c)).2.map
          (GetPlayQueue (callerWrites (GetPlayQueue pm).1 r c)).1.heap = queueRecords pm := by
  obtain ⟨h1, h2, h3, h4, h5⟩ := GetPlayQueue_eq pm hA
  have hq : (GetPlayQueue pm).1.playQueue = pm.playQueue := by
    have := congrArg PlaybackManager.playQueue h5
    exact this
  have hi : (GetPlayQueue pm).1.nowPlayingIdx = pm.nowPlayingIdx := by
    have := congrArg PlaybackManager.nowPlayingIdx h5
    exact this
  have hw : (GetPlayQueue pm).1.world = pm.world := by
    have := congrArg PlaybackManager.world h5
    exact this
  have hge : ∀ r ∈ (GetPlayQueue pm).2, pm.nextPtr ≤ r := by
    intro r hr
    rw [h1] at hr
    exact (List.mem_range'_1.mp hr).1
  have hrec : queueRecords (GetPlayQueue pm).1 = queueRecords pm :=
    queueRecords_congr _ _ hq (fun p hp => h3 p (hA p hp))
  refine ⟨?_, h4, h5, h3, hrec, NowPlaying_congr E _ _ hq hi hw, ?_, ?_, ?_⟩
  · rw [h1, List.length_range']
  · rw [h1]
    exact List.nodup_range' _ _
  · intro r hr hmem
    exact absurd (hA r hmem) (not_lt.mpr (hge r hr))
  · intro r hr c
    have hne : ∀ p ∈ pm.playQueue, p ≠ r := by
      intro p hp hpr
      have h6 := hA p hp
      rw [hpr] at h6
      exact absurd h6 (not_lt.mpr (hge r hr))
    have hrec2 : queueRecords (callerWrites (GetPlayQueue pm).1 r c) = queueRecords pm := by
      rw [← hrec]
      refine queueRecords_congr (callerWrites (GetPlayQueue pm).1 r c) (GetPlayQueue pm).1
        rfl ?_
      intro p hp
      rw [hq] at hp
      exact Function.update_noteq (hne p hp) _ _
    have hnp : NowPlaying E (callerWrites (GetPlayQueue pm).1 r c) = NowPlaying E pm :=
      NowPlaying_congr E _ _ hq hi hw
    have hA2 : Allocated (callerWrites (GetPlayQueue pm).1 r c) := by
      intro p hp
      have hp1 : p ∈ pm.playQueue := by
        rw [← hq]
        exact hp
      show p < (GetPlayQueue pm).1.nextPtr
      rw [h2]
      exact Nat.lt_of_lt_of_le (hA p hp1) (Nat.le_add_right _ _)
    refine ⟨hrec2, hnp, ?_, ?_⟩
    · rw [hnp]
      cases hres : NowPlaying E pm with
      | none => rfl
      | some np =>
        cases np with
        | none => rfl
        | some song =>
          have hsong : song ∈ pm.playQueue := by
            unfold NowPlaying at hres
            split at hres
            · cases hres
            · simp only [Option.map_eq_some'] at hres
              obtain ⟨s, hs, hs2⟩ := hres
              cases hs2
              unfold index at hs
              split at hs
              · cases hs
              · exact List.getElem?_mem hs
          simp only [Option.map_some']
          congr 2
          show Function.update (GetPlayQueue pm).1.heap r c song = pm.heap song
          rw [Function.update_noteq (hne song hsong), h3 song (hA song hsong)]
    · rw [(GetPlayQueue_eq _ hA2).2.2.2.1]
      exact hrec2

/-- Witness for C21: the snapshot of the five-entry sample queue consists of the
five fresh objects 15 to 19; overwriting the copy 16 leaves the queue records
as they are. -/
theorem GetPlayQueue_snapshot_witness :
    Allocated (fiveManager ()) ∧
    (GetPlayQueue (fiveManager ())).2 = [15, 16, 17, 18, 19] ∧
    queueRecords (callerWrites (GetPlayQueue (fiveManager ())).1 16 (sampleTrack "x" 1)) =
      [sampleTrack "t10" 100, sampleTrack "t11" 100, sampleTrack "t12" 100,
        sampleTrack "t13" 100, sampleTrack "t14" 100] ∧
    ((GetPlayQueue (fiveManager ())).2.length = (fiveManager ()).playQueue.length ∧
    (GetPlayQueue (fiveManager ())).2.map (GetPlayQueue (fiveManager ())).1.heap =
      queueRecords (fiveManager ()) ∧
    (GetPlayQueue (fiveManager ())).1 =
      { fiveManager () with
        heap := (GetPlayQueue (fiveManager ())).1.heap
        nextPtr := (GetPlayQueue (fiveManager ())).1.nextPtr } ∧
    (∀ p, p < (fiveManager ()).nextPtr →
      (GetPlayQueue (fiveManager ())).1.heap p = (fiveManager ()).heap p) ∧
    queueRecords (GetPlayQueue (fiveManager ())).1 = queueRecords (fiveManager ()) ∧
    NowPlaying quietEnv (GetPlayQueue (fiveManager ())).1 = NowPlaying quietEnv (fiveManager ()) ∧
    (GetPlayQueue (fiveManager ())).2.Nodup ∧
    (∀ r ∈ (GetPlayQueue (fiveManager ())).2, r ∉ (fiveManager ()).playQueue) ∧
    ∀ r ∈ (GetPlayQueue (fiveManager ())).2, ∀ c : Child,
      queueRecords (callerWrites (GetPlayQueue (fiveManager ())).1 r c) =
        queueRecords (fiveManager ()) ∧
      NowPlaying quietEnv (callerWrites (GetPlayQueue (fiveManager ())).1 r c) =
        NowPlaying quietEnv (fiveManager ()) ∧
      (NowPlaying quietEnv (callerWrites (GetPlayQueue (fiveManager ())).1 r c)).map
          (Option.map (callerWrites (GetPlayQueue (fiveManager ())).1 r c).heap) =
        (NowPlaying quietEnv (fiveManager ())).map (Option.map (fiveManager ()).heap) ∧
      (GetPlayQueue (callerWrites (GetPlayQueue (fiveManager ())).1 r c)).2.map
          (GetPlayQueue (callerWrites (GetPlayQueue (fiveManager ())).1 r c)).1.heap =
        queueRecords (fiveManager ())) :=
  ⟨by unfold Allocated; decide, by decide, by decide!,
    GetPlayQueue_snapshot quietEnv (fiveManager ()) (by unfold Allocated; decide)⟩


/-- Inversion of the track-changed handler below the queue length: when it returns,
the scrobble evaluation returned some `pmS`, the queue has an entry `new` at
the index, and the result is `afterTrackChange`. -/
theorem onTrackChange_some (E : Env W) (pm pm1 : PlaybackManager W) (n : Int)
    (hn : n < pm.playQueue.length) (h : onTrackChange E pm n = some pm1) :
    ∃ pmS new,
      checkScrobble pm (pm.playTimeStopwatch.Elapsed (E.timeNow pm.world)) = some pmS ∧
      index pm.playQueue n = some new ∧ pm1 = afterTrackChange E pmS n new := by
  have h0 := h
  rw [onTrackChange_unfold E pm n hn] at h0
  simp only [Option.bind_eq_some] at h0
  obtain ⟨pmS, hS, song, hsong, -⟩ := h0
  have hq : pmS.playQueue = pm.playQueue := (checkScrobble_frame _ _ _ hS).2.2.1
  rw [hq] at hsong
  rw [onTrackChange_eq E pm pmS n song hsong hS hq] at h
  cases h
  exact ⟨pmS, song, hS, hsong, rfl⟩

theorem invokeOnSongChangeCallbacks_fields (E : Env W) (pm pm1 : PlaybackManager W)
    (h : invokeOnSongChangeCallbacks E pm = some pm1) :
    pm1.playTimeStopwatch = pm.playTimeStopwatch ∧ pm1.playQueue = pm.playQueue ∧
    pm1.nowPlayingIdx = pm.nowPlayingIdx ∧ pm1.curTrackTime = pm.curTrackTime ∧
    pm1.heap = pm.heap ∧ pm1.nextPtr = pm.nextPtr ∧ pm1.world = pm.world ∧
    pm1.scrobbleCfg = pm.scrobbleCfg := by
  obtain ⟨evs, -, -, rfl, -⟩ := invokeOnSongChangeCallbacks_eq E pm pm1 h
  exact ⟨rfl, rfl, rfl, rfl, rfl, rfl, rfl, rfl⟩

/-- Inversion of the Stopped handler: when it returns, the scrobble evaluation
returned some `pmS`; the accumulator is reset, the object store is the one
left by the evaluation, and queue, index and tracked duration are as before. -/
theorem onStopped_some (E : Env W) (pm pm1 : PlaybackManager W)
    (h : onStopped E pm = some pm1) :
    ∃ pmS,
      checkScrobble (stopAccumulator E pm)
        ((pm.playTimeStopwatch.Stop (E.timeNow pm.world)).Elapsed (E.timeNow pm.world)) =
        some pmS ∧
      pm1.playTimeStopwatch = pm.playTimeStopwatch.Reset ∧ pm1.playQueue = pm.playQueue ∧
      pm1.nowPlayingIdx = pm.nowPlayingIdx ∧ pm1.curTrackTime = pm.curTrackTime ∧
      pm1.heap = pmS.heap ∧ pm1.nextPtr = pm.nextPtr ∧ pm1.world = pm.world := by
  rw [onStopped_unfold] at h
  simp only [Option.bind_eq_some] at h
  obtain ⟨pmS, hS, h3⟩ := h
  obtain ⟨f1, f2, f3, f4, f5, -, -, -, -, -, -, f12⟩ := checkScrobble_frame _ _ _ hS
  have f1a : pmS.playTimeStopwatch = pm.playTimeStopwatch.Stop (E.timeNow pm.world) := f1
  have f2a : pmS.world = pm.world := f2
  have f3a : pmS.playQueue = pm.playQueue := f3
  have f4a : pmS.nowPlayingIdx = pm.nowPlayingIdx := f4
  have f5a : pmS.curTrackTime = pm.curTrackTime := f5
  have f12a : pmS.nextPtr = pm.nextPtr := f12
  have hsw : pmS.playTimeStopwatch.Reset = pm.playTimeStopwatch.Reset := by
    rw [f1a, Stopwatch.reset_stop]
  refine ⟨pmS, hS, ?_⟩
  split at h3
  · cases h3
    simp [resetAccumulator, hsw, f2a, f3a, f4a, f5a, f12a]
  · obtain ⟨g1, g2, g3, g4, g5, g6, g7, -⟩ := invokeOnSongChangeCallbacks_fields E _ pm1 h3
    rw [g1, g2, g3, g4, g5, g6, g7]
    simp [callPaused, resetAccumulator, hsw, f2a, f3a, f4a, f5a, f12a]

theorem onTrackChange_isSome (E : Env W) (pm : PlaybackManager W) (n : Int)
    (hn : 0 ≤ n ∧ n < pm.playQueue.length)
    (hidx : 0 ≤ pm.nowPlayingIdx ∧ pm.nowPlayingIdx < pm.playQueue.length) :
    ∃ pm1, onTrackChange E pm n = some pm1 := by
  obtain ⟨pmS, hS⟩ := checkScrobble_isSome pm
    (pm.playTimeStopwatch.Elapsed (E.timeNow pm.world)) (Or.inr hidx)
  obtain ⟨new, hnew⟩ := index_eq_getElem pm.playQueue n hn.1 hn.2
  exact ⟨_, onTrackChange_eq E pm pmS n new hnew hS (checkScrobble_frame _ _ _ hS).2.2.1⟩

theorem onStopped_isSome (E : Env W) (pm : PlaybackManager W)
    (hidx : pm.playQueue = [] ∨
      (0 ≤ pm.nowPlayingIdx ∧ pm.nowPlayingIdx < pm.playQueue.length))
    (hnp : pm.callbacksDisabled = true ∨ pm.onSongChange = [] ∨
      (E.playerGetStatus pm.world).State = State.Stopped ∨
      (0 ≤ pm.nowPlayingIdx ∧ pm.nowPlayingIdx < pm.playQueue.length)) :
    ∃ pm1, onStopped E pm = some pm1 := by
  obtain ⟨pmS, hS⟩ := checkScrobble_isSome (stopAccumulator E pm)
    ((pm.playTimeStopwatch.Stop (E.timeNow pm.world)).Elapsed (E.timeNow pm.world)) hidx
  obtain ⟨-, f2, f3, f4, -, -, f7, f8, -, -, -, -⟩ := checkScrobble_frame _ _ _ hS
  have f2a : pmS.world = pm.world := f2
  have f3a : pmS.playQueue = pm.playQueue := f3
  have f4a : pmS.nowPlayingIdx = pm.nowPlayingIdx := f4
  have f7a : pmS.callbacksDisabled = pm.callbacksDisabled := f7
  have f8a : pmS.onSongChange = pm.onSongChange := f8
  rw [onStopped_unfold, hS]
  simp only [Option.some_bind]
  split
  · exact ⟨_, rfl⟩
  · rename_i hd
    apply invokeOnSongChangeCallbacks_isSome
    rcases hnp with h | h | h | h
    · exact absurd (f7a.trans h) hd
    · right
      left
      simp [callPaused, resetAccumulator, f8a, h]
    · right
      right
      rw [NowPlaying_stopped E _ (by simp [callPaused, resetAccumulator, f2a, h])]
      simp
    · right
      right
      obtain ⟨song, hsong⟩ := index_eq_getElem pm.playQueue pm.nowPlayingIdx h.1 h.2
      rw [NowPlaying_eq E _ song (by simp [callPaused, resetAccumulator, f3a, f4a, hsong])]
      simp

/-- The accumulator of spec section 4.1 under the transport handlers: after a Playing
event it is running; after a Paused event it is not running and, the clock not
having gone back since the last start, its accumulated total is not less than
before; whenever the Stopped handler returns, the total is zero and the
accumulator is not running; whenever the handler of an in-bounds
track-changed event returns, the total is zero and the accumulator is running
exactly when the engine reports the playing state. The two handlers return
whenever the now-playing index is valid; with a stale index they panic before
the reset. -/
theorem accumulator_follows_transport (E : Env W) (pm : PlaybackManager W) (n : Int) :
    (onPlaying E pm).playTimeStopwatch.running = true ∧
    (onPaused E pm).playTimeStopwatch.running = false ∧
    ((pm.playTimeStopwatch.running = true →
        pm.playTimeStopwatch.lastStart ≤ E.timeNow pm.world) →
      pm.playTimeStopwatch.accumulated ≤ (onPaused E pm).playTimeStopwatch.accumulated) ∧
    (∀ pm1, onStopped E pm = some pm1 →
      pm1.playTimeStopwatch.accumulated = 0 ∧ pm1.playTimeStopwatch.running = false) ∧
    (0 ≤ n ∧ n < pm.playQueue.length → ∀ pm1, onTrackChange E pm n = some pm1 →
      pm1.playTimeStopwatch.accumulated = 0 ∧
      (pm1.playTimeStopwatch.running = true ↔
        (E.playerGetStatus pm.world).State = State.Playing)) ∧
    (0 ≤ pm.nowPlayingIdx ∧ pm.nowPlayingIdx < pm.playQueue.length →
      (∃ pm1, onStopped E pm = some pm1) ∧
      (0 ≤ n ∧ n < pm.playQueue.length → ∃ pm1, onTrackChange E pm n = some pm1)) := by
  refine ⟨?_, ?_, ?_, ?_, ?_, ?_⟩
  · show ((pm.playTimeStopwatch.Start (E.timeNow pm.world))).running = true
    unfold Stopwatch.Start
    split
    · assumption
    · rfl
  · unfold onPaused callPaused
    simp only [stopPollTimePos_playTimeStopwatch]
    unfold Stopwatch.Stop
    split
    · rfl
    · rename_i h
      simpa using h
  · intro hclock
    unfold onPaused callPaused
    simp only [stopPollTimePos_playTimeStopwatch]
    unfold Stopwatch.Stop
    split
    · rename_i h
      have := hclock h
      show pm.playTimeStopwatch.accumulated ≤
        pm.playTimeStopwatch.accumulated + (E.timeNow pm.world - pm.playTimeStopwatch.lastStart)
      omega
    · exact le_refl _
  · intro pm1 h
    obtain ⟨pmS, -, hsw, -⟩ := onStopped_some E pm pm1 h
    rw [hsw]
    exact ⟨rfl, rfl⟩
  · intro hn pm1 h
    obtain ⟨pmS, new, hS, -, rfl⟩ := onTrackChange_some E pm pm1 n hn.2 h
    have hw : pmS.world = pm.world := (checkScrobble_frame _ _ _ hS).2.1
    rw [(afterTrackChange_fields E pmS n new).2.2.2.2.2.1, hw]
    by_cases hp : (E.playerGetStatus pm.world).State = State.Playing
    · rw [if_pos hp]
      simp [Stopwatch.Start, Stopwatch.Reset, hp]
    · rw [if_neg hp]
      simp [Stopwatch.Reset, hp]
  · intro hidx
    exact ⟨onStopped_isSome E pm (Or.inr hidx) (Or.inr (Or.inr (Or.inr hidx))),
      fun hn => onTrackChange_isSome E pm n hn hidx⟩

/-- Example for `accumulator_follows_transport`: the accumulator of `runningPlayed`
(150 s, running since 2 s) on an engine that reports playing at clock reading
7 s: a Paused event leaves 155 s, not running; Stopped leaves zero, not
running; a change to track 2 leaves zero, running since 7 s. -/
theorem accumulator_follows_transport_witness :
    (runningPlayed.playTimeStopwatch.running = true →
      runningPlayed.playTimeStopwatch.lastStart ≤ tickEnv.timeNow runningPlayed.world) ∧
    ((0 : Int) ≤ 2 ∧ (2 : Int) < runningPlayed.playQueue.length) ∧
    (0 ≤ runningPlayed.nowPlayingIdx ∧
      runningPlayed.nowPlayingIdx < runningPlayed.playQueue.length) ∧
    (onPaused tickEnv runningPlayed).playTimeStopwatch = ⟨155000000000, false, 2000000000⟩ ∧
    (onStopped tickEnv runningPlayed).map (fun p => p.playTimeStopwatch) =
      some ⟨0, false, 2000000000⟩ ∧
    (onTrackChange tickEnv runningPlayed 2).map (fun p => p.playTimeStopwatch) =
      some ⟨0, true, 7000000000⟩ ∧
    ((onPlaying tickEnv runningPlayed).playTimeStopwatch.running = true ∧
    (onPaused tickEnv runningPlayed).playTimeStopwatch.running = false ∧
    ((runningPlayed.playTimeStopwatch.running = true →
        runningPlayed.playTimeStopwatch.lastStart ≤ tickEnv.timeNow runningPlayed.world) →
      runningPlayed.playTimeStopwatch.accumulated ≤
        (onPaused tickEnv runningPlayed).playTimeStopwatch.accumulated) ∧
    (∀ pm1, onStopped tickEnv runningPlayed = some pm1 →
      pm1.playTimeStopwatch.accumulated = 0 ∧ pm1.playTimeStopwatch.running = false) ∧
    ((0 : Int) ≤ 2 ∧ (2 : Int) < runningPlayed.playQueue.length →
      ∀ pm1, onTrackChange tickEnv runningPlayed 2 = some pm1 →
        pm1.playTimeStopwatch.accumulated = 0 ∧
        (pm1.playTimeStopwatch.running = true ↔
          (tickEnv.playerGetStatus runningPlayed.world).State = State.Playing)) ∧
    (0 ≤ runningPlayed.nowPlayingIdx ∧
        runningPlayed.nowPlayingIdx < runningPlayed.playQueue.length →
      (∃ pm1, onStopped tickEnv runningPlayed = some pm1) ∧
      ((0 : Int) ≤ 2 ∧ (2 : Int) < runningPlayed.playQueue.length →
        ∃ pm1, onTrackChange tickEnv runningPlayed 2 = some pm1))) :=
  ⟨by decide, by decide, by decide, by decide!, by decide!, by decide!,
    accumulator_follows_transport tickEnv runningPlayed 2⟩


theorem commands_trackChangeBroadcast (E : Env W) (pm : PlaybackManager W) (new : Ptr)
    (m : Option Ptr) :
    commands (trackChangeBroadcast E pm new m) =
      if pm.scrobbleCfg.Enabled then [Event.scrobble (pm.heap new).ID false] else [] := by
  unfold trackChangeBroadcast
  rw [commands_append, commands_append]
  have h1 : commands (if pm.callbacksDisabled then []
      else pm.onSongChange.map fun cb =>
        Event.songChange cb
          (if (E.playerGetStatus pm.world).State = State.Stopped then none else some new) m) =
      [] := by
    split
    · rfl
    · refine commands_map_observer _ _ ?_
      intro _
      rfl
  have h2 : commands (if pm.callbacksDisabled then []
      else pm.onPlayTimeUpdate.map fun cb =>
        Event.playTimeUpdate cb (E.playerGetStatus pm.world).TimePos
          (E.playerGetStatus pm.world).Duration) = [] := by
    split
    · rfl
    · refine commands_map_observer _ _ ?_
      intro _
      rfl
  rw [h1, h2]
  split <;> rfl

/-- C29: when `sendNowPlayingScrobble` returns, it has submitted a now-playing
notification (the identifier of the entry at the now-playing index, flagged
as no submission) if and only if scrobbling is enabled, the queue is
non-empty and the index is not negative; it changes nothing but the record
of what was sent (queue, objects and their play counts, pending marker and
index are as before). It returns whenever the index is below the queue
length. With scrobbling disabled a track change sends nothing to the remote
service or the engine. -/
theorem sendNowPlayingScrobble_spec (E : Env W) (pm : PlaybackManager W) :
    (∀ pm1, sendNowPlayingScrobble pm = some pm1 →
      ((pm.scrobbleCfg.Enabled = true ∧ pm.playQueue ≠ [] ∧ 0 ≤ pm.nowPlayingIdx) ↔
        ∃ song, index pm.playQueue pm.nowPlayingIdx = some song ∧
          pm1.log = pm.log ++ [Event.scrobble (pm.heap song).ID false]) ∧
      (¬ (pm.scrobbleCfg.Enabled = true ∧ pm.playQueue ≠ [] ∧ 0 ≤ pm.nowPlayingIdx) →
        pm1.log = pm.log) ∧
      pm1 = { pm with log := pm1.log } ∧
      pm1.playQueue = pm.playQueue ∧ pm1.heap = pm.heap ∧
      pm1.lastScrobbled = pm.lastScrobbled ∧ pm1.nowPlayingIdx = pm.nowPlayingIdx) ∧
    (¬ (pm.scrobbleCfg.Enabled = true ∧ pm.playQueue ≠ [] ∧ 0 ≤ pm.nowPlayingIdx) ∨
        pm.nowPlayingIdx < pm.playQueue.length →
      ∃ pm1, sendNowPlayingScrobble pm = some pm1) ∧
    (pm.scrobbleCfg.Enabled = false → ∀ n pm1, onTrackChange E pm n = some pm1 →
      commands pm1.log = commands pm.log) := by
  have hguard : (pm.scrobbleCfg.Enabled = false ∨ pm.playQueue.length = 0 ∨
      pm.nowPlayingIdx < 0) ↔
      ¬ (pm.scrobbleCfg.Enabled = true ∧ pm.playQueue ≠ [] ∧ 0 ≤ pm.nowPlayingIdx) := by
    rw [List.length_eq_zero]
    constructor
    · rintro (h | h | h) ⟨h1, h2, h3⟩
      · rw [h] at h1
        cases h1
      · exact h2 h
      · omega
    · intro h
      by_cases h1 : pm.scrobbleCfg.Enabled = false
      · exact Or.inl h1
      · by_cases h2 : pm.playQueue = []
        · exact Or.inr (Or.inl h2)
        · right
          right
          by_contra h3
          exact h ⟨by simpa using h1, h2, not_lt.mp h3⟩
  refine ⟨?_, ?_, ?_⟩
  · intro pm1 h
    unfold sendNowPlayingScrobble at h
    by_cases hg : pm.scrobbleCfg.Enabled = false ∨ pm.playQueue.length = 0 ∨
        pm.nowPlayingIdx < 0
    · rw [if_pos hg] at h
      cases h
      have hn := hguard.mp hg
      refine ⟨⟨fun hc => absurd hc hn, ?_⟩, fun _ => rfl, rfl, rfl, rfl, rfl, rfl⟩
      rintro ⟨song, -, hlog⟩
      exact absurd hlog (log_ne_append_singleton _ _)
    · rw [if_neg hg] at h
      have hc : pm.scrobbleCfg.Enabled = true ∧ pm.playQueue ≠ [] ∧ 0 ≤ pm.nowPlayingIdx :=
        not_not.mp (fun hn => hg (hguard.mpr hn))
      cases hsong : index pm.playQueue pm.nowPlayingIdx with
      | none =>
        rw [hsong] at h
        cases h
      | some song =>
        rw [hsong] at h
        cases h
        exact ⟨⟨fun _ => ⟨song, rfl, rfl⟩, fun _ => hc⟩, fun hn => absurd hc hn,
          rfl, rfl, rfl, rfl, rfl⟩
  · intro h
    by_cases hg : pm.scrobbleCfg.Enabled = false ∨ pm.playQueue.length = 0 ∨
        pm.nowPlayingIdx < 0
    · refine ⟨pm, ?_⟩
      unfold sendNowPlayingScrobble
      rw [if_pos hg]
    · have hc : pm.scrobbleCfg.Enabled = true ∧ pm.playQueue ≠ [] ∧ 0 ≤ pm.nowPlayingIdx :=
        not_not.mp (fun hn => hg (hguard.mpr hn))
      rcases h with h | h
      · exact absurd hc h
      · obtain ⟨song, hsong⟩ := index_eq_getElem pm.playQueue pm.nowPlayingIdx hc.2.2 h
        exact ⟨_, sendNowPlayingScrobble_of pm song hsong⟩
  · intro hen n pm1 h
    by_cases hn : (pm.playQueue.length : Int) ≤ n
    · unfold onTrackChange at h
      rw [if_pos hn] at h
      cases h
      rfl
    · obtain ⟨pmS, new, hS, -, rfl⟩ := onTrackChange_some E pm pm1 n (not_le.mp hn) h
      have hnd : ¬ scrobbleDue pm (pm.playTimeStopwatch.Elapsed (E.timeNow pm.world)) := by
        intro hd
        have := hd.1
        rw [hen] at this
        cases this
      rw [checkScrobble_of_not_due pm _ hnd] at hS
      cases hS
      rw [afterTrackChange_log, commands_append, commands_trackChangeBroadcast, hen]
      simp

/-- Witness for C29: on `playedManager` (scrobbling enabled, index 0) the notification
for `"t10"` is sent; on `silentPlayed` (scrobbling disabled) a change to track
2 logs observer calls only. -/
theorem sendNowPlayingScrobble_spec_witness :
    (playedManager.scrobbleCfg.Enabled = true ∧ playedManager.playQueue ≠ [] ∧
      0 ≤ playedManager.nowPlayingIdx) ∧
    (sendNowPlayingScrobble playedManager).map (fun p => p.log) =
      some [Event.scrobble "t10" false] ∧
    silentPlayed.scrobbleCfg.Enabled = false ∧
    (onTrackChange quietEnv silentPlayed 2).map (fun p => p.log) =
      some [Event.songChange 1 (some 12) none, Event.playTimeUpdate 2 0 0] ∧
    (∀ n pm1, onTrackChange quietEnv silentPlayed n = some pm1 →
      commands pm1.log = commands silentPlayed.log) ∧
    ((∀ pm1, sendNowPlayingScrobble playedManager = some pm1 →
      ((playedManager.scrobbleCfg.Enabled = true ∧ playedManager.playQueue ≠ [] ∧
          0 ≤ playedManager.nowPlayingIdx) ↔
        ∃ song, index playedManager.playQueue playedManager.nowPlayingIdx = some song ∧
          pm1.log = playedManager.log ++ [Event.scrobble (playedManager.heap song).ID false]) ∧
      (¬ (playedManager.scrobbleCfg.Enabled = true ∧ playedManager.playQueue ≠ [] ∧
          0 ≤ playedManager.nowPlayingIdx) →
        pm1.log = playedManager.log) ∧
      pm1 = { playedManager with log := pm1.log } ∧
      pm1.playQueue = playedManager.playQueue ∧ pm1.heap = playedManager.heap ∧
      pm1.lastScrobbled = playedManager.lastScrobbled ∧
      pm1.nowPlayingIdx = playedManager.nowPlayingIdx) ∧
    (¬ (playedManager.scrobbleCfg.Enabled = true ∧ playedManager.playQueue ≠ [] ∧
          0 ≤ playedManager.nowPlayingIdx) ∨
        playedManager.nowPlayingIdx < playedManager.playQueue.length →
      ∃ pm1, sendNowPlayingScrobble playedManager = some pm1) ∧
    (playedManager.scrobbleCfg.Enabled = false →
      ∀ n pm1, onTrackChange quietEnv playedManager n = some pm1 →
        commands pm1.log = commands playedManager.log)) :=
  ⟨by decide, by decide!, by decide, by decide!,
    (sendNowPlayingScrobble_spec quietEnv silentPlayed).2.2 (by decide),
    sendNowPlayingScrobble_spec quietEnv playedManager⟩


/-- While a modal is visible, a second call of `QueueShowModalFunc` wipes out the
first: the controller is as if only the second call had been made. -/
theorem QueueShowModalFunc_overwrites (body : Nat → Controller → Controller)
    (c : Controller) (f g : Nat) (h : c.haveModal = true) :
    (c.QueueShowModalFunc body f).QueueShowModalFunc body g = c.QueueShowModalFunc body g := by
  unfold Controller.QueueShowModalFunc
  simp only [h, if_true]

/-- C25 (evaluation at the failing input): while the About dialog is visible the
functions 10 and 20 are passed to `QueueShowModalFunc`; the controller is then
as if only 20 had been passed. When the dialog is dismissed only 20 is run,
and 10 is not run either when the dialog shown by 20 is dismissed in turn:
the second call has overwritten the single stored function. A function passed
while no modal is visible is run at once, and a single function queued while
one is visible is run once at the next `doModalClosed`. -/
theorem queued_modal_func_dropped :
    ((newController.ShowAboutDialog 1).QueueShowModalFunc showsDialog 10).runOnModalClosed =
      some 10 ∧
    ((newController.ShowAboutDialog 1).QueueShowModalFunc showsDialog 10).QueueShowModalFunc
      showsDialog 20 = (newController.ShowAboutDialog 1).QueueShowModalFunc showsDialog 20 ∧
    ((((newController.ShowAboutDialog 1).QueueShowModalFunc showsDialog 10).QueueShowModalFunc
      showsDialog 20).doModalClosed showsDialog) = ⟨some 20, true, none, [20]⟩ ∧
    (((((newController.ShowAboutDialog 1).QueueShowModalFunc showsDialog 10).QueueShowModalFunc
      showsDialog 20).doModalClosed showsDialog).doModalClosed showsDialog).ran = [20] ∧
    (newController.QueueShowModalFunc showsDialog 10).ran = [10] ∧
    (((newController.ShowAboutDialog 1).QueueShowModalFunc showsDialog 10).doModalClosed
      showsDialog).ran = [10] := by
  refine ⟨rfl, ?_, ?_, ?_, ?_, ?_⟩
  · exact QueueShowModalFunc_overwrites showsDialog _ 10 20 rfl
  · decide
  · decide
  · decide
  · decide


/-- C26 (evaluation at the failing input): four tracks are loaded, the fourth starts
playing, the queue is stopped and cleared, and one track is appended.
`StopAndClearPlayQueue` leaves the now-playing index at 3, so the predicate
holds after the clearing (the queue is empty) but not after the append: the
queue has one entry and the index is 3. In that state `NowPlaying` panics on
an engine that is not stopped, and so does `checkScrobble` once the scrobble
threshold is met. -/
theorem stale_index_after_clear :
    IndexValid (NewPlaybackManager () ⟨true, -1, 50⟩) ∧
    (run quietEnv (NewPlaybackManager () ⟨true, -1, 50⟩) loadAndPlayFourth).map
      (fun p => (p.playQueue, p.nowPlayingIdx, decide (IndexValid p))) =
      some ([0, 1, 2, 3], 3, true) ∧
    (run quietEnv (NewPlaybackManager () ⟨true, -1, 50⟩)
      (loadAndPlayFourth ++ [Op.stopAndClear])).map
      (fun p => (p.playQueue, p.nowPlayingIdx, decide (IndexValid p))) =
      some ([], 3, true) ∧
    (run quietEnv (NewPlaybackManager () ⟨true, -1, 50⟩) clearThenAppend).map
      (fun p => (p.playQueue, p.nowPlayingIdx, decide (IndexValid p))) =
      some ([4], 3, false) ∧
    ((run quietEnv (NewPlaybackManager () ⟨true, -1, 50⟩) clearThenAppend).bind
      fun p => NowPlaying quietEnv p) = none ∧
    ((run quietEnv (NewPlaybackManager () ⟨true, -1, 50⟩) clearThenAppend).bind
      fun p => (checkScrobble p 20000000000).map fun p1 => p1.log) = none := by
  decide!


/-- C27 (counterexample): four tracks are loaded and the first (200 s) starts
playing, which is an in-bounds track-changed event. After the removal of
index 0 the queue is non-empty, the entry at the now-playing index 0 is the
100 s track, and the tracked duration is still 200; after a load that
replaces the queue, or that appends to the queue emptied by
`StopAndClearPlayQueue`, the entry at index 0 is the 30 s track, and the
tracked duration is still 200. -/
theorem tracked_duration_counterexample :
    (run quietEnv (NewPlaybackManager () ⟨true, -1, 50⟩) playThenRemove).map
      (fun p => (p.playQueue, p.nowPlayingIdx, decide (p.curTrackTime = 200),
        (index p.playQueue p.nowPlayingIdx).map (fun s => (p.heap s).Duration),
        decide (TrackedDuration p))) =
      some (([1, 2, 3] : List Ptr), (0 : Int), true, some (100 : Int), false) ∧
    (run quietEnv (NewPlaybackManager () ⟨true, -1, 50⟩) playThenReplace).map
      (fun p => (p.playQueue, p.nowPlayingIdx, decide (p.curTrackTime = 200),
        (index p.playQueue p.nowPlayingIdx).map (fun s => (p.heap s).Duration),
        decide (TrackedDuration p))) =
      some (([4] : List Ptr), (0 : Int), true, some (30 : Int), false) ∧
    (run quietEnv (NewPlaybackManager () ⟨true, -1, 50⟩) playThenClearAppend).map
      (fun p => (p.playQueue, p.nowPlayingIdx, decide (p.curTrackTime = 200),
        (index p.playQueue p.nowPlayingIdx).map (fun s => (p.heap s).Duration),
        decide (TrackedDuration p))) =
      some (([4] : List Ptr), (0 : Int), true, some (30 : Int), false) := by
  refine ⟨?_, ?_, ?_⟩
  · decide!
  · decide!
  · decide!

theorem checkScrobble_duration (pm pm1 : PlaybackManager W) (playDur : Int)
    (h : checkScrobble pm playDur = some pm1) (p : Ptr) :
    (pm1.heap p).Duration = (pm.heap p).Duration := by
  rcases checkScrobble_cases pm pm1 playDur h with rfl | ⟨old, -, -, rfl⟩
  · rfl
  · show (Function.update pm.heap old _ p).Duration = _
    by_cases hp : p = old
    · subst hp
      rw [Function.update_same]
    · rw [Function.update_noteq hp]

theorem afterTrackChange_nextPtr (E : Env W) (pmS : PlaybackManager W) (n : Int) (new : Ptr) :
    (afterTrackChange E pmS n new).nextPtr = pmS.nextPtr := by
  by_cases hd : pmS.callbacksDisabled = true <;> by_cases he : pmS.scrobbleCfg.Enabled = true <;>
    simp [afterTrackChange, doUpdateTimePos, hd, he]

theorem index_append_left {α : Type} (q extra : List α) (i : Int) (s : α)
    (h : index q i = some s) : index (q ++ extra) i = some s := by
  obtain ⟨h0, h1⟩ := index_some_bounds q i s h
  unfold index at h ⊢
  rw [if_neg (not_lt.mpr h0)] at h ⊢
  rw [List.getElem?_append_left (by omega)]
  exact h

/-- The loop of `LoadTracks`, whether it ends with an error or not, only appends
fresh objects to the queue and leaves the existing objects, the index and the
tracked duration as they are. -/
theorem loadLoop_extends (E : Env W) (tracks : List Child) (nums : List Nat) :
    ∀ (pm : PlaybackManager W) (r : LoadResult W), loadLoop E tracks nums pm = some r →
      Allocated pm →
      ∃ extra, r.pm.playQueue = pm.playQueue ++ extra ∧ Allocated r.pm ∧
        pm.nextPtr ≤ r.pm.nextPtr ∧ (∀ p, p < pm.nextPtr → r.pm.heap p = pm.heap p) ∧
        r.pm.nowPlayingIdx = pm.nowPlayingIdx ∧ r.pm.curTrackTime = pm.curTrackTime := by
  induction nums with
  | nil =>
    intro pm r h hA
    simp only [loadLoop, Option.some.injEq] at h
    subst h
    exact ⟨[], by simp, hA, le_refl _, fun _ _ => rfl, rfl, rfl⟩
  | cons i nums ih =>
    intro pm r h hA
    simp only [loadLoop] at h
    cases ht : tracks[i]? with
    | none =>
      rw [ht] at h
      cases h
    | some t =>
      rw [ht] at h
      simp only [] at h
      cases hu : E.serverGetStreamURL pm.world t.ID with
      | error e =>
        rw [hu] at h
        simp only [Option.some.injEq] at h
        subst h
        exact ⟨[], by simp, hA, le_refl _, fun _ _ => rfl, rfl, rfl⟩
      | ok url =>
        rw [hu] at h
        have hA1 : Allocated (appendTrack E pm t url) := by
          intro p hp
          have hp1 : p ∈ pm.playQueue ++ [pm.nextPtr] := hp
          show p < pm.nextPtr + 1
          rcases List.mem_append.mp hp1 with h1 | h1
          · exact Nat.lt_succ_of_lt (hA p h1)
          · rw [List.mem_singleton.mp h1]
            exact Nat.lt_succ_self _
        obtain ⟨extra, e1, e2, e3, e4, e5, e6⟩ := ih (appendTrack E pm t url) r h hA1
        refine ⟨pm.nextPtr :: extra, ?_, e2, ?_, ?_, e5, e6⟩
        · rw [e1]
          show (pm.playQueue ++ [pm.nextPtr]) ++ extra = _
          simp
        · exact le_trans (Nat.le_succ _) e3
        · intro p hp
          rw [e4 p (Nat.lt_succ_of_lt hp)]
          exact Function.update_noteq (Nat.ne_of_lt hp) _ _

theorem onTrackChange_tracked (E : Env W) (pm pm1 : PlaybackManager W) (n : Int)
    (hA : Allocated pm) (hn : n < pm.playQueue.length)
    (h : onTrackChange E pm n = some pm1) : TrackedDuration pm1 ∧ Allocated pm1 := by
  obtain ⟨pmS, new, hS, hnew, rfl⟩ := onTrackChange_some E pm pm1 n hn h
  obtain ⟨f1, f2, f3, f4, -, -, -⟩ := afterTrackChange_fields E pmS n new
  obtain ⟨-, -, g3, -, -, -, -, -, -, -, -, g12⟩ := checkScrobble_frame _ _ _ hS
  constructor
  · right
    rw [f4, g3, f1, hnew, f2, f3]
    rfl
  · intro p hp
    rw [f4, g3] at hp
    rw [afterTrackChange_nextPtr, g12]
    exact hA p hp

theorem trackedDuration_of_fields (a b : PlaybackManager W) (h : TrackedDuration a)
    (hq : b.playQueue = a.playQueue) (hi : b.nowPlayingIdx = a.nowPlayingIdx)
    (hc : b.curTrackTime = a.curTrackTime)
    (hh : ∀ p, (b.heap p).Duration = (a.heap p).Duration) : TrackedDuration b := by
  rcases h with h | h
  · left
    rw [hq]
    exact h
  · right
    rw [hq, hi, hc, ← h]
    cases index a.playQueue a.nowPlayingIdx with
    | none => rfl
    | some s =>
      simp only [Option.map_some']
      rw [hh s]

theorem allocated_of_fields (a b : PlaybackManager W) (h : Allocated a)
    (hq : b.playQueue = a.playQueue) (hn : b.nextPtr = a.nextPtr) : Allocated b := by
  intro p hp
  rw [hq] at hp
  rw [hn]
  exact h p hp

/-- A call that keeps the tracked duration preserves `TrackedDuration` (and the
allocation of the queue entries). -/
theorem step_tracked (E : Env W) (pm pm1 : PlaybackManager W) (op : Op W)
    (hT : TrackedDuration pm) (hA : Allocated pm)
    (hk : keepsTrackedDuration pm op = true) (h : step E pm op = some pm1) :
    TrackedDuration pm1 ∧ Allocated pm1 := by
  cases op with
  | loadTracks tracks ap s =>
    simp only [keepsTrackedDuration, Bool.and_eq_true, Bool.not_eq_true',
      List.isEmpty_eq_false] at hk
    obtain ⟨hap, hne⟩ := hk
    subst hap
    simp only [step, Option.map_eq_some'] at h
    obtain ⟨r, hr, rfl⟩ := h
    rw [LoadTracks_eq] at hr
    obtain ⟨extra, e1, e2, e3, e4, e5, e6⟩ := loadLoop_extends E tracks _ _ r hr hA
    refine ⟨?_, e2⟩
    rcases hT with hT | hT
    · exact absurd hT hne
    · right
      have e1a : r.pm.playQueue = pm.playQueue ++ extra := e1
      have e5a : r.pm.nowPlayingIdx = pm.nowPlayingIdx := e5
      have e6a : r.pm.curTrackTime = pm.curTrackTime := e6
      cases hidx : index pm.playQueue pm.nowPlayingIdx with
      | none =>
        rw [hidx] at hT
        cases hT
      | some song =>
        rw [hidx] at hT
        have hmem : song ∈ pm.playQueue := by
          unfold index at hidx
          split at hidx
          · cases hidx
          · exact List.getElem?_mem hidx
        rw [e1a, e5a, e6a, index_append_left _ _ _ _ hidx, ← hT]
        simp only [Option.map_some']
        rw [e4 song (hA song hmem)]
        rfl
  | removeTracks idxs => cases hk
  | stopAndClear =>
    simp only [step, Option.some.injEq] at h
    subst h
    exact ⟨Or.inl rfl, fun p hp => by cases hp⟩
  | trackChanged n =>
    by_cases hn : (pm.playQueue.length : Int) ≤ n
    · simp only [step] at h
      unfold onTrackChange at h
      rw [if_pos hn] at h
      cases h
      exact ⟨hT, hA⟩
    · exact onTrackChange_tracked E pm pm1 n hA (not_le.mp hn) h
  | seek =>
    simp only [step, Option.some.injEq] at h
    subst h
    exact ⟨trackedDuration_of_fields pm _ hT (by simp [onSeek]) (by simp [onSeek])
        (by simp [onSeek]) (by simp [onSeek]),
      allocated_of_fields pm _ hA (by simp [onSeek]) (by simp [onSeek])⟩
  | playing =>
    simp only [step, Option.some.injEq] at h
    subst h
    exact ⟨trackedDuration_of_fields pm _ hT rfl rfl rfl (fun _ => rfl),
      allocated_of_fields pm _ hA rfl rfl⟩
  | paused =>
    simp only [step, Option.some.injEq] at h
    subst h
    exact ⟨trackedDuration_of_fields pm _ hT (by simp [onPaused, callPaused])
        (by simp [onPaused, callPaused]) (by simp [onPaused, callPaused])
        (by simp [onPaused, callPaused]),
      allocated_of_fields pm _ hA (by simp [onPaused, callPaused])
        (by simp [onPaused, callPaused])⟩
  | stopped =>
    simp only [step] at h
    obtain ⟨pmS, hS, -, g2, g3, g4, g5, g6, -⟩ := onStopped_some E pm pm1 h
    refine ⟨trackedDuration_of_fields pm _ hT g2 g3 g4 ?_, allocated_of_fields pm _ hA g2 g6⟩
    intro p
    rw [g5]
    exact checkScrobble_duration _ _ _ hS p
  | world w =>
    simp only [step, Option.some.injEq] at h
    subst h
    exact ⟨trackedDuration_of_fields pm _ hT rfl rfl rfl (fun _ => rfl),
      allocated_of_fields pm _ hA rfl rfl⟩

/-- C27 (amended): in every state reached from an in-bounds track-changed event by
transport events, `StopAndClearPlayQueue` and `LoadTracks` calls that append to
a non-empty queue, whenever the queue is non-empty the tracked duration equals
the `Duration` of the queue entry at the now-playing index. -/
theorem tracked_duration_kept (E : Env W) (pm : PlaybackManager W) (h : Tracked E pm) :
    TrackedDuration pm ∧
    (pm.playQueue ≠ [] → ∃ song, index pm.playQueue pm.nowPlayingIdx = some song ∧
      pm.curTrackTime = f64OfInt (pm.heap song).Duration) := by
  have key : TrackedDuration pm ∧ Allocated pm := by
    induction h with
    | change p p1 n hA _ hn hc => exact onTrackChange_tracked E p p1 n hA hn hc
    | next p p1 op _ hk hs ih => exact step_tracked E p p1 op ih.1 ih.2 hk hs
  refine ⟨key.1, ?_⟩
  intro hne
  rcases key.1 with hT | hT
  · exact absurd hT hne
  · cases hidx : index pm.playQueue pm.nowPlayingIdx with
    | none =>
      rw [hidx] at hT
      cases hT
    | some song =>
      rw [hidx] at hT
      simp only [Option.map_some', Option.some.injEq] at hT
      exact ⟨song, rfl, hT.symm⟩

/-- Witness for C27 (amended): on the five-entry sample queue the track changes to
index 2 and playback is then paused; a track appended afterwards leaves the
tracked duration at the 100 s of the entry at index 2. -/
theorem tracked_duration_kept_witness :
    (run quietEnv (fiveManager ())
      [Op.trackChanged 2, Op.paused, Op.loadTracks [sampleTrack "e" 30] true false]).map
      (fun p => (p.playQueue, p.nowPlayingIdx, decide (p.curTrackTime = 100),
        decide (TrackedDuration p))) =
      some (([10, 11, 12, 13, 14, 15] : List Ptr), (2 : Int), true, true) ∧
    onTrackChange quietEnv (fiveManager ()) 2 =
      some (afterTrackChange quietEnv (fiveManager ()) 2 12) ∧
    Tracked quietEnv (onPaused quietEnv (afterTrackChange quietEnv (fiveManager ()) 2 12)) ∧
    TrackedDuration (onPaused quietEnv (afterTrackChange quietEnv (fiveManager ()) 2 12)) ∧
    ((onPaused quietEnv (afterTrackChange quietEnv (fiveManager ()) 2 12)).playQueue ≠ [] →
      ∃ song,
        index (onPaused quietEnv (afterTrackChange quietEnv (fiveManager ()) 2 12)).playQueue
            (onPaused quietEnv (afterTrackChange quietEnv (fiveManager ()) 2 12)).nowPlayingIdx =
          some song ∧
        (onPaused quietEnv (afterTrackChange quietEnv (fiveManager ()) 2 12)).curTrackTime =
          f64OfInt
            ((onPaused quietEnv (afterTrackChange quietEnv (fiveManager ()) 2 12)).heap
              song).Duration) := by
  have h1 : onTrackChange quietEnv (fiveManager ()) 2 =
      some (afterTrackChange quietEnv (fiveManager ()) 2 12) :=
    onTrackChange_eq quietEnv (fiveManager ()) (fiveManager ()) 2 12 (by decide)
      (checkScrobble_of_not_due _ _ (by decide!)) rfl
  have t1 : Tracked quietEnv (afterTrackChange quietEnv (fiveManager ()) 2 12) :=
    Tracked.change (fiveManager ()) _ 2 (by unfold Allocated; decide) (by decide)
      (by decide) h1
  have t2 : Tracked quietEnv
      (onPaused quietEnv (afterTrackChange quietEnv (fiveManager ()) 2 12)) :=
    Tracked.next _ _ Op.paused t1 rfl rfl
  exact ⟨by decide!, h1, t2, tracked_duration_kept quietEnv _ t2⟩

theorem removeStep_newQueue (E : Env W) (idxs : List Int) (st : RemoveState W) (i : Nat)
    (tr : Ptr) :
    ∀ p ∈ (removeStep E idxs st i tr).newQueue, p ∈ st.newQueue ∨ p = tr := by
  intro p hp
  unfold removeStep at hp
  split at hp
  · dsimp only at hp
    split at hp
    · exact Or.inl hp
    · rcases List.mem_append.mp hp with h | h
      · exact Or.inl h
      · exact Or.inr (List.mem_singleton.mp h)
  · rcases List.mem_append.mp hp with h | h
    · exact Or.inl h
    · exact Or.inr (List.mem_singleton.mp h)

theorem removeLoop_newQueue (E : Env W) (idxs : List Int) (rest : List Ptr) :
    ∀ (i : Nat) (st : RemoveState W),
      ∀ p ∈ (removeLoop E idxs rest i st).newQueue, p ∈ st.newQueue ∨ p ∈ rest := by
  induction rest with
  | nil =>
    intro i st p hp
    exact Or.inl hp
  | cons tr rest ih =>
    intro i st p hp
    simp only [removeLoop] at hp
    rcases ih (i + 1) _ p hp with h | h
    · rcases removeStep_newQueue E idxs st i tr p h with h1 | h1
      · exact Or.inl h1
      · exact Or.inr (h1 ▸ List.mem_cons_self _ _)
    · exact Or.inr (List.mem_cons_of_mem _ h)

/-- Every call keeps the queue entries allocated. -/
theorem step_allocated (E : Env W) (pm pm1 : PlaybackManager W) (op : Op W)
    (hA : Allocated pm) (h : step E pm op = some pm1) : Allocated pm1 := by
  cases op with
  | loadTracks tracks ap s =>
    simp only [step, Option.map_eq_some'] at h
    obtain ⟨r, hr, rfl⟩ := h
    rw [LoadTracks_eq] at hr
    have hA0 : Allocated (loadStart E pm ap) := by
      cases ap with
      | true => exact hA
      | false =>
        intro p hp
        cases hp
    obtain ⟨-, -, e2, -⟩ := loadLoop_extends E tracks _ _ r hr hA0
    exact e2
  | removeTracks idxs =>
    simp only [step] at h
    have hlen := RemoveTracksFromQueue_length E pm pm1 idxs h
    rw [RemoveTracksFromQueue_eq E pm idxs hlen] at h
    obtain ⟨-, g2, -, -, -, g6, -, -⟩ := invokeOnSongChangeCallbacks_fields E _ pm1 h
    intro p hp
    rw [g2] at hp
    rw [g6]
    rcases removeLoop_newQueue E idxs pm.playQueue 0 ⟨pm.world, pm.log, [], 0, 0⟩ p hp
      with h1 | h1
    · cases h1
    · exact hA p h1
  | stopAndClear =>
    simp only [step, Option.some.injEq] at h
    subst h
    intro p hp
    cases hp
  | trackChanged n =>
    by_cases hn : (pm.playQueue.length : Int) ≤ n
    · simp only [step] at h
      unfold onTrackChange at h
      rw [if_pos hn] at h
      cases h
      exact hA
    · exact (onTrackChange_tracked E pm pm1 n hA (not_le.mp hn) h).2
  | seek =>
    simp only [step, Option.some.injEq] at h
    subst h
    exact allocated_of_fields pm _ hA (by simp [onSeek]) (by simp [onSeek])
  | playing =>
    simp only [step, Option.some.injEq] at h
    subst h
    exact allocated_of_fields pm _ hA rfl rfl
  | paused =>
    simp only [step, Option.some.injEq] at h
    subst h
    exact allocated_of_fields pm _ hA (by simp [onPaused, callPaused])
      (by simp [onPaused, callPaused])
  | stopped =>
    simp only [step] at h
    obtain ⟨pmS, -, -, g2, -, -, -, g6, -⟩ := onStopped_some E pm pm1 h
    exact allocated_of_fields pm _ hA g2 g6
  | world w =>
    simp only [step, Option.some.injEq] at h
    subst h
    exact allocated_of_fields pm _ hA rfl rfl

/-- The queue entries of every state reached from a freshly built manager are
allocated objects. -/
theorem run_allocated (E : Env W) (ops : List (Op W)) :
    ∀ (pm pm1 : PlaybackManager W), Allocated pm → run E pm ops = some pm1 → Allocated pm1 := by
  induction ops with
  | nil =>
    intro pm pm1 hA h
    simp only [run, Option.some.injEq] at h
    subst h
    exact hA
  | cons op ops ih =>
    intro pm pm1 hA h
    simp only [run, Option.bind_eq_some] at h
    obtain ⟨p, hp, h2⟩ := h
    exact ih p pm1 (step_allocated E pm p op hA hp) h2

theorem NewPlaybackManager_allocated (w : W) (cfg : ScrobbleConfig) :
    Allocated (NewPlaybackManager w cfg) := by
  intro p hp
  cases hp


/-- A natural number below `2^53` is a binary64 value. -/
theorem f64Round_natCast (n : ℕ) (hn : n < 2 ^ 53) : f64Round (n : ℚ) = n := by
  rcases Nat.eq_zero_or_pos n with h0 | hpos
  · subst h0
    simp [f64Round_zero]
  · have hq : (0 : ℚ) < n := by exact_mod_cast hpos
    obtain ⟨e, hlo, -, heq⟩ := f64Round_pos (n : ℚ) hq
    have he : e < 53 := by
      have h1 : (n : ℚ) < (2 : ℚ) ^ (53 : ℤ) := by
        have h2 : (n : ℚ) < ((2 ^ 53 : ℕ) : ℚ) := by exact_mod_cast hn
        have h3 : ((2 ^ 53 : ℕ) : ℚ) = (2 : ℚ) ^ (53 : ℤ) := by norm_num
        rw [← h3]
        exact h2
      exact (zpow_lt_zpow_iff_right₀ (by norm_num : (1 : ℚ) < 2)).mp (lt_of_le_of_lt hlo h1)
    have hk : (n : ℚ) * (2 : ℚ) ^ (52 - e) = ((n * 2 ^ (52 - e).toNat : ℕ) : ℚ) := by
      push_cast
      rw [← zpow_natCast, Int.toNat_of_nonneg (by omega)]
    rw [heq, hk, nearestEven_natCast]
    push_cast
    rw [← zpow_natCast, Int.toNat_of_nonneg (by omega), mul_assoc,
      ← zpow_add₀ (by norm_num : (2 : ℚ) ≠ 0)]
    have : 52 - e + (e - 52) = 0 := by ring
    rw [this, zpow_zero, mul_one]

theorem f64Round_intCast (i : Int) (h0 : 0 ≤ i) (h1 : i < 2 ^ 53) :
    f64Round (i : ℚ) = i := by
  obtain ⟨n, rfl⟩ := Int.eq_ofNat_of_zero_le h0
  have hn : n < 2 ^ 53 := by exact_mod_cast h1
  simpa using f64Round_natCast n hn

/-- Rounding to binary64 loses less than a thousandth of a nonnegative value. -/
theorem f64Round_lower (q : ℚ) (hq : 0 ≤ q) : 999 / 1000 * q ≤ f64Round q := by
  rcases eq_or_lt_of_le hq with h0 | hpos
  · rw [← h0, f64Round_zero]
    norm_num
  · obtain ⟨e, hlo, -, heq, -, -⟩ := f64Round_bracket q hpos
    have hx : (2 : ℚ) ^ (52 : ℕ) ≤ q * (2 : ℚ) ^ (52 - e) := by
      have : (2 : ℚ) ^ (52 : ℕ) = (2 : ℚ) ^ e * (2 : ℚ) ^ (52 - e) := by
        rw [← zpow_add₀ (by norm_num : (2 : ℚ) ≠ 0), ← zpow_natCast]
        congr 1
        ring
      rw [this]
      exact mul_le_mul_of_nonneg_right hlo (le_of_lt (two_zpow_pos _))
    have hb := (nearestEven_bounds (q * (2 : ℚ) ^ (52 - e))
      (mul_nonneg hq (le_of_lt (two_zpow_pos _)))).2
    have hN : 999 / 1000 * (q * (2 : ℚ) ^ (52 - e)) ≤
        (nearestEven (q * (2 : ℚ) ^ (52 - e)) : ℚ) := by
      have h52 : (1000 : ℚ) ≤ (2 : ℚ) ^ (52 : ℕ) := by norm_num
      linarith
    have hs : q = q * (2 : ℚ) ^ (52 - e) * (2 : ℚ) ^ (e - 52) := by
      rw [mul_assoc, ← zpow_add₀ (by norm_num : (2 : ℚ) ≠ 0)]
      have : 52 - e + (e - 52) = 0 := by ring
      rw [this, zpow_zero, mul_one]
    rw [heq]
    calc 999 / 1000 * q
        = 999 / 1000 * (q * (2 : ℚ) ^ (52 - e)) * (2 : ℚ) ^ (e - 52) := by
          rw [mul_assoc (999 / 1000 : ℚ), ← hs]
      _ ≤ (nearestEven (q * (2 : ℚ) ^ (52 - e)) : ℚ) * (2 : ℚ) ^ (e - 52) :=
          mul_le_mul_of_nonneg_right hN (le_of_lt (two_zpow_pos _))

theorem f64Round_nonneg (q : ℚ) (hq : 0 ≤ q) : 0 ≤ f64Round q := by
  have := f64Round_mono 0 q hq
  rwa [f64Round_zero] at this

/-- `Seconds` on a nonnegative duration, with Euclidean quotient and remainder. -/
theorem Seconds_nonneg_eq (p : Int) (h0 : 0 ≤ p) :
    Seconds p = f64Round (f64Round (((p / 1000000000 : ℤ)) : ℚ) +
      f64Round (f64Round (((p % 1000000000 : ℤ)) : ℚ) / 1000000000)) := by
  unfold Seconds f64Add f64Div f64OfInt
  simp only []
  rw [f64Round_billion, Int.tdiv_eq_ediv h0 (by norm_num), Int.tmod_eq_emod h0 (by norm_num)]

theorem Seconds_split (p : Int) :
    (p : ℚ) = 1000000000 * (((p / 1000000000 : ℤ)) : ℚ) + (((p % 1000000000 : ℤ)) : ℚ) := by
  have := Int.ediv_add_emod p 1000000000
  have h2 : ((1000000000 * (p / 1000000000) + p % 1000000000 : ℤ) : ℚ) = (p : ℚ) := by
    rw [this]
  rw [← h2]
  push_cast
  ring

/-- The float64 number of seconds of a nonnegative duration is at least 0.997 times
the exact one. -/
theorem Seconds_lower (p : Int) (h0 : 0 ≤ p) :
    997 / 1000 * ((p : ℚ) / 1000000000) ≤ Seconds p := by
  have ha : (0 : ℚ) ≤ ((p / 1000000000 : ℤ) : ℚ) := by
    exact_mod_cast Int.ediv_nonneg h0 (by norm_num)
  have hb : (0 : ℚ) ≤ ((p % 1000000000 : ℤ) : ℚ) := by
    exact_mod_cast Int.emod_nonneg p (by norm_num)
  have h1 := f64Round_lower _ ha
  have h2 := f64Round_lower _ hb
  have h2n := f64Round_nonneg _ hb
  have h3 := f64Round_lower (f64Round ((p % 1000000000 : ℤ) : ℚ) / 1000000000)
    (div_nonneg h2n (by norm_num))
  have h3n := f64Round_nonneg (f64Round ((p % 1000000000 : ℤ) : ℚ) / 1000000000)
    (div_nonneg h2n (by norm_num))
  have h1n := f64Round_nonneg _ ha
  have h4 := f64Round_lower (f64Round ((p / 1000000000 : ℤ) : ℚ) +
    f64Round (f64Round ((p % 1000000000 : ℤ) : ℚ) / 1000000000)) (add_nonneg h1n h3n)
  rw [Seconds_nonneg_eq p h0]
  have hs := Seconds_split p
  rw [hs]
  have h5 : 999 / 1000 * (f64Round ((p % 1000000000 : ℤ) : ℚ) / 1000000000) =
      999 / 1000 * f64Round ((p % 1000000000 : ℤ) : ℚ) / 1000000000 := by ring
  rw [h5] at h3
  have h6 : 999 / 1000 * (999 / 1000 * ((p % 1000000000 : ℤ) : ℚ)) / 1000000000 ≤
      999 / 1000 * f64Round ((p % 1000000000 : ℤ) : ℚ) / 1000000000 := by
    apply div_le_div_of_nonneg_right _ (by norm_num)
    exact mul_le_mul_of_nonneg_left h2 (by norm_num)
  have h7 : 999 / 1000 * (999 / 1000 * ((p / 1000000000 : ℤ) : ℚ) +
      999 / 1000 * (999 / 1000 * ((p % 1000000000 : ℤ) : ℚ)) / 1000000000) ≤
      999 / 1000 * (f64Round ((p / 1000000000 : ℤ) : ℚ) +
        f64Round (f64Round ((p % 1000000000 : ℤ) : ℚ) / 1000000000)) := by
    apply mul_le_mul_of_nonneg_left _ (by norm_num)
    linarith
  refine le_trans ?_ (le_trans h7 h4)
  have e1 : 997 / 1000 * ((1000000000 * ((p / 1000000000 : ℤ) : ℚ) +
      ((p % 1000000000 : ℤ) : ℚ)) / 1000000000) =
      997 / 1000 * ((p / 1000000000 : ℤ) : ℚ) +
      997 / 1000 * ((p % 1000000000 : ℤ) : ℚ) / 1000000000 := by ring
  have e2 : 999 / 1000 * (999 / 1000 * ((p / 1000000000 : ℤ) : ℚ) +
      999 / 1000 * (999 / 1000 * ((p % 1000000000 : ℤ) : ℚ)) / 1000000000) =
      998001 / 1000000 * ((p / 1000000000 : ℤ) : ℚ) +
      997002999 / 1000000000 * ((p % 1000000000 : ℤ) : ℚ) / 1000000000 := by ring
  rw [e1, e2]
  have g1 : 997 / 1000 * ((p / 1000000000 : ℤ) : ℚ) ≤
      998001 / 1000000 * ((p / 1000000000 : ℤ) : ℚ) :=
    mul_le_mul_of_nonneg_right (by norm_num) ha
  have g2 : 997 / 1000 * ((p % 1000000000 : ℤ) : ℚ) / 1000000000 ≤
      997002999 / 1000000000 * ((p % 1000000000 : ℤ) : ℚ) / 1000000000 := by
    apply div_le_div_of_nonneg_right _ (by norm_num)
    exact mul_le_mul_of_nonneg_right (by norm_num) hb
  linarith

theorem f64Round_one : f64Round 1 = 1 := by decide!

/-- A played duration above 100 ms converts to a float64 number of seconds that is
not below the float64 constant `0.1`. -/
theorem Seconds_ge_tenth (p : Int) (h : 100000001 ≤ p) : f64Tenth ≤ Seconds p := by
  have h0 : 0 ≤ p := by omega
  rw [Seconds_nonneg_eq p h0]
  have hb : (0 : ℚ) ≤ ((p % 1000000000 : ℤ) : ℚ) := by
    exact_mod_cast Int.emod_nonneg p (by norm_num)
  by_cases hlt : p < 1000000000
  · rw [Int.ediv_eq_zero_of_lt h0 hlt, Int.emod_eq_of_lt h0 hlt]
    have h1 : f64Round 100000001 ≤ f64Round (p : ℚ) :=
      f64Round_mono _ _ (by exact_mod_cast h)
    have h2 : f64Round (f64Round 100000001 / 1000000000) ≤
        f64Round (f64Round (p : ℚ) / 1000000000) :=
      f64Round_mono _ _ (div_le_div_of_nonneg_right h1 (by norm_num))
    have h3 := f64Round_mono _ _ (add_le_add_left h2 (f64Round ((0 : ℤ) : ℚ)))
    have h4 : f64Tenth ≤ f64Round (f64Round ((0 : ℤ) : ℚ) +
        f64Round (f64Round 100000001 / 1000000000)) := by decide!
    exact le_trans h4 h3
  · have ha : (1 : ℤ) ≤ p / 1000000000 := by omega
    have h1 : f64Round 1 ≤ f64Round ((p / 1000000000 : ℤ) : ℚ) :=
      f64Round_mono _ _ (by exact_mod_cast ha)
    rw [f64Round_one] at h1
    have h2 := f64Round_nonneg (f64Round ((p % 1000000000 : ℤ) : ℚ) / 1000000000)
      (div_nonneg (f64Round_nonneg _ hb) (by norm_num))
    have h3 : f64Round 1 ≤ f64Round (f64Round ((p / 1000000000 : ℤ) : ℚ) +
        f64Round (f64Round ((p % 1000000000 : ℤ) : ℚ) / 1000000000)) :=
      f64Round_mono _ _ (by linarith)
    rw [f64Round_one] at h3
    have h4 : f64Tenth ≤ 1 := by decide!
    exact le_trans h4 h3

/-- `Seconds` is monotone on the nonnegative `int64` durations. -/
theorem Seconds_mono (p q : Int) (h0 : 0 ≤ p) (hpq : p ≤ q)
    (hq : q ≤ 9223372036854775807) : Seconds p ≤ Seconds q := by
  have hq0 : 0 ≤ q := le_trans h0 hpq
  rw [Seconds_nonneg_eq p h0, Seconds_nonneg_eq q hq0]
  have hdiv : p / 1000000000 ≤ q / 1000000000 := Int.ediv_le_ediv (by norm_num) hpq
  have hbq : (0 : ℚ) ≤ ((q % 1000000000 : ℤ) : ℚ) := by
    exact_mod_cast Int.emod_nonneg q (by norm_num)
  rcases eq_or_lt_of_le hdiv with heq | hlt
  · have hmod : p % 1000000000 ≤ q % 1000000000 := by omega
    rw [heq]
    apply f64Round_mono
    apply add_le_add_left
    apply f64Round_mono
    apply div_le_div_of_nonneg_right _ (by norm_num)
    apply f64Round_mono
    exact_mod_cast hmod
  · have hp1 : 0 ≤ p / 1000000000 := Int.ediv_nonneg h0 (by norm_num)
    have hp2 : p / 1000000000 < 2 ^ 53 := by
      have : p / 1000000000 ≤ 9223372036 := by omega
      exact lt_of_le_of_lt this (by norm_num)
    have hq2 : q / 1000000000 < 2 ^ 53 := by
      have : q / 1000000000 ≤ 9223372036 := by omega
      exact lt_of_le_of_lt this (by norm_num)
    rw [f64Round_intCast _ hp1 hp2, f64Round_intCast _ (le_trans hp1 hdiv) hq2]
    apply f64Round_mono
    have hmod : p % 1000000000 ≤ 999999999 := by omega
    have h1 : f64Round ((p % 1000000000 : ℤ) : ℚ) ≤ f64Round 999999999 :=
      f64Round_mono _ _ (by exact_mod_cast hmod)
    have h2 : f64Round (f64Round ((p % 1000000000 : ℤ) : ℚ) / 1000000000) ≤
        f64Round (f64Round 999999999 / 1000000000) :=
      f64Round_mono _ _ (div_le_div_of_nonneg_right h1 (by norm_num))
    have h3 : f64Round (f64Round 999999999 / 1000000000) ≤ 1 := by decide!
    have h4 := f64Round_nonneg (f64Round ((q % 1000000000 : ℤ) : ℚ) / 1000000000)
      (div_nonneg (f64Round_nonneg _ hbq) (by norm_num))
    have h5 : ((p / 1000000000 : ℤ) : ℚ) + 1 ≤ ((q / 1000000000 : ℤ) : ℚ) := by
      exact_mod_cast hlt
    linarith


theorem clamp_le (x lo hi : Int) (h : lo ≤ hi) : clamp x lo hi ≤ hi := by
  unfold clamp
  split
  · exact h
  · split <;> omega

theorem scrobbleDue_of_records (pm pm1 : PlaybackManager W) (p : Int) (song : Ptr)
    (h : checkScrobble pm p = some pm1) (hr : RecordsScrobble pm pm1 song) :
    scrobbleDue pm p := by
  by_contra hnd
  rw [checkScrobble_of_not_due pm p hnd] at h
  cases h
  exact log_ne_append_singleton _ _ hr.1

theorem playedPercent_mono (pm : PlaybackManager W) (p q : Int)
    (hD : 0 < pm.curTrackTime) (h : Seconds p ≤ Seconds q) :
    playedPercent pm p ≤ playedPercent pm q := by
  unfold playedPercent f64Mul f64Div
  apply f64Round_mono
  apply mul_le_mul_of_nonneg_right _ (by norm_num)
  apply f64Round_mono
  exact div_le_div_of_nonneg_right h (le_of_lt hD)

/-- The float64 percentage of a played duration that is at least the tracked
duration is at least 99. -/
theorem playedPercent_full (pm : PlaybackManager W) (p : Int)
    (hD : 0 < pm.curTrackTime) (hp : pm.curTrackTime ≤ (p : ℚ) / 1000000000) :
    99 ≤ playedPercent pm p := by
  have hp0 : 0 ≤ p := by
    have h1 : (0 : ℚ) < (p : ℚ) / 1000000000 := lt_of_lt_of_le hD hp
    have h2 : (0 : ℚ) < (p : ℚ) := by
      by_contra hc
      have := div_nonpos_of_nonpos_of_nonneg (not_lt.mp hc)
        (by norm_num : (0 : ℚ) ≤ 1000000000)
      linarith
    exact_mod_cast le_of_lt h2
  have hs := Seconds_lower p hp0
  have h1 : 997 / 1000 * pm.curTrackTime ≤ Seconds p :=
    le_trans (mul_le_mul_of_nonneg_left hp (by norm_num)) hs
  have h2 : (997 / 1000 : ℚ) ≤ Seconds p / pm.curTrackTime := by
    rw [le_div_iff₀ hD]
    exact h1
  unfold playedPercent f64Mul f64Div
  have h3 : f64Round (997 / 1000) ≤ f64Round (Seconds p / pm.curTrackTime) :=
    f64Round_mono _ _ h2
  have h4 : f64Round (f64Round (997 / 1000) * 100) ≤
      f64Round (f64Round (Seconds p / pm.curTrackTime) * 100) :=
    f64Round_mono _ _ (mul_le_mul_of_nonneg_right h3 (by norm_num))
  have h5 : (99 : ℚ) ≤ f64Round (f64Round (997 / 1000) * 100) := by decide!
  exact le_trans h5 h4

/-- C28 (counterexample): a manager is built by `NewPlaybackManager` with scrobbling
enabled and the threshold 50 %, four tracks are loaded and the first one
(200 s) starts playing; the index is valid and the tracked duration is 200 s.
The caller then writes the percentage threshold 150 into the configuration
struct it shares with the manager. A played duration of the full 200 s now
records nothing (the float64 percentage is 100), whereas before the write it
records a scrobble. -/
theorem checkScrobble_full_play_counterexample :
    (run quietEnv (NewPlaybackManager () ⟨true, -1, 50⟩) loadAndPlayFirst).map
      (fun p => (p.playQueue, p.nowPlayingIdx, p.scrobbleCfg, decide (p.curTrackTime = 200))) =
      some ([0, 1, 2, 3], 0, ⟨true, -1, 50⟩, true) ∧
    ((run quietEnv (NewPlaybackManager () ⟨true, -1, 50⟩) loadAndPlayFirst).bind
      fun p => (checkScrobble p 200000000000).map
        fun p1 => (p1.log.drop p.log.length, p1.lastScrobbled, (p1.heap 0).PlayCount)) =
      some ([Event.scrobble "a" true], some 0, 1) ∧
    ((run quietEnv (NewPlaybackManager () ⟨true, -1, 50⟩) loadAndPlayFirst).bind
      fun p => (checkScrobble (callerSetsScrobbleConfig p ⟨true, -1, 150⟩) 200000000000).map
        fun p1 => (p1.log.drop p.log.length, p1.lastScrobbled, (p1.heap 0).PlayCount)) =
      some ([], none, 0) ∧
    ((run quietEnv (NewPlaybackManager () ⟨true, -1, 50⟩) loadAndPlayFirst).map
      fun p => decide (playedPercent (callerSetsScrobbleConfig p ⟨true, -1, 150⟩)
        200000000000 = 100)) = some true := by
  refine ⟨?_, ?_, ?_, ?_⟩ <;> decide!

/-- C28 (amended): `NewPlaybackManager` leaves a percentage threshold of at most 99
in the configuration it shares with the caller, whatever the input thresholds.
In every state whose configuration has scrobbling enabled and a percentage
threshold of at most 99 (no later write of the caller has raised it), with a
valid now-playing index and a tracked duration `D` that is a float64 value of
at least 0.1 s: `checkScrobble` with any played duration of at least `D`
records a scrobble of the entry at the index, and if it records a scrobble
with a played duration `p` it records one with every `int64` duration
`q ≥ p`. -/
theorem checkScrobble_full_play (w : W) (cfg : ScrobbleConfig) (pm : PlaybackManager W)
    (hthr : pm.scrobbleCfg.ThresholdPercent ≤ 99)
    (hen : pm.scrobbleCfg.Enabled = true)
    (hidx : 0 ≤ pm.nowPlayingIdx ∧ pm.nowPlayingIdx < pm.playQueue.length)
    (hD : (1 / 10 : ℚ) ≤ pm.curTrackTime)
    (hfloat : f64Round pm.curTrackTime = pm.curTrackTime) :
    (NewPlaybackManager w cfg).scrobbleCfg.ThresholdPercent ≤ 99 ∧
    (NewPlaybackManager w cfg).scrobbleCfg.Enabled = cfg.Enabled ∧
    ∃ song, index pm.playQueue pm.nowPlayingIdx = some song ∧
      (∀ p : Int, pm.curTrackTime ≤ (p : ℚ) / 1000000000 →
        ∃ pm1, checkScrobble pm p = some pm1 ∧ RecordsScrobble pm pm1 song) ∧
      (∀ p q : Int, p ≤ q → q ≤ 9223372036854775807 →
        (∃ pm1, checkScrobble pm p = some pm1 ∧ RecordsScrobble pm pm1 song) →
        ∃ pm2, checkScrobble pm q = some pm2 ∧ RecordsScrobble pm pm2 song) := by
  obtain ⟨song, hsong⟩ := index_eq_getElem pm.playQueue pm.nowPlayingIdx hidx.1 hidx.2
  have hne : pm.playQueue ≠ [] := by
    intro hc
    rw [hc] at hidx
    simp at hidx
    omega
  have hDt : f64Tenth ≤ pm.curTrackTime := by
    have := f64Round_mono _ _ hD
    rw [hfloat] at this
    exact this
  have hDpos : 0 < pm.curTrackTime := lt_of_lt_of_le (by norm_num) hD
  refine ⟨clamp_le _ 0 99 (by norm_num), rfl, song, hsong, ?_, ?_⟩
  · intro p hp
    have hp1 : 100000001 ≤ p := by
      have h1 : (1 / 10 : ℚ) < (p : ℚ) / 1000000000 :=
        lt_of_lt_of_le tenth_lt_f64Tenth (le_trans hDt hp)
      have h2 : ((100000000 : ℤ) : ℚ) < (p : ℚ) := by
        rw [lt_div_iff₀ (by norm_num)] at h1
        push_cast
        linarith
      have h3 : (100000000 : ℤ) < p := by exact_mod_cast h2
      omega
    have hpc : f64OfInt pm.scrobbleCfg.ThresholdPercent ≤ playedPercent pm p := by
      have h1 : f64OfInt pm.scrobbleCfg.ThresholdPercent ≤ f64Round 99 :=
        f64Round_mono _ _ (by exact_mod_cast hthr)
      have h2 : f64Round 99 = 99 := by decide!
      rw [h2] at h1
      exact le_trans h1 (playedPercent_full pm p hDpos hp)
    have hdue : scrobbleDue pm p :=
      ⟨hen, hne, hidx.1, Seconds_ge_tenth p hp1, hDt, Or.inr hpc⟩
    exact ⟨_, checkScrobble_of_due pm p song hdue hsong, recordsScrobble_scrobbled pm song⟩
  · rintro p q hpq hq ⟨pm1, h1, hr⟩
    obtain ⟨d1, d2, d3, d4, d5, d6⟩ := scrobbleDue_of_records pm pm1 p song h1 hr
    have hp0 : 0 ≤ p := by
      by_contra hc
      have := Seconds_lt_tenth p (by omega)
      exact absurd d4 (not_le.mpr this)
    have hmono := Seconds_mono p q hp0 hpq hq
    have hdue : scrobbleDue pm q := by
      refine ⟨d1, d2, d3, le_trans d4 hmono, d5, ?_⟩
      rcases d6 with ⟨t1, t2⟩ | t
      · exact Or.inl ⟨t1, le_trans t2 hmono⟩
      · exact Or.inr (le_trans t (playedPercent_mono pm p q hDpos hmono))
    exact ⟨_, checkScrobble_of_due pm q song hdue hsong, recordsScrobble_scrobbled pm song⟩

/-- Witness for C28 (amended): `eagerManager` was built with the threshold 150, stored
as 99; a played duration of exactly the 200 s of the tracked entry records a
scrobble, and 198 s do too (99 %), while 197 s do not. -/
theorem checkScrobble_full_play_witness :
    eagerManager.scrobbleCfg = (NewPlaybackManager () ⟨true, -1, 150⟩).scrobbleCfg ∧
    eagerManager.scrobbleCfg.ThresholdPercent ≤ 99 ∧
    eagerManager.scrobbleCfg.Enabled = true ∧
    (0 ≤ eagerManager.nowPlayingIdx ∧
      eagerManager.nowPlayingIdx < eagerManager.playQueue.length) ∧
    (1 / 10 : ℚ) ≤ eagerManager.curTrackTime ∧
    f64Round eagerManager.curTrackTime = eagerManager.curTrackTime ∧
    (checkScrobble eagerManager 200000000000).map (fun p => (p.log, p.lastScrobbled)) =
      some ([Event.scrobble "t10" true], some 10) ∧
    (checkScrobble eagerManager 198000000000).map (fun p => (p.log, p.lastScrobbled)) =
      some ([Event.scrobble "t10" true], some 10) ∧
    (checkScrobble eagerManager 197000000000).map (fun p => (p.log, p.lastScrobbled)) =
      some ([], none) ∧
    ((NewPlaybackManager () ⟨true, -1, 150⟩).scrobbleCfg.ThresholdPercent ≤ 99 ∧
    (NewPlaybackManager () ⟨true, -1, 150⟩).scrobbleCfg.Enabled =
      (⟨true, -1, 150⟩ : ScrobbleConfig).Enabled ∧
    ∃ song, index eagerManager.playQueue eagerManager.nowPlayingIdx = some song ∧
      (∀ p : Int, eagerManager.curTrackTime ≤ (p : ℚ) / 1000000000 →
        ∃ pm1, checkScrobble eagerManager p = some pm1 ∧
          RecordsScrobble eagerManager pm1 song) ∧
      (∀ p q : Int, p ≤ q → q ≤ 9223372036854775807 →
        (∃ pm1, checkScrobble eagerManager p = some pm1 ∧
          RecordsScrobble eagerManager pm1 song) →
        ∃ pm2, checkScrobble eagerManager q = some pm2 ∧
          RecordsScrobble eagerManager pm2 song)) :=
  ⟨rfl, by decide, by decide, by decide, by decide!, by decide!, by decide!, by decide!,
    by decide!,
    checkScrobble_full_play () ⟨true, -1, 150⟩ eagerManager (by decide) (by decide)
      (by decide) (by decide!) (by decide!)⟩

/-- C16 (evaluation at the failing input): on a manager built by
`NewPlaybackManager` with observers registered, four tracks are loaded, the
fourth starts playing at clock reading 0, the queue is stopped and cleared and
one 30 s track is appended; the Stopped event of the engine arrives 20 s
later. The state it arrives in has callbacks enabled, the engine reporting
Stopped, the one-entry queue and the now-playing index still 3, the
accumulator running since 0. The handler stops the accumulator at 20 s and
`checkScrobble` (20 s of the tracked 30 s, threshold 50 %) indexes the queue
at 3: the handler panics, so that neither the paused/stopped observer 3 nor
the song-change observer 1 is invoked and the accumulator is not reset. -/
theorem onStopped_stale_index :
    (run clockedEnv clockedManager
      (staleIndexCalls ++ [Op.world (20000000000, State.Stopped)])).map
      (fun p => (p.playQueue, p.nowPlayingIdx, p.callbacksDisabled,
        (clockedEnv.playerGetStatus p.world).State)) =
      some ([4], 3, false, State.Stopped) ∧
    (run clockedEnv clockedManager
      (staleIndexCalls ++ [Op.world (20000000000, State.Stopped)])).map
      (fun p => (p.onPaused, p.onSongChange, p.playTimeStopwatch,
        decide (p.curTrackTime = 30))) =
      some ([3], [1], ⟨0, true, 0⟩, true) ∧
    ((run clockedEnv clockedManager
      (staleIndexCalls ++ [Op.world (20000000000, State.Stopped)])).bind
      fun p => (onStopped clockedEnv p).map fun p1 => p1.log) = none ∧
    (run clockedEnv clockedManager
      (staleIndexCalls ++ [Op.world (20000000000, State.Stopped), Op.stopped])).isSome =
      false := by
  refine ⟨?_, ?_, ?_, ?_⟩ <;> decide!

/-- C24 (evaluation at the failing input): in the state reached by loading four
tracks, a change to the fourth track at clock reading 0, `StopAndClearPlayQueue`
and the appending of one 30 s track, the queue has one entry, the now-playing
index is 3 and the accumulator is running since 0. A Stopped event at clock
reading 20 s stops the accumulator (total 20 s) and then panics in
`checkScrobble` before the reset; an in-bounds track-changed event (index 0)
at 20 s with the engine playing panics in `checkScrobble` as well. Neither
handler leaves an accumulator with total zero. -/
theorem accumulator_stale_index :
    (run clockedEnv clockedManager staleIndexCalls).map
      (fun p => (p.playQueue, p.nowPlayingIdx, p.playTimeStopwatch)) =
      some ([4], 3, ⟨0, true, 0⟩) ∧
    (run clockedEnv clockedManager
      (staleIndexCalls ++ [Op.world (20000000000, State.Stopped)])).map
      (fun p => (stopAccumulator clockedEnv p).playTimeStopwatch) =
      some ⟨20000000000, false, 0⟩ ∧
    ((run clockedEnv clockedManager
      (staleIndexCalls ++ [Op.world (20000000000, State.Stopped)])).bind
      fun p => (evaluateScrobble clockedEnv (stopAccumulator clockedEnv p)).map
        fun p1 => p1.playTimeStopwatch) = none ∧
    (run clockedEnv clockedManager
      (staleIndexCalls ++ [Op.world (20000000000, State.Stopped), Op.stopped])).map
      (fun p => p.playTimeStopwatch) = none ∧
    ((0 : Int) ≤ 0 ∧ ((0 : Int) < ([4] : List Ptr).length)) ∧
    (run clockedEnv clockedManager
      (staleIndexCalls ++ [Op.world (20000000000, State.Playing), Op.trackChanged 0])).map
      (fun p => p.playTimeStopwatch) = none := by
  refine ⟨?_, ?_, ?_, ?_, ?_, ?_⟩ <;> decide!

/-! ### float64 rounding: relative error, idempotence -/

/-- Rounding to binary64 changes a nonnegative value by at most one part in
`9 * 10^15` (the unit roundoff `2^-53` is smaller). -/
theorem f64Round_rel (q : ℚ) (hq : 0 ≤ q) :
    (1 - 1 / 9000000000000000) * q ≤ f64Round q ∧
    f64Round q ≤ (1 + 1 / 9000000000000000) * q := by
  rcases eq_or_lt_of_le hq with h0 | hpos
  · rw [← h0, f64Round_zero]
    norm_num
  · obtain ⟨e, hlo, -, heq, -, -⟩ := f64Round_bracket q hpos
    have hx : (2 : ℚ) ^ (52 : ℕ) ≤ q * (2 : ℚ) ^ (52 - e) := by
      have : (2 : ℚ) ^ (52 : ℕ) = (2 : ℚ) ^ e * (2 : ℚ) ^ (52 - e) := by
        rw [← zpow_add₀ (by norm_num : (2 : ℚ) ≠ 0), ← zpow_natCast]
        congr 1
        ring
      rw [this]
      exact mul_le_mul_of_nonneg_right hlo (le_of_lt (two_zpow_pos _))
    have hb := nearestEven_bounds (q * (2 : ℚ) ^ (52 - e))
      (mul_nonneg hq (le_of_lt (two_zpow_pos _)))
    have h52 : (4500000000000000 : ℚ) ≤ (2 : ℚ) ^ (52 : ℕ) := by norm_num
    have hN1 : (1 - 1 / 9000000000000000) * (q * (2 : ℚ) ^ (52 - e)) ≤
        (nearestEven (q * (2 : ℚ) ^ (52 - e)) : ℚ) := by
      linarith [hb.2]
    have hN2 : (nearestEven (q * (2 : ℚ) ^ (52 - e)) : ℚ) ≤
        (1 + 1 / 9000000000000000) * (q * (2 : ℚ) ^ (52 - e)) := by
      linarith [hb.1]
    have hs : q = q * (2 : ℚ) ^ (52 - e) * (2 : ℚ) ^ (e - 52) := by
      rw [mul_assoc, ← zpow_add₀ (by norm_num : (2 : ℚ) ≠ 0)]
      have : 52 - e + (e - 52) = 0 := by ring
      rw [this, zpow_zero, mul_one]
    rw [heq]
    constructor
    · calc (1 - 1 / 9000000000000000) * q
          = (1 - 1 / 9000000000000000) * (q * (2 : ℚ) ^ (52 - e)) * (2 : ℚ) ^ (e - 52) := by
            rw [mul_assoc (1 - 1 / 9000000000000000 : ℚ), ← hs]
        _ ≤ (nearestEven (q * (2 : ℚ) ^ (52 - e)) : ℚ) * (2 : ℚ) ^ (e - 52) :=
            mul_le_mul_of_nonneg_right hN1 (le_of_lt (two_zpow_pos _))
    · calc (nearestEven (q * (2 : ℚ) ^ (52 - e)) : ℚ) * (2 : ℚ) ^ (e - 52)
          ≤ (1 + 1 / 9000000000000000) * (q * (2 : ℚ) ^ (52 - e)) * (2 : ℚ) ^ (e - 52) :=
            mul_le_mul_of_nonneg_right hN2 (le_of_lt (two_zpow_pos _))
        _ = (1 + 1 / 9000000000000000) * q := by
            rw [mul_assoc (1 + 1 / 9000000000000000 : ℚ), ← hs]

/-- The float64 number of seconds of a nonnegative duration is the exact one up to
a relative error below `10^-15 / 2`. -/
theorem Seconds_rel (p : Int) (h0 : 0 ≤ p) :
    (1 - 1 / 3000000000000000) * ((p : ℚ) / 1000000000) ≤ Seconds p ∧
    Seconds p ≤ (1 + 1 / 2000000000000000) * ((p : ℚ) / 1000000000) := by
  have ha : (0 : ℚ) ≤ ((p / 1000000000 : ℤ) : ℚ) := by
    exact_mod_cast Int.ediv_nonneg h0 (by norm_num)
  have hb : (0 : ℚ) ≤ ((p % 1000000000 : ℤ) : ℚ) := by
    exact_mod_cast Int.emod_nonneg p (by norm_num)
  obtain ⟨a1, a2⟩ := f64Round_rel _ ha
  obtain ⟨b1, b2⟩ := f64Round_rel _ hb
  have hbn := f64Round_nonneg _ hb
  obtain ⟨c1, c2⟩ := f64Round_rel (f64Round ((p % 1000000000 : ℤ) : ℚ) / 1000000000)
    (div_nonneg hbn (by norm_num))
  have hcn := f64Round_nonneg (f64Round ((p % 1000000000 : ℤ) : ℚ) / 1000000000)
    (div_nonneg hbn (by norm_num))
  have han := f64Round_nonneg _ ha
  obtain ⟨d1, d2⟩ := f64Round_rel (f64Round ((p / 1000000000 : ℤ) : ℚ) +
    f64Round (f64Round ((p % 1000000000 : ℤ) : ℚ) / 1000000000)) (add_nonneg han hcn)
  rw [Seconds_nonneg_eq p h0]
  have hs := Seconds_split p
  rw [hs]
  generalize f64Round (f64Round ((p / 1000000000 : ℤ) : ℚ) +
    f64Round (f64Round ((p % 1000000000 : ℤ) : ℚ) / 1000000000)) = S at d1 d2 ⊢
  generalize f64Round (f64Round ((p % 1000000000 : ℤ) : ℚ) / 1000000000) = X at c1 c2 d1 d2 hcn ⊢
  generalize f64Round ((p % 1000000000 : ℤ) : ℚ) = Rm at b1 b2 c1 c2 hbn ⊢
  generalize f64Round ((p / 1000000000 : ℤ) : ℚ) = Rs at a1 a2 d1 d2 han ⊢
  generalize ((p / 1000000000 : ℤ) : ℚ) = s at ha a1 a2 ⊢
  generalize ((p % 1000000000 : ℤ) : ℚ) = m at hb b1 b2 ⊢
  constructor <;> linarith

theorem binade_unique (r : ℚ) (e e1 : ℤ) (h1 : (2 : ℚ) ^ e ≤ r) (h2 : r < (2 : ℚ) ^ (e + 1))
    (h3 : (2 : ℚ) ^ e1 ≤ r) (h4 : r < (2 : ℚ) ^ (e1 + 1)) : e1 = e := by
  have a : e < e1 + 1 :=
    (zpow_lt_zpow_iff_right₀ (by norm_num : (1 : ℚ) < 2)).mp (lt_of_le_of_lt h1 h4)
  have b : e1 < e + 1 :=
    (zpow_lt_zpow_iff_right₀ (by norm_num : (1 : ℚ) < 2)).mp (lt_of_le_of_lt h3 h2)
  omega

/-- A power of two is a binary64 value. -/
theorem f64Round_two_zpow (k : ℤ) : f64Round ((2 : ℚ) ^ k) = (2 : ℚ) ^ k := by
  obtain ⟨e, hlo, hhi, heq⟩ := f64Round_pos ((2 : ℚ) ^ k) (two_zpow_pos k)
  have hk : e = k := binade_unique ((2 : ℚ) ^ k) k e (le_refl _)
    ((zpow_lt_zpow_iff_right₀ (by norm_num : (1 : ℚ) < 2)).mpr (by omega)) hlo hhi
  subst hk
  have h1 : (2 : ℚ) ^ e * (2 : ℚ) ^ (52 - e) = (2 : ℚ) ^ (52 : ℕ) := by
    rw [← zpow_add₀ (by norm_num : (2 : ℚ) ≠ 0), ← zpow_natCast]
    congr 1
    ring
  rw [heq, h1, nearestEven_two_pow]
  have h5 : ((2 ^ 52 : ℕ) : ℚ) = (2 : ℚ) ^ (52 : ℤ) := by norm_num
  rw [h5, ← zpow_add₀ (by norm_num : (2 : ℚ) ≠ 0)]
  congr 1
  ring

theorem f64Round_idem_pos (q : ℚ) (hq : 0 < q) : f64Round (f64Round q) = f64Round q := by
  obtain ⟨e, hlo, hhi, heq, hlb, hub⟩ := f64Round_bracket q hq
  rcases eq_or_lt_of_le hub with htop | hlt
  · rw [htop, f64Round_two_zpow]
  · have hrpos : 0 < f64Round q := f64Round_pos_of_pos q hq
    obtain ⟨e1, hlo1, hhi1, heq1⟩ := f64Round_pos (f64Round q) hrpos
    have he : e1 = e := binade_unique (f64Round q) e e1 hlb hlt hlo1 hhi1
    subst he
    have h1 : f64Round q * (2 : ℚ) ^ (52 - e1) =
        (nearestEven (q * (2 : ℚ) ^ (52 - e1)) : ℚ) := by
      rw [heq, mul_assoc, ← zpow_add₀ (by norm_num : (2 : ℚ) ≠ 0)]
      have : e1 - 52 + (52 - e1) = 0 := by ring
      rw [this, zpow_zero, mul_one]
    rw [heq1, h1, nearestEven_natCast]
    exact heq.symm

/-- Rounding to binary64 is idempotent: a rounded value is a binary64 value. -/
theorem f64Round_idem (q : ℚ) : f64Round (f64Round q) = f64Round q := by
  rcases lt_trichotomy q 0 with h | h | h
  · have := f64Round_idem_pos (-q) (by linarith)
    rw [f64Round_neg, f64Round_neg] at this
    linarith
  · subst h
    rw [f64Round_zero, f64Round_zero]
  · exact f64Round_idem_pos q h

/-- A float64 value is at least one tenth exactly when it is at least the float64
constant `0.1`. -/
theorem tenth_le_float (D : ℚ) (hfloat : f64Round D = D) :
    (1 / 10 : ℚ) ≤ D ↔ f64Tenth ≤ D := by
  constructor
  · intro h
    have := f64Round_mono _ _ h
    rw [hfloat] at this
    exact this
  · intro h
    exact le_of_lt (lt_of_lt_of_le tenth_lt_f64Tenth h)

/-- The played duration is at least 0.1 s exactly when its float64 number of seconds
is at least the float64 constant `0.1`. -/
theorem Seconds_tenth_iff (p : Int) : f64Tenth ≤ Seconds p ↔ 100000000 ≤ p := by
  constructor
  · intro h
    by_contra hc
    exact absurd (Seconds_lt_tenth p (by omega)) (not_lt.mpr h)
  · intro h
    rcases eq_or_lt_of_le h with h1 | h1
    · rw [← h1]
      decide!
    · exact Seconds_ge_tenth p (by omega)

/-- A played duration of at least a whole number `T ≥ 0` of seconds has a float64
number of seconds not below `float64(T)`. -/
theorem Seconds_ge_int (p T : Int) (hT : 0 ≤ T) (h : T * 1000000000 ≤ p) :
    f64OfInt T ≤ Seconds p := by
  have h0 : 0 ≤ p := le_trans (by positivity) h
  rw [Seconds_nonneg_eq p h0]
  unfold f64OfInt
  have hb : (0 : ℚ) ≤ ((p % 1000000000 : ℤ) : ℚ) := by
    exact_mod_cast Int.emod_nonneg p (by norm_num)
  have hdiv : T ≤ p / 1000000000 := by
    have := Int.ediv_le_ediv (by norm_num : (0 : ℤ) < 1000000000) h
    rwa [Int.mul_ediv_cancel _ (by norm_num)] at this
  have h1 : f64Round (T : ℚ) ≤ f64Round ((p / 1000000000 : ℤ) : ℚ) :=
    f64Round_mono _ _ (by exact_mod_cast hdiv)
  have h2 := f64Round_nonneg (f64Round ((p % 1000000000 : ℤ) : ℚ) / 1000000000)
    (div_nonneg (f64Round_nonneg _ hb) (by norm_num))
  have h3 := f64Round_mono (f64Round (T : ℚ)) (f64Round ((p / 1000000000 : ℤ) : ℚ) +
    f64Round (f64Round ((p % 1000000000 : ℤ) : ℚ) / 1000000000)) (by linarith)
  rwa [f64Round_idem] at h3

/-! ### The scrobble decision against the exact condition -/

theorem playedSecondsExact_nonneg (p : Int) (h : (1 / 10 : ℚ) ≤ playedSecondsExact p) :
    100000000 ≤ p := by
  unfold playedSecondsExact at h
  rw [le_div_iff₀ (by norm_num)] at h
  have h2 : ((100000000 : ℤ) : ℚ) ≤ (p : ℚ) := by
    push_cast
    linarith
  exact_mod_cast h2

/-- The float64 percentage is the exact one up to a relative error below
`8 * 10^-16`. -/
theorem playedPercent_rel (pm : PlaybackManager W) (p : Int) (h0 : 0 ≤ p)
    (hD : 0 < pm.curTrackTime) :
    (1 - 6 / 10000000000000000) * exactPercent pm p ≤ playedPercent pm p ∧
    playedPercent pm p ≤ (1 + 8 / 10000000000000000) * exactPercent pm p := by
  obtain ⟨s1, s2⟩ := Seconds_rel p h0
  have ha : (0 : ℚ) ≤ (p : ℚ) / 1000000000 :=
    div_nonneg (by exact_mod_cast h0) (by norm_num)
  have hS : 0 ≤ Seconds p := le_trans (mul_nonneg (by norm_num) ha) s1
  have hy : 0 ≤ Seconds p / pm.curTrackTime := div_nonneg hS (le_of_lt hD)
  have hz : 0 ≤ (p : ℚ) / 1000000000 / pm.curTrackTime := div_nonneg ha (le_of_lt hD)
  have y1 : (1 - 1 / 3000000000000000) * ((p : ℚ) / 1000000000 / pm.curTrackTime) ≤
      Seconds p / pm.curTrackTime := by
    rw [← mul_div_assoc]
    exact div_le_div_of_nonneg_right s1 (le_of_lt hD)
  have y2 : Seconds p / pm.curTrackTime ≤
      (1 + 1 / 2000000000000000) * ((p : ℚ) / 1000000000 / pm.curTrackTime) := by
    rw [← mul_div_assoc]
    exact div_le_div_of_nonneg_right s2 (le_of_lt hD)
  obtain ⟨r1, r2⟩ := f64Round_rel _ hy
  have hr : 0 ≤ f64Round (Seconds p / pm.curTrackTime) := f64Round_nonneg _ hy
  obtain ⟨q1, q2⟩ := f64Round_rel (f64Round (Seconds p / pm.curTrackTime) * 100)
    (mul_nonneg hr (by norm_num))
  unfold playedPercent f64Mul f64Div exactPercent playedSecondsExact
  generalize f64Round (f64Round (Seconds p / pm.curTrackTime) * 100) = P at q1 q2 ⊢
  generalize f64Round (Seconds p / pm.curTrackTime) = R at r1 r2 q1 q2 hr ⊢
  generalize Seconds p / pm.curTrackTime = y at y1 y2 r1 r2 hy ⊢
  generalize (p : ℚ) / 1000000000 / pm.curTrackTime = z at y1 y2 hz ⊢
  constructor <;> linarith

/-- A percentage that reaches the threshold clear of the margin reaches it in the
float64 computation. -/
theorem percent_met_of_margin (pm : PlaybackManager W) (p : Int) (h0 : 0 ≤ p)
    (hD : 0 < pm.curTrackTime)
    (h : (pm.scrobbleCfg.ThresholdPercent : ℚ) * (1 + roundingMargin) ≤ exactPercent pm p) :
    f64OfInt pm.scrobbleCfg.ThresholdPercent ≤ playedPercent pm p := by
  obtain ⟨p1, -⟩ := playedPercent_rel pm p h0 hD
  have hx : 0 ≤ exactPercent pm p := by
    unfold exactPercent playedSecondsExact
    exact mul_nonneg (div_nonneg (div_nonneg (by exact_mod_cast h0) (by norm_num))
      (le_of_lt hD)) (by norm_num)
  unfold roundingMargin at h
  unfold f64OfInt
  by_cases ht : (0 : ℚ) ≤ (pm.scrobbleCfg.ThresholdPercent : ℚ)
  · obtain ⟨-, t2⟩ := f64Round_rel _ ht
    linarith
  · have := f64Round_nonpos _ (le_of_lt (not_le.mp ht))
    linarith

/-- A percentage that misses the threshold clear of the margin misses it in the
float64 computation. -/
theorem percent_missed_of_margin (pm : PlaybackManager W) (p : Int) (h0 : 0 ≤ p)
    (hD : 0 < pm.curTrackTime)
    (h : exactPercent pm p < (pm.scrobbleCfg.ThresholdPercent : ℚ) * (1 - roundingMargin)) :
    playedPercent pm p < f64OfInt pm.scrobbleCfg.ThresholdPercent := by
  obtain ⟨-, p2⟩ := playedPercent_rel pm p h0 hD
  have hx : 0 ≤ exactPercent pm p := by
    unfold exactPercent playedSecondsExact
    exact mul_nonneg (div_nonneg (div_nonneg (by exact_mod_cast h0) (by norm_num))
      (le_of_lt hD)) (by norm_num)
  unfold roundingMargin at h
  have ht : (0 : ℚ) ≤ (pm.scrobbleCfg.ThresholdPercent : ℚ) := by
    by_contra hc
    have hc1 := not_le.mp hc
    have : (pm.scrobbleCfg.ThresholdPercent : ℚ) * (1 - 1 / 1000000000000000) ≤ 0 :=
      mul_nonpos_of_nonpos_of_nonneg (le_of_lt hc1) (by norm_num)
    linarith
  obtain ⟨t1, -⟩ := f64Round_rel _ ht
  unfold f64OfInt
  linarith

/-- A played duration that misses the time threshold clear of the margin misses it
in the float64 computation. -/
theorem seconds_missed_of_margin (T p : Int) (h0 : 0 ≤ p) (hT : 0 ≤ T)
    (h : playedSecondsExact p < (T : ℚ) * (1 - roundingMargin)) :
    Seconds p < f64OfInt T := by
  obtain ⟨-, s2⟩ := Seconds_rel p h0
  have hTq : (0 : ℚ) ≤ (T : ℚ) := by exact_mod_cast hT
  obtain ⟨t1, -⟩ := f64Round_rel _ hTq
  have ha : (0 : ℚ) ≤ (p : ℚ) / 1000000000 :=
    div_nonneg (by exact_mod_cast h0) (by norm_num)
  unfold roundingMargin playedSecondsExact at h
  unfold f64OfInt
  linarith

/-- The program's guard holds when the condition of the specification is reached
clear of the margin. -/
theorem scrobbleDue_of_beyondMargin (pm : PlaybackManager W) (p : Int)
    (hfloat : f64Round pm.curTrackTime = pm.curTrackTime)
    (h : scrobbleDueBeyondMargin pm p) : scrobbleDue pm p := by
  obtain ⟨h1, h2, h3, h4, h5, h6⟩ := h
  have hp := playedSecondsExact_nonneg p h4
  have hDpos : 0 < pm.curTrackTime := lt_of_lt_of_le (by norm_num) h5
  refine ⟨h1, h2, h3, (Seconds_tenth_iff p).mpr hp,
    (tenth_le_float _ hfloat).mp h5, ?_⟩
  rcases h6 with ⟨t1, t2⟩ | t
  · left
    refine ⟨t1, Seconds_ge_int p _ t1 ?_⟩
    unfold playedSecondsExact at t2
    rw [le_div_iff₀ (by norm_num)] at t2
    exact_mod_cast t2
  · right
    exact percent_met_of_margin pm p (by omega) hDpos t

/-- The program's guard fails when the condition of the specification is missed
clear of the margin. -/
theorem not_scrobbleDue_of_missedBeyondMargin (pm : PlaybackManager W) (p : Int)
    (h : scrobbleMissedBeyondMargin pm p) : ¬ scrobbleDue pm p := by
  rintro ⟨d1, d2, d3, d4, d5, d6⟩
  have hp : 100000000 ≤ p := (Seconds_tenth_iff p).mp d4
  have hDpos : 0 < pm.curTrackTime := lt_of_lt_of_le (by decide!) d5
  rcases h with h | h | h | h | h | ⟨ht, hpc⟩
  · rw [h] at d1
    cases d1
  · exact d2 h
  · omega
  · unfold playedSecondsExact at h
    rw [div_lt_iff₀ (by norm_num)] at h
    have h2 : (p : ℚ) < ((100000000 : ℤ) : ℚ) := by
      push_cast
      linarith
    have h3 : p < 100000000 := by exact_mod_cast h2
    omega
  · exact absurd (lt_trans h tenth_lt_f64Tenth) (not_lt.mpr d5)
  · rcases d6 with ⟨t1, t2⟩ | t
    · rcases ht with ht | ht
      · omega
      · exact absurd (seconds_missed_of_margin _ p (by omega) t1 ht) (not_lt.mpr t2)
    · exact absurd (percent_missed_of_margin pm p (by omega) hDpos hpc) (not_lt.mpr t)


/-! ### Exact float64 computations on quarters -/

/-- A natural number below `2^53` scaled by a power of two is a binary64 value. -/
theorem f64Round_natCast_mul_zpow (n : ℕ) (hn : n < 2 ^ 53) (k : ℤ) :
    f64Round ((n : ℚ) * (2 : ℚ) ^ k) = (n : ℚ) * (2 : ℚ) ^ k := by
  rcases Nat.eq_zero_or_pos n with h0 | hpos
  · subst h0
    simp [f64Round_zero]
  · have hq : (0 : ℚ) < (n : ℚ) * (2 : ℚ) ^ k :=
      mul_pos (by exact_mod_cast hpos) (two_zpow_pos k)
    obtain ⟨e, hlo, -, heq⟩ := f64Round_pos _ hq
    have he : e < 53 + k := by
      have h1 : (n : ℚ) * (2 : ℚ) ^ k < (2 : ℚ) ^ (53 + k) := by
        have h2 : (n : ℚ) < ((2 ^ 53 : ℕ) : ℚ) := by exact_mod_cast hn
        have h3 : ((2 ^ 53 : ℕ) : ℚ) = (2 : ℚ) ^ (53 : ℤ) := by norm_num
        rw [h3] at h2
        rw [zpow_add₀ (by norm_num : (2 : ℚ) ≠ 0)]
        exact mul_lt_mul_of_pos_right h2 (two_zpow_pos k)
      exact (zpow_lt_zpow_iff_right₀ (by norm_num : (1 : ℚ) < 2)).mp (lt_of_le_of_lt hlo h1)
    have hk : (n : ℚ) * (2 : ℚ) ^ k * (2 : ℚ) ^ (52 - e) =
        ((n * 2 ^ (k + 52 - e).toNat : ℕ) : ℚ) := by
      push_cast
      rw [← zpow_natCast, Int.toNat_of_nonneg (by omega), mul_assoc,
        ← zpow_add₀ (by norm_num : (2 : ℚ) ≠ 0)]
      congr 2
      ring
    rw [heq, hk, nearestEven_natCast]
    push_cast
    rw [← zpow_natCast, Int.toNat_of_nonneg (by omega), mul_assoc,
      ← zpow_add₀ (by norm_num : (2 : ℚ) ≠ 0)]
    congr 2
    ring

/-- A quarter of a natural number below `2^53` is a binary64 value. -/
theorem f64Round_quarters (n : ℕ) (hn : n < 2 ^ 53) : f64Round ((n : ℚ) / 4) = (n : ℚ) / 4 := by
  have h := f64Round_natCast_mul_zpow n hn (-2)
  have h4 : (2 : ℚ) ^ (-2 : ℤ) = 1 / 4 := by norm_num
  rw [h4] at h
  have h5 : (n : ℚ) * (1 / 4) = (n : ℚ) / 4 := by ring
  rw [h5] at h
  exact h

/-- The float64 number of seconds of a whole number of quarter seconds is exact. -/
theorem Seconds_quarters (n : ℕ) (hn : n < 2 ^ 53) :
    Seconds ((n : Int) * 250000000) = (n : ℚ) / 4 := by
  have h0 : (0 : Int) ≤ (n : Int) * 250000000 := by positivity
  rw [Seconds_nonneg_eq _ h0]
  have hd : ((n : Int) * 250000000) / 1000000000 = ((n / 4 : ℕ) : Int) := by omega
  have hm : ((n : Int) * 250000000) % 1000000000 = ((n % 4 * 250000000 : ℕ) : Int) := by
    omega
  rw [hd, hm]
  have h1 : f64Round (((n / 4 : ℕ) : ℤ) : ℚ) = ((n / 4 : ℕ) : ℚ) := by
    rw [Int.cast_natCast]
    exact f64Round_natCast _ (lt_of_le_of_lt (Nat.div_le_self n 4) hn)
  have h2 : f64Round (((n % 4 * 250000000 : ℕ) : ℤ) : ℚ) = ((n % 4 * 250000000 : ℕ) : ℚ) := by
    rw [Int.cast_natCast]
    apply f64Round_natCast
    have : n % 4 < 4 := Nat.mod_lt n (by norm_num)
    calc n % 4 * 250000000 < 4 * 250000000 := by omega
      _ < 2 ^ 53 := by norm_num
  rw [h1, h2]
  have h3 : ((n % 4 * 250000000 : ℕ) : ℚ) / 1000000000 = ((n % 4 : ℕ) : ℚ) / 4 := by
    push_cast
    ring
  rw [h3, f64Round_quarters _ (lt_of_le_of_lt (Nat.mod_le n 4) hn)]
  have h4 : ((n / 4 : ℕ) : ℚ) + ((n % 4 : ℕ) : ℚ) / 4 = (n : ℚ) / 4 := by
    have := Nat.div_add_mod n 4
    have h5 : ((4 * (n / 4) + n % 4 : ℕ) : ℚ) = (n : ℚ) := by rw [this]
    push_cast at h5
    linarith
  rw [h4, f64Round_quarters n hn]

/-- With a percentage threshold of 25, 50 or 75 and a tracked duration of a whole
number `d` of seconds, the float64 percentage of exactly that share of the
duration is the threshold itself. -/
theorem playedPercent_quarters (pm : PlaybackManager W) (k d : ℕ)
    (hk : 1 ≤ k ∧ k ≤ 3) (hd : 1 ≤ d ∧ d ≤ 10000000000)
    (hD : pm.curTrackTime = f64OfInt (d : Int)) :
    playedPercent pm ((25 * k : ℕ) * (d : Int) * 10000000) = ((25 * k : ℕ) : ℚ) ∧
    f64OfInt ((25 * k : ℕ) : Int) = ((25 * k : ℕ) : ℚ) ∧
    Seconds ((25 * k : ℕ) * (d : Int) * 10000000) = ((k * d : ℕ) : ℚ) / 4 ∧
    pm.curTrackTime = (d : ℚ) := by
  have hkd : k * d < 2 ^ 53 := by
    calc k * d ≤ 3 * 10000000000 := Nat.mul_le_mul hk.2 hd.2
      _ < 2 ^ 53 := by norm_num
  have hp : ((25 * k : ℕ) : Int) * (d : Int) * 10000000 = ((k * d : ℕ) : Int) * 250000000 := by
    push_cast
    ring
  have hDq : pm.curTrackTime = (d : ℚ) := by
    rw [hD]
    unfold f64OfInt
    rw [Int.cast_natCast]
    exact f64Round_natCast d (lt_of_le_of_lt hd.2 (by norm_num))
  have hS := Seconds_quarters (k * d) hkd
  have ht : f64OfInt ((25 * k : ℕ) : Int) = ((25 * k : ℕ) : ℚ) := by
    unfold f64OfInt
    rw [Int.cast_natCast]
    exact f64Round_natCast _ (by
      calc 25 * k ≤ 25 * 3 := by omega
        _ < 2 ^ 53 := by norm_num)
  refine ⟨?_, ht, by rw [hp]; exact hS, hDq⟩
  unfold playedPercent f64Mul f64Div
  rw [hp, hS, hDq]
  have hdq : (d : ℚ) ≠ 0 := by
    have : 0 < d := hd.1
    exact_mod_cast (Nat.pos_iff_ne_zero.mp this)
  have h1 : ((k * d : ℕ) : ℚ) / 4 / (d : ℚ) = (k : ℚ) / 4 := by
    push_cast
    field_simp
    ring
  rw [h1, f64Round_quarters k (lt_of_le_of_lt hk.2 (by norm_num))]
  have h2 : (k : ℚ) / 4 * 100 = ((25 * k : ℕ) : ℚ) := by
    push_cast
    ring
  rw [h2]
  exact f64Round_natCast _ (by
    calc 25 * k ≤ 25 * 3 := by omega
      _ < 2 ^ 53 := by norm_num)


/-! ### The scrobble decision at the thresholds -/

/-- C1 (counterexample): read in exact arithmetic the stated condition does not
decide the scrobble. With the threshold 58 % on a 100 s track and 58 s played
the condition holds (the exact percentage is 58), but the float64 percentage is
`57.99999999999999…` and nothing is recorded. With the time threshold 2^30 s,
a track of 2^31 s, the percentage threshold 99 and one nanosecond less than
2^30 s played the condition fails (time below the threshold, percentage 50),
but the float64 number of seconds rounds to 2^30 and a scrobble is recorded.
In both states the index is valid. -/
theorem checkScrobble_records_counterexample :
    (0 ≤ (sampleManager ⟨true, -1, 58⟩ 100).nowPlayingIdx ∧
      (sampleManager ⟨true, -1, 58⟩ 100).nowPlayingIdx <
        (sampleManager ⟨true, -1, 58⟩ 100).playQueue.length) ∧
    scrobbleDueExact (sampleManager ⟨true, -1, 58⟩ 100) 58000000000 ∧
    exactPercent (sampleManager ⟨true, -1, 58⟩ 100) 58000000000 = 58 ∧
    playedPercent (sampleManager ⟨true, -1, 58⟩ 100) 58000000000 =
      8162774324609023 / 140737488355328 ∧
    scrobbleView (checkScrobble (sampleManager ⟨true, -1, 58⟩ 100) 58000000000) =
      some ([], 0, none) ∧
    (0 ≤ longTrackManager.nowPlayingIdx ∧
      longTrackManager.nowPlayingIdx < longTrackManager.playQueue.length) ∧
    ¬ scrobbleDueExact longTrackManager 1073741823999999999 ∧
    playedSecondsExact 1073741823999999999 < 1073741824 ∧
    Seconds 1073741823999999999 = 1073741824 ∧
    scrobbleView (checkScrobble longTrackManager 1073741823999999999) =
      some ([Event.scrobble "a" true], 1, some 0) := by
  refine ⟨?_, ?_, ?_, ?_, ?_, ?_, ?_, ?_, ?_, ?_⟩ <;> decide!

/-- C1 (amended): for a now-playing index within the queue bounds and a tracked
duration that is a float64 value, `checkScrobble` records a scrobble of the
now-playing entry (one submission, pending marker, play count raised by one
in `int64` arithmetic, nothing else changed) whenever scrobbling is enabled,
the played seconds and the tracked duration are at least 0.1 and either the
time threshold is not negative and reached, or the exact percentage is at
least the percentage threshold times `1 + 10^-15`; it returns the state
unchanged whenever scrobbling is disabled, or the played seconds or the
tracked duration are below 0.1, or the time threshold is negative or missed by
the factor `1 - 10^-15` and the exact percentage is below the percentage
threshold times `1 - 10^-15`. In every case it does one of the two, and
never the one the margin excludes. -/
theorem checkScrobble_records_within_margin (pm : PlaybackManager W) (playDur : Int)
    (hidx : 0 ≤ pm.nowPlayingIdx ∧ pm.nowPlayingIdx < pm.playQueue.length)
    (hfloat : f64Round pm.curTrackTime = pm.curTrackTime) :
    ∃ song, index pm.playQueue pm.nowPlayingIdx = some song ∧
      (scrobbleDueBeyondMargin pm playDur →
        ∃ pm1, checkScrobble pm playDur = some pm1 ∧ RecordsScrobble pm pm1 song) ∧
      (scrobbleMissedBeyondMargin pm playDur → checkScrobble pm playDur = some pm) ∧
      ((∃ pm1, checkScrobble pm playDur = some pm1 ∧ RecordsScrobble pm pm1 song) ∨
        checkScrobble pm playDur = some pm) ∧
      ((∃ pm1, checkScrobble pm playDur = some pm1 ∧ RecordsScrobble pm pm1 song) →
        ¬ scrobbleMissedBeyondMargin pm playDur) ∧
      (checkScrobble pm playDur = some pm → ¬ scrobbleDueBeyondMargin pm playDur) := by
  obtain ⟨song, hsong⟩ := index_eq_getElem pm.playQueue pm.nowPlayingIdx hidx.1 hidx.2
  have hsure : scrobbleDueBeyondMargin pm playDur →
      ∃ pm1, checkScrobble pm playDur = some pm1 ∧ RecordsScrobble pm pm1 song := by
    intro h
    exact ⟨_, checkScrobble_of_due pm playDur song
      (scrobbleDue_of_beyondMargin pm playDur hfloat h) hsong,
      recordsScrobble_scrobbled pm song⟩
  have hmiss : scrobbleMissedBeyondMargin pm playDur → checkScrobble pm playDur = some pm :=
    fun h => checkScrobble_of_not_due pm playDur
      (not_scrobbleDue_of_missedBeyondMargin pm playDur h)
  have hexcl : ∀ pm1, checkScrobble pm playDur = some pm1 → RecordsScrobble pm pm1 song →
      checkScrobble pm playDur = some pm → False := by
    intro pm1 h1 hr h2
    rw [h1] at h2
    cases h2
    exact log_ne_append_singleton _ _ hr.1
  refine ⟨song, hsong, hsure, hmiss, ?_, ?_, ?_⟩
  · by_cases hdue : scrobbleDue pm playDur
    · exact Or.inl ⟨_, checkScrobble_of_due pm playDur song hdue hsong,
        recordsScrobble_scrobbled pm song⟩
    · exact Or.inr (checkScrobble_of_not_due pm playDur hdue)
  · rintro ⟨pm1, h1, hr⟩ hm
    exact hexcl pm1 h1 hr (hmiss hm)
  · intro h2 hs
    obtain ⟨pm1, h1, hr⟩ := hsure hs
    exact hexcl pm1 h1 hr h2

/-- Witness for C1 (amended): a 200 s track under a 50 % threshold; 101 s played
reach the condition clear of the margin and are recorded, 99 s miss it and
are not. -/
theorem checkScrobble_records_within_margin_witness :
    (0 ≤ (sampleManager ⟨true, -1, 50⟩ 200).nowPlayingIdx ∧
      (sampleManager ⟨true, -1, 50⟩ 200).nowPlayingIdx <
        (sampleManager ⟨true, -1, 50⟩ 200).playQueue.length) ∧
    f64Round (sampleManager ⟨true, -1, 50⟩ 200).curTrackTime =
      (sampleManager ⟨true, -1, 50⟩ 200).curTrackTime ∧
    scrobbleDueBeyondMargin (sampleManager ⟨true, -1, 50⟩ 200) 101000000000 ∧
    scrobbleView (checkScrobble (sampleManager ⟨true, -1, 50⟩ 200) 101000000000) =
      some ([Event.scrobble "a" true], 1, some 0) ∧
    scrobbleMissedBeyondMargin (sampleManager ⟨true, -1, 50⟩ 200) 99000000000 ∧
    scrobbleView (checkScrobble (sampleManager ⟨true, -1, 50⟩ 200) 99000000000) =
      some ([], 0, none) ∧
    ∃ song, index (sampleManager ⟨true, -1, 50⟩ 200).playQueue
        (sampleManager ⟨true, -1, 50⟩ 200).nowPlayingIdx = some song ∧
      (scrobbleDueBeyondMargin (sampleManager ⟨true, -1, 50⟩ 200) 101000000000 →
        ∃ pm1, checkScrobble (sampleManager ⟨true, -1, 50⟩ 200) 101000000000 = some pm1 ∧
          RecordsScrobble (sampleManager ⟨true, -1, 50⟩ 200) pm1 song) ∧
      (scrobbleMissedBeyondMargin (sampleManager ⟨true, -1, 50⟩ 200) 101000000000 →
        checkScrobble (sampleManager ⟨true, -1, 50⟩ 200) 101000000000 =
          some (sampleManager ⟨true, -1, 50⟩ 200)) ∧
      ((∃ pm1, checkScrobble (sampleManager ⟨true, -1, 50⟩ 200) 101000000000 = some pm1 ∧
          RecordsScrobble (sampleManager ⟨true, -1, 50⟩ 200) pm1 song) ∨
        checkScrobble (sampleManager ⟨true, -1, 50⟩ 200) 101000000000 =
          some (sampleManager ⟨true, -1, 50⟩ 200)) ∧
      ((∃ pm1, checkScrobble (sampleManager ⟨true, -1, 50⟩ 200) 101000000000 = some pm1 ∧
          RecordsScrobble (sampleManager ⟨true, -1, 50⟩ 200) pm1 song) →
        ¬ scrobbleMissedBeyondMargin (sampleManager ⟨true, -1, 50⟩ 200) 101000000000) ∧
      (checkScrobble (sampleManager ⟨true, -1, 50⟩ 200) 101000000000 =
          some (sampleManager ⟨true, -1, 50⟩ 200) →
        ¬ scrobbleDueBeyondMargin (sampleManager ⟨true, -1, 50⟩ 200) 101000000000) :=
  ⟨by decide, by decide!, by decide!, by decide!, by decide!, by decide!,
    checkScrobble_records_within_margin (sampleManager ⟨true, -1, 50⟩ 200) 101000000000
      (by decide) (by decide!)⟩

/-- C2 (counterexample): a played duration exactly at the percent threshold need not
scrobble, and a scrobble need not raise the play count by one. With threshold
0 the played duration is 0 s, below the 0.1 s guard; with threshold 29 on a
100 s track, 29 s played computes the float64 percentage
`29/100*100 = 28.999999999999996 < 29`. In both cases scrobbling is enabled
and the index is valid, yet nothing is submitted and the play count stays 0.
With threshold 50 on a 200 s track whose play count is the largest `int64`,
100 s played are scrobbled and the play count becomes the smallest `int64`. -/
theorem checkScrobble_at_threshold_counterexample :
    (atPercentThreshold (sampleManager ⟨true, -1, 0⟩ 200) 0 ∧
      scrobbleView (checkScrobble (sampleManager ⟨true, -1, 0⟩ 200) 0) = some ([], 0, none)) ∧
    (atPercentThreshold (sampleManager ⟨true, -1, 29⟩ 100) 29000000000 ∧
      playedPercent (sampleManager ⟨true, -1, 29⟩ 100) 29000000000 =
        8162774324609023 / 281474976710656 ∧
      scrobbleView (checkScrobble (sampleManager ⟨true, -1, 29⟩ 100) 29000000000) =
        some ([], 0, none)) ∧
    (atPercentThreshold maxCountManager 100000000000 ∧
      (maxCountManager.heap 0).PlayCount = 9223372036854775807 ∧
      scrobbleView (checkScrobble maxCountManager 100000000000) =
        some ([Event.scrobble "a" true], -9223372036854775808, some 0)) := by
  refine ⟨⟨?_, ?_⟩, ⟨?_, ?_, ?_⟩, ⟨?_, ?_, ?_⟩⟩ <;> decide!

/-- The effects of a scrobble that is due: exactly one submission, the play count
raised by one in `int64` arithmetic, which is one more below the largest
`int64`. -/
theorem checkScrobble_once (pm : PlaybackManager W) (playDur : Int) (song : Ptr)
    (hdue : scrobbleDue pm playDur)
    (hsong : index pm.playQueue pm.nowPlayingIdx = some song) :
    ∃ pm1, checkScrobble pm playDur = some pm1 ∧ RecordsScrobble pm pm1 song ∧
      pm1.log = pm.log ++ [Event.scrobble (pm.heap song).ID true] ∧
      (pm1.heap song).PlayCount = wrapInt64 ((pm.heap song).PlayCount + 1) ∧
      (-9223372036854775808 ≤ (pm.heap song).PlayCount →
        (pm.heap song).PlayCount < 9223372036854775807 →
        (pm1.heap song).PlayCount = (pm.heap song).PlayCount + 1) := by
  have hrec := recordsScrobble_scrobbled pm song
  refine ⟨_, checkScrobble_of_due pm playDur song hdue hsong, hrec, hrec.1, hrec.2.2.1, ?_⟩
  intro h1 h2
  rw [hrec.2.2.1]
  exact wrapInt64_of_range _ (by omega) (by omega)

/-- C2 (amended): with scrobbling enabled, a valid now-playing index and a tracked
duration that is a float64 value: a played duration of at least 0.1 s, on a
tracked duration of at least 0.1 s, whose exact percentage is at least
`ThresholdPercent` times `1 + 10^-15` triggers exactly one scrobble
submission for the now-playing entry and raises its play count by one in
`int64` arithmetic, which is exactly one more when the count is below the
largest `int64`; so does a played duration exactly at `ThresholdPercent`
percent of the tracked duration when the threshold is 25, 50 or 75 and the
tracked duration is a whole number of seconds between 1 and 10^10; and a
played duration below 0.1 s triggers nothing. -/
theorem checkScrobble_at_threshold (pm : PlaybackManager W) (playDur : Int)
    (hen : pm.scrobbleCfg.Enabled = true)
    (hidx : 0 ≤ pm.nowPlayingIdx ∧ pm.nowPlayingIdx < pm.playQueue.length)
    (hfloat : f64Round pm.curTrackTime = pm.curTrackTime) :
    ∃ song, index pm.playQueue pm.nowPlayingIdx = some song ∧
      (1 / 10 ≤ playedSecondsExact playDur → 1 / 10 ≤ pm.curTrackTime →
        (pm.scrobbleCfg.ThresholdPercent : ℚ) * (1 + roundingMargin) ≤
          exactPercent pm playDur →
        ∃ pm1, checkScrobble pm playDur = some pm1 ∧ RecordsScrobble pm pm1 song ∧
          pm1.log = pm.log ++ [Event.scrobble (pm.heap song).ID true] ∧
          (pm1.heap song).PlayCount = wrapInt64 ((pm.heap song).PlayCount + 1) ∧
          (-9223372036854775808 ≤ (pm.heap song).PlayCount →
            (pm.heap song).PlayCount < 9223372036854775807 →
            (pm1.heap song).PlayCount = (pm.heap song).PlayCount + 1)) ∧
      (∀ k d : ℕ, 1 ≤ k ∧ k ≤ 3 → 1 ≤ d ∧ d ≤ 10000000000 →
        pm.scrobbleCfg.ThresholdPercent = ((25 * k : ℕ) : Int) →
        pm.curTrackTime = f64OfInt (d : Int) →
        playDur = ((25 * k : ℕ) : Int) * (d : Int) * 10000000 →
        atPercentThreshold pm playDur ∧
        ∃ pm1, checkScrobble pm playDur = some pm1 ∧ RecordsScrobble pm pm1 song ∧
          pm1.log = pm.log ++ [Event.scrobble (pm.heap song).ID true] ∧
          (pm1.heap song).PlayCount = wrapInt64 ((pm.heap song).PlayCount + 1) ∧
          (-9223372036854775808 ≤ (pm.heap song).PlayCount →
            (pm.heap song).PlayCount < 9223372036854775807 →
            (pm1.heap song).PlayCount = (pm.heap song).PlayCount + 1)) ∧
      (playDur < 100000000 → checkScrobble pm playDur = some pm) := by
  obtain ⟨song, hsong⟩ := index_eq_getElem pm.playQueue pm.nowPlayingIdx hidx.1 hidx.2
  have hne : pm.playQueue ≠ [] := by
    intro h
    rw [h] at hidx
    simp at hidx
    omega
  refine ⟨song, hsong, ?_, ?_, ?_⟩
  · intro h1 h2 h3
    exact checkScrobble_once pm playDur song
      (scrobbleDue_of_beyondMargin pm playDur hfloat
        ⟨hen, hne, hidx.1, h1, h2, Or.inr h3⟩) hsong
  · intro k d hk hd htp hD hp
    obtain ⟨e1, e2, -, e4⟩ := playedPercent_quarters pm k d hk hd hD
    have hat : atPercentThreshold pm playDur := by
      unfold atPercentThreshold
      rw [hp, htp, e4]
      push_cast
      ring
    have hp1 : 100000000 ≤ playDur := by
      rw [hp]
      have a1 : (1 : Int) ≤ (k : Int) := by exact_mod_cast hk.1
      have a2 : (1 : Int) ≤ (d : Int) := by exact_mod_cast hd.1
      have a3 : (1 : Int) ≤ (k : Int) * (d : Int) := by nlinarith
      push_cast
      nlinarith
    have hDt : f64Tenth ≤ pm.curTrackTime := by
      rw [e4]
      have a2 : (1 : ℚ) ≤ (d : ℚ) := by exact_mod_cast hd.1
      have a3 : f64Tenth ≤ 1 := by decide!
      linarith
    have hdue : scrobbleDue pm playDur := by
      refine ⟨hen, hne, hidx.1, (Seconds_tenth_iff playDur).mpr hp1, hDt, Or.inr ?_⟩
      rw [htp, hp, e1, e2]
    exact ⟨hat, checkScrobble_once pm playDur song hdue hsong⟩
  · intro h
    exact checkScrobble_of_not_due pm playDur (fun hd =>
      absurd (Seconds_lt_tenth playDur h) (not_lt.mpr hd.2.2.2.1))

/-- Witness for C2 (amended): threshold 50, a 200 s track, 100 s played, which is
exactly at the threshold (`k = 2`, `d = 200`): one submission, play count 1. -/
theorem checkScrobble_at_threshold_witness :
    (sampleManager ⟨true, -1, 50⟩ 200).scrobbleCfg.Enabled = true ∧
    (0 ≤ (sampleManager ⟨true, -1, 50⟩ 200).nowPlayingIdx ∧
      (sampleManager ⟨true, -1, 50⟩ 200).nowPlayingIdx <
        (sampleManager ⟨true, -1, 50⟩ 200).playQueue.length) ∧
    f64Round (sampleManager ⟨true, -1, 50⟩ 200).curTrackTime =
      (sampleManager ⟨true, -1, 50⟩ 200).curTrackTime ∧
    atPercentThreshold (sampleManager ⟨true, -1, 50⟩ 200) 100000000000 ∧
    (100000000000 : Int) = ((25 * 2 : ℕ) : Int) * ((200 : ℕ) : Int) * 10000000 ∧
    scrobbleView (checkScrobble (sampleManager ⟨true, -1, 50⟩ 200) 100000000000) =
      some ([Event.scrobble "a" true], 1, some 0) ∧
    ∃ song, index (sampleManager ⟨true, -1, 50⟩ 200).playQueue
        (sampleManager ⟨true, -1, 50⟩ 200).nowPlayingIdx = some song ∧
      (1 / 10 ≤ playedSecondsExact 100000000000 →
        1 / 10 ≤ (sampleManager ⟨true, -1, 50⟩ 200).curTrackTime →
        ((sampleManager ⟨true, -1, 50⟩ 200).scrobbleCfg.ThresholdPercent : ℚ) *
            (1 + roundingMargin) ≤
          exactPercent (sampleManager ⟨true, -1, 50⟩ 200) 100000000000 →
        ∃ pm1, checkScrobble (sampleManager ⟨true, -1, 50⟩ 200) 100000000000 = some pm1 ∧
          RecordsScrobble (sampleManager ⟨true, -1, 50⟩ 200) pm1 song ∧
          pm1.log = (sampleManager ⟨true, -1, 50⟩ 200).log ++
            [Event.scrobble ((sampleManager ⟨true, -1, 50⟩ 200).heap song).ID true] ∧
          (pm1.heap song).PlayCount =
            wrapInt64 (((sampleManager ⟨true, -1, 50⟩ 200).heap song).PlayCount + 1) ∧
          (-9223372036854775808 ≤ ((sampleManager ⟨true, -1, 50⟩ 200).heap song).PlayCount →
            ((sampleManager ⟨true, -1, 50⟩ 200).heap song).PlayCount < 9223372036854775807 →
            (pm1.heap song).PlayCount =
              ((sampleManager ⟨true, -1, 50⟩ 200).heap song).PlayCount + 1)) ∧
      (∀ k d : ℕ, 1 ≤ k ∧ k ≤ 3 → 1 ≤ d ∧ d ≤ 10000000000 →
        (sampleManager ⟨true, -1, 50⟩ 200).scrobbleCfg.ThresholdPercent =
          ((25 * k : ℕ) : Int) →
        (sampleManager ⟨true, -1, 50⟩ 200).curTrackTime = f64OfInt (d : Int) →
        (100000000000 : Int) = ((25 * k : ℕ) : Int) * (d : Int) * 10000000 →
        atPercentThreshold (sampleManager ⟨true, -1, 50⟩ 200) 100000000000 ∧
        ∃ pm1, checkScrobble (sampleManager ⟨true, -1, 50⟩ 200) 100000000000 = some pm1 ∧
          RecordsScrobble (sampleManager ⟨true, -1, 50⟩ 200) pm1 song ∧
          pm1.log = (sampleManager ⟨true, -1, 50⟩ 200).log ++
            [Event.scrobble ((sampleManager ⟨true, -1, 50⟩ 200).heap song).ID true] ∧
          (pm1.heap song).PlayCount =
            wrapInt64 (((sampleManager ⟨true, -1, 50⟩ 200).heap song).PlayCount + 1) ∧
          (-9223372036854775808 ≤ ((sampleManager ⟨true, -1, 50⟩ 200).heap song).PlayCount →
            ((sampleManager ⟨true, -1, 50⟩ 200).heap song).PlayCount < 9223372036854775807 →
            (pm1.heap song).PlayCount =
              ((sampleManager ⟨true, -1, 50⟩ 200).heap song).PlayCount + 1)) ∧
      ((100000000000 : Int) < 100000000 →
        checkScrobble (sampleManager ⟨true, -1, 50⟩ 200) 100000000000 =
          some (sampleManager ⟨true, -1, 50⟩ 200)) :=
  ⟨by decide, by decide, by decide!, by decide!, by decide, by decide!,
    checkScrobble_at_threshold (sampleManager ⟨true, -1, 50⟩ 200) 100000000000
      (by decide) (by decide) (by decide!)⟩

end Supersonic
